import Mathlib

/-!
A shallow embedding of the `repl` database engine.

The development follows the B+ tree snapshot `_site/db.c` (namespace `BTree`);
the flat-array snapshot `main.c` and the single-leaf snapshot `db.c` are
embedded in the namespaces `FlatArray` and `SingleLeaf`.

* A page buffer is a map from byte offsets to byte values; a `void*` into a
  page is the byte offset from the start of that page.
* `uint32_t` values are natural numbers; every store of an integer keeps the
  low bytes only (little-endian), and wrapping arithmetic is written `% U32`.
* The pager is passed explicitly.  `exit(EXIT_FAILURE)` is the result `none`.
* `malloc` hands out buffers with unspecified contents: `Pager.heap n` is the
  content of the buffer handed out for page slot `n`.
-/

namespace BTree

/-! ## Constants -/

/-- Modulus of `uint32_t` arithmetic. -/
def U32 : Nat := 4294967296

inductive ExecuteResult where
  | EXECUTE_SUCCESS
  | EXECUTE_DUPLICATE_KEY
  | EXECUTE_TABLE_FULL
  deriving DecidableEq, Repr

def COLUMN_USERNAME_SIZE : Nat := 32
def COLUMN_EMAIL_SIZE : Nat := 255

/-- The record `struct Row_t`: the two `char` arrays are lists of bytes. -/
structure Row where
  id : Nat
  username : List Nat
  email : List Nat
  deriving DecidableEq, Repr

def ID_SIZE : Nat := 4
def USERNAME_SIZE : Nat := COLUMN_USERNAME_SIZE + 1
def EMAIL_SIZE : Nat := COLUMN_EMAIL_SIZE + 1
def ID_OFFSET : Nat := 0
def USERNAME_OFFSET : Nat := ID_OFFSET + ID_SIZE
def EMAIL_OFFSET : Nat := USERNAME_OFFSET + USERNAME_SIZE
def ROW_SIZE : Nat := ID_SIZE + USERNAME_SIZE + EMAIL_SIZE

def PAGE_SIZE : Nat := 4096
def TABLE_MAX_PAGES : Nat := 100

def NODE_INTERNAL : Nat := 0
def NODE_LEAF : Nat := 1

def NODE_TYPE_SIZE : Nat := 1
def NODE_TYPE_OFFSET : Nat := 0
def IS_ROOT_SIZE : Nat := 1
def IS_ROOT_OFFSET : Nat := NODE_TYPE_SIZE
def PARENT_POINTER_SIZE : Nat := 4
def PARENT_POINTER_OFFSET : Nat := IS_ROOT_OFFSET + IS_ROOT_SIZE
def COMMON_NODE_HEADER_SIZE : Nat :=
  (NODE_TYPE_SIZE + IS_ROOT_SIZE + PARENT_POINTER_SIZE) % 256

def LEAF_NODE_NUM_CELLS_SIZE : Nat := 4
def LEAF_NODE_NUM_CELLS_OFFSET : Nat := COMMON_NODE_HEADER_SIZE
def LEAF_NODE_HEADER_SIZE : Nat := COMMON_NODE_HEADER_SIZE + LEAF_NODE_NUM_CELLS_SIZE

def LEAF_NODE_KEY_SIZE : Nat := 4
def LEAF_NODE_KEY_OFFSET : Nat := 0
def LEAF_NODE_VALUE_SIZE : Nat := ROW_SIZE
def LEAF_NODE_VALUE_OFFSET : Nat := LEAF_NODE_KEY_OFFSET + LEAF_NODE_KEY_SIZE
def LEAF_NODE_CELL_SIZE : Nat := LEAF_NODE_KEY_SIZE + LEAF_NODE_VALUE_SIZE
def LEAF_NODE_SPACE_FOR_CELLS : Nat := PAGE_SIZE - LEAF_NODE_HEADER_SIZE
def LEAF_NODE_MAX_CELLS : Nat := LEAF_NODE_SPACE_FOR_CELLS / LEAF_NODE_CELL_SIZE
def LEAF_NODE_RIGHT_SPLIT_COUNT : Nat := (LEAF_NODE_MAX_CELLS + 1) / 2
def LEAF_NODE_LEFT_SPLIT_COUNT : Nat :=
  (LEAF_NODE_MAX_CELLS + 1) - LEAF_NODE_RIGHT_SPLIT_COUNT

def INTERNAL_NODE_NUM_KEYS_SIZE : Nat := 4
def INTERNAL_NODE_NUM_KEYS_OFFSET : Nat := COMMON_NODE_HEADER_SIZE
def INTERNAL_NODE_RIGHT_CHILD_SIZE : Nat := 4
def INTERNAL_NODE_RIGHT_CHILD_OFFSET : Nat :=
  INTERNAL_NODE_NUM_KEYS_OFFSET + INTERNAL_NODE_NUM_KEYS_SIZE
def INTERNAL_NODE_HEADER_SIZE : Nat :=
  COMMON_NODE_HEADER_SIZE + INTERNAL_NODE_NUM_KEYS_SIZE + INTERNAL_NODE_RIGHT_CHILD_SIZE
def INTERNAL_NODE_KEY_SIZE : Nat := 4
def INTERNAL_NODE_CHILD_SIZE : Nat := 4
def INTERNAL_NODE_CELL_SIZE : Nat := INTERNAL_NODE_CHILD_SIZE + INTERNAL_NODE_KEY_SIZE

/-! ## Memory -/

/-- A page buffer: the byte stored at each offset.  The byte is the entry
modulo 256: stores of integers write reduced values, copies move entries as
they are, loads reduce what they read. -/
abbrev Page := Nat → Nat

/-- The C library `memcpy(dst + d, src + s, n)` between page buffers. -/
def memcpy (dst : Page) (d : Nat) (src : Page) (s : Nat) (n : Nat) : Page :=
  fun j => if d ≤ j ∧ j < d + n then src (s + (j - d)) else dst j

/-- The copy `memcpy(dst + d, &field, n)` out of a `char` array of a record. -/
def memcpy_from (dst : Page) (d : Nat) (field : List Nat) (n : Nat) : Page :=
  fun j => if d ≤ j ∧ j < d + n then field.getD (j - d) 0 else dst j

/-- The copy `memcpy(&field, src + s, n)` into a `char` array of a record. -/
def memcpy_to (src : Page) (s : Nat) (n : Nat) : List Nat :=
  (List.range n).map (fun i => src (s + i) % 256)

/-- Load of a `uint32_t` at byte offset `off` (little-endian). -/
def read_u32 (p : Page) (off : Nat) : Nat :=
  p off % 256 + 256 * (p (off + 1) % 256) + 65536 * (p (off + 2) % 256)
    + 16777216 * (p (off + 3) % 256)

/-- Store of a `uint32_t` at byte offset `off` (little-endian). -/
def write_u32 (p : Page) (off : Nat) (v : Nat) : Page :=
  fun j => if off ≤ j ∧ j < off + 4 then (v / 256 ^ (j - off)) % 256 else p j

/-- Load of a `uint8_t`. -/
def read_u8 (p : Page) (off : Nat) : Nat := p off % 256

/-- Store of a `uint8_t`. -/
def write_u8 (p : Page) (off : Nat) (v : Nat) : Page :=
  fun j => if j = off then v % 256 else p j

/-! ## Row codec -/

def serialize_row (source : Row) (page : Page) (destination : Nat) : Page :=
  let p1 := write_u32 page (destination + ID_OFFSET) source.id
  let p2 := memcpy_from p1 (destination + USERNAME_OFFSET) source.username USERNAME_SIZE
  memcpy_from p2 (destination + EMAIL_OFFSET) source.email EMAIL_SIZE

def deserialize_row (page : Page) (source : Nat) : Row :=
  { id := read_u32 page (source + ID_OFFSET)
    username := memcpy_to page (source + USERNAME_OFFSET) USERNAME_SIZE
    email := memcpy_to page (source + EMAIL_OFFSET) EMAIL_SIZE }

/-- The values of the C type `Row`: a 32-bit id and two `char` arrays of 33
and 256 bytes. -/
def Row.valid (r : Row) : Prop :=
  r.id < U32 ∧ r.username.length = USERNAME_SIZE ∧ r.email.length = EMAIL_SIZE ∧
  (∀ b ∈ r.username, b < 256) ∧ (∀ b ∈ r.email, b < 256)

instance (r : Row) : Decidable r.valid := by
  unfold Row.valid; infer_instance

/-! ## Node accessors

A node pointer is a page; the accessors that return a pointer in C return the
byte offset inside the page. -/

def leaf_node_num_cells (node : Page) : Nat := read_u32 node LEAF_NODE_NUM_CELLS_OFFSET

def set_leaf_node_num_cells (node : Page) (v : Nat) : Page :=
  write_u32 node LEAF_NODE_NUM_CELLS_OFFSET v

def leaf_node_cell (cell_num : Nat) : Nat :=
  LEAF_NODE_HEADER_SIZE + (cell_num * LEAF_NODE_CELL_SIZE) % U32

def leaf_node_key (node : Page) (cell_num : Nat) : Nat :=
  read_u32 node (leaf_node_cell cell_num)

def set_leaf_node_key (node : Page) (cell_num : Nat) (key : Nat) : Page :=
  write_u32 node (leaf_node_cell cell_num) key

def leaf_node_value (cell_num : Nat) : Nat :=
  leaf_node_cell cell_num + LEAF_NODE_KEY_SIZE

def get_node_type (node : Page) : Nat := read_u8 node NODE_TYPE_OFFSET

def set_node_type (node : Page) (type : Nat) : Page := write_u8 node NODE_TYPE_OFFSET type

def initialize_leaf_node (node : Page) : Page :=
  set_leaf_node_num_cells (set_node_type node NODE_LEAF) 0

def internal_node_num_keys (node : Page) : Nat := read_u32 node INTERNAL_NODE_NUM_KEYS_OFFSET

def set_internal_node_num_keys (node : Page) (v : Nat) : Page :=
  write_u32 node INTERNAL_NODE_NUM_KEYS_OFFSET v

def internal_node_right_child (node : Page) : Nat :=
  read_u32 node INTERNAL_NODE_RIGHT_CHILD_OFFSET

def set_internal_node_right_child (node : Page) (v : Nat) : Page :=
  write_u32 node INTERNAL_NODE_RIGHT_CHILD_OFFSET v

def internal_node_cell (cell_num : Nat) : Nat :=
  INTERNAL_NODE_HEADER_SIZE + (cell_num * INTERNAL_NODE_CELL_SIZE) % U32

/-- Offset of the child pointer `child_num`; `none` is the fatal exit. -/
def internal_node_child (node : Page) (child_num : Nat) : Option Nat :=
  let num_keys := internal_node_num_keys node
  if child_num > num_keys then none
  else if child_num = num_keys then some INTERNAL_NODE_RIGHT_CHILD_OFFSET
  else some (internal_node_cell child_num)

/-- Offset of the separator key `key_num`.  The source adds
`INTERNAL_NODE_CHILD_SIZE` to the `uint32_t*` that `internal_node_cell`
returns: the sum advances by that many elements of 4 bytes. -/
def internal_node_key (key_num : Nat) : Nat :=
  internal_node_cell key_num + INTERNAL_NODE_CHILD_SIZE * 4

/-- The source returns no value for a node type other than the two of the
enumeration; the result is `0` there. -/
def get_node_max_key (node : Page) : Nat :=
  if get_node_type node = NODE_INTERNAL then
    read_u32 node (internal_node_key ((internal_node_num_keys node + U32 - 1) % U32))
  else if get_node_type node = NODE_LEAF then
    leaf_node_key node ((leaf_node_num_cells node + U32 - 1) % U32)
  else 0

def is_node_root (node : Page) : Bool := read_u8 node IS_ROOT_OFFSET != 0

def set_node_root (node : Page) (is_root : Bool) : Page :=
  write_u8 node IS_ROOT_OFFSET (if is_root then 1 else 0)

def initialize_internal_node (node : Page) : Page :=
  set_internal_node_num_keys (set_node_root (set_node_type node NODE_INTERNAL) false) 0

/-! ## Pager -/

/-- The pager.  `file` is the content of the file behind `file_descriptor`,
`pages` the array of page buffers (`none` is `NULL`), `heap n` the unspecified
content of the buffer `malloc` returns for slot `n`. -/
structure Pager where
  file : List Nat
  file_length : Nat
  num_pages : Nat
  pages : Nat → Option Page
  heap : Nat → Page

structure Table where
  pager : Pager
  root_page_num : Nat

/-- A cursor; the table it points to is passed alongside. -/
structure Cursor where
  page_num : Nat
  cell_num : Nat
  end_of_table : Bool
  deriving DecidableEq, Repr

/-- The buffer behind a page pointer obtained from `get_page`. -/
def Pager.node (pager : Pager) (page_num : Nat) : Page :=
  match pager.pages page_num with
  | some page => page
  | none => fun _ => 0

/-- A write through a page pointer: the buffer of `page_num` becomes `page`. -/
def Pager.store (pager : Pager) (page_num : Nat) (page : Page) : Pager :=
  { pager with pages := fun i => if i = page_num then some page else pager.pages i }

/-- A `lseek` to `off` followed by `read` of `PAGE_SIZE` bytes into `buf`: the
bytes the file has from `off` on, at most `PAGE_SIZE`, land at the start of
`buf`. -/
def read_file (file : List Nat) (off : Nat) (buf : Page) : Page :=
  fun j => if j < PAGE_SIZE ∧ off + j < file.length then file.getD (off + j) 0 else buf j

def get_unused_page_num (pager : Pager) : Nat := pager.num_pages

def get_page (pager : Pager) (page_num : Nat) : Option (Pager × Page) :=
  if page_num > TABLE_MAX_PAGES then none
  else
    match pager.pages page_num with
    | some page => some (pager, page)
    | none =>
      let page := pager.heap page_num
      let num_pages := pager.file_length / PAGE_SIZE
      let num_pages := if pager.file_length % PAGE_SIZE ≠ 0 then num_pages + 1 else num_pages
      let page :=
        if page_num ≤ num_pages then read_file pager.file (page_num * PAGE_SIZE) page
        else page
      let pager1 := pager.store page_num page
      let pager2 :=
        if page_num ≥ pager1.num_pages then { pager1 with num_pages := page_num + 1 }
        else pager1
      some (pager2, page)

/-! ## Cursors and search -/

def table_start (table : Table) : Option (Table × Cursor) :=
  match get_page table.pager table.root_page_num with
  | none => none
  | some (pager, root_node) =>
    let num_cells := leaf_node_num_cells root_node
    some ({ table with pager := pager },
          { page_num := table.root_page_num, cell_num := 0, end_of_table := num_cells == 0 })

/-- The binary-search loop of `leaf_node_find` on `[start, end_)`; the first
argument bounds the number of iterations, `none` is an exhausted bound. -/
def leaf_node_find_loop (node : Page) (key : Nat) : Nat → Nat → Nat → Option Nat
  | fuel, start, end_ =>
    if start = end_ then some start
    else
      match fuel with
      | 0 => none
      | fuel + 1 =>
        let index := ((start + end_) % U32) / 2
        let key_at_index := leaf_node_key node index
        if key = key_at_index then some index
        else if key < key_at_index then leaf_node_find_loop node key fuel start index
        else leaf_node_find_loop node key fuel ((index + 1) % U32) end_

/-- The field `end_of_table` is not assigned by the source on this path and
not read by its callers; it is `false` here. -/
def leaf_node_find (table : Table) (page_num : Nat) (key : Nat) : Option (Table × Cursor) :=
  match get_page table.pager page_num with
  | none => none
  | some (pager, node) =>
    let num_cells := leaf_node_num_cells node
    match leaf_node_find_loop node key num_cells 0 num_cells with
    | none => none
    | some cell_num =>
      some ({ table with pager := pager },
            { page_num := page_num, cell_num := cell_num, end_of_table := false })

def table_find (table : Table) (key : Nat) : Option (Table × Cursor) :=
  let root_page_num := table.root_page_num
  match get_page table.pager root_page_num with
  | none => none
  | some (pager, root_node) =>
    if get_node_type root_node = NODE_LEAF then
      leaf_node_find { table with pager := pager } root_page_num key
    else none

/-- Offset, in the page of the cursor, of the value the cursor points to,
with the table after the page access. -/
def cursor_value (table : Table) (cursor : Cursor) : Option (Table × Nat) :=
  match get_page table.pager cursor.page_num with
  | none => none
  | some (pager, _) => some ({ table with pager := pager }, leaf_node_value cursor.cell_num)

def cursor_advance (table : Table) (cursor : Cursor) : Option (Table × Cursor) :=
  match get_page table.pager cursor.page_num with
  | none => none
  | some (pager, node) =>
    let cell_num := (cursor.cell_num + 1) % U32
    some ({ table with pager := pager },
          { cursor with
            cell_num := cell_num
            end_of_table :=
              if cell_num ≥ leaf_node_num_cells node then true else cursor.end_of_table })

/-! ## Insertion -/

/-- A write `f` through the pointer to page `page_num`. -/
def Pager.modify (pager : Pager) (page_num : Nat) (f : Page → Page) : Pager :=
  pager.store page_num (f (pager.node page_num))

def create_new_root (table : Table) (right_child_page_num : Nat) : Option Table :=
  let root := table.root_page_num
  match get_page table.pager root with
  | none => none
  | some (pager1, _) =>
    match get_page pager1 right_child_page_num with
    | none => none
    | some (pager2, _) =>
      let left_child_page_num := get_unused_page_num pager2
      match get_page pager2 left_child_page_num with
      | none => none
      | some (pager3, _) =>
        let pager4 := pager3.modify left_child_page_num
          (fun left_child => memcpy left_child 0 (pager3.node root) 0 PAGE_SIZE)
        let pager5 := pager4.modify left_child_page_num (fun n => set_node_root n false)
        let pager6 := pager5.modify root initialize_internal_node
        let pager7 := pager6.modify root (fun n => set_node_root n true)
        let pager8 := pager7.modify root (fun n => set_internal_node_num_keys n 1)
        match internal_node_child (pager8.node root) 0 with
        | none => none
        | some child => 
          let pager9 := pager8.modify root (fun n => write_u32 n child left_child_page_num)
          let left_child_max_key := get_node_max_key (pager9.node left_child_page_num)
          let pager10 := pager9.modify root
            (fun n => write_u32 n (internal_node_key 0) left_child_max_key)
          let pager11 := pager10.modify root
            (fun n => set_internal_node_right_child n right_child_page_num)
          some { table with pager := pager11 }

/-- One iteration of the loop of `leaf_node_split_and_insert`, for the loop
variable `i`. -/
def leaf_node_split_step (cell_num : Nat) (value : Row) (old_page new_page : Nat)
    (i : Nat) (pager : Pager) : Pager :=
  let destination_node :=
    if i ≥ LEAF_NODE_LEFT_SPLIT_COUNT then new_page else old_page
  let index_within_node := i % LEAF_NODE_LEFT_SPLIT_COUNT
  let destination := leaf_node_cell index_within_node
  if i = cell_num then
    pager.modify destination_node (fun n => serialize_row value n destination)
  else if i > cell_num then
    pager.modify destination_node
      (fun n => memcpy n destination (pager.node old_page) (leaf_node_cell (i - 1))
        LEAF_NODE_CELL_SIZE)
  else
    pager.modify destination_node
      (fun n => memcpy n destination (pager.node old_page) (leaf_node_cell i)
        LEAF_NODE_CELL_SIZE)

/-- The loop `for (i = LEAF_NODE_MAX_CELLS; i >= 0; i--)`: the first argument
is `i + 1`. -/
def leaf_node_split_loop (cell_num : Nat) (value : Row) (old_page new_page : Nat) :
    Nat → Pager → Pager
  | 0, pager => pager
  | i + 1, pager =>
    leaf_node_split_loop cell_num value old_page new_page i
      (leaf_node_split_step cell_num value old_page new_page i pager)

/-- The parameter `key` is not used by the source. -/
def leaf_node_split_and_insert (table : Table) (cursor : Cursor) (_key : Nat) (value : Row) :
    Option Table :=
  match get_page table.pager cursor.page_num with
  | none => none
  | some (pager1, _) =>
    let new_page_num := get_unused_page_num pager1
    match get_page pager1 new_page_num with
    | none => none
    | some (pager2, _) =>
      let pager3 := pager2.modify new_page_num initialize_leaf_node
      let pager4 := leaf_node_split_loop cursor.cell_num value cursor.page_num new_page_num
        (LEAF_NODE_MAX_CELLS + 1) pager3
      let pager5 := pager4.modify cursor.page_num
        (fun n => set_leaf_node_num_cells n LEAF_NODE_LEFT_SPLIT_COUNT)
      let pager6 := pager5.modify new_page_num
        (fun n => set_leaf_node_num_cells n LEAF_NODE_RIGHT_SPLIT_COUNT)
      if is_node_root (pager6.node cursor.page_num) then
        create_new_root { table with pager := pager6 } new_page_num
      else none

/-- The loop `for (i = num_cells; i > cell_num; i--)` of `leaf_node_insert`:
the second argument is `i`. -/
def leaf_node_insert_loop (cell_num : Nat) : Nat → Page → Page
  | 0, node => node
  | i + 1, node =>
    if i + 1 > cell_num then
      leaf_node_insert_loop cell_num i
        (memcpy node (leaf_node_cell (i + 1)) node (leaf_node_cell i) LEAF_NODE_CELL_SIZE)
    else node

def leaf_node_insert (table : Table) (cursor : Cursor) (key : Nat) (value : Row) :
    Option Table :=
  match get_page table.pager cursor.page_num with
  | none => none
  | some (pager, node) =>
    let num_cells := leaf_node_num_cells node
    if num_cells ≥ LEAF_NODE_MAX_CELLS then
      leaf_node_split_and_insert { table with pager := pager } cursor key value
    else
      let pager1 :=
        if cursor.cell_num < num_cells then
          pager.modify cursor.page_num (leaf_node_insert_loop cursor.cell_num num_cells)
        else pager
      let pager2 := pager1.modify cursor.page_num
        (fun n => set_leaf_node_num_cells n (leaf_node_num_cells n + 1))
      let pager3 := pager2.modify cursor.page_num
        (fun n => set_leaf_node_key n cursor.cell_num key)
      let pager4 := pager3.modify cursor.page_num
        (fun n => serialize_row value n (leaf_node_value cursor.cell_num))
      some { table with pager := pager4 }

def execute_insert (row_to_insert : Row) (table : Table) : Option (ExecuteResult × Table) :=
  match get_page table.pager table.root_page_num with
  | none => none
  | some (pager, node) =>
    let num_cells := leaf_node_num_cells node
    let key_to_insert := row_to_insert.id
    match table_find { table with pager := pager } key_to_insert with
    | none => none
    | some (table1, cursor) =>
      if cursor.cell_num < num_cells ∧
          leaf_node_key (table1.pager.node table.root_page_num) cursor.cell_num
            = key_to_insert then
        some (ExecuteResult.EXECUTE_DUPLICATE_KEY, table1)
      else
        match leaf_node_insert table1 cursor row_to_insert.id row_to_insert with
        | none => none
        | some table2 => some (ExecuteResult.EXECUTE_SUCCESS, table2)

/-! ## Selection -/

/-- The loop `while (!cursor->end_of_table)` of `execute_select`, collecting
the rows handed to `print_row`; the first argument bounds the number of
iterations, `none` is an exhausted bound or a fatal exit. -/
def execute_select_loop : Nat → Table → Cursor → List Row → Option (Table × List Row)
  | fuel, table, cursor, out =>
    if cursor.end_of_table then some (table, out)
    else
      match fuel with
      | 0 => none
      | fuel + 1 =>
        match cursor_value table cursor with
        | none => none
        | some (table1, value) =>
          let row := deserialize_row (table1.pager.node cursor.page_num) value
          match cursor_advance table1 cursor with
          | none => none
          | some (table2, cursor2) => execute_select_loop fuel table2 cursor2 (out ++ [row])

/-- The rows printed by `execute_select`, in order, with the table after the
scan.  The iteration bound is the cell count the scan starts with. -/
def execute_select (table : Table) : Option (Table × List Row) :=
  match table_start table with
  | none => none
  | some (table1, cursor) =>
    execute_select_loop (leaf_node_num_cells (table1.pager.node cursor.page_num))
      table1 cursor []

/-! ## Opening a database -/

/-- The function `pager_open` on a file that opens, with content `file`;
`heap` is the content of the buffers `malloc` will hand out. -/
def pager_open (file : List Nat) (heap : Nat → Page) : Option Pager :=
  let file_length := file.length
  if file_length % PAGE_SIZE ≠ 0 then none
  else
    some { file := file
           file_length := file_length % U32
           num_pages := (file_length / PAGE_SIZE) % U32
           pages := fun _ => none
           heap := heap }

def db_open (file : List Nat) (heap : Nat → Page) : Option Table :=
  match pager_open file heap with
  | none => none
  | some pager =>
    if pager.num_pages = 0 then
      match get_page pager 0 with
      | none => none
      | some (pager1, _) =>
        let pager2 := pager1.modify 0 initialize_leaf_node
        let pager3 := pager2.modify 0 (fun n => set_node_root n true)
        some { pager := pager3, root_page_num := 0 }
    else some { pager := pager, root_page_num := 0 }

/-- A session: the rows are inserted one after the other; the results are
collected in order.  `none` when an insert ends the process. -/
def insert_all : List Row → Table → Option (List ExecuteResult × Table)
  | [], table => some ([], table)
  | row :: rows, table =>
    match execute_insert row table with
    | none => none
    | some (r, table1) =>
      match insert_all rows table1 with
      | none => none
      | some (rs, table2) => some (r :: rs, table2)


/-! ## Derived notions used in the statements -/

/-- The page the no-split path of `leaf_node_insert` leaves behind: the cells
from `cell_num` on moved one slot up, the count incremented, then key and row
written at `cell_num`. -/
def leaf_insert_page (node : Page) (cell_num key : Nat) (value : Row) : Page :=
  let num_cells := leaf_node_num_cells node
  let n1 := if cell_num < num_cells then leaf_node_insert_loop cell_num num_cells node else node
  let n2 := set_leaf_node_num_cells n1 (leaf_node_num_cells n1 + 1)
  let n3 := set_leaf_node_key n2 cell_num key
  serialize_row value n3 (leaf_node_value cell_num)

/-- The keys of a leaf page, in cell order. -/
def leaf_keys (node : Page) : List Nat :=
  (List.range (leaf_node_num_cells node)).map (fun i => leaf_node_key node i)

/-- The rows stored in a leaf page, in cell order. -/
def leaf_rows (node : Page) : List Row :=
  (List.range (leaf_node_num_cells node)).map
    (fun i => deserialize_row node (leaf_node_value i))

/-- A leaf page with at most `LEAF_NODE_MAX_CELLS` cells whose keys are
strictly ascending. -/
def sorted_leaf (node : Page) : Prop :=
  get_node_type node = NODE_LEAF ∧ leaf_node_num_cells node ≤ LEAF_NODE_MAX_CELLS ∧
  ∀ j, j < leaf_node_num_cells node → ∀ i, i < j → leaf_node_key node i < leaf_node_key node j

instance (node : Page) : Decidable (sorted_leaf node) := by
  unfold sorted_leaf; infer_instance

/-- Every stored row carries the key of its cell as id, as the cells written
by `leaf_node_insert` do. -/
def rows_match_keys (node : Page) : Prop :=
  ∀ i, i < leaf_node_num_cells node →
    (deserialize_row node (leaf_node_value i)).id = leaf_node_key node i

instance (node : Page) : Decidable (rows_match_keys node) := by
  unfold rows_match_keys; infer_instance

/-- No resident page lies at or above `num_pages`: the state every pager is
in after `pager_open` and any number of `get_page` calls. -/
def Pager.fresh_above (pager : Pager) : Prop :=
  ∀ i, pager.num_pages ≤ i → pager.pages i = none

/-- What the loop of `leaf_node_split_and_insert` leaves in cell `d` of
`page` for the loop variable `i`, with cursor position `c` on the full leaf
`node`: for `i = c` the serialized row from the first byte of the cell on,
for `i > c` the old cell `i - 1`, for `i < c` the old cell `i`. -/
def split_cell (c : Nat) (row : Row) (node page : Page) (d i : Nat) : Prop :=
  (i = c → ∀ b, b < ROW_SIZE →
    page (leaf_node_cell d + b) = serialize_row row (fun _ => 0) 0 b) ∧
  (c < i → ∀ b, b < LEAF_NODE_CELL_SIZE →
    page (leaf_node_cell d + b) = node (leaf_node_cell (i - 1) + b)) ∧
  (i < c → ∀ b, b < LEAF_NODE_CELL_SIZE →
    page (leaf_node_cell d + b) = node (leaf_node_cell i + b))

/-- The table after the root leaf `node`, resident at page `r` of the pager
`pg`, has split on the insertion of `row` at cursor position `c`: the two
pages allocated are `pg.num_pages` (the right leaf) and `pg.num_pages + 1`
(the left leaf). -/
def split_result (pg : Pager) (r : Nat) (node : Page) (c : Nat) (row : Row) (t1 : Table) :
    Prop :=
  t1.root_page_num = r ∧
  t1.pager.num_pages = pg.num_pages + 2 ∧
  (∀ i, i ≠ r → i ≠ pg.num_pages → i ≠ pg.num_pages + 1 → t1.pager.pages i = pg.pages i) ∧
  ∃ root1 left right,
    t1.pager.pages r = some root1 ∧
    t1.pager.pages pg.num_pages = some right ∧
    t1.pager.pages (pg.num_pages + 1) = some left ∧
    get_node_type root1 = NODE_INTERNAL ∧ is_node_root root1 = true ∧
    internal_node_num_keys root1 = 1 ∧
    read_u32 root1 (internal_node_cell 0) = pg.num_pages + 1 ∧
    internal_node_right_child root1 = pg.num_pages ∧
    read_u32 root1 (internal_node_key 0) = get_node_max_key left ∧
    get_node_type left = NODE_LEAF ∧ is_node_root left = false ∧
    leaf_node_num_cells left = LEAF_NODE_LEFT_SPLIT_COUNT ∧
    get_node_type right = NODE_LEAF ∧
    leaf_node_num_cells right = LEAF_NODE_RIGHT_SPLIT_COUNT ∧
    (∀ i, i < 7 → split_cell c row node left i i) ∧
    (∀ i, 7 ≤ i → i < 14 → split_cell c row node right (i - 7) i)

/-- A session state before any split: page 0 is the only page, resident, a
sorted root leaf whose rows carry their keys. -/
def leaf_state (t : Table) (node : Page) : Prop :=
  t.root_page_num = 0 ∧ t.pager.pages 0 = some node ∧ t.pager.num_pages = 1 ∧
  t.pager.fresh_above ∧ sorted_leaf node ∧ rows_match_keys node ∧ is_node_root node = true

/-- A session state after the root has split: page 0 is an internal node
with one key, pages 1 and 2 are sorted leaves, no other page is resident. -/
def split_state (t : Table) : Prop :=
  t.root_page_num = 0 ∧
  ∃ root1 left right,
    t.pager.pages 0 = some root1 ∧ t.pager.pages 1 = some right ∧
    t.pager.pages 2 = some left ∧ (∀ i, 3 ≤ i → t.pager.pages i = none) ∧
    get_node_type root1 = NODE_INTERNAL ∧ is_node_root root1 = true ∧
    internal_node_num_keys root1 = 1 ∧
    sorted_leaf left ∧ sorted_leaf right


/-! ## Concrete rows, pages and tables -/

/-- The row `(id, "u", "e")`. -/
def sample_row (id : Nat) : Row :=
  { id := id
    username := 117 :: List.replicate 32 0
    email := 101 :: List.replicate 255 0 }

/-- An empty root leaf in a zeroed buffer. -/
def empty_leaf : Page := set_node_root (initialize_leaf_node (fun _ => 0)) true

/-- A table whose only page is the resident root `root`, on an empty file. -/
def table_of_root (root : Page) (num_pages : Nat) : Table :=
  { pager :=
      { file := []
        file_length := 0
        num_pages := num_pages
        pages := fun i => if i = 0 then some root else none
        heap := fun _ _ => 0 }
    root_page_num := 0 }

/-- The root leaf holding the single row `sample_row 7`. -/
def leaf_seven : Page := leaf_insert_page empty_leaf 0 7 (sample_row 7)

/-- The full root leaf holding `sample_row 1` to `sample_row 13`. -/
def full_leaf : Page :=
  (List.range 13).foldl (fun p i => leaf_insert_page p i (i + 1) (sample_row (i + 1)))
    empty_leaf

/-- A database of 101 pages whose root, the full leaf, has been accessed: the
pager of `pager_open` on such a file after `get_page` of page 0. -/
def table_at_cap : Table :=
  { pager :=
      { file := memcpy_to full_leaf 0 PAGE_SIZE ++ List.replicate (100 * PAGE_SIZE) 0
        file_length := 101 * PAGE_SIZE
        num_pages := 101
        pages := fun i => if i = 0 then some full_leaf else none
        heap := fun _ _ => 0 }
    root_page_num := 0 }

/-- Buffers that `malloc` hands out zeroed. -/
def zero_heap : Nat → Page := fun _ _ => 0

/-- A session on a fresh database: the rows are inserted in order, then
`execute_select` runs; the results of the inserts and the rows emitted. -/
def run_session (heap : Nat → Page) (rows : List Row) : Option (List ExecuteResult × List Row) :=
  match db_open [] heap with
  | none => none
  | some t0 =>
    match insert_all rows t0 with
    | none => none
    | some (rs, t) =>
      match execute_select t with
      | none => none
      | some (_, out) => some (rs, out)

/-- The rows stored in the leaves at pages `left` and `right` after a session,
read through `leaf_node_value`. -/
def session_leaf_rows (heap : Nat → Page) (rows : List Row) (left right : Nat) :
    Option (List Row × List Row) :=
  match db_open [] heap with
  | none => none
  | some t0 =>
    match insert_all rows t0 with
    | none => none
    | some (_, t) => some (leaf_rows (t.pager.node left), leaf_rows (t.pager.node right))


/-! ## Writing back: `pager_flush`, `db_close` -/

/-- A `lseek` to `off` followed by `write` of `PAGE_SIZE` bytes of `page`:
the bytes land at `off`; a file shorter than `off` is extended with zero bytes
up to `off` first. -/
def write_file (file : List Nat) (off : Nat) (page : Page) : List Nat :=
  let padded := file ++ List.replicate (off - file.length) 0
  padded.take off ++ memcpy_to page 0 PAGE_SIZE ++ padded.drop (off + PAGE_SIZE)

/-- The file is the only thing `pager_flush` changes; `none` is the exit on a
null page.  A failing `lseek` or `write` is not part of the embedding. -/
def pager_flush (pager : Pager) (page_num : Nat) : Option Pager :=
  match pager.pages page_num with
  | none => none
  | some page =>
    some { pager with file := write_file pager.file ((page_num * PAGE_SIZE) % U32) page }

/-- The loop `for (i = 0; i < pager->num_pages; i++)` of `db_close`; the first
argument is the number of iterations left, the second is `i`.  The array
`pages` of the pager has `TABLE_MAX_PAGES` entries and `num_pages` is not
bounded by it: the read of `pager->pages[i]` at an index outside the array has
no defined result, and the loop gives `none` there. -/
def db_close_loop : Nat → Nat → Pager → Option Pager
  | 0, _, pager => some pager
  | k + 1, i, pager =>
    if i ≥ TABLE_MAX_PAGES then none
    else
      match pager.pages i with
      | none => db_close_loop k (i + 1) pager
      | some _ =>
        match pager_flush pager i with
        | none => none
        | some pager1 =>
          db_close_loop k (i + 1)
            { pager1 with pages := fun j => if j = i then none else pager1.pages j }

/-- The content of the file once `db_close` has returned; `none` when the
flush loop has no defined result or exits.  The second loop of the source runs
over the `TABLE_MAX_PAGES` entries of the array, frees the buffers left and
writes nothing; the pager is freed. -/
def db_close (table : Table) : Option (List Nat) :=
  match db_close_loop table.pager.num_pages 0 table.pager with
  | none => none
  | some pager => some pager.file

/-! ## `print_tree` -/

/-- The text `indent` prints: two spaces `level` times. -/
def indent (level : Nat) : String := String.join (List.replicate level "  ")

/-- The text of `printf("%d", v)` for a `uint32_t` argument: its 32 bits read
as a signed integer. -/
def format_d (v : Nat) : String :=
  if v % U32 < 2147483648 then toString (v % U32)
  else "-" ++ toString (U32 - v % U32)

/-- The loop over the keys of an internal node in `print_tree`; `rec` is the
recursive call, the first numeric argument the number of iterations left, the
second is `i`. -/
def print_tree_loop (rec : Pager → Nat → Nat → Option (Pager × List String))
    (node : Page) (indentation_level : Nat) :
    Nat → Nat → Pager → List String → Option (Pager × List String)
  | 0, _, pager, out => some (pager, out)
  | k + 1, i, pager, out =>
    match internal_node_child node i with
    | none => none
    | some off =>
      let child := read_u32 node off
      match rec pager child ((indentation_level + 1) % U32) with
      | none => none
      | some (pager1, lines) =>
        print_tree_loop rec node indentation_level k (i + 1) pager1
          (out ++ lines ++
            [indent ((indentation_level + 1) % U32) ++ "- key " ++
              format_d (read_u32 node (internal_node_key i))])

/-- The lines `print_tree` prints, in order, each without its newline.  The
first argument bounds the depth of the recursion; `none` is an exit of the
process or an exhausted bound. -/
def print_tree : Nat → Pager → Nat → Nat → Option (Pager × List String)
  | 0, _, _, _ => none
  | fuel + 1, pager, page_num, indentation_level =>
    match get_page pager page_num with
    | none => none
    | some (pager1, node) =>
      if get_node_type node = NODE_LEAF then
        let num_keys := leaf_node_num_cells node
        some (pager1,
          (indent indentation_level ++ "- leaf (size " ++ format_d num_keys ++ ")") ::
            (List.range num_keys).map (fun i =>
              indent ((indentation_level + 1) % U32) ++ "- " ++
                format_d (leaf_node_key node i)))
      else if get_node_type node = NODE_INTERNAL then
        let num_keys := internal_node_num_keys node
        match print_tree_loop (print_tree fuel) node indentation_level num_keys 0 pager1
            [indent indentation_level ++ "- intenal (size " ++ format_d num_keys ++ ")"] with
        | none => none
        | some (pager2, out) =>
          let child := internal_node_right_child node
          match print_tree fuel pager2 child ((indentation_level + 1) % U32) with
          | none => none
          | some (pager3, lines) => some (pager3, out ++ lines)
      else some (pager1, [])

/-! ## Pagers of a session -/

/-- What `pager_open` establishes and `get_page` on the next free page number
and writes to resident pages keep: the length field is the length of the file,
a whole number of pages; the pages of the file are counted in `num_pages`; no
page is resident at or above `num_pages`; every page beyond the file and below
`num_pages` is resident; resident pages passed the bound of `get_page`. -/
def Pager.consistent (pager : Pager) : Prop :=
  pager.file_length = pager.file.length ∧
  pager.file.length < U32 ∧
  pager.file.length % PAGE_SIZE = 0 ∧
  pager.file.length / PAGE_SIZE ≤ pager.num_pages ∧
  1 ≤ pager.num_pages ∧
  (∀ i, pager.num_pages ≤ i → pager.pages i = none) ∧
  (∀ i, pager.file.length / PAGE_SIZE ≤ i → i < pager.num_pages → pager.pages i ≠ none) ∧
  (∀ i, pager.pages i ≠ none → i ≤ TABLE_MAX_PAGES)

/-- The pager `pager` of a running session on the file `file`: it is
consistent, its file is `file`, and the pages `a` and `b` are resident. -/
def Pager.keeps (file : List Nat) (a b : Nat) (pager : Pager) : Prop :=
  pager.consistent ∧ pager.file = file ∧ pager.pages a ≠ none ∧ pager.pages b ≠ none

/-- The lines of `print_tree(pager, 0, 0)` after a session on a fresh
database. -/
def session_tree (heap : Nat → Page) (rows : List Row) : Option (List String) :=
  match db_open [] heap with
  | none => none
  | some t0 =>
    match insert_all rows t0 with
    | none => none
    | some (_, t) =>
      match print_tree 3 t.pager 0 0 with
      | none => none
      | some (_, lines) => some lines


/-! ## Sequences of calls -/

/-- The calls `get_page(pager, p)` for the page numbers `p` of the list, in
order; `none` when one of them ends the process. -/
def get_page_all : List Nat → Pager → Option Pager
  | [], pager => some pager
  | p :: ps, pager =>
    match get_page pager p with
    | none => none
    | some (pager1, _) => get_page_all ps pager1

/-- The cursor after `k` calls of `cursor_advance`. -/
def cursor_advance_n : Nat → Table → Cursor → Option (Table × Cursor)
  | 0, table, cursor => some (table, cursor)
  | k + 1, table, cursor =>
    match cursor_advance table cursor with
    | none => none
    | some (table1, cursor1) => cursor_advance_n k table1 cursor1

/-- The iterations of the loop of `leaf_node_find` that `leaf_node_find_loop`
runs through: for each one the values of `start` and `end` it begins with and
the `index` whose key it reads. -/
def leaf_node_find_trace (node : Page) (key : Nat) : Nat → Nat → Nat → List (Nat × Nat × Nat)
  | fuel, start, end_ =>
    if start = end_ then []
    else
      match fuel with
      | 0 => []
      | fuel + 1 =>
        let index := ((start + end_) % U32) / 2
        let key_at_index := leaf_node_key node index
        (start, end_, index) ::
          (if key = key_at_index then []
           else if key < key_at_index then leaf_node_find_trace node key fuel start index
           else leaf_node_find_trace node key fuel ((index + 1) % U32) end_)

/-- Buffers that `malloc` hands out filled with the byte 1. -/
def ones_heap : Nat → Page := fun _ _ => 1

/-- The `is_root` flags after a session on a fresh database: of the root
page, of the page child 0 of the root points to and of the page its right
child pointer points to. -/
def session_root_flags (heap : Nat → Page) (rows : List Row) : Option (Bool × Bool × Bool) :=
  match db_open [] heap with
  | none => none
  | some t0 =>
    match insert_all rows t0 with
    | none => none
    | some (_, t) =>
      let root := t.pager.node t.root_page_num
      some (is_node_root root,
        is_node_root (t.pager.node (read_u32 root (internal_node_cell 0))),
        is_node_root (t.pager.node (internal_node_right_child root)))

/-- A table on an empty file with two resident pages: the root `root` at
page 0 and the page `right` at page 1. -/
def table_of_two (root right : Page) : Table :=
  { pager :=
      { file := []
        file_length := 0
        num_pages := 2
        pages := fun i => if i = 0 then some root else if i = 1 then some right else none
        heap := fun _ _ => 0 }
    root_page_num := 0 }


/-! ## The front end: `prepare_insert` and the loop of `main`

A character buffer is the list of its bytes.  The functions of the C library
the source calls are embedded with the behaviour the C standard gives them. -/

inductive PrepareResult
  | PREPARE_SUCCESS
  | PREPARE_NEGATIVE_ID
  | PREPARE_STRING_TOO_LONG
  | PREPARE_SYNTAX_ERROR
  | PREPARE_UNRECOGNIZED_STATEMENT
  deriving DecidableEq, Repr

inductive StatementType
  | STATEMENT_INSERT
  | STATEMENT_SELECT
  deriving DecidableEq, Repr

structure Statement where
  type : StatementType
  row_to_insert : Row

/-- The C string a buffer holds: its bytes before the first NUL. -/
def c_string (buffer : List Nat) : List Nat := buffer.takeWhile (fun b => b != 0)

/-- One call of `strtok` with the delimiter `" "` on the rest of the string
still to be scanned: the token found (`none` is `NULL`) and the rest after
it.  Leading spaces are skipped, the token ends at the next space, which is
consumed. -/
def strtok (s : List Nat) : Option (List Nat) × List Nat :=
  let s1 := s.dropWhile (fun b => b == 32)
  if s1 = [] then (none, [])
  else (some (s1.takeWhile (fun b => b != 32)), (s1.dropWhile (fun b => b != 32)).drop 1)

def strlen (s : List Nat) : Nat := (c_string s).length

/-- The array `dst` after `strcpy(dst, src)`: the string and its NUL, then
what `dst` held behind them. -/
def strcpy (dst src : List Nat) : List Nat :=
  c_string src ++ 0 :: dst.drop ((c_string src).length + 1)

def isspace (c : Nat) : Bool := c == 32 || (9 ≤ c && c ≤ 13)

def isdigit (c : Nat) : Bool := 48 ≤ c && c ≤ 57

/-- The function `atoi`: white space, an optional sign, decimal digits.  For a
number outside the range of `int` the C standard leaves the result open; here
it is the number reduced to 32 bits. -/
def atoi (s : List Nat) : Int :=
  let s1 := s.dropWhile isspace
  let negative := s1.head? = some 45
  let s2 := if s1.head? = some 45 ∨ s1.head? = some 43 then s1.tail else s1
  let v := (s2.takeWhile isdigit).foldl (fun a d => 10 * a + (d - 48)) 0
  let w := if negative then (U32 - v % U32) % U32 else v % U32
  if w < 2147483648 then (w : Int) else (w : Int) - 4294967296

def prepare_insert (input_buffer : List Nat) (statement : Statement) :
    PrepareResult × Statement :=
  let statement1 := { statement with type := StatementType.STATEMENT_INSERT }
  let keyword := strtok (c_string input_buffer)
  let id_string := strtok keyword.2
  let username := strtok id_string.2
  let email := strtok username.2
  match id_string.1, username.1, email.1 with
  | some id_string, some username, some email =>
    let id := atoi id_string
    if id < 0 then (PrepareResult.PREPARE_NEGATIVE_ID, statement1)
    else if strlen username > COLUMN_USERNAME_SIZE then
      (PrepareResult.PREPARE_STRING_TOO_LONG, statement1)
    else if strlen email > COLUMN_EMAIL_SIZE then
      (PrepareResult.PREPARE_STRING_TOO_LONG, statement1)
    else
      (PrepareResult.PREPARE_SUCCESS,
        { statement1 with
          row_to_insert :=
            { id := id.toNat % U32
              username := strcpy statement.row_to_insert.username username
              email := strcpy statement.row_to_insert.email email } })
  | _, _, _ => (PrepareResult.PREPARE_SYNTAX_ERROR, statement1)

/-- The test `strncmp(buffer, "insert", 6) == 0` compares the first six bytes
of the string, the test `strcmp(buffer, "select") == 0` the whole string. -/
def prepare_statement (input_buffer : List Nat) (statement : Statement) :
    PrepareResult × Statement :=
  if (c_string input_buffer).take 6 = [105, 110, 115, 101, 114, 116] then
    prepare_insert input_buffer statement
  else if c_string input_buffer = [115, 101, 108, 101, 99, 116] then
    (PrepareResult.PREPARE_SUCCESS, { statement with type := StatementType.STATEMENT_SELECT })
  else (PrepareResult.PREPARE_UNRECOGNIZED_STATEMENT, statement)

/-- The result, the table afterwards and the rows handed to `print_row`. -/
def execute_statement (statement : Statement) (table : Table) :
    Option (ExecuteResult × Table × List Row) :=
  match statement.type with
  | StatementType.STATEMENT_INSERT =>
    match execute_insert statement.row_to_insert table with
    | none => none
    | some (result, table1) => some (result, table1, [])
  | StatementType.STATEMENT_SELECT =>
    match execute_select table with
    | none => none
    | some (table1, rows) => some (ExecuteResult.EXECUTE_SUCCESS, table1, rows)

/-- The body of the loop of `main` for an input line that is not a meta
command, from the declaration of `statement` on; `statement` is what the
uninitialised variable holds.  The table afterwards, the rows handed to
`print_row` and the line printed last. -/
def main_statement (input_buffer : List Nat) (statement : Statement) (table : Table) :
    Option (Table × List Row × String) :=
  let prepared := prepare_statement input_buffer statement
  match prepared.1 with
  | PrepareResult.PREPARE_SUCCESS =>
    match execute_statement prepared.2 table with
    | none => none
    | some (ExecuteResult.EXECUTE_SUCCESS, table1, rows) => some (table1, rows, "Executed.")
    | some (ExecuteResult.EXECUTE_DUPLICATE_KEY, table1, rows) =>
      some (table1, rows, "Error: Duplicate key.")
    | some (ExecuteResult.EXECUTE_TABLE_FULL, table1, rows) =>
      some (table1, rows, "Error: Table full.")
  | PrepareResult.PREPARE_NEGATIVE_ID => some (table, [], "ID must be positive.")
  | PrepareResult.PREPARE_STRING_TOO_LONG => some (table, [], "String is too long.")
  | PrepareResult.PREPARE_SYNTAX_ERROR =>
    some (table, [], "Syntax error. Could not parse statement.")
  | PrepareResult.PREPARE_UNRECOGNIZED_STATEMENT =>
    some (table, [],
      "Unrecognized keyword at start of " ++ String.singleton (Char.ofNat 39) ++
        String.mk ((c_string input_buffer).map Char.ofNat) ++
        String.singleton (Char.ofNat 39) ++ ".")

/-- The second, third and fourth token of the input line as the `strtok`
calls of `prepare_insert` return them: the arguments after the keyword. -/
def insert_arguments (input_buffer : List Nat) :
    Option (List Nat) × Option (List Nat) × Option (List Nat) :=
  let keyword := strtok (c_string input_buffer)
  let id_string := strtok keyword.2
  let username := strtok id_string.2
  let email := strtok username.2
  (id_string.1, username.1, email.1)

/-- The bytes of a text. -/
def bytes_of (s : String) : List Nat := s.toList.map Char.toNat

/-- What the variable `statement` of `main` holds before `prepare_statement`
in the examples: zeroed fields. -/
def blank_statement : Statement :=
  { type := StatementType.STATEMENT_SELECT
    row_to_insert :=
      { id := 0, username := List.replicate 33 0, email := List.replicate 256 0 } }

end BTree

namespace FlatArray

/-! ## The flat-array snapshot `main.c`

The table is an array of `TABLE_MAX_PAGES` page pointers and a row count; rows
are stored one after the other, `ROWS_PER_PAGE` to a page.  Pages and the byte
moves are those of the memory model above; a pointer into a page is the pair
of the page index and the byte offset. -/

inductive ExecuteResult where
  | EXECUTE_SUCCESS
  | EXECUTE_TABLE_FULL
  deriving DecidableEq, Repr

def COLUMN_USERNAME_SIZE : Nat := 32
def COLUMN_EMAIL_SIZE : Nat := 255

/-- The record `Row` of `main.c`: the two `char` arrays are lists of bytes. -/
structure Row where
  id : Nat
  username : List Nat
  email : List Nat
  deriving DecidableEq, Repr

def ID_SIZE : Nat := 4
def USERNAME_SIZE : Nat := COLUMN_USERNAME_SIZE
def EMAIL_SIZE : Nat := COLUMN_EMAIL_SIZE
def ID_OFFSET : Nat := 0
def USERNAME_OFFSET : Nat := ID_OFFSET + ID_SIZE
def EMAIL_OFFSET : Nat := USERNAME_OFFSET + USERNAME_SIZE
def ROW_SIZE : Nat := ID_SIZE + USERNAME_SIZE + EMAIL_SIZE

def TABLE_MAX_PAGES : Nat := 100
def PAGE_SIZE : Nat := 4096
def ROWS_PER_PAGE : Nat := PAGE_SIZE / ROW_SIZE
def TABLE_MAX_ROWS : Nat := ROWS_PER_PAGE * TABLE_MAX_PAGES

/-- The values of the C type `Row`: a 32-bit id and two `char` arrays of 32
and 255 bytes. -/
def Row.valid (r : Row) : Prop :=
  r.id < BTree.U32 ∧ r.username.length = USERNAME_SIZE ∧ r.email.length = EMAIL_SIZE ∧
  (∀ b ∈ r.username, b < 256) ∧ (∀ b ∈ r.email, b < 256)

instance (r : Row) : Decidable r.valid := by
  unfold Row.valid; infer_instance

/-- The record `Table`.  `pages` is the array of page pointers (`none` is
`NULL`), `heap n` the unspecified content of the buffer `malloc` returns for
slot `n`. -/
structure Table where
  nums_rows : Nat
  pages : Nat → Option BTree.Page
  heap : Nat → BTree.Page

/-- The table `new_table` returns; `heap` is the content of the buffers
`malloc` will hand out. -/
def new_table (heap : Nat → BTree.Page) : Table :=
  { nums_rows := 0
    pages := fun _ => none
    heap := heap }

/-- The buffer behind the page pointer `page_num`. -/
def Table.node (table : Table) (page_num : Nat) : BTree.Page :=
  match table.pages page_num with
  | some page => page
  | none => fun _ => 0

/-- A write through a page pointer: the buffer of `page_num` becomes `page`. -/
def Table.store (table : Table) (page_num : Nat) (page : BTree.Page) : Table :=
  { table with pages := fun i => if i = page_num then some page else table.pages i }

def serialize_row (source : Row) (page : BTree.Page) (destination : Nat) : BTree.Page :=
  let p1 := BTree.write_u32 page (destination + ID_OFFSET) source.id
  let p2 := BTree.memcpy_from p1 (destination + USERNAME_OFFSET) source.username USERNAME_SIZE
  BTree.memcpy_from p2 (destination + EMAIL_OFFSET) source.email EMAIL_SIZE

def deserialize_row (page : BTree.Page) (source : Nat) : Row :=
  { id := BTree.read_u32 page (source + ID_OFFSET)
    username := BTree.memcpy_to page (source + USERNAME_OFFSET) USERNAME_SIZE
    email := BTree.memcpy_to page (source + EMAIL_OFFSET) EMAIL_SIZE }

/-- The pointer `row_slot` returns is the page index with the byte offset
inside that page; the table is the one after the allocation of the page when
its pointer was `NULL`.  The source does not compare `page_num` with the
length of the array. -/
def row_slot (table : Table) (row_num : Nat) : Table × Nat × Nat :=
  let page_num := row_num / ROWS_PER_PAGE
  let table1 :=
    match table.pages page_num with
    | some _ => table
    | none => table.store page_num (table.heap page_num)
  let row_offset := row_num % ROWS_PER_PAGE
  let byte_offset := (row_offset * ROW_SIZE) % BTree.U32
  (table1, page_num, byte_offset)

def execute_insert (row_to_insert : Row) (table : Table) : ExecuteResult × Table :=
  if table.nums_rows ≥ TABLE_MAX_ROWS then (ExecuteResult.EXECUTE_TABLE_FULL, table)
  else
    let slot := row_slot table table.nums_rows
    let table1 := slot.1.store slot.2.1
      (serialize_row row_to_insert (slot.1.node slot.2.1) slot.2.2)
    (ExecuteResult.EXECUTE_SUCCESS,
      { table1 with nums_rows := (table1.nums_rows + 1) % BTree.U32 })

/-- The loop `for (i = 0; i < table->nums_rows; i++)` of `execute_select`,
collecting the rows handed to `print_row`; the first argument is the number
of iterations left, the second is `i`. -/
def execute_select_loop : Nat → Nat → Table → List Row → Table × List Row
  | 0, _, table, out => (table, out)
  | k + 1, i, table, out =>
    let slot := row_slot table i
    let row := deserialize_row (slot.1.node slot.2.1) slot.2.2
    execute_select_loop k (i + 1) slot.1 (out ++ [row])

/-- The rows printed by `execute_select`, in order, with the table after the
scan. -/
def execute_select (table : Table) : Table × List Row :=
  execute_select_loop table.nums_rows 0 table []

/-- A session: the rows are inserted one after the other; the results are
collected in order. -/
def insert_all : List Row → Table → List ExecuteResult × Table
  | [], table => ([], table)
  | row :: rows, table =>
    let step := execute_insert row table
    let rest := insert_all rows step.2
    (step.1 :: rest.1, rest.2)

/-- The bytes of the slot of row `row_num`, when its page is allocated. -/
def slot_bytes (table : Table) (row_num : Nat) : Option (List Nat) :=
  match table.pages (row_slot table row_num).2.1 with
  | none => none
  | some page => some (BTree.memcpy_to page (row_slot table row_num).2.2 ROW_SIZE)

/-- A row for concrete sessions. -/
def sample_row (id : Nat) : Row :=
  { id := id
    username := 117 :: List.replicate 31 0
    email := 101 :: List.replicate 254 0 }

end FlatArray

namespace SingleLeaf

/-! ## The single-leaf snapshot `db.c`

The table is one leaf node, the root, in page 0.  The constants, the record
types, the node accessors and the functions `serialize_row`,
`deserialize_row`, `pager_open`, `get_page`, `table_start`, `cursor_value`,
`cursor_advance` and `execute_select` of this snapshot have the text they have
in `_site/db.c`: their embedding is the one of `BTree`.  The functions below
are those whose text differs. -/

inductive ExecuteResult where
  | EXECUTE_SUCCESS
  | EXECUTE_TABLE_FULL
  deriving DecidableEq, Repr

/-- Only the cell count is written: this snapshot has no node type and no
root flag. -/
def initialize_leaf_node (node : BTree.Page) : BTree.Page :=
  BTree.set_leaf_node_num_cells node 0

def table_end (table : BTree.Table) : Option (BTree.Table × BTree.Cursor) :=
  match BTree.get_page table.pager table.root_page_num with
  | none => none
  | some (pager, root_node) =>
    let num_cells := BTree.leaf_node_num_cells root_node
    some ({ table with pager := pager },
          { page_num := table.root_page_num, cell_num := num_cells, end_of_table := true })

/-- On a full node the source prints a message and exits: the result is
`none`. -/
def leaf_node_insert (table : BTree.Table) (cursor : BTree.Cursor) (key : Nat)
    (value : BTree.Row) : Option BTree.Table :=
  match BTree.get_page table.pager cursor.page_num with
  | none => none
  | some (pager, node) =>
    let num_cells := BTree.leaf_node_num_cells node
    if num_cells ≥ BTree.LEAF_NODE_MAX_CELLS then none
    else
      let pager1 :=
        if cursor.cell_num < num_cells then
          pager.modify cursor.page_num (BTree.leaf_node_insert_loop cursor.cell_num num_cells)
        else pager
      let pager2 := pager1.modify cursor.page_num
        (fun n => BTree.set_leaf_node_num_cells n (BTree.leaf_node_num_cells n + 1))
      let pager3 := pager2.modify cursor.page_num
        (fun n => BTree.set_leaf_node_key n cursor.cell_num key)
      let pager4 := pager3.modify cursor.page_num
        (fun n => BTree.serialize_row value n (BTree.leaf_node_value cursor.cell_num))
      some { table with pager := pager4 }

def execute_insert (row_to_insert : BTree.Row) (table : BTree.Table) :
    Option (ExecuteResult × BTree.Table) :=
  match BTree.get_page table.pager table.root_page_num with
  | none => none
  | some (pager, node) =>
    if BTree.leaf_node_num_cells node ≥ BTree.LEAF_NODE_MAX_CELLS then
      some (ExecuteResult.EXECUTE_TABLE_FULL, { table with pager := pager })
    else
      match table_end { table with pager := pager } with
      | none => none
      | some (table1, cursor) =>
        match leaf_node_insert table1 cursor row_to_insert.id row_to_insert with
        | none => none
        | some table2 => some (ExecuteResult.EXECUTE_SUCCESS, table2)

def db_open (file : List Nat) (heap : Nat → BTree.Page) : Option BTree.Table :=
  match BTree.pager_open file heap with
  | none => none
  | some pager =>
    if pager.num_pages = 0 then
      match BTree.get_page pager 0 with
      | none => none
      | some (pager1, _) =>
        some { pager := pager1.modify 0 initialize_leaf_node, root_page_num := 0 }
    else some { pager := pager, root_page_num := 0 }

/-- A session: the rows are inserted one after the other; the results are
collected in order.  `none` when an insert ends the process. -/
def insert_all : List BTree.Row → BTree.Table → Option (List ExecuteResult × BTree.Table)
  | [], table => some ([], table)
  | row :: rows, table =>
    match execute_insert row table with
    | none => none
    | some (r, table1) =>
      match insert_all rows table1 with
      | none => none
      | some (rs, table2) => some (r :: rs, table2)

/-- A session on a fresh database: the rows are inserted in order, then
`execute_select` runs; the results of the inserts and the rows emitted. -/
def run_session (heap : Nat → BTree.Page) (rows : List BTree.Row) :
    Option (List ExecuteResult × List BTree.Row) :=
  match db_open [] heap with
  | none => none
  | some t0 =>
    match insert_all rows t0 with
    | none => none
    | some (rs, t) =>
      match BTree.execute_select t with
      | none => none
      | some (_, out) => some (rs, out)

end SingleLeaf

namespace BTree

/-! ## Layout facts -/

theorem U32_eq : U32 = 4294967296 := rfl
theorem ROW_SIZE_eq : ROW_SIZE = 293 := rfl
theorem USERNAME_SIZE_eq : USERNAME_SIZE = 33 := rfl
theorem EMAIL_SIZE_eq : EMAIL_SIZE = 256 := rfl
theorem ID_OFFSET_eq : ID_OFFSET = 0 := rfl
theorem USERNAME_OFFSET_eq : USERNAME_OFFSET = 4 := rfl
theorem EMAIL_OFFSET_eq : EMAIL_OFFSET = 37 := rfl
theorem PAGE_SIZE_eq : PAGE_SIZE = 4096 := rfl
theorem TABLE_MAX_PAGES_eq : TABLE_MAX_PAGES = 100 := rfl
theorem NODE_TYPE_OFFSET_eq : NODE_TYPE_OFFSET = 0 := rfl
theorem IS_ROOT_OFFSET_eq : IS_ROOT_OFFSET = 1 := rfl
theorem LEAF_NODE_NUM_CELLS_OFFSET_eq : LEAF_NODE_NUM_CELLS_OFFSET = 6 := rfl
theorem LEAF_NODE_HEADER_SIZE_eq : LEAF_NODE_HEADER_SIZE = 10 := rfl
theorem LEAF_NODE_KEY_SIZE_eq : LEAF_NODE_KEY_SIZE = 4 := rfl
theorem LEAF_NODE_CELL_SIZE_eq : LEAF_NODE_CELL_SIZE = 297 := rfl
theorem LEAF_NODE_MAX_CELLS_eq : LEAF_NODE_MAX_CELLS = 13 := rfl
theorem LEAF_NODE_LEFT_SPLIT_COUNT_eq : LEAF_NODE_LEFT_SPLIT_COUNT = 7 := rfl
theorem LEAF_NODE_RIGHT_SPLIT_COUNT_eq : LEAF_NODE_RIGHT_SPLIT_COUNT = 7 := rfl
theorem INTERNAL_NODE_NUM_KEYS_OFFSET_eq : INTERNAL_NODE_NUM_KEYS_OFFSET = 6 := rfl
theorem INTERNAL_NODE_RIGHT_CHILD_OFFSET_eq : INTERNAL_NODE_RIGHT_CHILD_OFFSET = 10 := rfl
theorem INTERNAL_NODE_HEADER_SIZE_eq : INTERNAL_NODE_HEADER_SIZE = 14 := rfl
theorem INTERNAL_NODE_CELL_SIZE_eq : INTERNAL_NODE_CELL_SIZE = 8 := rfl
theorem INTERNAL_NODE_CHILD_SIZE_eq : INTERNAL_NODE_CHILD_SIZE = 4 := rfl
theorem NODE_LEAF_eq : NODE_LEAF = 1 := rfl
theorem NODE_INTERNAL_eq : NODE_INTERNAL = 0 := rfl

theorem leaf_node_cell_eq (i : Nat) (h : i ≤ 14) : leaf_node_cell i = 10 + 297 * i := by
  unfold leaf_node_cell
  rw [LEAF_NODE_HEADER_SIZE_eq, LEAF_NODE_CELL_SIZE_eq, U32_eq]
  omega

theorem leaf_node_value_eq (i : Nat) (h : i ≤ 14) : leaf_node_value i = 14 + 297 * i := by
  unfold leaf_node_value
  rw [leaf_node_cell_eq i h, LEAF_NODE_KEY_SIZE_eq]
  omega

/-! ## Loads and stores -/

theorem read_u32_congr (p q : Page) (a b : Nat) (h : ∀ k, k < 4 → p (a + k) = q (b + k)) :
    read_u32 p a = read_u32 q b := by
  unfold read_u32
  have h0 := h 0 (by omega)
  have h1 := h 1 (by omega)
  have h2 := h 2 (by omega)
  have h3 := h 3 (by omega)
  simp only [Nat.add_zero] at h0
  rw [h0, h1, h2, h3]

theorem write_u32_same (p : Page) (off v : Nat) :
    read_u32 (write_u32 p off v) off = v % U32 := by
  unfold read_u32 write_u32
  have e1 : off + 1 - off = 1 := by omega
  have e2 : off + 2 - off = 2 := by omega
  have e3 : off + 3 - off = 3 := by omega
  simp only [le_refl, Nat.lt_add_one, Nat.le_add_right, Nat.add_lt_add_iff_left,
    Nat.sub_self, e1, e2, e3, U32_eq]
  norm_num
  omega

theorem write_u32_outside (p : Page) (off v j : Nat) (h : j < off ∨ off + 4 ≤ j) :
    write_u32 p off v j = p j := by
  unfold write_u32
  rw [if_neg]
  omega

theorem write_u32_other (p : Page) (off v a : Nat) (h : a + 4 ≤ off ∨ off + 4 ≤ a) :
    read_u32 (write_u32 p off v) a = read_u32 p a := by
  apply read_u32_congr
  intro k hk
  apply write_u32_outside
  omega

theorem write_u8_same (p : Page) (off v : Nat) : read_u8 (write_u8 p off v) off = v % 256 := by
  simp [read_u8, write_u8]

theorem write_u8_outside (p : Page) (off v j : Nat) (h : j ≠ off) :
    write_u8 p off v j = p j := by
  simp [write_u8, h]

theorem memcpy_inside (dst src : Page) (d s n j : Nat) (h1 : d ≤ j) (h2 : j < d + n) :
    memcpy dst d src s n j = src (s + (j - d)) := by
  unfold memcpy
  rw [if_pos ⟨h1, h2⟩]

theorem memcpy_outside (dst src : Page) (d s n j : Nat) (h : j < d ∨ d + n ≤ j) :
    memcpy dst d src s n j = dst j := by
  unfold memcpy
  rw [if_neg]
  omega

theorem memcpy_from_inside (dst : Page) (field : List Nat) (d n j : Nat)
    (h1 : d ≤ j) (h2 : j < d + n) :
    memcpy_from dst d field n j = field.getD (j - d) 0 := by
  unfold memcpy_from
  rw [if_pos ⟨h1, h2⟩]

theorem memcpy_from_outside (dst : Page) (field : List Nat) (d n j : Nat)
    (h : j < d ∨ d + n ≤ j) :
    memcpy_from dst d field n j = dst j := by
  unfold memcpy_from
  rw [if_neg]
  omega

theorem memcpy_to_congr (p q : Page) (a b n : Nat) (h : ∀ k, k < n → p (a + k) = q (b + k)) :
    memcpy_to p a n = memcpy_to q b n := by
  unfold memcpy_to
  apply List.map_congr_left
  intro k hk
  show p (a + k) % 256 = q (b + k) % 256
  rw [h k (List.mem_range.mp hk)]

theorem memcpy_to_of_field (p : Page) (a : Nat) (field : List Nat)
    (hb : ∀ b ∈ field, b < 256)
    (h : ∀ k, k < field.length → p (a + k) = field.getD k 0) :
    memcpy_to p a field.length = field := by
  unfold memcpy_to
  apply List.ext_getElem
  · simp
  · intro k h1 h2
    simp only [List.getElem_map, List.getElem_range]
    rw [h k h2, List.getD_eq_getElem _ _ h2]
    exact Nat.mod_eq_of_lt (hb _ (List.getElem_mem h2))

theorem read_u32_lt (p : Page) (a : Nat) : read_u32 p a < U32 := by
  unfold read_u32
  rw [U32_eq]
  omega

/-! ## Row codec -/

theorem deserialize_row_congr (p q : Page) (a b : Nat)
    (h : ∀ k, k < ROW_SIZE → p (a + k) = q (b + k)) :
    deserialize_row p a = deserialize_row q b := by
  rw [ROW_SIZE_eq] at h
  unfold deserialize_row
  rw [ID_OFFSET_eq, USERNAME_OFFSET_eq, EMAIL_OFFSET_eq, USERNAME_SIZE_eq, EMAIL_SIZE_eq]
  congr 1
  · apply read_u32_congr
    intro k hk
    have := h k (by omega)
    simpa using this
  · apply memcpy_to_congr
    intro k hk
    have := h (4 + k) (by omega)
    simpa [Nat.add_assoc] using this
  · apply memcpy_to_congr
    intro k hk
    have := h (37 + k) (by omega)
    simpa [Nat.add_assoc] using this

theorem serialize_row_outside (r : Row) (p : Page) (d j : Nat)
    (h : j < d ∨ d + ROW_SIZE ≤ j) : serialize_row r p d j = p j := by
  rw [ROW_SIZE_eq] at h
  unfold serialize_row
  simp only [ID_OFFSET_eq, USERNAME_OFFSET_eq, EMAIL_OFFSET_eq, USERNAME_SIZE_eq, EMAIL_SIZE_eq]
  rw [memcpy_from_outside _ _ _ _ _ (by omega), memcpy_from_outside _ _ _ _ _ (by omega),
    write_u32_outside _ _ _ _ (by omega)]

theorem deserialize_serialize (r : Row) (hr : r.valid) (p : Page) (d : Nat) :
    deserialize_row (serialize_row r p d) d = r := by
  obtain ⟨hid, hu, he, hub, heb⟩ := hr
  rw [USERNAME_SIZE_eq] at hu
  rw [EMAIL_SIZE_eq] at he
  unfold deserialize_row serialize_row
  simp only [ID_OFFSET_eq, USERNAME_OFFSET_eq, EMAIL_OFFSET_eq, USERNAME_SIZE_eq, EMAIL_SIZE_eq,
    Nat.add_zero]
  have h1 : read_u32 (memcpy_from (memcpy_from (write_u32 p d r.id) (d + 4) r.username 33)
      (d + 37) r.email 256) d = r.id := by
    rw [read_u32_congr _ (write_u32 p d r.id) d d, write_u32_same, Nat.mod_eq_of_lt hid]
    intro k hk
    rw [memcpy_from_outside _ _ _ _ _ (by omega), memcpy_from_outside _ _ _ _ _ (by omega)]
  have h2 : memcpy_to (memcpy_from (memcpy_from (write_u32 p d r.id) (d + 4) r.username 33)
      (d + 37) r.email 256) (d + 4) 33 = r.username := by
    rw [← hu]
    apply memcpy_to_of_field _ _ _ hub
    intro k hk
    rw [memcpy_from_outside _ _ _ _ _ (by omega),
      memcpy_from_inside _ _ _ _ _ (by omega) (by omega)]
    have e : d + 4 + k - (d + 4) = k := by omega
    rw [e]
  have h3 : memcpy_to (memcpy_from (memcpy_from (write_u32 p d r.id) (d + 4) r.username 33)
      (d + 37) r.email 256) (d + 37) 256 = r.email := by
    rw [← he]
    apply memcpy_to_of_field _ _ _ heb
    intro k hk
    rw [memcpy_from_inside _ _ _ _ _ (by omega) (by omega)]
    have e : d + 37 + k - (d + 37) = k := by omega
    rw [e]
  rw [h1, h2, h3]


/-! ## Pager -/

theorem Pager.node_of_pages (pager : Pager) (n : Nat) (page : Page)
    (h : pager.pages n = some page) : pager.node n = page := by
  unfold Pager.node
  rw [h]

theorem Pager.store_pages_same (pager : Pager) (n : Nat) (page : Page) :
    (pager.store n page).pages n = some page := by
  simp [Pager.store]

theorem Pager.store_pages_other (pager : Pager) (n i : Nat) (page : Page) (h : i ≠ n) :
    (pager.store n page).pages i = pager.pages i := by
  simp [Pager.store, h]

theorem Pager.store_node_same (pager : Pager) (n : Nat) (page : Page) :
    (pager.store n page).node n = page :=
  Pager.node_of_pages _ _ _ (Pager.store_pages_same _ _ _)

theorem Pager.store_node_other (pager : Pager) (n i : Nat) (page : Page) (h : i ≠ n) :
    (pager.store n page).node i = pager.node i := by
  unfold Pager.node
  rw [Pager.store_pages_other _ _ _ _ h]

theorem Pager.store_store (pager : Pager) (n : Nat) (p q : Page) :
    (pager.store n p).store n q = pager.store n q := by
  unfold Pager.store
  congr 1
  funext i
  by_cases h : i = n <;> simp [h]

theorem Pager.store_num_pages (pager : Pager) (n : Nat) (p : Page) :
    (pager.store n p).num_pages = pager.num_pages := rfl

theorem Pager.modify_eq (pager : Pager) (n : Nat) (f : Page → Page) (page : Page)
    (h : pager.pages n = some page) : pager.modify n f = pager.store n (f page) := by
  unfold Pager.modify
  rw [Pager.node_of_pages _ _ _ h]

theorem get_page_resident (pager : Pager) (n : Nat) (page : Page)
    (h : pager.pages n = some page) (hn : n ≤ TABLE_MAX_PAGES) :
    get_page pager n = some (pager, page) := by
  unfold get_page
  rw [if_neg (by omega), h]

/-- What `get_page` guarantees about the pager and the buffer it returns. -/
theorem get_page_spec (pager pg : Pager) (n : Nat) (node : Page)
    (h : get_page pager n = some (pg, node)) :
    n ≤ TABLE_MAX_PAGES ∧ pg.pages n = some node ∧
    (∀ i, i ≠ n → pg.pages i = pager.pages i) ∧
    (pager.pages n = none → n < pg.num_pages) ∧ pager.num_pages ≤ pg.num_pages ∧
    (pg.num_pages ≤ pager.num_pages ∨ pg.num_pages = n + 1) ∧
    (∀ page, pager.pages n = some page → pg = pager ∧ node = page) := by
  unfold get_page at h
  by_cases hn : n > TABLE_MAX_PAGES
  · rw [if_pos hn] at h
    exact absurd h (by simp)
  · rw [if_neg hn] at h
    cases hp : pager.pages n with
    | some page =>
      rw [hp] at h
      simp only [Option.some.injEq, Prod.mk.injEq] at h
      obtain ⟨h1, h2⟩ := h
      subst h1
      subst h2
      refine ⟨by omega, hp, fun _ _ => rfl, fun hc => ?_, le_refl _, Or.inl (le_refl _), ?_⟩
      · simp at hc
      · intro page' hp'
        simp only [Option.some.injEq] at hp'
        exact ⟨rfl, hp'⟩
    | none =>
      rw [hp] at h
      simp only [Option.some.injEq, Prod.mk.injEq] at h
      obtain ⟨h1, h2⟩ := h
      rw [h2] at h1
      clear h2
      by_cases hc : n ≥ pager.num_pages
      · have hc2 : n ≥ (pager.store n node).num_pages := hc
        rw [if_pos hc2] at h1
        subst h1
        refine ⟨by omega, Pager.store_pages_same _ _ _,
          fun i hi => Pager.store_pages_other _ _ _ _ hi, fun _ => ?_, ?_, Or.inr rfl, ?_⟩
        · show n < n + 1
          omega
        · show pager.num_pages ≤ n + 1
          omega
        · intro page hc3
          simp at hc3
      · have hc2 : ¬ n ≥ (pager.store n node).num_pages := hc
        rw [if_neg hc2] at h1
        subst h1
        refine ⟨by omega, Pager.store_pages_same _ _ _,
          fun i hi => Pager.store_pages_other _ _ _ _ hi, fun _ => ?_, le_refl _,
          Or.inl (le_refl _), ?_⟩
        · show n < pager.num_pages
          omega
        · intro page hc3
          simp at hc3

/-- A second access to the page just returned changes nothing. -/
theorem get_page_again (pager pg : Pager) (n : Nat) (node : Page)
    (h : get_page pager n = some (pg, node)) : get_page pg n = some (pg, node) := by
  obtain ⟨h1, h2, -⟩ := get_page_spec pager pg n node h
  exact get_page_resident pg n node h2 h1

/-! ## Binary search -/

/-- The loop of `leaf_node_find` on strictly ascending keys: with an interval
`[s, e)` that brackets the key, the loop returns the insertion point. -/
theorem leaf_node_find_loop_spec (node : Page) (key n : Nat) (hn : n ≤ 13)
    (hsorted : ∀ j, j < n → ∀ i, i < j → leaf_node_key node i < leaf_node_key node j) :
    ∀ fuel s e, s ≤ e → e ≤ n → e - s ≤ fuel →
      (∀ i, i < s → leaf_node_key node i < key) →
      (∀ i, e ≤ i → i < n → key < leaf_node_key node i) →
      ∃ p, leaf_node_find_loop node key fuel s e = some p ∧ p ≤ n ∧
        (∀ i, i < p → leaf_node_key node i < key) ∧
        (∀ i, p < i → i < n → key < leaf_node_key node i) ∧
        (p < n → key ≤ leaf_node_key node p) := by
  intro fuel
  induction fuel with
  | zero =>
    intro s e hse hen hfuel hlo hhi
    have : s = e := by omega
    subst this
    refine ⟨s, ?_, hen, hlo, fun i h1 h2 => hhi i (by omega) h2, fun h => ?_⟩
    · unfold leaf_node_find_loop
      simp
    · exact Nat.le_of_lt (hhi s (le_refl _) h)
  | succ fuel ih =>
    intro s e hse hen hfuel hlo hhi
    unfold leaf_node_find_loop
    by_cases hse2 : s = e
    · subst hse2
      refine ⟨s, by simp, hen, hlo, fun i h1 h2 => hhi i (by omega) h2, fun h => ?_⟩
      exact Nat.le_of_lt (hhi s (le_refl _) h)
    · have hlt : s < e := by omega
      have hidx : (s + e) % U32 / 2 = (s + e) / 2 := by
        rw [U32_eq, Nat.mod_eq_of_lt (by omega)]
      have hm1 : s ≤ (s + e) / 2 := by omega
      have hm2 : (s + e) / 2 < e := by omega
      simp only [if_neg hse2, hidx]
      by_cases heq : key = leaf_node_key node ((s + e) / 2)
      · rw [if_pos heq]
        refine ⟨(s + e) / 2, rfl, by omega, ?_, ?_, fun _ => Nat.le_of_eq heq⟩
        · intro i hi
          rw [heq]
          exact hsorted _ (by omega) i hi
        · intro i h1 h2
          rw [heq]
          exact hsorted i h2 _ h1
      · rw [if_neg heq]
        by_cases hlt2 : key < leaf_node_key node ((s + e) / 2)
        · rw [if_pos hlt2]
          apply ih s ((s + e) / 2) hm1 (by omega) (by omega) hlo
          intro i h1 h2
          rcases Nat.eq_or_lt_of_le h1 with h | h
          · rw [← h]; exact hlt2
          · exact Nat.lt_trans hlt2 (hsorted i h2 _ h)
        · rw [if_neg hlt2]
          have hstep : ((s + e) / 2 + 1) % U32 = (s + e) / 2 + 1 := by
            rw [U32_eq, Nat.mod_eq_of_lt (by omega)]
          rw [hstep]
          apply ih ((s + e) / 2 + 1) e (by omega) hen (by omega) _ hhi
          intro i hi
          have hgt : leaf_node_key node ((s + e) / 2) < key := by omega
          rcases Nat.eq_or_lt_of_le (Nat.lt_succ_iff.mp hi) with h | h
          · rw [h]; exact hgt
          · exact Nat.lt_trans (hsorted _ (by omega) i h) hgt


/-! ## Insertion without split -/

theorem leaf_node_insert_loop_of_le (c : Nat) (node : Page) :
    ∀ n, n ≤ c → leaf_node_insert_loop c n node = node := by
  intro n h
  cases n with
  | zero => rfl
  | succ i =>
    unfold leaf_node_insert_loop
    rw [if_neg (by omega)]

/-- Closed form of the shifting loop: bytes of the cells `(c, n]` come from
one cell below, all other bytes stay. -/
theorem leaf_node_insert_loop_apply (c : Nat) :
    ∀ n, n ≤ 13 → ∀ (node : Page) (j : Nat),
      leaf_node_insert_loop c n node j =
        if 10 + 297 * (c + 1) ≤ j ∧ j < 10 + 297 * (n + 1) then node (j - 297) else node j := by
  intro n
  induction n with
  | zero =>
    intro _ node j
    unfold leaf_node_insert_loop
    rw [if_neg (by omega)]
  | succ i ih =>
    intro hi node j
    unfold leaf_node_insert_loop
    by_cases hc : i + 1 > c
    · rw [if_pos hc, ih (by omega), leaf_node_cell_eq (i + 1) (by omega),
        leaf_node_cell_eq i (by omega), LEAF_NODE_CELL_SIZE_eq]
      by_cases h1 : 10 + 297 * (c + 1) ≤ j ∧ j < 10 + 297 * (i + 1)
      · rw [if_pos h1, if_pos (by omega), memcpy_outside _ _ _ _ _ _ (by omega)]
      · rw [if_neg h1]
        by_cases h2 : 10 + 297 * (i + 1) ≤ j ∧ j < 10 + 297 * (i + 1) + 297
        · rw [memcpy_inside _ _ _ _ _ _ h2.1 h2.2, if_pos (by omega)]
          exact congrArg node (by omega)
        · rw [memcpy_outside _ _ _ _ _ _ (by omega), if_neg (by omega)]
    · rw [if_neg hc, if_neg (by omega)]

/-- The effect of the no-split path on the bytes of the page. -/
theorem leaf_insert_page_spec (node : Page) (c : Nat) (row : Row)
    (hn : leaf_node_num_cells node < 13) (hc : c ≤ leaf_node_num_cells node)
    (hr : row.valid) :
    (∀ j, j < 6 → leaf_insert_page node c row.id row j = node j) ∧
    leaf_node_num_cells (leaf_insert_page node c row.id row) = leaf_node_num_cells node + 1 ∧
    leaf_node_key (leaf_insert_page node c row.id row) c = row.id ∧
    deserialize_row (leaf_insert_page node c row.id row) (leaf_node_value c) = row ∧
    (∀ i, i < c → ∀ r, r < 297 →
      leaf_insert_page node c row.id row (leaf_node_cell i + r) = node (leaf_node_cell i + r)) ∧
    (∀ i, c ≤ i → i < leaf_node_num_cells node → ∀ r, r < 297 →
      leaf_insert_page node c row.id row (leaf_node_cell (i + 1) + r)
        = node (leaf_node_cell i + r)) := by
  have hid : row.id < U32 := hr.1
  rw [U32_eq] at hid
  -- the page after the shift
  have hshift : ∀ j, (if c < leaf_node_num_cells node then
        leaf_node_insert_loop c (leaf_node_num_cells node) node else node) j =
      if 10 + 297 * (c + 1) ≤ j ∧ j < 10 + 297 * (leaf_node_num_cells node + 1)
        then node (j - 297) else node j := by
    intro j
    by_cases h : c < leaf_node_num_cells node
    · rw [if_pos h, leaf_node_insert_loop_apply c _ (by omega)]
    · rw [if_neg h, if_neg (by omega)]
  generalize hn1 : (if c < leaf_node_num_cells node then
        leaf_node_insert_loop c (leaf_node_num_cells node) node else node) = n1 at hshift
  have hcount1 : leaf_node_num_cells n1 = leaf_node_num_cells node := by
    unfold leaf_node_num_cells
    apply read_u32_congr
    intro k hk
    rw [hshift, if_neg (by rw [LEAF_NODE_NUM_CELLS_OFFSET_eq]; omega)]
  -- every byte of the final page
  have hfinal : ∀ j, leaf_insert_page node c row.id row j =
      serialize_row row (write_u32 (write_u32 n1 6 (leaf_node_num_cells node + 1))
        (10 + 297 * c) row.id) (14 + 297 * c) j := by
    intro j
    unfold leaf_insert_page
    simp only [hn1, hcount1, set_leaf_node_num_cells, set_leaf_node_key,
      leaf_node_value_eq c (by omega), leaf_node_cell_eq c (by omega),
      LEAF_NODE_NUM_CELLS_OFFSET_eq]
  refine ⟨?_, ?_, ?_, ?_, ?_, ?_⟩
  · intro j hj
    rw [hfinal, serialize_row_outside _ _ _ _ (by omega), write_u32_outside _ _ _ _ (by omega),
      write_u32_outside _ _ _ _ (by omega), hshift, if_neg (by omega)]
  · unfold leaf_node_num_cells
    rw [LEAF_NODE_NUM_CELLS_OFFSET_eq]
    rw [read_u32_congr _ (write_u32 n1 6 (leaf_node_num_cells node + 1)) 6 6, write_u32_same,
      U32_eq, Nat.mod_eq_of_lt (by omega)]
    · rfl
    · intro k hk
      rw [hfinal, serialize_row_outside _ _ _ _ (by rw [ROW_SIZE_eq]; omega),
        write_u32_outside _ _ _ _ (by omega)]
  · unfold leaf_node_key
    rw [leaf_node_cell_eq c (by omega)]
    rw [read_u32_congr _ (write_u32 (write_u32 n1 6 (leaf_node_num_cells node + 1))
        (10 + 297 * c) row.id) (10 + 297 * c) (10 + 297 * c), write_u32_same, U32_eq,
      Nat.mod_eq_of_lt hid]
    intro k hk
    rw [hfinal, serialize_row_outside _ _ _ _ (by rw [ROW_SIZE_eq]; omega)]
  · rw [leaf_node_value_eq c (by omega)]
    rw [deserialize_row_congr _ (serialize_row row (write_u32 (write_u32 n1 6
        (leaf_node_num_cells node + 1)) (10 + 297 * c) row.id) (14 + 297 * c))
        (14 + 297 * c) (14 + 297 * c) (fun k _ => hfinal _)]
    exact deserialize_serialize row hr _ _
  · intro i hi r hr2
    rw [leaf_node_cell_eq i (by omega), hfinal,
      serialize_row_outside _ _ _ _ (by rw [ROW_SIZE_eq]; omega),
      write_u32_outside _ _ _ _ (by omega), write_u32_outside _ _ _ _ (by omega), hshift,
      if_neg (by omega)]
  · intro i hi1 hi2 r hr2
    rw [leaf_node_cell_eq i (by omega), leaf_node_cell_eq (i + 1) (by omega), hfinal,
      serialize_row_outside _ _ _ _ (by rw [ROW_SIZE_eq]; omega),
      write_u32_outside _ _ _ _ (by omega), write_u32_outside _ _ _ _ (by omega), hshift,
      if_pos (by omega)]
    exact congrArg node (by omega)


/-! ## Operations on a table whose root is resident -/

theorem Pager.modify_store (pg : Pager) (r : Nat) (p : Page) (f : Page → Page) :
    (pg.store r p).modify r f = pg.store r (f p) := by
  rw [Pager.modify_eq _ _ _ p (Pager.store_pages_same _ _ _), Pager.store_store]

theorem table_find_resident (pg : Pager) (r : Nat) (node : Page) (key : Nat)
    (hres : pg.pages r = some node) (hr : r ≤ TABLE_MAX_PAGES) (hleaf : sorted_leaf node) :
    ∃ p, table_find { pager := pg, root_page_num := r } key
        = some ({ pager := pg, root_page_num := r },
                { page_num := r, cell_num := p, end_of_table := false }) ∧
      p ≤ leaf_node_num_cells node ∧
      (∀ i, i < p → leaf_node_key node i < key) ∧
      (∀ i, p < i → i < leaf_node_num_cells node → key < leaf_node_key node i) ∧
      (p < leaf_node_num_cells node → key ≤ leaf_node_key node p) := by
  obtain ⟨htype, hn, hsorted⟩ := hleaf
  rw [LEAF_NODE_MAX_CELLS_eq] at hn
  obtain ⟨p, hp, h1, h2, h3, h4⟩ := leaf_node_find_loop_spec node key _ hn hsorted
    (leaf_node_num_cells node) 0 (leaf_node_num_cells node) (Nat.zero_le _) (le_refl _)
    (by omega) (fun i hi => absurd hi (by omega)) (fun i hi1 hi2 => absurd hi2 (by omega))
  refine ⟨p, ?_, h1, h2, h3, h4⟩
  unfold table_find
  simp only [get_page_resident pg r node hres hr, htype, if_true]
  unfold leaf_node_find
  simp only [get_page_resident pg r node hres hr, hp]

theorem leaf_node_insert_nosplit (pg : Pager) (r c key : Nat) (node : Page) (row : Row)
    (eot : Bool) (hres : pg.pages r = some node) (hr : r ≤ TABLE_MAX_PAGES)
    (hn : leaf_node_num_cells node < LEAF_NODE_MAX_CELLS) :
    leaf_node_insert { pager := pg, root_page_num := r }
        { page_num := r, cell_num := c, end_of_table := eot } key row
      = some { pager := pg.store r (leaf_insert_page node c key row), root_page_num := r } := by
  unfold leaf_node_insert
  simp only [get_page_resident pg r node hres hr, if_neg (Nat.not_le.mpr hn)]
  by_cases hc : c < leaf_node_num_cells node
  · simp only [if_pos hc, Pager.modify_eq pg r _ node hres, Pager.modify_store,
      leaf_insert_page]
  · simp only [if_neg hc, Pager.modify_eq pg r _ node hres, Pager.modify_store,
      leaf_insert_page]

theorem execute_insert_of_root (t : Table) (pg : Pager) (node : Page) (row : Row)
    (hroot : get_page t.pager t.root_page_num = some (pg, node)) :
    execute_insert row t
      = execute_insert row { pager := pg, root_page_num := t.root_page_num } := by
  unfold execute_insert
  simp only [hroot, get_page_again _ _ _ _ hroot]

/-- The three ways `execute_insert` ends on a table whose root is a resident
sorted leaf, by the position `p` the search returns. -/
theorem execute_insert_resident (pg : Pager) (r : Nat) (node : Page) (row : Row)
    (hres : pg.pages r = some node) (hr : r ≤ TABLE_MAX_PAGES) (hleaf : sorted_leaf node) :
    ∃ p, table_find { pager := pg, root_page_num := r } row.id
        = some ({ pager := pg, root_page_num := r },
                { page_num := r, cell_num := p, end_of_table := false }) ∧
      p ≤ leaf_node_num_cells node ∧
      (∀ i, i < p → leaf_node_key node i < row.id) ∧
      (∀ i, p < i → i < leaf_node_num_cells node → row.id < leaf_node_key node i) ∧
      (p < leaf_node_num_cells node → row.id ≤ leaf_node_key node p) ∧
      execute_insert row { pager := pg, root_page_num := r } =
        if p < leaf_node_num_cells node ∧ leaf_node_key node p = row.id then
          some (ExecuteResult.EXECUTE_DUPLICATE_KEY, { pager := pg, root_page_num := r })
        else
          match leaf_node_insert { pager := pg, root_page_num := r }
              { page_num := r, cell_num := p, end_of_table := false } row.id row with
          | none => none
          | some table2 => some (ExecuteResult.EXECUTE_SUCCESS, table2) := by
  obtain ⟨p, hp, h1, h2, h3, h4⟩ := table_find_resident pg r node row.id hres hr hleaf
  refine ⟨p, hp, h1, h2, h3, h4, ?_⟩
  unfold execute_insert
  simp only [get_page_resident pg r node hres hr, hp, Pager.node_of_pages pg r node hres]

/-! ## Selection on a resident leaf root -/

theorem execute_select_loop_spec (pg : Pager) (r : Nat) (node : Page)
    (hres : pg.pages r = some node) (hr : r ≤ TABLE_MAX_PAGES)
    (hn : leaf_node_num_cells node ≤ 13) :
    ∀ fuel c out, c < leaf_node_num_cells node → leaf_node_num_cells node - c ≤ fuel →
      execute_select_loop fuel { pager := pg, root_page_num := r }
          { page_num := r, cell_num := c, end_of_table := false } out
        = some ({ pager := pg, root_page_num := r },
            out ++ (List.range' c (leaf_node_num_cells node - c)).map
              (fun i => deserialize_row node (leaf_node_value i))) := by
  intro fuel
  induction fuel with
  | zero =>
    intro c out hc hf
    omega
  | succ fuel ih =>
    intro c out hc hf
    unfold execute_select_loop
    have hwrap : (c + 1) % U32 = c + 1 := by
      rw [U32_eq, Nat.mod_eq_of_lt (by omega)]
    simp only [Bool.false_eq_true, if_false, cursor_value, cursor_advance,
      get_page_resident pg r node hres hr, Pager.node_of_pages pg r node hres, hwrap]
    by_cases hlast : c + 1 ≥ leaf_node_num_cells node
    · have hone : leaf_node_num_cells node - c = 1 := by omega
      simp only [if_pos hlast, hone]
      unfold execute_select_loop
      simp
    · simp only [if_neg hlast]
      rw [ih (c + 1) _ (by omega) (by omega)]
      have hsplit : leaf_node_num_cells node - c = (leaf_node_num_cells node - (c + 1)) + 1 := by
        omega
      rw [hsplit, List.range'_succ]
      simp

/-- On a resident leaf root the scan emits the stored rows in cell order and
leaves the table as it is. -/
theorem execute_select_resident (pg : Pager) (r : Nat) (node : Page)
    (hres : pg.pages r = some node) (hr : r ≤ TABLE_MAX_PAGES)
    (hn : leaf_node_num_cells node ≤ 13) :
    execute_select { pager := pg, root_page_num := r }
      = some ({ pager := pg, root_page_num := r }, leaf_rows node) := by
  unfold execute_select table_start
  simp only [get_page_resident pg r node hres hr, Pager.node_of_pages pg r node hres]
  by_cases h0 : leaf_node_num_cells node = 0
  · unfold execute_select_loop
    simp [h0, leaf_rows]
  · have hb : (leaf_node_num_cells node == 0) = false := by simpa using h0
    rw [hb, execute_select_loop_spec pg r node hres hr hn _ 0 [] (by omega) (by omega)]
    simp [leaf_rows, List.range_eq_range']

theorem execute_select_of_root (t : Table) (pg : Pager) (node : Page)
    (hroot : get_page t.pager t.root_page_num = some (pg, node)) :
    execute_select t = execute_select { pager := pg, root_page_num := t.root_page_num } := by
  unfold execute_select table_start
  simp only [hroot, get_page_again _ _ _ _ hroot]

theorem table_find_of_root (t : Table) (pg : Pager) (node : Page) (key : Nat)
    (hroot : get_page t.pager t.root_page_num = some (pg, node)) :
    table_find t key = table_find { pager := pg, root_page_num := t.root_page_num } key := by
  unfold table_find
  simp only [hroot, get_page_again _ _ _ _ hroot]


/-! ## Cells as lists -/

theorem leaf_cell_congr (p q : Page) (i j : Nat)
    (h : ∀ r, r < 297 → p (leaf_node_cell i + r) = q (leaf_node_cell j + r)) :
    leaf_node_key p i = leaf_node_key q j ∧
    deserialize_row p (leaf_node_value i) = deserialize_row q (leaf_node_value j) := by
  constructor
  · unfold leaf_node_key
    exact read_u32_congr _ _ _ _ (fun k hk => h k (by omega))
  · apply deserialize_row_congr
    intro k hk
    rw [ROW_SIZE_eq] at hk
    unfold leaf_node_value
    rw [LEAF_NODE_KEY_SIZE_eq]
    have := h (4 + k) (by omega)
    simpa [Nat.add_assoc] using this

/-- A list read off positions `0..n` that agrees with an old one below `p`,
holds `x` at `p` and the old entries shifted by one above `p`. -/
theorem range_map_insert {α : Type} (f g : Nat → α) (n p : Nat) (x : α) (hp : p ≤ n)
    (hlo : ∀ i, i < p → g i = f i) (hx : g p = x)
    (hhi : ∀ i, p ≤ i → i < n → g (i + 1) = f i) :
    (List.range (n + 1)).map g
      = ((List.range n).map f).take p ++ x :: ((List.range n).map f).drop p := by
  apply List.ext_getElem?
  intro i
  by_cases h1 : i < p
  · rw [List.getElem?_append_left (by simp; omega)]
    simp only [List.getElem?_map, List.getElem?_take, List.getElem?_range, h1, if_true]
    rw [List.getElem?_range (by omega), List.getElem?_range (by omega)]
    simp [hlo i h1]
  · rw [List.getElem?_append_right (by simp; omega)]
    have hlen : (List.take p (List.map f (List.range n))).length = p := by simp; omega
    rw [hlen]
    by_cases h2 : i = p
    · subst h2
      simp only [Nat.sub_self, List.getElem?_cons_zero, List.getElem?_map]
      rw [List.getElem?_range (by omega)]
      simp [hx]
    · obtain ⟨k, hk⟩ : ∃ k, i = p + k + 1 := ⟨i - p - 1, by omega⟩
      subst hk
      have e : p + k + 1 - p = k + 1 := by omega
      rw [e, List.getElem?_cons_succ, List.getElem?_drop, List.getElem?_map, List.getElem?_map]
      by_cases h3 : p + k < n
      · rw [List.getElem?_range (by omega), List.getElem?_range h3]
        simp [hhi (p + k) (by omega) h3]
      · rw [List.getElem?_eq_none (by simp; omega), List.getElem?_eq_none (by simp; omega)]
        rfl

theorem leaf_insert_page_lists (node : Page) (c : Nat) (row : Row)
    (hn : leaf_node_num_cells node < 13) (hc : c ≤ leaf_node_num_cells node)
    (hr : row.valid) :
    leaf_keys (leaf_insert_page node c row.id row)
      = (leaf_keys node).take c ++ row.id :: (leaf_keys node).drop c ∧
    leaf_rows (leaf_insert_page node c row.id row)
      = (leaf_rows node).take c ++ row :: (leaf_rows node).drop c := by
  obtain ⟨-, hcount, hkey, hrow, hlo, hhi⟩ := leaf_insert_page_spec node c row hn hc hr
  unfold leaf_keys leaf_rows
  rw [hcount]
  constructor
  · exact range_map_insert _ _ _ c _ hc (fun i hi => (leaf_cell_congr _ _ _ _ (hlo i hi)).1)
      hkey (fun i h1 h2 => (leaf_cell_congr _ _ _ _ (hhi i h1 h2)).1)
  · exact range_map_insert _ _ _ c _ hc (fun i hi => (leaf_cell_congr _ _ _ _ (hlo i hi)).2)
      hrow (fun i h1 h2 => (leaf_cell_congr _ _ _ _ (hhi i h1 h2)).2)

/-- The keys of the page after a no-split insertion, position by position. -/
theorem leaf_insert_page_key (node : Page) (c : Nat) (row : Row)
    (hn : leaf_node_num_cells node < 13) (hc : c ≤ leaf_node_num_cells node)
    (hr : row.valid) (i : Nat) (hi : i ≤ leaf_node_num_cells node) :
    leaf_node_key (leaf_insert_page node c row.id row) i =
      if i < c then leaf_node_key node i
      else if i = c then row.id else leaf_node_key node (i - 1) := by
  obtain ⟨-, -, hkey, -, hlo, hhi⟩ := leaf_insert_page_spec node c row hn hc hr
  by_cases h1 : i < c
  · rw [if_pos h1]
    exact (leaf_cell_congr _ _ _ _ (hlo i h1)).1
  · rw [if_neg h1]
    by_cases h2 : i = c
    · rw [if_pos h2, h2, hkey]
    · rw [if_neg h2]
      have := (leaf_cell_congr _ _ _ _ (hhi (i - 1) (by omega) (by omega))).1
      have e : i - 1 + 1 = i := by omega
      rw [e] at this
      exact this

theorem leaf_insert_page_row_id (node : Page) (c : Nat) (row : Row)
    (hn : leaf_node_num_cells node < 13) (hc : c ≤ leaf_node_num_cells node)
    (hr : row.valid) (i : Nat) (hi : i ≤ leaf_node_num_cells node) :
    (deserialize_row (leaf_insert_page node c row.id row) (leaf_node_value i)).id =
      if i < c then (deserialize_row node (leaf_node_value i)).id
      else if i = c then row.id else (deserialize_row node (leaf_node_value (i - 1))).id := by
  obtain ⟨-, -, -, hrow, hlo, hhi⟩ := leaf_insert_page_spec node c row hn hc hr
  by_cases h1 : i < c
  · rw [if_pos h1, (leaf_cell_congr _ _ _ _ (hlo i h1)).2]
  · rw [if_neg h1]
    by_cases h2 : i = c
    · rw [if_pos h2, h2, hrow]
    · rw [if_neg h2]
      have := (leaf_cell_congr _ _ _ _ (hhi (i - 1) (by omega) (by omega))).2
      have e : i - 1 + 1 = i := by omega
      rw [e] at this
      rw [this]

/-- A no-split insertion at the position found by the search keeps the leaf
sorted and keeps the stored ids equal to the keys. -/
theorem leaf_insert_page_sorted (node : Page) (c : Nat) (row : Row)
    (hleaf : sorted_leaf node) (hn : leaf_node_num_cells node < 13)
    (hc : c ≤ leaf_node_num_cells node) (hr : row.valid)
    (hlo : ∀ i, i < c → leaf_node_key node i < row.id)
    (hhi : ∀ i, c ≤ i → i < leaf_node_num_cells node → row.id < leaf_node_key node i) :
    sorted_leaf (leaf_insert_page node c row.id row) ∧
    (rows_match_keys node → rows_match_keys (leaf_insert_page node c row.id row)) := by
  obtain ⟨htype, hmax, hsorted⟩ := hleaf
  obtain ⟨hhead, hcount, -⟩ := leaf_insert_page_spec node c row hn hc hr
  refine ⟨⟨?_, ?_, ?_⟩, ?_⟩
  · unfold get_node_type read_u8 at htype ⊢
    rw [NODE_TYPE_OFFSET_eq] at htype ⊢
    rw [hhead 0 (by omega), htype]
  · rw [hcount, LEAF_NODE_MAX_CELLS_eq]
    omega
  · rw [hcount]
    intro j hj i hij
    rw [leaf_insert_page_key node c row hn hc hr i (by omega),
      leaf_insert_page_key node c row hn hc hr j (by omega)]
    by_cases hj1 : j < c
    · rw [if_pos hj1, if_pos (by omega)]
      exact hsorted j (by omega) i hij
    · rw [if_neg hj1]
      by_cases hj2 : j = c
      · rw [if_pos hj2, if_pos (by omega)]
        exact hlo i (by omega)
      · rw [if_neg hj2]
        by_cases hi1 : i < c
        · rw [if_pos hi1]
          exact hsorted (j - 1) (by omega) i (by omega)
        · rw [if_neg hi1]
          by_cases hi2 : i = c
          · rw [if_pos hi2]
            exact hhi (j - 1) (by omega) (by omega)
          · rw [if_neg hi2]
            exact hsorted (j - 1) (by omega) (i - 1) (by omega)
  · intro hm i hi
    rw [hcount] at hi
    rw [leaf_insert_page_key node c row hn hc hr i (by omega),
      leaf_insert_page_row_id node c row hn hc hr i (by omega)]
    by_cases h1 : i < c
    · rw [if_pos h1, if_pos h1]
      exact hm i (by omega)
    · rw [if_neg h1, if_neg h1]
      by_cases h2 : i = c
      · rw [if_pos h2, if_pos h2]
      · rw [if_neg h2, if_neg h2]
        exact hm (i - 1) (by omega)

/-- In a sorted leaf whose rows carry their keys, exactly one stored row has
a given stored key as id. -/
theorem leaf_rows_count_id (node : Page) (k : Nat) (hleaf : sorted_leaf node)
    (hm : rows_match_keys node)
    (hk : ∃ i, i < leaf_node_num_cells node ∧ leaf_node_key node i = k) :
    ((leaf_rows node).map Row.id).count k = 1 := by
  obtain ⟨-, -, hsorted⟩ := hleaf
  have hids : (leaf_rows node).map Row.id = leaf_keys node := by
    unfold leaf_rows leaf_keys
    rw [List.map_map]
    apply List.map_congr_left
    intro i hi
    exact hm i (List.mem_range.mp hi)
  rw [hids]
  apply List.count_eq_one_of_mem
  · unfold leaf_keys
    rw [List.nodup_map_iff_inj_on (List.nodup_range _)]
    intro a ha b hb hab
    rw [List.mem_range] at ha hb
    rcases Nat.lt_trichotomy a b with h | h | h
    · have := hsorted b hb a h
      omega
    · exact h
    · have := hsorted a ha b h
      omega
  · obtain ⟨i, hi, hki⟩ := hk
    unfold leaf_keys
    exact List.mem_map.mpr ⟨i, List.mem_range.mpr hi, hki⟩


/-! ## The split loop -/

theorem Pager.store_self (pager : Pager) (n : Nat) (p : Page) (h : pager.pages n = some p) :
    pager.store n p = pager := by
  cases pager with
  | mk file file_length num_pages pages heap =>
    unfold Pager.store
    simp only [Pager.mk.injEq, true_and, and_true]
    funext i
    by_cases hi : i = n
    · rw [if_pos hi, hi]
      exact h.symm
    · rw [if_neg hi]

theorem Pager.store_comm (pager : Pager) (a b : Nat) (p q : Page) (h : a ≠ b) :
    (pager.store a p).store b q = (pager.store b q).store a p := by
  unfold Pager.store
  simp only [Pager.mk.injEq, true_and, and_true]
  funext i
  by_cases h1 : i = a
  · by_cases h2 : i = b
    · omega
    · simp [h1, h]
  · by_cases h2 : i = b
    · simp [h2, Ne.symm h]
    · simp [h1, h2]

theorem serialize_row_inside (row : Row) (p q : Page) (d b : Nat) (hb : b < ROW_SIZE) :
    serialize_row row p d (d + b) = serialize_row row q 0 b := by
  rw [ROW_SIZE_eq] at hb
  unfold serialize_row
  simp only [ID_OFFSET_eq, USERNAME_OFFSET_eq, EMAIL_OFFSET_eq, USERNAME_SIZE_eq, EMAIL_SIZE_eq,
    Nat.add_zero, Nat.zero_add]
  by_cases h1 : b < 4
  · rw [memcpy_from_outside _ _ _ _ _ (by omega), memcpy_from_outside _ _ _ _ _ (by omega),
      memcpy_from_outside _ _ _ _ _ (by omega), memcpy_from_outside _ _ _ _ _ (by omega)]
    unfold write_u32
    rw [if_pos (by omega), if_pos (by omega)]
    have e : d + b - d = b - 0 := by omega
    rw [e]
  · by_cases h2 : b < 37
    · rw [memcpy_from_outside _ _ _ _ _ (by omega),
        memcpy_from_inside _ _ _ _ _ (by omega) (by omega),
        memcpy_from_outside _ _ _ _ _ (by omega),
        memcpy_from_inside _ _ _ _ _ (by omega) (by omega)]
      have e : d + b - (d + 4) = b - 4 := by omega
      rw [e]
    · rw [memcpy_from_inside _ _ _ _ _ (by omega) (by omega),
        memcpy_from_inside _ _ _ _ _ (by omega) (by omega)]
      have e : d + b - (d + 37) = b - 37 := by omega
      rw [e]

/-- The write of one loop iteration into cell `d` of the destination page
`n`, reading the old page `old1` where it still agrees with `node`. -/
theorem split_write_spec (c : Nat) (row : Row) (node old1 n : Page) (d i : Nat)
    (hc : c ≤ 13) (hd : d ≤ 6) (hi : i ≤ 13)
    (hsrc : ∀ s, s ≤ i → s ≤ 12 → ∀ b, b < 297 →
      old1 (leaf_node_cell s + b) = node (leaf_node_cell s + b)) :
    split_cell c row node
      (if i = c then serialize_row row n (leaf_node_cell d)
       else if i > c then
         memcpy n (leaf_node_cell d) old1 (leaf_node_cell (i - 1)) LEAF_NODE_CELL_SIZE
       else memcpy n (leaf_node_cell d) old1 (leaf_node_cell i) LEAF_NODE_CELL_SIZE) d i ∧
    ∀ j, j < 10 + 297 * d ∨ 10 + 297 * (d + 1) ≤ j →
      (if i = c then serialize_row row n (leaf_node_cell d)
       else if i > c then
         memcpy n (leaf_node_cell d) old1 (leaf_node_cell (i - 1)) LEAF_NODE_CELL_SIZE
       else memcpy n (leaf_node_cell d) old1 (leaf_node_cell i) LEAF_NODE_CELL_SIZE) j = n j := by
  have hcd := leaf_node_cell_eq d (by omega)
  by_cases h1 : i = c
  · simp only [if_pos h1]
    refine ⟨⟨fun _ b hb => serialize_row_inside row n _ _ b hb, fun h => absurd h (by omega),
      fun h => absurd h (by omega)⟩, ?_⟩
    intro j hj
    exact serialize_row_outside _ _ _ _ (by rw [hcd, ROW_SIZE_eq]; omega)
  · by_cases h2 : i > c
    · simp only [if_neg h1, if_pos h2, LEAF_NODE_CELL_SIZE_eq]
      refine ⟨⟨fun h => absurd h h1, fun _ b hb => ?_, fun h => absurd h (by omega)⟩, ?_⟩
      · rw [LEAF_NODE_CELL_SIZE_eq] at hb
        rw [memcpy_inside _ _ _ _ _ _ (by omega) (by omega)]
        have e : leaf_node_cell d + b - leaf_node_cell d = b := by omega
        rw [e]
        exact hsrc (i - 1) (by omega) (by omega) b hb
      · intro j hj
        exact memcpy_outside _ _ _ _ _ _ (by rw [hcd]; omega)
    · simp only [if_neg h1, if_neg h2, LEAF_NODE_CELL_SIZE_eq]
      refine ⟨⟨fun h => absurd h h1, fun h => absurd h h2, fun _ b hb => ?_⟩, ?_⟩
      · rw [LEAF_NODE_CELL_SIZE_eq] at hb
        rw [memcpy_inside _ _ _ _ _ _ (by omega) (by omega)]
        have e : leaf_node_cell d + b - leaf_node_cell d = b := by omega
        rw [e]
        exact hsrc i (by omega) (by omega) b hb
      · intro j hj
        exact memcpy_outside _ _ _ _ _ _ (by rw [hcd]; omega)

theorem leaf_node_split_step_eq (c : Nat) (row : Row) (r N i : Nat) (pager : Pager) :
    leaf_node_split_step c row r N i pager =
      pager.modify (if i ≥ 7 then N else r) (fun n =>
        if i = c then serialize_row row n (leaf_node_cell (i % 7))
        else if i > c then
          memcpy n (leaf_node_cell (i % 7)) (pager.node r) (leaf_node_cell (i - 1))
            LEAF_NODE_CELL_SIZE
        else memcpy n (leaf_node_cell (i % 7)) (pager.node r) (leaf_node_cell i)
          LEAF_NODE_CELL_SIZE) := by
  unfold leaf_node_split_step
  simp only [LEAF_NODE_LEFT_SPLIT_COUNT_eq]
  split_ifs <;> rfl

theorem split_cell_frame (c : Nat) (row : Row) (node p q : Page) (d i : Nat) (hd : d ≤ 13)
    (h : split_cell c row node p d i)
    (hpq : ∀ j, 10 + 297 * d ≤ j → j < 10 + 297 * (d + 1) → q j = p j) :
    split_cell c row node q d i := by
  have hcd := leaf_node_cell_eq d (by omega)
  obtain ⟨h1, h2, h3⟩ := h
  refine ⟨fun hi b hb => ?_, fun hi b hb => ?_, fun hi b hb => ?_⟩
  · rw [hpq _ (by rw [hcd]; omega) (by rw [hcd, ROW_SIZE_eq] at *; omega)]
    exact h1 hi b hb
  · rw [hpq _ (by rw [hcd]; omega) (by rw [hcd, LEAF_NODE_CELL_SIZE_eq] at *; omega)]
    exact h2 hi b hb
  · rw [hpq _ (by rw [hcd]; omega) (by rw [hcd, LEAF_NODE_CELL_SIZE_eq] at *; omega)]
    exact h3 hi b hb

/-- The loop of `leaf_node_split_and_insert` on two distinct resident pages:
started with `k` iterations to go on pages that hold the result of the
iterations already made, it ends with the cells `0..6` of the old page and of
the new page filled from the combined sequence and every other byte of both
pages as it was. -/
theorem leaf_node_split_loop_spec (c : Nat) (row : Row) (r N : Nat) (node N0 : Page)
    (hrN : r ≠ N) (hc : c ≤ 13) :
    ∀ k, k ≤ 14 → ∀ (pager : Pager) (old1 new1 : Page),
      pager.pages r = some old1 → pager.pages N = some new1 →
      (∀ j, j < 10 + 297 * k ∨ 2089 ≤ j → old1 j = node j) →
      (∀ i, k ≤ i → i < 7 → split_cell c row node old1 i i) →
      (∀ j, j < 10 + 297 * (k - 7) ∨ 2089 ≤ j → new1 j = N0 j) →
      (∀ i, k ≤ i → 7 ≤ i → i < 14 → split_cell c row node new1 (i - 7) i) →
      ∃ old2 new2,
        leaf_node_split_loop c row r N k pager = (pager.store r old2).store N new2 ∧
        (∀ j, j < 10 ∨ 2089 ≤ j → old2 j = node j) ∧
        (∀ i, i < 7 → split_cell c row node old2 i i) ∧
        (∀ j, j < 10 ∨ 2089 ≤ j → new2 j = N0 j) ∧
        (∀ i, 7 ≤ i → i < 14 → split_cell c row node new2 (i - 7) i) := by
  intro k
  induction k with
  | zero =>
    intro _ pager old1 new1 ho hn hfo hco hfn hcn
    refine ⟨old1, new1, ?_, fun j hj => hfo j (by omega), fun i hi => hco i (by omega) hi,
      fun j hj => hfn j (by omega), fun i h1 h2 => hcn i (by omega) h1 h2⟩
    unfold leaf_node_split_loop
    rw [Pager.store_self pager r old1 ho,
      Pager.store_self pager N new1 hn]
  | succ i ih =>
    intro hk pager old1 new1 ho hn hfo hco hfn hcn
    unfold leaf_node_split_loop
    rw [leaf_node_split_step_eq, Pager.node_of_pages pager r old1 ho]
    by_cases h7 : i ≥ 7
    · -- the destination is the new page
      have hmod : i % 7 = i - 7 := by omega
      rw [if_pos h7, hmod, Pager.modify_eq pager N _ new1 hn]
      obtain ⟨hcell, hframe⟩ := split_write_spec c row node old1 new1 (i - 7) i hc (by omega)
        (by omega) (fun s _ hs b hb => hfo _ (by
          rw [leaf_node_cell_eq s (by omega)]; omega))
      generalize (if i = c then serialize_row row new1 (leaf_node_cell (i - 7))
        else if i > c then
          memcpy new1 (leaf_node_cell (i - 7)) old1 (leaf_node_cell (i - 1)) LEAF_NODE_CELL_SIZE
        else memcpy new1 (leaf_node_cell (i - 7)) old1 (leaf_node_cell i) LEAF_NODE_CELL_SIZE)
        = new1b at hcell hframe
      obtain ⟨old2, new2, heq, p1, p2, p3, p4⟩ := ih (by omega) (pager.store N new1b) old1 new1b
        (by rw [Pager.store_pages_other _ _ _ _ hrN]; exact ho)
        (Pager.store_pages_same _ _ _)
        (fun j hj => hfo j (by omega))
        (fun i' h1 h2 => absurd h2 (by omega))
        (fun j hj => by rw [hframe j (by omega)]; exact hfn j (by omega))
        (fun i' h1 h2 h3 => by
          by_cases he : i' = i
          · rw [he]; exact hcell
          · exact split_cell_frame c row node new1 new1b (i' - 7) i' (by omega)
              (hcn i' (by omega) h2 h3) (fun j hj1 hj2 => hframe j (by omega)))
      refine ⟨old2, new2, ?_, p1, p2, p3, p4⟩
      rw [heq, Pager.store_comm _ N r _ _ (Ne.symm hrN), Pager.store_store]
    · -- the destination is the old page
      have hmod : i % 7 = i := by omega
      rw [if_neg h7, hmod, Pager.modify_eq pager r _ old1 ho]
      obtain ⟨hcell, hframe⟩ := split_write_spec c row node old1 old1 i i hc (by omega)
        (by omega) (fun s hs _ b hb => hfo _ (by
          rw [leaf_node_cell_eq s (by omega)]; omega))
      generalize (if i = c then serialize_row row old1 (leaf_node_cell i)
        else if i > c then
          memcpy old1 (leaf_node_cell i) old1 (leaf_node_cell (i - 1)) LEAF_NODE_CELL_SIZE
        else memcpy old1 (leaf_node_cell i) old1 (leaf_node_cell i) LEAF_NODE_CELL_SIZE)
        = old1b at hcell hframe
      obtain ⟨old2, new2, heq, p1, p2, p3, p4⟩ := ih (by omega) (pager.store r old1b) old1b new1
        (Pager.store_pages_same _ _ _)
        (by rw [Pager.store_pages_other _ _ _ _ (Ne.symm hrN)]; exact hn)
        (fun j hj => by rw [hframe j (by omega)]; exact hfo j (by omega))
        (fun i' h1 h2 => by
          by_cases he : i' = i
          · rw [he]; exact hcell
          · exact split_cell_frame c row node old1 old1b i' i' (by omega)
              (hco i' (by omega) h2) (fun j hj1 hj2 => hframe j (by omega)))
        (fun j hj => hfn j (by omega))
        (fun i' h1 h2 h3 => hcn i' (by omega) h2 h3)
      refine ⟨old2, new2, ?_, p1, p2, p3, p4⟩
      rw [heq, Pager.store_store]


/-! ## The split of a root leaf -/

/-- An access to a page that is not resident and lies at or above
`num_pages` makes it resident and moves `num_pages` just past it. -/
theorem get_page_alloc (pager : Pager) (n : Nat) (hn : n ≤ TABLE_MAX_PAGES)
    (hnone : pager.pages n = none) (hnum : pager.num_pages ≤ n) :
    ∃ P page, get_page pager n = some (P, page) ∧ P.pages n = some page ∧
      (∀ i, i ≠ n → P.pages i = pager.pages i) ∧ P.num_pages = n + 1 := by
  unfold get_page
  rw [if_neg (by omega), hnone]
  simp only
  rw [if_pos (by rw [Pager.store_num_pages]; exact hnum)]
  exact ⟨_, _, rfl, Pager.store_pages_same _ _ _,
    fun i hi => Pager.store_pages_other _ _ _ _ hi, rfl⟩

theorem get_page_fatal (pager : Pager) (n : Nat) (hn : TABLE_MAX_PAGES < n) :
    get_page pager n = none := by
  unfold get_page
  rw [if_pos hn]

theorem internal_node_child_zero (p : Page) (h : internal_node_num_keys p = 1) :
    internal_node_child p 0 = some (internal_node_cell 0) := by
  unfold internal_node_child
  simp [h]

theorem create_new_root_spec (P : Pager) (r N : Nat) (oldp newp : Page)
    (hr : r ≤ TABLE_MAX_PAGES) (hN : N ≤ TABLE_MAX_PAGES) (hrN : r ≠ N)
    (hPr : P.pages r = some oldp) (hPN : P.pages N = some newp)
    (hfresh : P.fresh_above) (hcap : P.num_pages ≤ TABLE_MAX_PAGES) :
    ∃ P1 pageL, create_new_root { pager := P, root_page_num := r } N
        = some { pager := P1, root_page_num := r } ∧
      P1.num_pages = P.num_pages + 1 ∧
      P1.pages r = some (set_internal_node_right_child (write_u32 (write_u32
          (set_internal_node_num_keys (set_node_root (initialize_internal_node oldp) true) 1)
          (internal_node_cell 0) P.num_pages) (internal_node_key 0)
          (get_node_max_key (set_node_root (memcpy pageL 0 oldp 0 PAGE_SIZE) false))) N) ∧
      P1.pages N = some newp ∧
      P1.pages P.num_pages = some (set_node_root (memcpy pageL 0 oldp 0 PAGE_SIZE) false) ∧
      (∀ i, i ≠ r → i ≠ N → i ≠ P.num_pages → P1.pages i = P.pages i) := by
  have hrL : r ≠ P.num_pages := by
    intro h
    have := hfresh r (by omega)
    rw [hPr] at this
    exact absurd this (by simp)
  have hNL : N ≠ P.num_pages := by
    intro h
    have := hfresh N (by omega)
    rw [hPN] at this
    exact absurd this (by simp)
  obtain ⟨P3, pageL, hget, h3a, h3b, h3c⟩ := get_page_alloc P P.num_pages hcap
    (hfresh _ (le_refl _)) (le_refl _)
  have h3r : P3.pages r = some oldp := by rw [h3b r hrL]; exact hPr
  unfold create_new_root
  simp only [get_page_resident P r oldp hPr hr, get_page_resident P N newp hPN hN,
    get_unused_page_num, hget]
  rw [Pager.modify_eq P3 _ _ pageL h3a, Pager.node_of_pages P3 r oldp h3r, Pager.modify_store]
  have e1 : ∀ (X : Page) (f : Page → Page),
      ((P3.store P.num_pages X).modify r f) = (P3.store P.num_pages X).store r (f oldp) := by
    intro X f
    apply Pager.modify_eq
    rw [Pager.store_pages_other _ _ _ _ hrL]
    exact h3r
  rw [e1]
  simp only [Pager.modify_store, Pager.store_node_same]
  rw [internal_node_child_zero _ (by
    unfold internal_node_num_keys set_internal_node_num_keys
    rw [write_u32_same]; rfl)]
  simp only [Pager.modify_store, Pager.store_node_same,
    Pager.store_node_other _ _ _ _ (Ne.symm hrL)]
  refine ⟨_, pageL, rfl, ?_, Pager.store_pages_same _ _ _, ?_, ?_, ?_⟩
  · rw [Pager.store_num_pages, Pager.store_num_pages, h3c]
  · rw [Pager.store_pages_other _ _ _ _ hrN.symm, Pager.store_pages_other _ _ _ _ hNL,
      h3b N hNL]
    exact hPN
  · rw [Pager.store_pages_other _ _ _ _ hrL.symm, Pager.store_pages_same]
  · intro i h1 h2 h3
    rw [Pager.store_pages_other _ _ _ _ h1, Pager.store_pages_other _ _ _ _ h3, h3b i h3]

theorem create_new_root_fatal (P : Pager) (r N : Nat) (oldp newp : Page)
    (hr : r ≤ TABLE_MAX_PAGES) (hN : N ≤ TABLE_MAX_PAGES)
    (hPr : P.pages r = some oldp) (hPN : P.pages N = some newp)
    (hcap : TABLE_MAX_PAGES < P.num_pages) :
    create_new_root { pager := P, root_page_num := r } N = none := by
  unfold create_new_root
  simp only [get_page_resident P r oldp hPr hr, get_page_resident P N newp hPN hN,
    get_unused_page_num, get_page_fatal P _ hcap]

/-! ### The pages of the new root and of the left child -/

theorem new_root_page_spec (oldp : Page) (L K N : Nat) (hL : L < U32) (hK : K < U32)
    (hN : N < U32) :
    get_node_type (set_internal_node_right_child (write_u32 (write_u32
      (set_internal_node_num_keys (set_node_root (initialize_internal_node oldp) true) 1)
      (internal_node_cell 0) L) (internal_node_key 0) K) N) = NODE_INTERNAL ∧
    is_node_root (set_internal_node_right_child (write_u32 (write_u32
      (set_internal_node_num_keys (set_node_root (initialize_internal_node oldp) true) 1)
      (internal_node_cell 0) L) (internal_node_key 0) K) N) = true ∧
    internal_node_num_keys (set_internal_node_right_child (write_u32 (write_u32
      (set_internal_node_num_keys (set_node_root (initialize_internal_node oldp) true) 1)
      (internal_node_cell 0) L) (internal_node_key 0) K) N) = 1 ∧
    read_u32 (set_internal_node_right_child (write_u32 (write_u32
      (set_internal_node_num_keys (set_node_root (initialize_internal_node oldp) true) 1)
      (internal_node_cell 0) L) (internal_node_key 0) K) N) (internal_node_cell 0) = L ∧
    internal_node_right_child (set_internal_node_right_child (write_u32 (write_u32
      (set_internal_node_num_keys (set_node_root (initialize_internal_node oldp) true) 1)
      (internal_node_cell 0) L) (internal_node_key 0) K) N) = N ∧
    read_u32 (set_internal_node_right_child (write_u32 (write_u32
      (set_internal_node_num_keys (set_node_root (initialize_internal_node oldp) true) 1)
      (internal_node_cell 0) L) (internal_node_key 0) K) N) (internal_node_key 0) = K := by
  have c0 : internal_node_cell 0 = 14 := rfl
  have k0 : internal_node_key 0 = 30 := rfl
  rw [U32_eq] at hL hK hN
  simp only [c0, k0, set_internal_node_right_child, set_internal_node_num_keys,
    INTERNAL_NODE_RIGHT_CHILD_OFFSET_eq, INTERNAL_NODE_NUM_KEYS_OFFSET_eq,
    internal_node_right_child, internal_node_num_keys]
  refine ⟨?_, ?_, ?_, ?_, ?_, ?_⟩
  · unfold get_node_type read_u8
    rw [NODE_TYPE_OFFSET_eq, write_u32_outside _ _ _ _ (by omega),
      write_u32_outside _ _ _ _ (by omega), write_u32_outside _ _ _ _ (by omega),
      write_u32_outside _ _ _ _ (by omega)]
    unfold set_node_root
    rw [IS_ROOT_OFFSET_eq, write_u8_outside _ _ _ _ (by omega)]
    unfold initialize_internal_node set_internal_node_num_keys set_node_root
    rw [INTERNAL_NODE_NUM_KEYS_OFFSET_eq, IS_ROOT_OFFSET_eq, write_u32_outside _ _ _ _ (by omega),
      write_u8_outside _ _ _ _ (by omega)]
    unfold set_node_type write_u8
    simp [NODE_TYPE_OFFSET_eq, NODE_INTERNAL_eq]
  · unfold is_node_root read_u8
    rw [IS_ROOT_OFFSET_eq, write_u32_outside _ _ _ _ (by omega),
      write_u32_outside _ _ _ _ (by omega), write_u32_outside _ _ _ _ (by omega),
      write_u32_outside _ _ _ _ (by omega)]
    unfold set_node_root write_u8
    simp [IS_ROOT_OFFSET_eq]
  · rw [write_u32_other _ _ _ _ (by omega), write_u32_other _ _ _ _ (by omega),
      write_u32_other _ _ _ _ (by omega), write_u32_same]
    rfl
  · rw [write_u32_other _ _ _ _ (by omega), write_u32_other _ _ _ _ (by omega),
      write_u32_same, U32_eq, Nat.mod_eq_of_lt hL]
  · rw [write_u32_same, U32_eq, Nat.mod_eq_of_lt hN]
  · rw [write_u32_other _ _ _ _ (by omega), write_u32_same, U32_eq, Nat.mod_eq_of_lt hK]

theorem left_child_page_spec (pageL oldp : Page) :
    (∀ j, j < PAGE_SIZE → j ≠ 1 →
      set_node_root (memcpy pageL 0 oldp 0 PAGE_SIZE) false j = oldp j) ∧
    is_node_root (set_node_root (memcpy pageL 0 oldp 0 PAGE_SIZE) false) = false := by
  constructor
  · intro j hj hj1
    unfold set_node_root
    rw [IS_ROOT_OFFSET_eq, write_u8_outside _ _ _ _ hj1,
      memcpy_inside _ _ _ _ _ _ (by omega) (by omega)]
    exact congrArg oldp (by omega)
  · unfold is_node_root read_u8 set_node_root write_u8
    simp [IS_ROOT_OFFSET_eq]

theorem get_node_max_key_lt (p : Page) : get_node_max_key p < U32 := by
  unfold get_node_max_key
  split_ifs
  · exact read_u32_lt _ _
  · exact read_u32_lt _ _
  · rw [U32_eq]; omega


/-! ### The split, end to end -/

theorem resident_below_num_pages (pg : Pager) (r : Nat) (node : Page)
    (hres : pg.pages r = some node) (hfresh : pg.fresh_above) : r < pg.num_pages := by
  by_contra h
  have := hfresh r (by omega)
  rw [hres] at this
  exact absurd this (by simp)

/-- The insertion into a full resident root leaf, when the pager has two
page numbers left: the root splits. -/
theorem leaf_node_insert_split (pg : Pager) (r c key : Nat) (node : Page) (row : Row)
    (eot : Bool) (hres : pg.pages r = some node) (hr : r ≤ TABLE_MAX_PAGES)
    (hfresh : pg.fresh_above) (htype : get_node_type node = NODE_LEAF)
    (hn : leaf_node_num_cells node = 13) (hc : c ≤ 13)
    (hroot : is_node_root node = true)
    (hcap : pg.num_pages + 1 ≤ TABLE_MAX_PAGES) :
    ∃ t1, leaf_node_insert { pager := pg, root_page_num := r }
        { page_num := r, cell_num := c, end_of_table := eot } key row = some t1 ∧
      split_result pg r node c row t1 := by
  have hrlt := resident_below_num_pages pg r node hres hfresh
  have hrN : r ≠ pg.num_pages := by omega
  obtain ⟨P2, page0, hget, h2a, h2b, h2c⟩ := get_page_alloc pg pg.num_pages (by omega)
    (hfresh _ (le_refl _)) (le_refl _)
  have h2r : P2.pages r = some node := by rw [h2b r hrN]; exact hres
  -- the loop
  obtain ⟨old2, new2, hloop, hfo, hco, hfn, hcn⟩ :=
    leaf_node_split_loop_spec c row r pg.num_pages node (initialize_leaf_node page0) hrN hc 14
      (le_refl _) (P2.store pg.num_pages (initialize_leaf_node page0)) node
      (initialize_leaf_node page0)
      (by rw [Pager.store_pages_other _ _ _ _ hrN]; exact h2r)
      (Pager.store_pages_same _ _ _) (fun _ _ => rfl) (fun i h1 h2 => absurd h2 (by omega))
      (fun _ _ => rfl) (fun i h1 _ h3 => absurd h3 (by omega))
  have hmax : LEAF_NODE_MAX_CELLS + 1 = 14 := rfl
  -- the pager before `create_new_root`
  have hP6r : (((P2.store pg.num_pages (initialize_leaf_node page0)).store r old2).store
      pg.num_pages new2).pages r = some old2 := by
    rw [Pager.store_pages_other _ _ _ _ hrN, Pager.store_pages_same]
  have hold3 : is_node_root (set_leaf_node_num_cells old2 LEAF_NODE_LEFT_SPLIT_COUNT) = true := by
    rw [← hroot]
    unfold is_node_root read_u8 set_leaf_node_num_cells
    rw [IS_ROOT_OFFSET_eq, LEAF_NODE_NUM_CELLS_OFFSET_eq, write_u32_outside _ _ _ _ (by omega),
      hfo 1 (by omega)]
  obtain ⟨P7, pageL, hroot7, h7n, h7r, h7N, h7L, h7o⟩ := create_new_root_spec
    ((((P2.store pg.num_pages (initialize_leaf_node page0)).store r old2).store
      pg.num_pages new2).store r (set_leaf_node_num_cells old2 LEAF_NODE_LEFT_SPLIT_COUNT)
      |>.store pg.num_pages (set_leaf_node_num_cells new2 LEAF_NODE_RIGHT_SPLIT_COUNT))
    r pg.num_pages (set_leaf_node_num_cells old2 LEAF_NODE_LEFT_SPLIT_COUNT)
    (set_leaf_node_num_cells new2 LEAF_NODE_RIGHT_SPLIT_COUNT) hr (by omega) hrN
    (by rw [Pager.store_pages_other _ _ _ _ hrN, Pager.store_pages_same])
    (Pager.store_pages_same _ _ _)
    (by
      intro i hi
      simp only [Pager.store_num_pages, h2c] at hi
      rw [Pager.store_pages_other _ _ _ _ (by omega), Pager.store_pages_other _ _ _ _ (by omega),
        Pager.store_pages_other _ _ _ _ (by omega), Pager.store_pages_other _ _ _ _ (by omega),
        Pager.store_pages_other _ _ _ _ (by omega), h2b i (by omega)]
      exact hfresh i (by omega))
    (by simp only [Pager.store_num_pages, h2c]; omega)
  simp only [Pager.store_num_pages, h2c] at h7n h7r h7L h7o
  refine ⟨{ pager := P7, root_page_num := r }, ?_, rfl, by rw [h7n], ?_, ?_⟩
  · unfold leaf_node_insert
    simp only [get_page_resident pg r node hres hr, hn, LEAF_NODE_MAX_CELLS_eq, ge_iff_le,
      le_refl, if_true]
    unfold leaf_node_split_and_insert
    simp only [get_page_resident pg r node hres hr, get_unused_page_num, hget, hmax]
    rw [Pager.modify_eq P2 _ _ page0 h2a, hloop, Pager.modify_eq _ r _ old2 hP6r,
      Pager.modify_eq _ pg.num_pages _ new2 (by
        rw [Pager.store_pages_other _ _ _ _ (Ne.symm hrN), Pager.store_pages_same]),
      Pager.store_node_other _ _ _ _ hrN, Pager.store_node_same, hold3, if_pos rfl]
    exact hroot7
  · intro i h1 h2 h3
    show P7.pages i = pg.pages i
    rw [h7o i h1 h2 h3, Pager.store_pages_other _ _ _ _ h2, Pager.store_pages_other _ _ _ _ h1,
      Pager.store_pages_other _ _ _ _ h2, Pager.store_pages_other _ _ _ _ h1,
      Pager.store_pages_other _ _ _ _ h2, h2b i h2]
  · obtain ⟨hleft, hleftroot⟩ := left_child_page_spec pageL
      (set_leaf_node_num_cells old2 LEAF_NODE_LEFT_SPLIT_COUNT)
    obtain ⟨q1, q2, q3, q4, q5, q6⟩ := new_root_page_spec
      (set_leaf_node_num_cells old2 LEAF_NODE_LEFT_SPLIT_COUNT) (pg.num_pages + 1)
      (get_node_max_key (set_node_root (memcpy pageL 0
        (set_leaf_node_num_cells old2 LEAF_NODE_LEFT_SPLIT_COUNT) 0 PAGE_SIZE) false))
      pg.num_pages (by rw [U32_eq]; rw [TABLE_MAX_PAGES_eq] at hcap; omega)
      (get_node_max_key_lt _) (by rw [U32_eq]; rw [TABLE_MAX_PAGES_eq] at hcap; omega)
    refine ⟨_, _, _, h7r, h7N, h7L, q1, q2, q3, q4, q5, q6, ?_, hleftroot, ?_, ?_, ?_, ?_, ?_⟩
    · -- type of the left child
      unfold get_node_type read_u8 at htype ⊢
      rw [NODE_TYPE_OFFSET_eq] at htype ⊢
      rw [hleft 0 (by rw [PAGE_SIZE_eq]; omega) (by omega)]
      unfold set_leaf_node_num_cells
      rw [LEAF_NODE_NUM_CELLS_OFFSET_eq, write_u32_outside _ _ _ _ (by omega), hfo 0 (by omega)]
      exact htype
    · -- count of the left child
      unfold leaf_node_num_cells
      rw [LEAF_NODE_NUM_CELLS_OFFSET_eq,
        read_u32_congr _ (set_leaf_node_num_cells old2 LEAF_NODE_LEFT_SPLIT_COUNT) 6 6
          (fun k hk => hleft _ (by rw [PAGE_SIZE_eq]; omega) (by omega))]
      unfold set_leaf_node_num_cells
      rw [LEAF_NODE_NUM_CELLS_OFFSET_eq, write_u32_same]
      rfl
    · -- type of the right child
      unfold get_node_type read_u8 set_leaf_node_num_cells
      rw [NODE_TYPE_OFFSET_eq, LEAF_NODE_NUM_CELLS_OFFSET_eq,
        write_u32_outside _ _ _ _ (by omega), hfn 0 (by omega)]
      unfold initialize_leaf_node set_leaf_node_num_cells
      rw [LEAF_NODE_NUM_CELLS_OFFSET_eq, write_u32_outside _ _ _ _ (by omega)]
      unfold set_node_type write_u8
      simp [NODE_TYPE_OFFSET_eq, NODE_LEAF_eq]
    · -- count of the right child
      unfold leaf_node_num_cells set_leaf_node_num_cells
      rw [write_u32_same]
      rfl
    · -- cells of the left child
      intro i hi
      apply split_cell_frame c row node old2 _ i i (by omega) (hco i hi)
      intro j hj1 hj2
      rw [hleft j (by rw [PAGE_SIZE_eq]; omega) (by omega)]
      unfold set_leaf_node_num_cells
      rw [LEAF_NODE_NUM_CELLS_OFFSET_eq, write_u32_outside _ _ _ _ (by omega)]
    · -- cells of the right child
      intro i hi1 hi2
      apply split_cell_frame c row node new2 _ (i - 7) i (by omega) (hcn i hi1 hi2)
      intro j hj1 hj2
      unfold set_leaf_node_num_cells
      rw [LEAF_NODE_NUM_CELLS_OFFSET_eq, write_u32_outside _ _ _ _ (by omega)]

/-- The insertion into a full resident leaf ends the process when the pager
has fewer than two page numbers left or the leaf is not marked as root. -/
theorem leaf_node_insert_split_fatal (pg : Pager) (r c key : Nat) (node : Page) (row : Row)
    (eot : Bool) (hres : pg.pages r = some node) (hr : r ≤ TABLE_MAX_PAGES)
    (hfresh : pg.fresh_above)
    (hn : leaf_node_num_cells node = 13) (hc : c ≤ 13)
    (hcap : TABLE_MAX_PAGES < pg.num_pages + 1 ∨ is_node_root node = false) :
    leaf_node_insert { pager := pg, root_page_num := r }
        { page_num := r, cell_num := c, end_of_table := eot } key row = none := by
  have hrlt := resident_below_num_pages pg r node hres hfresh
  have hrN : r ≠ pg.num_pages := by omega
  unfold leaf_node_insert
  simp only [get_page_resident pg r node hres hr, hn, LEAF_NODE_MAX_CELLS_eq, ge_iff_le,
    le_refl, if_true]
  unfold leaf_node_split_and_insert
  simp only [get_page_resident pg r node hres hr, get_unused_page_num]
  by_cases h100 : pg.num_pages ≤ TABLE_MAX_PAGES
  · obtain ⟨P2, page0, hget, h2a, h2b, h2c⟩ := get_page_alloc pg pg.num_pages h100
      (hfresh _ (le_refl _)) (le_refl _)
    have h2r : P2.pages r = some node := by rw [h2b r hrN]; exact hres
    obtain ⟨old2, new2, hloop, hfo, -⟩ :=
      leaf_node_split_loop_spec c row r pg.num_pages node (initialize_leaf_node page0) hrN hc 14
        (le_refl _) (P2.store pg.num_pages (initialize_leaf_node page0)) node
        (initialize_leaf_node page0)
        (by rw [Pager.store_pages_other _ _ _ _ hrN]; exact h2r)
        (Pager.store_pages_same _ _ _) (fun _ _ => rfl) (fun i h1 h2 => absurd h2 (by omega))
        (fun _ _ => rfl) (fun i h1 _ h3 => absurd h3 (by omega))
    have hmax : LEAF_NODE_MAX_CELLS + 1 = 14 := rfl
    have hP6r : (((P2.store pg.num_pages (initialize_leaf_node page0)).store r old2).store
        pg.num_pages new2).pages r = some old2 := by
      rw [Pager.store_pages_other _ _ _ _ hrN, Pager.store_pages_same]
    have hold3 : is_node_root (set_leaf_node_num_cells old2 LEAF_NODE_LEFT_SPLIT_COUNT)
        = is_node_root node := by
      unfold is_node_root read_u8 set_leaf_node_num_cells
      rw [IS_ROOT_OFFSET_eq, LEAF_NODE_NUM_CELLS_OFFSET_eq, write_u32_outside _ _ _ _ (by omega),
        hfo 1 (by omega)]
    simp only [hget, hmax]
    rw [Pager.modify_eq P2 _ _ page0 h2a, hloop, Pager.modify_eq _ r _ old2 hP6r,
      Pager.modify_eq _ pg.num_pages _ new2 (by
        rw [Pager.store_pages_other _ _ _ _ (Ne.symm hrN), Pager.store_pages_same]),
      Pager.store_node_other _ _ _ _ hrN, Pager.store_node_same, hold3]
    rcases hcap with hcap | hcap
    · split_ifs
      · exact create_new_root_fatal _ r pg.num_pages _ _ hr h100
          (by rw [Pager.store_pages_other _ _ _ _ hrN, Pager.store_pages_same])
          (Pager.store_pages_same _ _ _)
          (by simp only [Pager.store_num_pages, h2c]; omega)
      · rfl
    · rw [hcap]
      rfl
  · rw [get_page_fatal pg _ (by omega)]


/-! ### Keys after the split -/

/-- A strictly ascending sequence stays so when a value is put in at the
position that separates the smaller from the larger entries. -/
theorem insert_ascending (f : Nat → Nat) (n c x : Nat) (hc : c ≤ n)
    (hsorted : ∀ j, j < n → ∀ i, i < j → f i < f j)
    (hlo : ∀ i, i < c → f i < x) (hhi : ∀ i, c ≤ i → i < n → x < f i) :
    ∀ j, j < n + 1 → ∀ i, i < j →
      (if i = c then x else if c < i then f (i - 1) else f i)
        < (if j = c then x else if c < j then f (j - 1) else f j) := by
  intro j hj i hij
  by_cases hj1 : j = c
  · rw [if_pos hj1, if_neg (by omega), if_neg (by omega)]
    exact hlo i (by omega)
  · rw [if_neg hj1]
    by_cases hj2 : c < j
    · rw [if_pos hj2]
      by_cases hi1 : i = c
      · rw [if_pos hi1]
        exact hhi (j - 1) (by omega) (by omega)
      · rw [if_neg hi1]
        by_cases hi2 : c < i
        · rw [if_pos hi2]
          exact hsorted (j - 1) (by omega) (i - 1) (by omega)
        · rw [if_neg hi2]
          exact hsorted (j - 1) (by omega) i (by omega)
    · rw [if_neg hj2, if_neg (by omega), if_neg (by omega)]
      exact hsorted j (by omega) i hij

theorem serialize_row_id (row : Row) (hr : row.valid) (z : Page) :
    read_u32 (serialize_row row z 0) 0 = row.id := by
  have h := deserialize_serialize row hr z 0
  have h2 := congrArg Row.id h
  unfold deserialize_row at h2
  simpa [ID_OFFSET_eq] using h2

/-- The key found in a cell filled by the split loop. -/
theorem split_cell_key (c : Nat) (row : Row) (node page : Page) (d i : Nat)
    (hr : row.valid) (h : split_cell c row node page d i) :
    leaf_node_key page d =
      if i = c then row.id else if c < i then leaf_node_key node (i - 1)
      else leaf_node_key node i := by
  obtain ⟨h1, h2, h3⟩ := h
  by_cases hi1 : i = c
  · rw [if_pos hi1, ← serialize_row_id row hr (fun _ => 0)]
    unfold leaf_node_key
    apply read_u32_congr
    intro k hk
    rw [Nat.zero_add]
    exact h1 hi1 k (by rw [ROW_SIZE_eq]; omega)
  · rw [if_neg hi1]
    by_cases hi2 : c < i
    · rw [if_pos hi2]
      unfold leaf_node_key
      exact read_u32_congr _ _ _ _ (fun k hk => h2 hi2 k (by rw [LEAF_NODE_CELL_SIZE_eq]; omega))
    · rw [if_neg hi2]
      unfold leaf_node_key
      exact read_u32_congr _ _ _ _ (fun k hk =>
        h3 (by omega) k (by rw [LEAF_NODE_CELL_SIZE_eq]; omega))

/-- The keys of the two leaves after the split of the sorted full leaf `node`
at the position `c` that separates the keys below `row.id` from those above:
read left leaf first, they are the old keys with `row.id` at position `c`;
both leaves are sorted, and the largest key of the left leaf is below every
key of the right leaf. -/
theorem split_keys (c : Nat) (row : Row) (node left right : Page) (hr : row.valid)
    (hc : c ≤ 13) (hn : leaf_node_num_cells node = 13)
    (hsorted : ∀ j, j < 13 → ∀ i, i < j → leaf_node_key node i < leaf_node_key node j)
    (hlo : ∀ i, i < c → leaf_node_key node i < row.id)
    (hhi : ∀ i, c ≤ i → i < 13 → row.id < leaf_node_key node i)
    (hnl : leaf_node_num_cells left = 7) (hnr : leaf_node_num_cells right = 7)
    (hl : ∀ i, i < 7 → split_cell c row node left i i)
    (hrt : ∀ i, 7 ≤ i → i < 14 → split_cell c row node right (i - 7) i) :
    leaf_keys left ++ leaf_keys right
      = (leaf_keys node).take c ++ row.id :: (leaf_keys node).drop c ∧
    (∀ j, j < 7 → ∀ i, i < j → leaf_node_key left i < leaf_node_key left j) ∧
    (∀ j, j < 7 → ∀ i, i < j → leaf_node_key right i < leaf_node_key right j) ∧
    (∀ i, i < 7 → leaf_node_key left i ≤ leaf_node_key left 6) ∧
    (∀ i, i < 7 → leaf_node_key left 6 < leaf_node_key right i) := by
  have hasc := insert_ascending (leaf_node_key node) 13 c row.id hc hsorted hlo hhi
  have hkl : ∀ i, i < 7 → leaf_node_key left i =
      if i = c then row.id else if c < i then leaf_node_key node (i - 1)
      else leaf_node_key node i :=
    fun i hi => split_cell_key c row node left i i hr (hl i hi)
  have hkr : ∀ i, i < 7 → leaf_node_key right i =
      if i + 7 = c then row.id else if c < i + 7 then leaf_node_key node (i + 7 - 1)
      else leaf_node_key node (i + 7) := by
    intro i hi
    have := split_cell_key c row node right (i + 7 - 7) (i + 7) hr (hrt (i + 7) (by omega)
      (by omega))
    rw [Nat.add_sub_cancel] at this
    exact this
  refine ⟨?_, ?_, ?_, ?_, ?_⟩
  · have h14 : (List.range (13 + 1)).map
        (fun i => if i < 7 then leaf_node_key left i else leaf_node_key right (i - 7))
        = (leaf_keys node).take c ++ row.id :: (leaf_keys node).drop c := by
      unfold leaf_keys
      rw [hn]
      apply range_map_insert _ _ 13 c row.id hc
      · intro i hi
        show (if i < 7 then leaf_node_key left i else leaf_node_key right (i - 7)) = _
        by_cases h7 : i < 7
        · rw [if_pos h7, hkl i h7, if_neg (by omega), if_neg (by omega)]
        · rw [if_neg h7, hkr (i - 7) (by omega), if_neg (by omega), if_neg (by omega)]
          exact congrArg _ (by omega)
      · show (if c < 7 then leaf_node_key left c else leaf_node_key right (c - 7)) = _
        by_cases h7 : c < 7
        · rw [if_pos h7, hkl c h7, if_pos rfl]
        · rw [if_neg h7, hkr (c - 7) (by omega), if_pos (by omega)]
      · intro i h1 h2
        show (if i + 1 < 7 then leaf_node_key left (i + 1)
          else leaf_node_key right (i + 1 - 7)) = _
        by_cases h7 : i + 1 < 7
        · rw [if_pos h7, hkl (i + 1) h7, if_neg (by omega), if_pos (by omega)]
          rfl
        · rw [if_neg h7, hkr (i + 1 - 7) (by omega), if_neg (by omega), if_pos (by omega)]
          exact congrArg _ (by omega)
    rw [← h14]
    unfold leaf_keys
    rw [hnl, hnr]
    have e : List.range (13 + 1) = List.range 7 ++ (List.range 7).map (fun i => 7 + i) := by
      decide
    rw [e, List.map_append, List.map_map]
    congr 1
  · intro j hj i hij
    rw [hkl i (by omega), hkl j hj]
    exact hasc j (by omega) i hij
  · intro j hj i hij
    rw [hkr i (by omega), hkr j hj]
    exact hasc (j + 7) (by omega) (i + 7) (by omega)
  · intro i hi
    rcases Nat.eq_or_lt_of_le (Nat.lt_succ_iff.mp hi) with h | h
    · rw [h]
    · rw [hkl i hi, hkl 6 (by omega)]
      exact Nat.le_of_lt (hasc 6 (by omega) i h)
  · intro i hi
    rw [hkl 6 (by omega), hkr i hi]
    exact hasc (i + 7) (by omega) 6 (by omega)


/-- The insertion of a new key into a table whose root is a full resident
sorted leaf: with the position `p` the search returns, the root splits when
the pager has two page numbers left, and the process ends when it has not. -/
theorem execute_insert_split (pg : Pager) (r : Nat) (node : Page) (row : Row)
    (hres : pg.pages r = some node) (hr : r ≤ TABLE_MAX_PAGES) (hfresh : pg.fresh_above)
    (hleaf : sorted_leaf node) (hn : leaf_node_num_cells node = 13)
    (hroot : is_node_root node = true)
    (hnew : ∀ i, i < leaf_node_num_cells node → leaf_node_key node i ≠ row.id) :
    ∃ p, p ≤ 13 ∧
      table_find { pager := pg, root_page_num := r } row.id
        = some ({ pager := pg, root_page_num := r },
                { page_num := r, cell_num := p, end_of_table := false }) ∧
      (∀ i, i < p → leaf_node_key node i < row.id) ∧
      (∀ i, p ≤ i → i < 13 → row.id < leaf_node_key node i) ∧
      (pg.num_pages + 1 ≤ TABLE_MAX_PAGES →
        ∃ t1, execute_insert row { pager := pg, root_page_num := r }
            = some (ExecuteResult.EXECUTE_SUCCESS, t1) ∧
          split_result pg r node p row t1) ∧
      (TABLE_MAX_PAGES < pg.num_pages + 1 →
        execute_insert row { pager := pg, root_page_num := r } = none) := by
  obtain ⟨p, hfind, hp, hlo, hhi, hge, hexec⟩ :=
    execute_insert_resident pg r node row hres hr hleaf
  rw [hn] at hp hhi hge
  have hnodup : ¬ (p < leaf_node_num_cells node ∧ leaf_node_key node p = row.id) :=
    fun h => hnew p h.1 h.2
  rw [if_neg hnodup] at hexec
  refine ⟨p, hp, hfind, hlo, ?_, ?_, ?_⟩
  · intro i h1 h2
    rcases Nat.eq_or_lt_of_le h1 with h | h
    · rw [← h]
      have := hge (by omega)
      have := hnew p (by omega)
      omega
    · exact hhi i h h2
  · intro hcap
    obtain ⟨t1, h1, h2⟩ := leaf_node_insert_split pg r p row.id node row false hres hr hfresh
      hleaf.1 hn hp hroot hcap
    exact ⟨t1, by rw [hexec, h1], h2⟩
  · intro hcap
    rw [hexec, leaf_node_insert_split_fatal pg r p row.id node row false hres hr hfresh hn hp
      (Or.inl hcap)]

/-- A full resident leaf that is not marked as root cannot take a new key. -/
theorem execute_insert_nonroot_fatal (pg : Pager) (r : Nat) (node : Page) (row : Row)
    (hres : pg.pages r = some node) (hr : r ≤ TABLE_MAX_PAGES) (hfresh : pg.fresh_above)
    (hleaf : sorted_leaf node) (hn : leaf_node_num_cells node = 13)
    (hroot : is_node_root node = false)
    (hnew : ∀ i, i < leaf_node_num_cells node → leaf_node_key node i ≠ row.id) :
    execute_insert row { pager := pg, root_page_num := r } = none := by
  obtain ⟨p, -, hp, -, -, -, hexec⟩ := execute_insert_resident pg r node row hres hr hleaf
  rw [hn] at hp
  rw [hexec, if_neg (fun h => hnew p h.1 h.2),
    leaf_node_insert_split_fatal pg r p row.id node row false hres hr hfresh hn hp
      (Or.inr hroot)]

theorem get_node_max_key_leaf (p : Page) (h : get_node_type p = NODE_LEAF)
    (hn : leaf_node_num_cells p = 7) : get_node_max_key p = leaf_node_key p 6 := by
  unfold get_node_max_key
  rw [h, hn, if_neg (by decide), if_pos rfl]
  rfl


/-! ## Sessions on a fresh database -/

theorem db_open_empty (heap : Nat → Page) :
    ∃ t0 node, db_open [] heap = some t0 ∧ leaf_state t0 node ∧
      leaf_node_num_cells node = 0 := by
  have hopen : pager_open [] heap = some (Pager.mk [] 0 0 (fun _ => none) heap) := rfl
  obtain ⟨P, page, hget, hP0, hPo, hPn⟩ := get_page_alloc
    (Pager.mk [] 0 0 (fun _ => none) heap) 0 (by decide) rfl (le_refl _)
  have hcount : leaf_node_num_cells (set_node_root (initialize_leaf_node page) true) = 0 := by
    unfold leaf_node_num_cells set_node_root
    rw [LEAF_NODE_NUM_CELLS_OFFSET_eq, IS_ROOT_OFFSET_eq,
      read_u32_congr _ (initialize_leaf_node page) 6 6
        (fun k hk => write_u8_outside _ _ _ _ (by omega))]
    unfold initialize_leaf_node set_leaf_node_num_cells
    rw [LEAF_NODE_NUM_CELLS_OFFSET_eq, write_u32_same]
    rfl
  refine ⟨{ pager := P.store 0 (set_node_root (initialize_leaf_node page) true),
            root_page_num := 0 }, _, ?_, ⟨rfl, Pager.store_pages_same _ _ _, ?_, ?_, ?_, ?_, ?_⟩,
    hcount⟩
  · unfold db_open
    simp only [hopen, if_true, hget]
    rw [Pager.modify_eq P 0 _ page hP0, Pager.modify_store]
  · show P.num_pages = 1
    rw [hPn]
  · intro i hi
    have hi1 : 1 ≤ i := by
      have hi2 : P.num_pages ≤ i := hi
      omega
    rw [Pager.store_pages_other _ _ _ _ (by omega), hPo i (by omega)]
  · refine ⟨?_, ?_, ?_⟩
    · unfold get_node_type read_u8 set_node_root
      rw [NODE_TYPE_OFFSET_eq, IS_ROOT_OFFSET_eq, write_u8_outside _ _ _ _ (by omega)]
      unfold initialize_leaf_node set_leaf_node_num_cells
      rw [LEAF_NODE_NUM_CELLS_OFFSET_eq, write_u32_outside _ _ _ _ (by omega)]
      unfold set_node_type write_u8
      simp [NODE_TYPE_OFFSET_eq, NODE_LEAF_eq]
    · rw [hcount]; exact Nat.zero_le _
    · intro j hj
      rw [hcount] at hj
      omega
  · intro i hi
    rw [hcount] at hi
    omega
  · unfold is_node_root read_u8 set_node_root write_u8
    simp [IS_ROOT_OFFSET_eq]

/-- One insert on a session state before any split. -/
theorem execute_insert_leaf_state (t : Table) (node : Page) (row : Row)
    (hst : leaf_state t node) (hr : row.valid) :
    ((∃ i, i < leaf_node_num_cells node ∧ leaf_node_key node i = row.id) ∧
      execute_insert row t = some (ExecuteResult.EXECUTE_DUPLICATE_KEY, t)) ∨
    ((∀ i, i < leaf_node_num_cells node → leaf_node_key node i ≠ row.id) ∧
      leaf_node_num_cells node < 13 ∧
      ∃ t1 node1, execute_insert row t = some (ExecuteResult.EXECUTE_SUCCESS, t1) ∧
        leaf_state t1 node1 ∧ (leaf_rows node1).Perm (row :: leaf_rows node)) ∨
    ((∀ i, i < leaf_node_num_cells node → leaf_node_key node i ≠ row.id) ∧
      leaf_node_num_cells node = 13 ∧
      ∃ t1, execute_insert row t = some (ExecuteResult.EXECUTE_SUCCESS, t1) ∧
        split_state t1) := by
  obtain ⟨pg, r⟩ := t
  obtain ⟨hr0, hres, hnum, hfresh, hleaf, hmatch, hisroot⟩ := hst
  simp only at hr0 hres hnum hfresh
  subst hr0
  have hn13 : leaf_node_num_cells node ≤ 13 := by
    have := hleaf.2.1
    rwa [LEAF_NODE_MAX_CELLS_eq] at this
  by_cases hdup : ∃ i, i < leaf_node_num_cells node ∧ leaf_node_key node i = row.id
  · left
    refine ⟨hdup, ?_⟩
    obtain ⟨p, -, hp, hlo, hhi, hge, hexec⟩ :=
      execute_insert_resident pg 0 node row hres (by decide) hleaf
    rw [hexec, if_pos]
    obtain ⟨i, hi, hki⟩ := hdup
    have hip : i = p := by
      rcases Nat.lt_trichotomy i p with h | h | h
      · have := hlo i h
        omega
      · exact h
      · have := hhi i h hi
        omega
    subst hip
    exact ⟨hi, hki⟩
  · right
    have hnew : ∀ i, i < leaf_node_num_cells node → leaf_node_key node i ≠ row.id :=
      fun i hi hk => hdup ⟨i, hi, hk⟩
    by_cases hfull : leaf_node_num_cells node = 13
    · right
      refine ⟨hnew, hfull, ?_⟩
      obtain ⟨p, hp, -, hlo, hhi, hok, -⟩ := execute_insert_split pg 0 node row hres (by decide)
        hfresh hleaf hfull hisroot hnew
      obtain ⟨t1, hexec, h1, h2, h3, root1, left, right, q1, q2, q3, q4, q5, q6, q7, q8, q9,
        q10, q11, q12, q13, q14, q15, q16⟩ := hok (by rw [hnum]; decide)
      rw [hnum] at q2 q3 h3
      obtain ⟨-, hsl, hsr, -, -⟩ := split_keys p row node left right hr hp hfull
        (fun j hj i hij => hleaf.2.2 j (by omega) i hij) hlo hhi q12 q14 q15 q16
      refine ⟨t1, hexec, h1, root1, left, right, q1, q2, q3, ?_, q4, q5, q6, ?_, ?_⟩
      · intro i hi
        rw [h3 i (by omega) (by omega) (by omega)]
        exact hfresh i (by rw [hnum]; omega)
      · exact ⟨q10, by rw [q12]; decide, by rw [q12]; exact hsl⟩
      · exact ⟨q13, by rw [q14]; decide, by rw [q14]; exact hsr⟩
    · left
      have hlt : leaf_node_num_cells node < 13 := by omega
      refine ⟨hnew, hlt, ?_⟩
      obtain ⟨p, -, hp, hlo, hhi, hge, hexec⟩ :=
        execute_insert_resident pg 0 node row hres (by decide) hleaf
      rw [if_neg (fun h => hnew p h.1 h.2), leaf_node_insert_nosplit pg 0 p row.id node row
        false hres (by decide) (by rw [LEAF_NODE_MAX_CELLS_eq]; exact hlt)] at hexec
      have hhi2 : ∀ i, p ≤ i → i < leaf_node_num_cells node → row.id < leaf_node_key node i := by
        intro i h1 h2
        rcases Nat.eq_or_lt_of_le h1 with h | h
        · rw [← h]
          have := hge (by omega)
          have := hnew p (by omega)
          omega
        · exact hhi i h h2
      obtain ⟨hsorted1, hmatch1⟩ := leaf_insert_page_sorted node p row hleaf hlt hp hr hlo hhi2
      obtain ⟨hhead, -⟩ := leaf_insert_page_spec node p row hlt hp hr
      obtain ⟨-, hrows⟩ := leaf_insert_page_lists node p row hlt hp hr
      refine ⟨_, leaf_insert_page node p row.id row, hexec, ⟨rfl, Pager.store_pages_same _ _ _,
        hnum, ?_, hsorted1, hmatch1 hmatch, ?_⟩, ?_⟩
      · intro i hi
        have hi1 : 1 ≤ i := by
          have hi2 : pg.num_pages ≤ i := hi
          omega
        rw [Pager.store_pages_other _ _ _ _ (by omega)]
        exact hfresh i (by rw [hnum]; exact hi1)
      · rw [← hisroot]
        unfold is_node_root read_u8
        rw [IS_ROOT_OFFSET_eq, hhead 1 (by omega)]
      · rw [hrows]
        have := @List.perm_middle Row row ((leaf_rows node).take p) ((leaf_rows node).drop p)
        rw [List.take_append_drop] at this
        exact this

/-- No insert returns once the root has split. -/
theorem execute_insert_split_state (t : Table) (row : Row) (hst : split_state t) :
    execute_insert row t = none := by
  obtain ⟨pg, r⟩ := t
  obtain ⟨hr0, root1, left, right, h0, -, -, -, htype, -⟩ := hst
  simp only at hr0 h0
  subst hr0
  unfold execute_insert table_find
  simp only [get_page_resident pg 0 root1 h0 (by decide), htype]
  rfl

/-- The scan of a session state before any split emits the stored rows, in
strictly ascending order of id. -/
theorem execute_select_leaf_state (t : Table) (node : Page) (hst : leaf_state t node) :
    execute_select t = some (t, leaf_rows node) ∧
    (leaf_rows node).Pairwise (fun a b => a.id < b.id) := by
  obtain ⟨pg, r⟩ := t
  obtain ⟨hr0, hres, hnum, hfresh, hleaf, hmatch, hisroot⟩ := hst
  simp only at hr0 hres
  subst hr0
  have hn13 : leaf_node_num_cells node ≤ 13 := by
    have := hleaf.2.1
    rwa [LEAF_NODE_MAX_CELLS_eq] at this
  refine ⟨execute_select_resident pg 0 node hres (by decide) hn13, ?_⟩
  unfold leaf_rows
  rw [List.pairwise_map]
  apply List.Pairwise.imp_of_mem _ (List.pairwise_lt_range _)
  intro a b ha hb hab
  rw [List.mem_range] at ha hb
  rw [hmatch a ha, hmatch b hb]
  exact hleaf.2.2 b hb a hab

/-- The scan after the split reads the internal root page as a leaf: it emits
one row, decoded from the bytes behind the first child pointer. -/
theorem execute_select_split_state (t : Table) (hst : split_state t) :
    ∃ t1 out, execute_select t = some (t1, out) ∧ out.length = 1 := by
  obtain ⟨pg, r⟩ := t
  obtain ⟨hr0, root1, left, right, h0, -, -, -, -, -, hkeys, -⟩ := hst
  simp only at hr0 h0
  subst hr0
  have hcells : leaf_node_num_cells root1 = 1 := hkeys
  refine ⟨_, _, execute_select_resident pg 0 root1 h0 (by decide) (by omega), ?_⟩
  unfold leaf_rows
  rw [hcells]
  rfl


theorem leaf_rows_length (node : Page) : (leaf_rows node).length = leaf_node_num_cells node := by
  simp [leaf_rows]

theorem leaf_rows_ids (node : Page) (hm : rows_match_keys node) :
    (leaf_rows node).map Row.id = leaf_keys node := by
  unfold leaf_rows leaf_keys
  rw [List.map_map]
  apply List.map_congr_left
  intro i hi
  exact hm i (List.mem_range.mp hi)

/-- Every insert of a session keeps the state a leaf state or a split
state. -/
theorem insert_all_state (rows : List Row) (hvalid : ∀ r ∈ rows, r.valid) :
    ∀ t, ((∃ node, leaf_state t node) ∨ split_state t) →
      ∀ rs t1, insert_all rows t = some (rs, t1) →
        ((∃ node, leaf_state t1 node) ∨ split_state t1) := by
  induction rows with
  | nil =>
    intro t hst rs t1 h
    unfold insert_all at h
    simp only [Option.some.injEq, Prod.mk.injEq] at h
    rw [← h.2]
    exact hst
  | cons row rest ih =>
    intro t hst rs t1 h
    have hrow : row.valid := hvalid row (List.mem_cons_self _ _)
    have hrest : ∀ r ∈ rest, r.valid := fun r hr => hvalid r (List.mem_cons_of_mem _ hr)
    unfold insert_all at h
    rcases hst with ⟨node, hleaf⟩ | hsplit
    · rcases execute_insert_leaf_state t node row hleaf hrow with
        ⟨-, he⟩ | ⟨-, -, t2, node2, he, hst2, -⟩ | ⟨-, -, t2, he, hst2⟩
      · rw [he] at h
        simp only at h
        cases hr : insert_all rest t with
        | none => rw [hr] at h; exact absurd h (by simp)
        | some x =>
          obtain ⟨rs2, t3⟩ := x
          rw [hr] at h
          simp only [Option.some.injEq, Prod.mk.injEq] at h
          rw [← h.2]
          exact ih hrest t (Or.inl ⟨node, hleaf⟩) rs2 t3 hr
      · rw [he] at h
        simp only at h
        cases hr : insert_all rest t2 with
        | none => rw [hr] at h; exact absurd h (by simp)
        | some x =>
          obtain ⟨rs2, t3⟩ := x
          rw [hr] at h
          simp only [Option.some.injEq, Prod.mk.injEq] at h
          rw [← h.2]
          exact ih hrest t2 (Or.inl ⟨node2, hst2⟩) rs2 t3 hr
      · rw [he] at h
        simp only at h
        cases hr : insert_all rest t2 with
        | none => rw [hr] at h; exact absurd h (by simp)
        | some x =>
          obtain ⟨rs2, t3⟩ := x
          rw [hr] at h
          simp only [Option.some.injEq, Prod.mk.injEq] at h
          rw [← h.2]
          exact ih hrest t2 (Or.inr hst2) rs2 t3 hr
    · rw [execute_insert_split_state t row hsplit] at h
      exact absurd h (by simp)

/-- In a leaf state and in a split state every resident leaf page is a
sorted leaf. -/
theorem state_leaves_sorted (t : Table)
    (hst : (∃ node, leaf_state t node) ∨ split_state t) (pn : Nat) (page : Page)
    (hpage : t.pager.pages pn = some page) (htype : get_node_type page = NODE_LEAF) :
    sorted_leaf page := by
  rcases hst with ⟨node, -, hres, hnum, hfresh, hleaf, -⟩ |
    ⟨-, root1, left, right, h0, h1, h2, hnone, hroot, -, -, hl, hr⟩
  · by_cases hpn : pn = 0
    · rw [hpn, hres] at hpage
      simp only [Option.some.injEq] at hpage
      rw [← hpage]
      exact hleaf
    · rw [hfresh pn (by rw [hnum]; omega)] at hpage
      exact absurd hpage (by simp)
  · by_cases hpn0 : pn = 0
    · rw [hpn0, h0] at hpage
      simp only [Option.some.injEq] at hpage
      rw [← hpage, hroot] at htype
      exact absurd htype (by decide)
    · by_cases hpn1 : pn = 1
      · rw [hpn1, h1] at hpage
        simp only [Option.some.injEq] at hpage
        rw [← hpage]
        exact hr
      · by_cases hpn2 : pn = 2
        · rw [hpn2, h2] at hpage
          simp only [Option.some.injEq] at hpage
          rw [← hpage]
          exact hl
        · rw [hnone pn (by omega)] at hpage
          exact absurd hpage (by simp)

/-- A session of rows with pairwise distinct ids, started in a leaf state
that holds the rows `done`: up to 13 rows in all every insert succeeds and the
leaf holds all of them, the 14th splits the root, a 15th ends the process. -/
theorem insert_all_distinct (rows : List Row) :
    ∀ (t : Table) (node : Page) (done : List Row), leaf_state t node →
      (leaf_rows node).Perm done → (∀ r ∈ rows, r.valid) →
      ((done ++ rows).map Row.id).Nodup →
      ((done ++ rows).length ≤ 13 →
        ∃ t1 node1, insert_all rows t
            = some (List.replicate rows.length ExecuteResult.EXECUTE_SUCCESS, t1) ∧
          leaf_state t1 node1 ∧ (leaf_rows node1).Perm (done ++ rows)) ∧
      ((done ++ rows).length = 14 →
        ∃ t1, insert_all rows t
            = some (List.replicate rows.length ExecuteResult.EXECUTE_SUCCESS, t1) ∧
          split_state t1) ∧
      (14 < (done ++ rows).length → insert_all rows t = none) := by
  induction rows with
  | nil =>
    intro t node done hst hperm _ _
    have hlen : done.length ≤ 13 := by
      rw [← hperm.length_eq, leaf_rows_length]
      have := hst.2.2.2.2.1.2.1
      rwa [LEAF_NODE_MAX_CELLS_eq] at this
    simp only [List.append_nil]
    refine ⟨fun _ => ⟨t, node, rfl, hst, hperm⟩, fun h => absurd h (by omega),
      fun h => absurd h (by omega)⟩
  | cons row rest ih =>
    intro t node done hst hperm hvalid hnodup
    have hrow : row.valid := hvalid row (List.mem_cons_self _ _)
    have hrest : ∀ r ∈ rest, r.valid := fun r hr => hvalid r (List.mem_cons_of_mem _ hr)
    have hcells : leaf_node_num_cells node = done.length := by
      rw [← hperm.length_eq, leaf_rows_length]
    have hassoc : done ++ row :: rest = (done ++ [row]) ++ rest := by simp
    have hnotin : row.id ∉ done.map Row.id := by
      rw [List.map_append, List.nodup_append] at hnodup
      intro hmem
      exact hnodup.2.2 hmem (by simp)
    have hnew : ∀ i, i < leaf_node_num_cells node → leaf_node_key node i ≠ row.id := by
      intro i hi hk
      apply hnotin
      rw [← (hperm.map Row.id).mem_iff, leaf_rows_ids node hst.2.2.2.2.2.1]
      unfold leaf_keys
      exact List.mem_map.mpr ⟨i, List.mem_range.mpr hi, hk⟩
    have hlen : (done ++ row :: rest).length = done.length + rest.length + 1 := by
      simp
      omega
    unfold insert_all
    rcases execute_insert_leaf_state t node row hst hrow with
      ⟨⟨i, hi, hk⟩, -⟩ | ⟨-, hlt, t2, node2, he, hst2, hperm2⟩ | ⟨-, hfull, t2, he, hst2⟩
    · exact absurd hk (hnew i hi)
    · have hperm3 : (leaf_rows node2).Perm (done ++ [row]) := by
        refine hperm2.trans ?_
        refine (List.Perm.cons row hperm).trans ?_
        exact (List.perm_append_singleton row done).symm
      obtain ⟨ih1, ih2, ih3⟩ := ih t2 node2 (done ++ [row]) hst2 hperm3 hrest
        (by rw [← hassoc]; exact hnodup)
      rw [← hassoc] at ih1 ih2 ih3
      rw [he]
      refine ⟨fun h => ?_, fun h => ?_, fun h => ?_⟩
      · obtain ⟨t1, node1, hr, hs, hp⟩ := ih1 h
        exact ⟨t1, node1, by simp only [hr]; rfl, hs, hp⟩
      · obtain ⟨t1, hr, hs⟩ := ih2 h
        exact ⟨t1, by simp only [hr]; rfl, hs⟩
      · simp only [ih3 h]
    · rw [he]
      refine ⟨fun h => absurd h (by omega), fun h => ?_, fun h => ?_⟩
      · have hnil : rest = [] := List.eq_nil_of_length_eq_zero (by omega)
        subst hnil
        exact ⟨t2, rfl, hst2⟩
      · cases rest with
        | nil => simp at h; omega
        | cons r2 rest2 =>
          simp only
          unfold insert_all
          rw [execute_insert_split_state t2 r2 hst2]

/-- A session of at most 13 valid rows with pairwise distinct ids on a fresh
database: every insert succeeds and the final state is a leaf state holding
the rows. -/
theorem fresh_session (heap : Nat → Page) (rows : List Row) (hvalid : ∀ r ∈ rows, r.valid)
    (hdistinct : (rows.map Row.id).Nodup) (hlen : rows.length ≤ 13) :
    ∃ t0 t node, db_open [] heap = some t0 ∧
      insert_all rows t0 = some (List.replicate rows.length ExecuteResult.EXECUTE_SUCCESS, t) ∧
      leaf_state t node ∧ (leaf_rows node).Perm rows := by
  obtain ⟨t0, node0, hopen, hst0, hcount0⟩ := db_open_empty heap
  have hempty : leaf_rows node0 = [] := by
    apply List.eq_nil_of_length_eq_zero
    rw [leaf_rows_length, hcount0]
  obtain ⟨h1, -, -⟩ := insert_all_distinct rows t0 node0 [] hst0 (by rw [hempty]) hvalid
    (by simpa using hdistinct)
  obtain ⟨t, node, hrun, hst, hperm⟩ := h1 (by simpa using hlen)
  exact ⟨t0, t, node, hopen, hrun, hst, by simpa using hperm⟩

/-- Two lists of rows in strictly ascending order of id that are permutations
of each other are equal. -/
theorem rows_eq_of_perm_of_ascending (l1 l2 : List Row) (hp : l1.Perm l2)
    (h1 : l1.Pairwise (fun a b => a.id < b.id)) (h2 : l2.Pairwise (fun a b => a.id < b.id)) :
    l1 = l2 := by
  haveI : IsAntisymm Row (fun a b => a.id < b.id) :=
    ⟨fun a b hab hba => absurd hab (Nat.lt_asymm hba)⟩
  exact List.eq_of_perm_of_sorted hp h1 h2

/-- While the root is a leaf the order of the inserts does not matter: two
orderings of at most 13 valid rows with distinct ids leave the same keys and
rows in the root leaf and give the same scan. -/
theorem insert_order_irrelevant_while_leaf (heap1 heap2 : Nat → Page) (rows1 rows2 : List Row)
    (hperm : rows1.Perm rows2) (hvalid : ∀ r ∈ rows1, r.valid)
    (hdistinct : (rows1.map Row.id).Nodup) (hlen : rows1.length ≤ 13) :
    ∃ t0 t1 node1 u0 u1 node2 out,
      db_open [] heap1 = some t0 ∧
      insert_all rows1 t0
        = some (List.replicate rows1.length ExecuteResult.EXECUTE_SUCCESS, t1) ∧
      db_open [] heap2 = some u0 ∧
      insert_all rows2 u0
        = some (List.replicate rows2.length ExecuteResult.EXECUTE_SUCCESS, u1) ∧
      t1.pager.pages 0 = some node1 ∧ u1.pager.pages 0 = some node2 ∧
      leaf_keys node1 = leaf_keys node2 ∧ leaf_rows node1 = leaf_rows node2 ∧
      execute_select t1 = some (t1, out) ∧ execute_select u1 = some (u1, out) := by
  obtain ⟨t0, t1, node1, ho1, hr1, hs1, hp1⟩ := fresh_session heap1 rows1 hvalid hdistinct hlen
  obtain ⟨u0, u1, node2, ho2, hr2, hs2, hp2⟩ := fresh_session heap2 rows2
    (fun r hr => hvalid r (hperm.mem_iff.mpr hr))
    ((hperm.map Row.id).nodup_iff.mp hdistinct) (by rw [← hperm.length_eq]; exact hlen)
  obtain ⟨hsel1, hasc1⟩ := execute_select_leaf_state t1 node1 hs1
  obtain ⟨hsel2, hasc2⟩ := execute_select_leaf_state u1 node2 hs2
  have hrows : leaf_rows node1 = leaf_rows node2 :=
    rows_eq_of_perm_of_ascending _ _ (hp1.trans (hperm.trans hp2.symm)) hasc1 hasc2
  refine ⟨t0, t1, node1, u0, u1, node2, leaf_rows node1, ho1, hr1, ho2, hr2, hs1.2.1, hs2.2.1,
    ?_, hrows, hsel1, by rw [hrows]; exact hsel2⟩
  rw [← leaf_rows_ids node1 hs1.2.2.2.2.2.1, ← leaf_rows_ids node2 hs2.2.2.2.2.2.1, hrows]


/-! ## The file under `pager_flush` -/

theorem memcpy_to_length (p : Page) (s n : Nat) : (memcpy_to p s n).length = n := by
  simp [memcpy_to]

theorem memcpy_to_get (p : Page) (s n i : Nat) (h : i < n) :
    (memcpy_to p s n)[i]? = some (p (s + i) % 256) := by
  simp [memcpy_to, List.getElem?_map, List.getElem?_range h]

theorem write_file_length (file : List Nat) (off : Nat) (page : Page) :
    (write_file file off page).length = max file.length (off + PAGE_SIZE) := by
  simp only [write_file, List.length_append, List.length_take, List.length_drop,
    List.length_replicate, memcpy_to_length]
  omega

theorem getD_zero_of_length_le (l : List Nat) (j : Nat) (h : l.length ≤ j) : l.getD j 0 = 0 := by
  rw [List.getD_eq_getElem?_getD, List.getElem?_eq_none h]; rfl

theorem write_file_getD (file : List Nat) (off : Nat) (page : Page) (j : Nat) :
    (write_file file off page).getD j 0 =
      if off ≤ j ∧ j < off + PAGE_SIZE then page (j - off) % 256 else file.getD j 0 := by
  simp only [write_file, List.getD_eq_getElem?_getD]
  by_cases h1 : j < off
  · have hl : j < (List.take off (file ++ List.replicate (off - file.length) 0)).length := by
      simp only [List.length_take, List.length_append, List.length_replicate]; omega
    rw [List.append_assoc, List.getElem?_append_left hl, List.getElem?_take_of_lt h1,
      if_neg (by omega)]
    by_cases h2 : j < file.length
    · rw [List.getElem?_append_left h2]
    · rw [List.getElem?_append_right (by omega), List.getElem?_replicate,
        if_pos (by omega), List.getElem?_eq_none (by omega)]
      rfl
  · have hl : (List.take off (file ++ List.replicate (off - file.length) 0)).length = off := by
      simp only [List.length_take, List.length_append, List.length_replicate]; omega
    rw [List.append_assoc, List.getElem?_append_right (by omega), hl]
    by_cases h2 : j < off + PAGE_SIZE
    · rw [List.getElem?_append_left (by rw [memcpy_to_length]; omega),
        memcpy_to_get _ _ _ _ (by omega), if_pos ⟨by omega, h2⟩, Nat.zero_add]
      rfl
    · rw [List.getElem?_append_right (by rw [memcpy_to_length]; omega), memcpy_to_length,
        List.getElem?_drop, if_neg (by omega)]
      have e : off + PAGE_SIZE + (j - off - PAGE_SIZE) = j := by omega
      rw [e]
      by_cases h3 : j < file.length
      · rw [List.getElem?_append_left h3]
      · rw [List.getElem?_append_right (by omega), List.getElem?_replicate,
          if_neg (by omega), List.getElem?_eq_none (by omega)]


/-! ## The file after `db_close` -/

theorem pager_flush_eq (pager : Pager) (i : Nat) (page : Page) (hp : pager.pages i = some page)
    (hi : i ≤ TABLE_MAX_PAGES) :
    pager_flush pager i = some { pager with file := write_file pager.file (i * PAGE_SIZE) page } := by
  have e : (i * PAGE_SIZE) % U32 = i * PAGE_SIZE := by
    rw [TABLE_MAX_PAGES_eq] at hi
    rw [PAGE_SIZE_eq, U32_eq]; omega
  simp only [pager_flush, hp, e]

/-- The flush loop of `db_close` over indices within the array of pages
returns; every resident page it passes is in the file at its offset, every other page of the file is as before, and the
file ends after the last page written or where it ended before. -/
theorem db_close_loop_spec (k : Nat) : ∀ (i : Nat) (pager : Pager),
    (∀ p, pager.pages p ≠ none → p ≤ TABLE_MAX_PAGES) → i + k ≤ TABLE_MAX_PAGES →
    ∃ pg, db_close_loop k i pager = some pg ∧
      (∀ p page j, i ≤ p → p < i + k → pager.pages p = some page → j < PAGE_SIZE →
        pg.file.getD (p * PAGE_SIZE + j) 0 = page j % 256) ∧
      (∀ p j, ¬ (i ≤ p ∧ p < i + k) ∨ pager.pages p = none → j < PAGE_SIZE →
        pg.file.getD (p * PAGE_SIZE + j) 0 = pager.file.getD (p * PAGE_SIZE + j) 0) ∧
      pager.file.length ≤ pg.file.length ∧
      (∀ p, i ≤ p → p < i + k → pager.pages p ≠ none → (p + 1) * PAGE_SIZE ≤ pg.file.length) ∧
      (pg.file.length = pager.file.length ∨
        ∃ p, i ≤ p ∧ p < i + k ∧ pager.pages p ≠ none ∧ pg.file.length = (p + 1) * PAGE_SIZE) := by
  induction k with
  | zero =>
    intro i pager _ _
    refine ⟨pager, rfl, ?_, ?_, le_refl _, ?_, Or.inl rfl⟩
    · intro p page j h1 h2; omega
    · intro p j _ _; rfl
    · intro p h1 h2; omega
  | succ k ih =>
    intro i pager hb hcap
    have hlt : ¬ i ≥ TABLE_MAX_PAGES := by omega
    cases hp : pager.pages i with
    | none =>
      obtain ⟨pg, h1, hA, hB, hl, hm, hx⟩ := ih (i + 1) pager hb (by omega)
      refine ⟨pg, ?_, ?_, ?_, hl, ?_, ?_⟩
      · simp only [db_close_loop, if_neg hlt, hp]; exact h1
      · intro p page j h2 h3 h4 h5
        have : p ≠ i := by intro e; rw [e, hp] at h4; cases h4
        exact hA p page j (by omega) (by omega) h4 h5
      · intro p j h2 h3
        refine hB p j ?_ h3
        rcases h2 with h2 | h2
        · left; omega
        · right; exact h2
      · intro p h2 h3 h4
        have : p ≠ i := by intro e; rw [e] at h4; exact h4 hp
        exact hm p (by omega) (by omega) h4
      · rcases hx with hx | ⟨p, h2, h3, h4, h5⟩
        · exact Or.inl hx
        · exact Or.inr ⟨p, by omega, by omega, h4, h5⟩
    | some page =>
      have hi : i ≤ TABLE_MAX_PAGES := hb i (by rw [hp]; exact Option.some_ne_none _)
      have hb1 : ∀ p, (if p = i then none else pager.pages p) ≠ none → p ≤ TABLE_MAX_PAGES := by
        intro p h
        by_cases e : p = i
        · rw [if_pos e] at h; exact absurd rfl h
        · rw [if_neg e] at h; exact hb p h
      obtain ⟨pg, h1, hA, hB, hl, hm, hx⟩ := ih (i + 1)
        { file := write_file pager.file (i * PAGE_SIZE) page
          file_length := pager.file_length
          num_pages := pager.num_pages
          pages := fun j => if j = i then none else pager.pages j
          heap := pager.heap } hb1 (by omega)
      have hw : ∀ p j, j < PAGE_SIZE →
          (write_file pager.file (i * PAGE_SIZE) page).getD (p * PAGE_SIZE + j) 0 =
            if p = i then page j % 256 else pager.file.getD (p * PAGE_SIZE + j) 0 := by
        intro p j hj
        rw [write_file_getD]
        rw [PAGE_SIZE_eq] at hj ⊢
        by_cases e : p = i
        · rw [if_pos (by omega), if_pos e]
          exact congrArg (fun x => page x % 256) (by omega)
        · rw [if_neg (by omega), if_neg e]
      have hwl := write_file_length pager.file (i * PAGE_SIZE) page
      refine ⟨pg, ?_, ?_, ?_, ?_, ?_, ?_⟩
      · simp only [db_close_loop, if_neg hlt, hp, pager_flush_eq pager i page hp hi]; exact h1
      · intro p pgp j h2 h3 h4 h5
        by_cases e : p = i
        · rw [hB p j (Or.inl (by omega)) h5]
          show (write_file pager.file (i * PAGE_SIZE) page).getD (p * PAGE_SIZE + j) 0 = _
          rw [hw p j h5, if_pos e]
          rw [e, hp] at h4
          cases h4; rfl
        · refine hA p pgp j (by omega) (by omega) ?_ h5
          show (if p = i then none else pager.pages p) = some pgp
          rw [if_neg e]; exact h4
      · intro p j h2 h3
        have e : p ≠ i := by
          intro e
          rcases h2 with h2 | h2
          · omega
          · rw [e, hp] at h2; cases h2
        have h4 : ¬ (i + 1 ≤ p ∧ p < i + 1 + k) ∨ (if p = i then none else pager.pages p) = none := by
          rcases h2 with h2 | h2
          · left; omega
          · right; rw [if_neg e]; exact h2
        rw [hB p j h4 h3]
        show (write_file pager.file (i * PAGE_SIZE) page).getD (p * PAGE_SIZE + j) 0 = _
        rw [hw p j h3, if_neg e]
      · have : pager.file.length ≤ (write_file pager.file (i * PAGE_SIZE) page).length := by
          rw [hwl]; exact le_max_left _ _
        exact le_trans this hl
      · intro p h2 h3 h4
        by_cases e : p = i
        · have : (i + 1) * PAGE_SIZE ≤ (write_file pager.file (i * PAGE_SIZE) page).length := by
            rw [hwl, Nat.add_mul, Nat.one_mul]; exact le_max_right _ _
          rw [e]; exact le_trans this hl
        · refine hm p (by omega) (by omega) ?_
          show (if p = i then none else pager.pages p) ≠ none
          rw [if_neg e]; exact h4
      · rcases hx with hx | ⟨p, h2, h3, h4, h5⟩
        · have hx2 : pg.file.length = max pager.file.length (i * PAGE_SIZE + PAGE_SIZE) := by
            rw [hx]; exact hwl
          by_cases hc : i * PAGE_SIZE + PAGE_SIZE ≤ pager.file.length
          · left; rw [hx2]; exact max_eq_left hc
          · right
            refine ⟨i, le_refl _, by omega, by rw [hp]; exact Option.some_ne_none _, ?_⟩
            rw [hx2, Nat.add_mul, Nat.one_mul]; exact max_eq_right (by omega)
        · right
          have e : p ≠ i := by omega
          have h4b : pager.pages p ≠ none := by
            have h4c : (if p = i then none else pager.pages p) ≠ none := h4
            rw [if_neg e] at h4c; exact h4c
          exact ⟨p, by omega, by omega, h4b, h5⟩


/-! ## Consistency of the pager through a session -/

theorem Pager.consistent_store (pager : Pager) (p : Nat) (x : Page)
    (hc : pager.consistent) (hp : pager.pages p ≠ none) : (pager.store p x).consistent := by
  obtain ⟨h1, h2, h3, h4, h5, h6, h7, h8⟩ := hc
  have hlt : p < pager.num_pages := by
    by_contra hge
    exact hp (h6 p (by omega))
  refine ⟨h1, h2, h3, h4, h5, ?_, ?_, ?_⟩
  · intro i hi
    show (if i = p then some x else pager.pages i) = none
    have hi2 : pager.num_pages ≤ i := hi
    rw [if_neg (by omega)]; exact h6 i hi2
  · intro i hi hi2
    show (if i = p then some x else pager.pages i) ≠ none
    by_cases e : i = p
    · rw [if_pos e]; exact Option.some_ne_none _
    · rw [if_neg e]; exact h7 i hi hi2
  · intro i hi
    have hi2 : (if i = p then some x else pager.pages i) ≠ none := hi
    by_cases e : i = p
    · rw [e]; exact h8 p hp
    · rw [if_neg e] at hi2; exact h8 i hi2

theorem Pager.keeps_modify (file : List Nat) (a b p : Nat) (g : Page → Page) (pager : Pager)
    (h : pager.keeps file a b) (hp : p = a ∨ p = b) : (pager.modify p g).keeps file a b := by
  obtain ⟨hc, hf, ha, hb⟩ := h
  have hres : pager.pages p ≠ none := by
    rcases hp with e | e
    · rw [e]; exact ha
    · rw [e]; exact hb
  have hmono : ∀ q, pager.pages q ≠ none →
      (if q = p then some (g (pager.node p)) else pager.pages q) ≠ none := by
    intro q hq
    by_cases e : q = p
    · rw [if_pos e]; exact Option.some_ne_none _
    · rw [if_neg e]; exact hq
  exact ⟨Pager.consistent_store pager p _ hc hres, hf, hmono a ha, hmono b hb⟩

theorem Pager.consistent_get_page (pager pg : Pager) (p : Nat) (page : Page)
    (hc : pager.consistent) (hp : p ≤ pager.num_pages)
    (hget : get_page pager p = some (pg, page)) :
    pg.consistent ∧ pg.file = pager.file ∧ pg.pages p = some page ∧
      (∀ q, pager.pages q ≠ none → pg.pages q ≠ none) ∧ pager.num_pages ≤ pg.num_pages := by
  obtain ⟨h1, h2, h3, h4, h5, h6, h7, h8⟩ := hc
  have hs := get_page_spec pager pg p page hget
  obtain ⟨s1, s2, s3, s4, s5, s6, s7⟩ := hs
  cases hres : pager.pages p with
  | some x =>
    obtain ⟨e1, _⟩ := s7 x hres
    rw [e1]
    rw [e1] at s2
    exact ⟨⟨h1, h2, h3, h4, h5, h6, h7, h8⟩, rfl, s2, fun _ hq => hq, le_refl _⟩
  | none =>
    have hfields : pg.file = pager.file ∧ pg.file_length = pager.file_length := by
      unfold get_page at hget
      rw [if_neg (by omega)] at hget
      simp only [hres] at hget
      split_ifs at hget <;> cases hget <;> exact ⟨rfl, rfl⟩
    obtain ⟨f1, f2⟩ := hfields
    have hmono : ∀ q, pager.pages q ≠ none → pg.pages q ≠ none := by
      intro q hq
      have e : q ≠ p := by intro e; rw [e] at hq; exact hq hres
      rw [s3 q e]; exact hq
    have hnum := s4 hres
    refine ⟨⟨?_, ?_, ?_, ?_, ?_, ?_, ?_, ?_⟩, f1, s2, hmono, s5⟩
    · rw [f1, f2]; exact h1
    · rw [f1]; exact h2
    · rw [f1]; exact h3
    · rw [f1]; omega
    · omega
    · intro i hi
      rw [s3 i (by omega)]
      exact h6 i (by omega)
    · intro i hi hi2
      rw [f1] at hi
      by_cases e : i = p
      · rw [e, s2]; exact Option.some_ne_none _
      · rw [s3 i e]
        refine h7 i hi ?_
        rcases s6 with s6 | s6
        · omega
        · omega
    · intro i hi
      by_cases e : i = p
      · rw [e]; exact s1
      · rw [s3 i e] at hi; exact h8 i hi

theorem Pager.keeps_get_page (file : List Nat) (a b p : Nat) (pager pg : Pager) (page : Page)
    (h : pager.keeps file a b) (hp : p ≤ pager.num_pages)
    (hget : get_page pager p = some (pg, page)) :
    pg.keeps file a b ∧ pg.pages p = some page ∧ pager.num_pages ≤ pg.num_pages := by
  obtain ⟨hc, hf, ha, hb⟩ := h
  obtain ⟨c1, c2, c3, c4, c5⟩ := Pager.consistent_get_page pager pg p page hc hp hget
  exact ⟨⟨c1, by rw [c2]; exact hf, c4 a ha, c4 b hb⟩, c3, c5⟩

theorem Pager.keeps_get_page_resident (file : List Nat) (a b p : Nat) (pager : Pager)
    (h : pager.keeps file a b) (hp : p = a ∨ p = b) :
    ∃ page, pager.pages p = some page ∧ get_page pager p = some (pager, page) := by
  obtain ⟨hc, hf, ha, hb⟩ := h
  have hres : pager.pages p ≠ none := by
    rcases hp with e | e
    · rw [e]; exact ha
    · rw [e]; exact hb
  obtain ⟨page, hpage⟩ := Option.ne_none_iff_exists'.mp hres
  exact ⟨page, hpage, get_page_resident pager p page hpage (hc.2.2.2.2.2.2.2 p hres)⟩

theorem Pager.keeps_split_loop (file : List Nat) (r n c : Nat) (v : Row) (k : Nat) :
    ∀ pager : Pager, pager.keeps file r n →
      (leaf_node_split_loop c v r n k pager).keeps file r n := by
  induction k with
  | zero => intro pager h; exact h
  | succ k ih =>
    intro pager h
    show (leaf_node_split_loop c v r n k (leaf_node_split_step c v r n k pager)).keeps file r n
    apply ih
    have hd : (if k ≥ LEAF_NODE_LEFT_SPLIT_COUNT then n else r) = r ∨
        (if k ≥ LEAF_NODE_LEFT_SPLIT_COUNT then n else r) = n := by
      split_ifs
      · exact Or.inr rfl
      · exact Or.inl rfl
    unfold leaf_node_split_step
    simp only []
    split_ifs <;> exact Pager.keeps_modify file r n _ _ pager h (by first | exact Or.inr rfl | exact Or.inl rfl)


theorem create_new_root_keeps (file : List Nat) (P : Pager) (r n : Nat) (t : Table)
    (hk : P.keeps file r n) (h : create_new_root { pager := P, root_page_num := r } n = some t) :
    t.root_page_num = r ∧ t.pager.keeps file r r := by
  obtain ⟨pr, _, hgr⟩ := Pager.keeps_get_page_resident file r n r P hk (Or.inl rfl)
  obtain ⟨pn, _, hgn⟩ := Pager.keeps_get_page_resident file r n n P hk (Or.inr rfl)
  unfold create_new_root at h
  simp only [hgr, hgn, get_unused_page_num] at h
  cases h3 : get_page P P.num_pages with
  | none => rw [h3] at h; cases h
  | some res =>
    obtain ⟨pg3, x⟩ := res
    rw [h3] at h
    simp only [] at h
    obtain ⟨k3, hL, _⟩ := Pager.keeps_get_page file r n P.num_pages P pg3 x hk (le_refl _) h3
    have k3b : pg3.keeps file r P.num_pages :=
      ⟨k3.1, k3.2.1, k3.2.2.1, by rw [hL]; exact Option.some_ne_none _⟩
    split at h
    · cases h
    · cases h
      refine ⟨rfl, ?_⟩
      have key : ∀ pg : Pager, pg.keeps file r P.num_pages → pg.keeps file r r :=
        fun pg hpg => ⟨hpg.1, hpg.2.1, hpg.2.2.1, hpg.2.2.1⟩
      apply key
      refine Pager.keeps_modify file r P.num_pages _ _ _ ?_ (Or.inl rfl)
      refine Pager.keeps_modify file r P.num_pages _ _ _ ?_ (Or.inl rfl)
      refine Pager.keeps_modify file r P.num_pages _ _ _ ?_ (Or.inl rfl)
      refine Pager.keeps_modify file r P.num_pages _ _ _ ?_ (Or.inl rfl)
      refine Pager.keeps_modify file r P.num_pages _ _ _ ?_ (Or.inl rfl)
      refine Pager.keeps_modify file r P.num_pages _ _ _ ?_ (Or.inl rfl)
      refine Pager.keeps_modify file r P.num_pages _ _ _ ?_ (Or.inr rfl)
      exact Pager.keeps_modify file r P.num_pages _ _ _ k3b (Or.inr rfl)

theorem leaf_node_split_and_insert_keeps (file : List Nat) (P : Pager) (r : Nat)
    (cursor : Cursor) (key : Nat) (value : Row) (t : Table) (hcur : cursor.page_num = r)
    (hk : P.keeps file r r)
    (h : leaf_node_split_and_insert { pager := P, root_page_num := r } cursor key value = some t) :
    t.root_page_num = r ∧ t.pager.keeps file r r := by
  obtain ⟨pr, _, hgr⟩ := Pager.keeps_get_page_resident file r r r P hk (Or.inl rfl)
  unfold leaf_node_split_and_insert at h
  simp only [hcur, hgr, get_unused_page_num] at h
  cases h2 : get_page P P.num_pages with
  | none => rw [h2] at h; cases h
  | some res =>
    obtain ⟨pg2, x⟩ := res
    rw [h2] at h
    simp only [] at h
    obtain ⟨k2, hN, _⟩ := Pager.keeps_get_page file r r P.num_pages P pg2 x hk (le_refl _) h2
    have k2b : pg2.keeps file r P.num_pages :=
      ⟨k2.1, k2.2.1, k2.2.2.1, by rw [hN]; exact Option.some_ne_none _⟩
    split at h
    · refine create_new_root_keeps file _ r P.num_pages t ?_ h
      refine Pager.keeps_modify file r P.num_pages _ _ _ ?_ (Or.inr rfl)
      refine Pager.keeps_modify file r P.num_pages _ _ _ ?_ (Or.inl rfl)
      apply Pager.keeps_split_loop
      exact Pager.keeps_modify file r P.num_pages _ _ _ k2b (Or.inr rfl)
    · cases h

theorem leaf_node_insert_keeps (file : List Nat) (P : Pager) (r : Nat)
    (cursor : Cursor) (key : Nat) (value : Row) (t : Table) (hcur : cursor.page_num = r)
    (hk : P.keeps file r r)
    (h : leaf_node_insert { pager := P, root_page_num := r } cursor key value = some t) :
    t.root_page_num = r ∧ t.pager.keeps file r r := by
  obtain ⟨pr, _, hgr⟩ := Pager.keeps_get_page_resident file r r r P hk (Or.inl rfl)
  unfold leaf_node_insert at h
  simp only [hcur, hgr] at h
  split at h
  · exact leaf_node_split_and_insert_keeps file P r cursor key value t hcur hk h
  · cases h
    refine ⟨rfl, ?_⟩
    refine Pager.keeps_modify file r r _ _ _ ?_ (Or.inl rfl)
    refine Pager.keeps_modify file r r _ _ _ ?_ (Or.inl rfl)
    refine Pager.keeps_modify file r r _ _ _ ?_ (Or.inl rfl)
    split
    · exact Pager.keeps_modify file r r _ _ _ hk (Or.inl rfl)
    · exact hk

theorem table_find_keeps (file : List Nat) (P : Pager) (r : Nat) (key : Nat)
    (tf : Table) (cursor : Cursor) (hk : P.keeps file r r)
    (h : table_find { pager := P, root_page_num := r } key = some (tf, cursor)) :
    tf = { pager := P, root_page_num := r } ∧ cursor.page_num = r := by
  obtain ⟨pr, _, hgr⟩ := Pager.keeps_get_page_resident file r r r P hk (Or.inl rfl)
  unfold table_find at h
  simp only [hgr] at h
  split at h
  · unfold leaf_node_find at h
    simp only [hgr] at h
    split at h
    · cases h
    · cases h
      exact ⟨rfl, rfl⟩
  · cases h

/-- Every `execute_insert` that returns leaves the root page number, the file
and the consistency of the pager as they are, and the root page resident. -/
theorem execute_insert_keeps (file : List Nat) (row : Row) (t : Table) (res : ExecuteResult)
    (t1 : Table) (hc : t.pager.consistent) (hf : t.pager.file = file)
    (hroot : t.root_page_num = 0)
    (h : execute_insert row t = some (res, t1)) :
    t1.root_page_num = 0 ∧ t1.pager.keeps file 0 0 := by
  obtain ⟨P, r⟩ := t
  simp only at hc hf hroot
  subst hroot
  unfold execute_insert at h
  simp only [] at h
  cases h1 : get_page P 0 with
  | none => rw [h1] at h; cases h
  | some res1 =>
    obtain ⟨pg1, node⟩ := res1
    rw [h1] at h
    simp only [] at h
    obtain ⟨hc1, hf1, hres1, _, _⟩ := Pager.consistent_get_page P pg1 0 node hc (Nat.zero_le _) h1
    have hk1 : pg1.keeps file 0 0 :=
      ⟨hc1, by rw [hf1]; exact hf, by rw [hres1]; exact Option.some_ne_none _,
        by rw [hres1]; exact Option.some_ne_none _⟩
    cases h2 : table_find { pager := pg1, root_page_num := 0 } row.id with
    | none => rw [h2] at h; cases h
    | some res2 =>
      obtain ⟨tf, cursor⟩ := res2
      rw [h2] at h
      simp only [] at h
      obtain ⟨etf, ecur⟩ := table_find_keeps file pg1 0 row.id tf cursor hk1 h2
      subst etf
      split at h
      · cases h
        exact ⟨rfl, hk1⟩
      · cases h3 : leaf_node_insert { pager := pg1, root_page_num := 0 } cursor row.id row with
        | none => rw [h3] at h; cases h
        | some t2 =>
          rw [h3] at h
          cases h
          exact leaf_node_insert_keeps file pg1 0 cursor row.id row _ ecur hk1 h3


theorem insert_all_keeps (file : List Nat) (rows : List Row) :
    ∀ (t : Table) (rs : List ExecuteResult) (t1 : Table),
      t.pager.consistent → t.pager.file = file → t.root_page_num = 0 →
      insert_all rows t = some (rs, t1) →
      t1.root_page_num = 0 ∧ t1.pager.consistent ∧ t1.pager.file = file := by
  induction rows with
  | nil =>
    intro t rs t1 hc hf hr h
    simp only [insert_all] at h
    cases h
    exact ⟨hr, hc, hf⟩
  | cons row rows ih =>
    intro t rs t1 hc hf hr h
    simp only [insert_all] at h
    cases h1 : execute_insert row t with
    | none => rw [h1] at h; cases h
    | some res =>
      obtain ⟨r, t2⟩ := res
      rw [h1] at h
      simp only [] at h
      obtain ⟨hr2, hk2⟩ := execute_insert_keeps file row t r t2 hc hf hr h1
      cases h2 : insert_all rows t2 with
      | none => rw [h2] at h; cases h
      | some res2 =>
        obtain ⟨rs2, t3⟩ := res2
        rw [h2] at h
        cases h
        exact ih t2 rs2 _ hk2.1 hk2.2.1 hr2 h2

theorem pager_open_eq (file : List Nat) (heap : Nat → Page) (hlen : file.length < U32)
    (hmod : file.length % PAGE_SIZE = 0) :
    pager_open file heap = some
      { file := file, file_length := file.length, num_pages := file.length / PAGE_SIZE
        pages := fun _ => none, heap := heap } := by
  have e1 : file.length % U32 = file.length := Nat.mod_eq_of_lt hlen
  have e2 : (file.length / PAGE_SIZE) % U32 = file.length / PAGE_SIZE :=
    Nat.mod_eq_of_lt (lt_of_le_of_lt (Nat.div_le_self _ _) hlen)
  unfold pager_open
  simp only [hmod, ne_eq, not_true_eq_false, if_false, e1, e2]

/-- The table `db_open` returns: root page number 0 and a consistent pager on
the file. -/
theorem db_open_consistent (file : List Nat) (heap : Nat → Page) (t0 : Table)
    (hlen : file.length < U32) (h : db_open file heap = some t0) :
    t0.root_page_num = 0 ∧ t0.pager.consistent ∧ t0.pager.file = file := by
  by_cases hmod : file.length % PAGE_SIZE = 0
  · unfold db_open at h
    rw [pager_open_eq file heap hlen hmod] at h
    simp only [] at h
    by_cases hz : file.length / PAGE_SIZE = 0
    · rw [if_pos hz] at h
      have hlen0 : file.length = 0 := by
        rw [PAGE_SIZE_eq] at hmod hz; omega
      cases hg : get_page
          { file := file, file_length := file.length, num_pages := file.length / PAGE_SIZE
            pages := fun _ => none, heap := heap } 0 with
      | none => rw [hg] at h; cases h
      | some res =>
        obtain ⟨pg1, x⟩ := res
        rw [hg] at h
        simp only [] at h
        cases h
        have hs := get_page_spec _ pg1 0 x hg
        obtain ⟨s1, s2, s3, s4, s5, s6, s7⟩ := hs
        have hfields : pg1.file = file ∧ pg1.file_length = file.length := by
          unfold get_page at hg
          rw [if_neg (by omega)] at hg
          simp only [] at hg
          split_ifs at hg <;> cases hg <;> exact ⟨rfl, rfl⟩
        have hnum : pg1.num_pages = 1 := by
          have := s4 rfl
          rcases s6 with s6 | s6
          · have s6b : pg1.num_pages ≤ file.length / PAGE_SIZE := s6
            omega
          · omega
        have hc1 : pg1.consistent := by
          refine ⟨?_, ?_, ?_, ?_, ?_, ?_, ?_, ?_⟩
          · rw [hfields.1, hfields.2]
          · rw [hfields.1]; exact hlen
          · rw [hfields.1]; exact hmod
          · rw [hfields.1, hz]; exact Nat.zero_le _
          · omega
          · intro i hi
            rw [s3 i (by omega)]
          · intro i _ hi2
            have e : i = 0 := by omega
            rw [e, s2]; exact Option.some_ne_none _
          · intro i hi
            by_cases e : i = 0
            · rw [e]; exact Nat.zero_le _
            · rw [s3 i e] at hi; exact absurd rfl hi
        have hk1 : pg1.keeps file 0 0 :=
          ⟨hc1, hfields.1, by rw [s2]; exact Option.some_ne_none _,
            by rw [s2]; exact Option.some_ne_none _⟩
        have hk3 := Pager.keeps_modify file 0 0 0 (fun n => set_node_root n true) _
          (Pager.keeps_modify file 0 0 0 initialize_leaf_node pg1 hk1 (Or.inl rfl)) (Or.inl rfl)
        exact ⟨rfl, hk3.1, hk3.2.1⟩
    · rw [if_neg hz] at h
      cases h
      refine ⟨rfl, ⟨rfl, hlen, hmod, le_refl _, ?_, ?_, ?_, ?_⟩, rfl⟩
      · exact Nat.one_le_iff_ne_zero.mpr hz
      · intro i _; rfl
      · intro i hi hi2
        have hi3 : i < file.length / PAGE_SIZE := hi2
        have hi4 : file.length / PAGE_SIZE ≤ i := hi
        omega
      · intro i hi; exact absurd rfl hi
  · unfold db_open pager_open at h
    simp only [ne_eq, hmod, not_false_eq_true, if_true] at h
    cases h

/-- A session keeps the root page number at 0 and the pager consistent on the
file it was opened on. -/
theorem session_consistent (file : List Nat) (heap : Nat → Page) (rows : List Row)
    (t0 : Table) (rs : List ExecuteResult) (t : Table) (hlen : file.length < U32)
    (hopen : db_open file heap = some t0) (hrun : insert_all rows t0 = some (rs, t)) :
    t.root_page_num = 0 ∧ t.pager.consistent ∧ t.pager.file = file := by
  obtain ⟨h1, h2, h3⟩ := db_open_consistent file heap t0 hlen hopen
  exact insert_all_keeps file rows t0 rs t h2 h3 h1 hrun


/-! ## Closing and reopening -/

theorem Pager.consistent_num_pages_bound (pager : Pager) (hc : pager.consistent) :
    pager.num_pages * PAGE_SIZE < U32 ∧
      (pager.num_pages = pager.file.length / PAGE_SIZE ∨
        pager.pages (pager.num_pages - 1) ≠ none) := by
  obtain ⟨h1, h2, h3, h4, h5, h6, h7, h8⟩ := hc
  by_cases e : pager.num_pages = pager.file.length / PAGE_SIZE
  · refine ⟨?_, Or.inl e⟩
    rw [e]
    rw [PAGE_SIZE_eq] at h3 ⊢
    omega
  · have hres : pager.pages (pager.num_pages - 1) ≠ none := h7 _ (by omega) (by omega)
    have hb := h8 _ hres
    refine ⟨?_, Or.inr hres⟩
    rw [TABLE_MAX_PAGES_eq] at hb
    rw [PAGE_SIZE_eq, U32_eq]
    omega

/-- On a consistent pager whose `num_pages` is within the array of pages
`db_close` returns; the file then is `num_pages` pages long, holds every
resident page at its offset and is unchanged in the
pages that were not resident. -/
theorem db_close_spec (t : Table) (hc : t.pager.consistent)
    (hcap : t.pager.num_pages ≤ TABLE_MAX_PAGES) :
    ∃ file1, db_close t = some file1 ∧ file1.length = t.pager.num_pages * PAGE_SIZE ∧
      (∀ p page j, t.pager.pages p = some page → j < PAGE_SIZE →
        file1.getD (p * PAGE_SIZE + j) 0 = page j % 256) ∧
      (∀ p j, t.pager.pages p = none → j < PAGE_SIZE →
        file1.getD (p * PAGE_SIZE + j) 0 = t.pager.file.getD (p * PAGE_SIZE + j) 0) := by
  obtain ⟨_, hbound⟩ := Pager.consistent_num_pages_bound t.pager hc
  obtain ⟨h1, h2, h3, h4, h5, h6, h7, h8⟩ := hc
  obtain ⟨pg, hl, hA, hB, hlen, hm, hx⟩ := db_close_loop_spec t.pager.num_pages 0 t.pager h8
    (by rw [Nat.zero_add]; exact hcap)
  have hlt : ∀ p, t.pager.pages p ≠ none → p < t.pager.num_pages := by
    intro p hp
    by_contra hge
    exact hp (h6 p (by omega))
  refine ⟨pg.file, ?_, ?_, ?_, ?_⟩
  · unfold db_close; rw [hl]
  · have hup : pg.file.length ≤ t.pager.num_pages * PAGE_SIZE := by
      rcases hx with hx | ⟨p, _, hp2, _, hp4⟩
      · rw [hx]
        rw [PAGE_SIZE_eq] at h3 h4 ⊢
        omega
      · rw [hp4]
        exact Nat.mul_le_mul_right _ (by omega)
    have hlo : t.pager.num_pages * PAGE_SIZE ≤ pg.file.length := by
      rcases hbound with e | hres
      · refine le_trans ?_ hlen
        rw [e]
        rw [PAGE_SIZE_eq] at h3 ⊢
        omega
      · have := hm (t.pager.num_pages - 1) (Nat.zero_le _) (by omega) hres
        have e : t.pager.num_pages - 1 + 1 = t.pager.num_pages := by omega
        rw [e] at this; exact this
    omega
  · intro p page j hp hj
    have hp2 : t.pager.pages p ≠ none := by rw [hp]; exact Option.some_ne_none _
    exact hA p page j (Nat.zero_le _) (by have := hlt p hp2; omega) hp hj
  · intro p j hp hj
    exact hB p j (Or.inr hp) hj

/-- A page read back after `db_close` and `db_open`: `get_page` on the
reopened pager returns, for every page below `num_pages`, the bytes `get_page`
returned before the close. -/
theorem reopen_get_page (t : Table) (heap2 : Nat → Page) (file1 : List Nat)
    (hc : t.pager.consistent) (hcap : t.pager.num_pages ≤ TABLE_MAX_PAGES)
    (hclose : db_close t = some file1) :
    ∃ pg1, pager_open file1 heap2 = some pg1 ∧
      db_open file1 heap2 = some { pager := pg1, root_page_num := 0 } ∧
      pg1.num_pages = t.pager.num_pages ∧ pg1.consistent ∧ pg1.file = file1 ∧
      file1.length = t.pager.num_pages * PAGE_SIZE ∧
      ∀ p pgx page, p < t.pager.num_pages → get_page t.pager p = some (pgx, page) →
        ∃ pgy page1, get_page pg1 p = some (pgy, page1) ∧
          ∀ j, j < PAGE_SIZE → page1 j % 256 = page j % 256 := by
  obtain ⟨f1, hcl, hlen, hA, hB⟩ := db_close_spec t hc hcap
  rw [hclose] at hcl
  cases hcl
  obtain ⟨hb, _⟩ := Pager.consistent_num_pages_bound t.pager hc
  obtain ⟨h1, h2, h3, h4, h5, h6, h7, h8⟩ := hc
  have hlen2 : file1.length < U32 := by rw [hlen]; exact hb
  have hmod : file1.length % PAGE_SIZE = 0 := by rw [hlen]; exact Nat.mul_mod_left _ _
  have hdiv : file1.length / PAGE_SIZE = t.pager.num_pages := by
    rw [hlen]; exact Nat.mul_div_cancel _ (by rw [PAGE_SIZE_eq]; omega)
  have hopen := pager_open_eq file1 heap2 hlen2 hmod
  refine ⟨_, hopen, ?_, hdiv, ?_, rfl, hlen, ?_⟩
  · unfold db_open
    rw [hopen]
    simp only []
    rw [if_neg (by rw [hdiv]; omega)]
  · refine ⟨rfl, hlen2, hmod, le_refl _, ?_, ?_, ?_, ?_⟩
    · show 1 ≤ file1.length / PAGE_SIZE
      rw [hdiv]; exact h5
    · intro i _; rfl
    · intro i hi hi2
      have hi3 : i < file1.length / PAGE_SIZE := hi2
      have hi4 : file1.length / PAGE_SIZE ≤ i := hi
      omega
    · intro i hi; exact absurd rfl hi
  · intro p pgx page hp hget
    have hs := get_page_spec t.pager pgx p page hget
    have hp100 : p ≤ TABLE_MAX_PAGES := hs.1
    have hg1 : get_page
        { file := file1, file_length := file1.length, num_pages := file1.length / PAGE_SIZE
          pages := fun _ => none, heap := heap2 } p =
        some ((Pager.mk file1 file1.length (file1.length / PAGE_SIZE) (fun _ => none)
            heap2).store p (read_file file1 (p * PAGE_SIZE) (heap2 p)),
          read_file file1 (p * PAGE_SIZE) (heap2 p)) := by
      unfold get_page
      rw [if_neg (by omega)]
      simp only [hmod, ne_eq, not_true_eq_false, if_false]
      have c1 : p ≤ file1.length / PAGE_SIZE := by rw [hdiv]; omega
      have c2 : ¬ p ≥ file1.length / PAGE_SIZE := by rw [hdiv]; omega
      split_ifs <;> first | rfl | (exfalso; apply c2; assumption)
    refine ⟨_, _, hg1, ?_⟩
    intro j hj
    have hin : p * PAGE_SIZE + j < file1.length := by
      rw [hlen]
      rw [PAGE_SIZE_eq] at hj ⊢
      omega
    have hr1 : read_file file1 (p * PAGE_SIZE) (heap2 p) j = file1.getD (p * PAGE_SIZE + j) 0 := by
      unfold read_file
      rw [if_pos ⟨hj, hin⟩]
    rw [hr1]
    cases hres : t.pager.pages p with
    | some x =>
      obtain ⟨_, e2⟩ := hs.2.2.2.2.2.2 x hres
      rw [e2, hA p x j hres hj, Nat.mod_mod]
    | none =>
      rw [hB p j hres hj]
      have hpF : p < t.pager.file.length / PAGE_SIZE := by
        by_contra hge
        exact h7 p (by omega) hp hres
      have hin0 : p * PAGE_SIZE + j < t.pager.file.length := by
        rw [PAGE_SIZE_eq] at hj hpF h3 ⊢
        omega
      have hpage : page = read_file t.pager.file (p * PAGE_SIZE) (t.pager.heap p) := by
        unfold get_page at hget
        rw [if_neg (by omega)] at hget
        simp only [hres, h1, h3, ne_eq, not_true_eq_false, if_false] at hget
        rw [if_pos (le_of_lt hpF)] at hget
        split_ifs at hget <;> cases hget <;> rfl
      rw [hpage]
      unfold read_file
      rw [if_pos ⟨hj, hin0⟩]

/-- A session on a fresh database has at most three pages. -/
theorem fresh_session_num_pages (heap : Nat → Page) (rows : List Row)
    (hvalid : ∀ r ∈ rows, r.valid) (t0 : Table) (rs : List ExecuteResult) (t : Table)
    (hopen : db_open [] heap = some t0) (hrun : insert_all rows t0 = some (rs, t)) :
    t.pager.num_pages ≤ 3 := by
  obtain ⟨_, hc, hfile⟩ := session_consistent [] heap rows t0 rs t (by decide) hopen hrun
  obtain ⟨t0b, node0, hopen2, hst0, -⟩ := db_open_empty heap
  rw [hopen] at hopen2
  simp only [Option.some.injEq] at hopen2
  subst hopen2
  have hst := insert_all_state rows hvalid t0 (Or.inl ⟨node0, hst0⟩) rs t hrun
  rcases hst with ⟨node, _, _, h3, _⟩ | ⟨_, root1, left, right, _, _, _, h4, _⟩
  · rw [h3]
    omega
  · by_contra hgt
    have h7 := hc.2.2.2.2.2.2.1 3 (by rw [hfile]; simp) (by omega)
    exact h7 (h4 3 (le_refl _))


/-! ## Pages that agree byte for byte -/

theorem read_u32_congr_bytes (p q : Page) (a : Nat)
    (h : ∀ k, k < 4 → p (a + k) % 256 = q (a + k) % 256) : read_u32 p a = read_u32 q a := by
  unfold read_u32
  have h0 := h 0 (by omega)
  have h1 := h 1 (by omega)
  have h2 := h 2 (by omega)
  have h3 := h 3 (by omega)
  simp only [Nat.add_zero] at h0
  rw [h0, h1, h2, h3]

theorem memcpy_to_congr_bytes (p q : Page) (a n : Nat)
    (h : ∀ k, k < n → p (a + k) % 256 = q (a + k) % 256) :
    memcpy_to p a n = memcpy_to q a n := by
  unfold memcpy_to
  apply List.map_congr_left
  intro k hk
  exact h k (List.mem_range.mp hk)

theorem deserialize_row_congr_bytes (p q : Page) (a : Nat)
    (h : ∀ k, k < ROW_SIZE → p (a + k) % 256 = q (a + k) % 256) :
    deserialize_row p a = deserialize_row q a := by
  rw [ROW_SIZE_eq] at h
  unfold deserialize_row
  rw [ID_OFFSET_eq, USERNAME_OFFSET_eq, EMAIL_OFFSET_eq, USERNAME_SIZE_eq, EMAIL_SIZE_eq]
  have e1 : read_u32 p (a + 0) = read_u32 q (a + 0) := by
    apply read_u32_congr_bytes
    intro k hk
    have := h k (by omega)
    rw [Nat.add_zero]; exact this
  have e2 : memcpy_to p (a + 4) 33 = memcpy_to q (a + 4) 33 := by
    apply memcpy_to_congr_bytes
    intro k hk
    have := h (4 + k) (by omega)
    rw [Nat.add_assoc]; exact this
  have e3 : memcpy_to p (a + 37) 256 = memcpy_to q (a + 37) 256 := by
    apply memcpy_to_congr_bytes
    intro k hk
    have := h (37 + k) (by omega)
    rw [Nat.add_assoc]; exact this
  rw [e1, e2, e3]

/-- Two buffers with the same `PAGE_SIZE` bytes have the same header fields
and, when the cell count is at most `LEAF_NODE_MAX_CELLS`, the same keys and
rows. -/
theorem page_bytes_fields (p q : Page) (h : ∀ j, j < PAGE_SIZE → p j % 256 = q j % 256) :
    get_node_type p = get_node_type q ∧ is_node_root p = is_node_root q ∧
    leaf_node_num_cells p = leaf_node_num_cells q ∧
    (leaf_node_num_cells q ≤ LEAF_NODE_MAX_CELLS →
      leaf_keys p = leaf_keys q ∧ leaf_rows p = leaf_rows q) := by
  rw [PAGE_SIZE_eq] at h
  have hn : leaf_node_num_cells p = leaf_node_num_cells q := by
    unfold leaf_node_num_cells
    rw [LEAF_NODE_NUM_CELLS_OFFSET_eq]
    exact read_u32_congr_bytes p q 6 (fun k hk => h (6 + k) (by omega))
  refine ⟨?_, ?_, hn, ?_⟩
  · unfold get_node_type read_u8
    rw [NODE_TYPE_OFFSET_eq]
    exact h 0 (by omega)
  · unfold is_node_root read_u8
    rw [IS_ROOT_OFFSET_eq, h 1 (by omega)]
  · intro hle
    rw [LEAF_NODE_MAX_CELLS_eq] at hle
    unfold leaf_keys leaf_rows
    rw [hn]
    constructor
    · apply List.map_congr_left
      intro i hi
      have hi2 : i < leaf_node_num_cells q := List.mem_range.mp hi
      unfold leaf_node_key
      rw [leaf_node_cell_eq i (by omega)]
      exact read_u32_congr_bytes p q _ (fun k hk => h _ (by omega))
    · apply List.map_congr_left
      intro i hi
      have hi2 : i < leaf_node_num_cells q := List.mem_range.mp hi
      rw [leaf_node_value_eq i (by omega)]
      apply deserialize_row_congr_bytes
      intro k hk
      rw [ROW_SIZE_eq] at hk
      exact h _ (by omega)


/-! ## Facts used by the claims on the pager, the search and the dump -/

theorem get_page_total (pager : Pager) (n : Nat) (hn : n ≤ TABLE_MAX_PAGES) :
    ∃ pg page, get_page pager n = some (pg, page) := by
  unfold get_page
  rw [if_neg (by omega)]
  cases pager.pages n with
  | some page => exact ⟨_, _, rfl⟩
  | none => exact ⟨_, _, rfl⟩

theorem countP_range_threshold (P : Nat → Bool) (n : Nat) : ∀ p, p ≤ n →
    (∀ i, i < p → P i = true) → (∀ i, p ≤ i → i < n → P i = false) →
    (List.range n).countP P = p := by
  induction n with
  | zero =>
    intro p hp _ _
    have : p = 0 := by omega
    rw [this]; rfl
  | succ n ih =>
    intro p hp h1 h2
    rw [List.range_succ, List.countP_append, List.countP_singleton]
    by_cases e : p ≤ n
    · rw [ih p e h1 (fun i hi hi2 => h2 i hi (by omega)), h2 n e (by omega)]
      rfl
    · have e2 : p = n + 1 := by omega
      rw [ih n (le_refl _) (fun i hi => h1 i (by omega)) (fun i hi hi2 => by omega),
        h1 n (by omega), e2]
      rfl

/-- The session that inserts the ids 1 to 14 into a fresh database returns
from every insert and ends with an internal root on three pages. -/
theorem session_one_to_fourteen :
    ∃ t0 rs t root, db_open [] zero_heap = some t0 ∧
      insert_all ((List.range 14).map (fun i => sample_row (i + 1))) t0 = some (rs, t) ∧
      t.root_page_num = 0 ∧ t.pager.pages 0 = some root ∧
      get_node_type root = NODE_INTERNAL ∧ t.pager.num_pages = 3 := by
  have hs : ((db_open [] zero_heap).bind (fun t0 =>
      (insert_all ((List.range 14).map (fun i => sample_row (i + 1))) t0).bind (fun r =>
        (r.2.pager.pages 0).bind (fun root =>
          if r.2.root_page_num = 0 ∧ get_node_type root = NODE_INTERNAL ∧
              r.2.pager.num_pages = 3 then some (t0, r, root) else none)))).isSome = true := by
    decide!
  obtain ⟨x, hx⟩ := Option.isSome_iff_exists.mp hs
  obtain ⟨t0, h0, hx⟩ := Option.bind_eq_some.mp hx
  obtain ⟨r, h1, hx⟩ := Option.bind_eq_some.mp hx
  obtain ⟨root, h2, hx⟩ := Option.bind_eq_some.mp hx
  split at hx
  · rename_i hc
    exact ⟨t0, r.1, r.2, root, h0, h1, hc.1, h2, hc.2.1, hc.2.2⟩
  · cases hx

/-- What a returning `run_session` stands for. -/
theorem run_session_some (heap : Nat → Page) (rows : List Row) (rs : List ExecuteResult)
    (out : List Row) (h : run_session heap rows = some (rs, out)) :
    ∃ t0 t t1, db_open [] heap = some t0 ∧ insert_all rows t0 = some (rs, t) ∧
      execute_select t = some (t1, out) := by
  unfold run_session at h
  cases h0 : db_open [] heap with
  | none => rw [h0] at h; cases h
  | some t0 =>
    rw [h0] at h
    simp only [] at h
    cases h1 : insert_all rows t0 with
    | none => rw [h1] at h; cases h
    | some r =>
      obtain ⟨rs1, t⟩ := r
      rw [h1] at h
      simp only [] at h
      cases h2 : execute_select t with
      | none => rw [h2] at h; cases h
      | some r2 =>
        obtain ⟨t1, out1⟩ := r2
        rw [h2] at h
        cases h
        exact ⟨t0, t, t1, rfl, h1, h2⟩


/-! ## Pagers reached by page accesses -/

theorem get_page_fresh_above (pager pg : Pager) (n : Nat) (node : Page)
    (hfresh : pager.fresh_above) (h : get_page pager n = some (pg, node)) :
    pg.fresh_above := by
  obtain ⟨_, s2, s3, s4, s5, _, s7⟩ := get_page_spec pager pg n node h
  intro i hi
  by_cases e : i = n
  · exfalso
    cases hres : pager.pages n with
    | none =>
      have := s4 hres
      omega
    | some x =>
      obtain ⟨e1, _⟩ := s7 x hres
      have hlt := resident_below_num_pages pager n x hres hfresh
      rw [e1] at hi
      omega
  · rw [s3 i e]
    exact hfresh i (by omega)

theorem get_page_resident_bound (pager pg : Pager) (n : Nat) (node : Page)
    (hb : ∀ i, pager.pages i ≠ none → i ≤ TABLE_MAX_PAGES)
    (h : get_page pager n = some (pg, node)) :
    ∀ i, pg.pages i ≠ none → i ≤ TABLE_MAX_PAGES := by
  obtain ⟨s1, _, s3, _, _, _, _⟩ := get_page_spec pager pg n node h
  intro i hi
  by_cases e : i = n
  · rw [e]; exact s1
  · rw [s3 i e] at hi; exact hb i hi

/-- The invariant of a pager reached from `pager_open` by `get_page` calls:
no page is resident at or above `num_pages`, resident pages passed the bound
of `get_page`, `num_pages` has not decreased, and the pages asked for are
resident. -/
theorem get_page_all_spec (ps : List Nat) : ∀ (pager pg : Pager),
    pager.fresh_above → (∀ i, pager.pages i ≠ none → i ≤ TABLE_MAX_PAGES) →
    get_page_all ps pager = some pg →
    pg.fresh_above ∧ (∀ i, pg.pages i ≠ none → i ≤ TABLE_MAX_PAGES) ∧
    pager.num_pages ≤ pg.num_pages ∧ (∀ i, pager.pages i ≠ none → pg.pages i ≠ none) ∧
    (∀ p ∈ ps, pg.pages p ≠ none) := by
  induction ps with
  | nil =>
    intro pager pg hf hb h
    simp only [get_page_all, Option.some.injEq] at h
    subst h
    exact ⟨hf, hb, le_refl _, fun _ h => h, fun p hp => by cases hp⟩
  | cons p ps ih =>
    intro pager pg hf hb h
    simp only [get_page_all] at h
    cases h1 : get_page pager p with
    | none => rw [h1] at h; cases h
    | some res =>
      obtain ⟨pg1, node⟩ := res
      rw [h1] at h
      simp only [] at h
      obtain ⟨_, s2, s3, _, s5, _, _⟩ := get_page_spec pager pg1 p node h1
      have hmono1 : ∀ i, pager.pages i ≠ none → pg1.pages i ≠ none := by
        intro i hi
        by_cases e : i = p
        · rw [e, s2]; exact Option.some_ne_none _
        · rw [s3 i e]; exact hi
      obtain ⟨c1, c2, c3, c4, c5⟩ := ih pg1 pg (get_page_fresh_above pager pg1 p node hf h1)
        (get_page_resident_bound pager pg1 p node hb h1) h
      refine ⟨c1, c2, le_trans s5 c3, fun i hi => c4 i (hmono1 i hi), ?_⟩
      intro q hq
      rcases List.mem_cons.mp hq with e | hq2
      · rw [e]
        exact c4 p (by rw [s2]; exact Option.some_ne_none _)
      · exact c5 q hq2

theorem pager_open_fresh (file : List Nat) (heap : Nat → Page) (pg0 : Pager)
    (h : pager_open file heap = some pg0) : ∀ i, pg0.pages i = none := by
  unfold pager_open at h
  simp only [] at h
  split at h
  · cases h
  · cases h
    intro i; rfl


/-! ## The scan and the search, iteration by iteration -/

/-- The loop of `execute_select` from a cursor inside the leaf: it returns
exactly when the bound allows one iteration for each cell left. -/
theorem execute_select_loop_exact (pg : Pager) (r : Nat) (node : Page)
    (hres : pg.pages r = some node) (hr : r ≤ TABLE_MAX_PAGES) :
    ∀ fuel c out, c < leaf_node_num_cells node →
      execute_select_loop fuel { pager := pg, root_page_num := r }
          { page_num := r, cell_num := c, end_of_table := false } out
        = if leaf_node_num_cells node - c ≤ fuel then
            some ({ pager := pg, root_page_num := r },
              out ++ (List.range' c (leaf_node_num_cells node - c)).map
                (fun i => deserialize_row node (leaf_node_value i)))
          else none := by
  have hlt := read_u32_lt node LEAF_NODE_NUM_CELLS_OFFSET
  have hlt2 : leaf_node_num_cells node < U32 := hlt
  intro fuel
  induction fuel with
  | zero =>
    intro c out hc
    have hne : ¬ leaf_node_num_cells node - c ≤ 0 := by omega
    rw [if_neg hne]
    unfold execute_select_loop
    simp
  | succ fuel ih =>
    intro c out hc
    unfold execute_select_loop
    have hwrap : (c + 1) % U32 = c + 1 := Nat.mod_eq_of_lt (by omega)
    simp only [Bool.false_eq_true, if_false, cursor_value, cursor_advance,
      get_page_resident pg r node hres hr, Pager.node_of_pages pg r node hres, hwrap]
    by_cases hlast : c + 1 ≥ leaf_node_num_cells node
    · have hone : leaf_node_num_cells node - c = 1 := by omega
      simp only [if_pos hlast, hone]
      unfold execute_select_loop
      simp
    · simp only [if_neg hlast]
      rw [ih (c + 1) _ (by omega)]
      have hsplit : leaf_node_num_cells node - c = (leaf_node_num_cells node - (c + 1)) + 1 := by
        omega
      by_cases hf : leaf_node_num_cells node - (c + 1) ≤ fuel
      · rw [if_pos hf, if_pos (by omega), hsplit, List.range'_succ]
        simp
      · rw [if_neg hf, if_neg (by omega)]

/-- The binary search on an interval inside a leaf of fewer than 2^31 cells,
whatever the keys: it returns a position of the interval within as many
iterations as the interval is long, every iteration reads an index of its
interval without overflow, and the interval shrinks from one iteration to the
next. -/
theorem leaf_node_find_trace_spec (node : Page) (key n : Nat) (hn : 2 * n < U32) :
    ∀ fuel s e, s ≤ e → e ≤ n → e - s ≤ fuel →
      (∃ p, leaf_node_find_loop node key fuel s e = some p ∧ s ≤ p ∧ p ≤ e) ∧
      (∀ x ∈ leaf_node_find_trace node key fuel s e,
        s ≤ x.1 ∧ x.1 ≤ x.2.2 ∧ x.2.2 < x.2.1 ∧ x.2.1 ≤ e ∧ x.1 + x.2.1 < U32 ∧
        x.2.2 = (x.1 + x.2.1) / 2) ∧
      (leaf_node_find_trace node key fuel s e).Chain'
        (fun a b => b.2.1 - b.1 < a.2.1 - a.1) ∧
      (∀ x, (leaf_node_find_trace node key fuel s e).head? = some x → x.1 = s ∧ x.2.1 = e) ∧
      (leaf_node_find_trace node key fuel s e).length ≤ e - s := by
  intro fuel
  induction fuel with
  | zero =>
    intro s e hse hen hf
    have e1 : s = e := by omega
    unfold leaf_node_find_loop leaf_node_find_trace
    rw [if_pos e1, if_pos e1]
    exact ⟨⟨s, rfl, le_refl _, hse⟩, (fun x hx => by cases hx), List.chain'_nil,
      (fun x hx => by cases hx), Nat.zero_le _⟩
  | succ fuel ih =>
    intro s e hse hen hf
    unfold leaf_node_find_loop leaf_node_find_trace
    by_cases e1 : s = e
    · rw [if_pos e1, if_pos e1]
      exact ⟨⟨s, rfl, le_refl _, hse⟩, (fun x hx => by cases hx), List.chain'_nil,
        (fun x hx => by cases hx), Nat.zero_le _⟩
    · rw [if_neg e1, if_neg e1]
      have hsum : (s + e) % U32 = s + e := Nat.mod_eq_of_lt (by omega)
      simp only [hsum]
      have hs1 : s ≤ (s + e) / 2 := by omega
      have hs2 : (s + e) / 2 < e := by omega
      have hwrap : ((s + e) / 2 + 1) % U32 = (s + e) / 2 + 1 := Nat.mod_eq_of_lt (by omega)
      rw [hwrap]
      have hhere : s ≤ s ∧ s ≤ (s + e) / 2 ∧ (s + e) / 2 < e ∧ e ≤ e ∧ s + e < U32 ∧
          (s + e) / 2 = (s + e) / 2 := ⟨le_refl _, hs1, hs2, le_refl _, by omega, rfl⟩
      by_cases hk : key = leaf_node_key node ((s + e) / 2)
      · rw [if_pos hk, if_pos hk]
        refine ⟨⟨_, rfl, hs1, le_of_lt hs2⟩, ?_, List.chain'_singleton _, ?_, ?_⟩
        · intro x hx
          rw [List.mem_singleton] at hx
          rw [hx]; exact hhere
        · intro x hx
          simp only [List.head?_cons, Option.some.injEq] at hx
          rw [← hx]; exact ⟨rfl, rfl⟩
        · simp only [List.length_singleton]; omega
      · rw [if_neg hk, if_neg hk]
        by_cases hl : key < leaf_node_key node ((s + e) / 2)
        · rw [if_pos hl, if_pos hl]
          obtain ⟨⟨p, hp, hp1, hp2⟩, hall, hch, hhead, hlen⟩ :=
            ih s ((s + e) / 2) hs1 (by omega) (by omega)
          refine ⟨⟨p, hp, hp1, by omega⟩, ?_, ?_, ?_, ?_⟩
          · intro x hx
            rcases List.mem_cons.mp hx with hx | hx
            · rw [hx]; exact hhere
            · obtain ⟨a1, a2, a3, a4, a5, a6⟩ := hall x hx
              exact ⟨a1, a2, a3, by omega, a5, a6⟩
          · rw [List.chain'_cons']
            refine ⟨?_, hch⟩
            intro y hy
            obtain ⟨y1, y2⟩ := hhead y hy
            show y.2.1 - y.1 < e - s
            rw [y1, y2]; omega
          · intro x hx
            simp only [List.head?_cons, Option.some.injEq] at hx
            rw [← hx]; exact ⟨rfl, rfl⟩
          · simp only [List.length_cons]; omega
        · rw [if_neg hl, if_neg hl]
          obtain ⟨⟨p, hp, hp1, hp2⟩, hall, hch, hhead, hlen⟩ :=
            ih ((s + e) / 2 + 1) e (by omega) hen (by omega)
          refine ⟨⟨p, hp, by omega, hp2⟩, ?_, ?_, ?_, ?_⟩
          · intro x hx
            rcases List.mem_cons.mp hx with hx | hx
            · rw [hx]; exact hhere
            · obtain ⟨a1, a2, a3, a4, a5, a6⟩ := hall x hx
              exact ⟨by omega, a2, a3, a4, a5, a6⟩
          · rw [List.chain'_cons']
            refine ⟨?_, hch⟩
            intro y hy
            obtain ⟨y1, y2⟩ := hhead y hy
            show y.2.1 - y.1 < e - s
            rw [y1, y2]; omega
          · intro x hx
            simp only [List.head?_cons, Option.some.injEq] at hx
            rw [← hx]; exact ⟨rfl, rfl⟩
          · simp only [List.length_cons]; omega


/-! ## Cursor steps and the bytes touched by an insertion -/

theorem cursor_advance_n_spec (pg : Pager) (r : Nat) (node : Page)
    (hres : pg.pages r = some node) (hr : r ≤ TABLE_MAX_PAGES) :
    ∀ k (c0 : Cursor), c0.page_num = r → c0.cell_num + k ≤ leaf_node_num_cells node →
      (c0.end_of_table = true ↔ leaf_node_num_cells node ≤ c0.cell_num) →
      ∃ c, cursor_advance_n k { pager := pg, root_page_num := r } c0
          = some ({ pager := pg, root_page_num := r }, c) ∧
        c.page_num = r ∧ c.cell_num = c0.cell_num + k ∧
        (c.end_of_table = true ↔ leaf_node_num_cells node ≤ c.cell_num) := by
  have hlt : leaf_node_num_cells node < U32 := read_u32_lt node LEAF_NODE_NUM_CELLS_OFFSET
  intro k
  induction k with
  | zero =>
    intro c0 h1 _ h3
    exact ⟨c0, rfl, h1, rfl, h3⟩
  | succ k ih =>
    intro c0 h1 h2 h3
    obtain ⟨pn, cn, eot⟩ := c0
    simp only at h1 h2 h3
    subst h1
    have hwrap : (cn + 1) % U32 = cn + 1 := Nat.mod_eq_of_lt (by omega)
    have hnot : ¬ eot = true := by
      intro h
      have := h3.mp h
      omega
    obtain ⟨c, hc1, hc2, hc3, hc4⟩ := ih
      { page_num := pn
        cell_num := cn + 1
        end_of_table :=
          if cn + 1 ≥ leaf_node_num_cells node then true else eot }
      rfl (by show cn + 1 + k ≤ _; omega)
      (by
        show (if cn + 1 ≥ leaf_node_num_cells node then true else eot)
          = true ↔ leaf_node_num_cells node ≤ cn + 1
        by_cases hge : cn + 1 ≥ leaf_node_num_cells node
        · rw [if_pos hge]; exact ⟨fun _ => hge, fun _ => rfl⟩
        · rw [if_neg hge]; exact ⟨fun h => absurd h hnot, fun h => absurd h hge⟩)
    refine ⟨c, ?_, hc2, ?_, hc4⟩
    · unfold cursor_advance_n cursor_advance
      simp only [get_page_resident pg pn node hres hr, hwrap]
      exact hc1
    · rw [hc3]
      show cn + 1 + k = cn + (k + 1)
      omega

/-- The no-split path of `leaf_node_insert` leaves every byte from the end of
cell 12 on, and the six bytes of the common header, as they are. -/
theorem leaf_insert_page_frame (node : Page) (c key : Nat) (row : Row)
    (hn : leaf_node_num_cells node < 13) (hc : c ≤ leaf_node_num_cells node) :
    ∀ j, j < 6 ∨ 3871 ≤ j → leaf_insert_page node c key row j = node j := by
  intro j hj
  unfold leaf_insert_page
  rw [serialize_row_outside _ _ _ _ (by
    rw [ROW_SIZE_eq, leaf_node_value_eq c (by omega)]; omega)]
  unfold set_leaf_node_key
  rw [write_u32_outside _ _ _ _ (by rw [leaf_node_cell_eq c (by omega)]; omega)]
  unfold set_leaf_node_num_cells
  rw [write_u32_outside _ _ _ _ (by rw [LEAF_NODE_NUM_CELLS_OFFSET_eq]; omega)]
  split
  · rw [leaf_node_insert_loop_apply c _ (by omega), if_neg (by omega)]
  · rfl

theorem write_u32_apply (p : Page) (off v j : Nat) :
    write_u32 p off v j = if off ≤ j ∧ j < off + 4 then (v / 256 ^ (j - off)) % 256 else p j := rfl

/-- The bytes below the end of cell 12 that the no-split path of
`leaf_node_insert` leaves behind depend on no byte of the page from there on. -/
theorem leaf_insert_page_reads (node node1 : Page) (c key : Nat) (row : Row)
    (hn : leaf_node_num_cells node < 13)
    (hagree : ∀ j, j < 3871 → node1 j = node j) :
    ∀ j, j < 3871 → leaf_insert_page node1 c key row j = leaf_insert_page node c key row j := by
  have hnum : leaf_node_num_cells node1 = leaf_node_num_cells node := by
    unfold leaf_node_num_cells
    rw [LEAF_NODE_NUM_CELLS_OFFSET_eq]
    exact read_u32_congr _ _ 6 6 (fun k hk => hagree (6 + k) (by omega))
  have h1 : ∀ j, j < 3871 →
      (if c < leaf_node_num_cells node1 then
          leaf_node_insert_loop c (leaf_node_num_cells node1) node1 else node1) j =
      (if c < leaf_node_num_cells node then
          leaf_node_insert_loop c (leaf_node_num_cells node) node else node) j := by
    intro j hj
    rw [hnum]
    split
    · rw [leaf_node_insert_loop_apply c _ (by omega), leaf_node_insert_loop_apply c _ (by omega)]
      split
      · exact hagree _ (by omega)
      · exact hagree _ hj
    · exact hagree _ hj
  have hnum1 : leaf_node_num_cells
        (if c < leaf_node_num_cells node1 then
          leaf_node_insert_loop c (leaf_node_num_cells node1) node1 else node1) =
      leaf_node_num_cells
        (if c < leaf_node_num_cells node then
          leaf_node_insert_loop c (leaf_node_num_cells node) node else node) := by
    unfold leaf_node_num_cells
    rw [LEAF_NODE_NUM_CELLS_OFFSET_eq]
    exact read_u32_congr _ _ 6 6 (fun k hk => h1 (6 + k) (by omega))
  intro j hj
  unfold leaf_insert_page
  by_cases hin : leaf_node_value c ≤ j ∧ j < leaf_node_value c + ROW_SIZE
  · have e : j = leaf_node_value c + (j - leaf_node_value c) := by omega
    rw [e, serialize_row_inside row _ (fun _ => 0) _ _ (by omega),
      serialize_row_inside row _ (fun _ => 0) _ _ (by omega)]
  · rw [serialize_row_outside _ _ _ _ (by omega), serialize_row_outside _ _ _ _ (by omega)]
    unfold set_leaf_node_key set_leaf_node_num_cells
    simp only [write_u32_apply]
    rw [hnum1, h1 j hj]


/-! ## Strings of the front end -/

theorem c_string_mem (l : List Nat) : ∀ b ∈ c_string l, b ∈ l ∧ b ≠ 0 := by
  intro b hb
  refine ⟨(List.takeWhile_sublist _).subset hb, ?_⟩
  have := List.mem_takeWhile_imp hb
  simpa using this

theorem c_string_of_no_nul (l : List Nat) (h : ∀ b ∈ l, b ≠ 0) : c_string l = l := by
  unfold c_string
  rw [List.takeWhile_eq_self_iff]
  intro b hb
  simpa using h b hb

theorem c_string_append_nul (l rest : List Nat) (h : ∀ b ∈ l, b ≠ 0) :
    c_string (l ++ 0 :: rest) = l := by
  unfold c_string
  rw [List.takeWhile_append_of_pos (fun b hb => by simpa using h b hb)]
  simp

/-- A token `strtok` returns is not empty, has no space, and together with
the rest consists of bytes of the string scanned. -/
theorem strtok_spec (s : List Nat) :
    (∀ tok, (strtok s).1 = some tok → tok ≠ [] ∧ (∀ b ∈ tok, b ∈ s ∧ b ≠ 32)) ∧
    (∀ b ∈ (strtok s).2, b ∈ s) := by
  unfold strtok
  by_cases h : s.dropWhile (fun b => b == 32) = []
  · simp only [h, if_true]
    exact ⟨(fun tok ht => by cases ht), (fun b hb => by cases hb)⟩
  · simp only [h, if_false]
    have hsub : ∀ b ∈ s.dropWhile (fun b => b == 32), b ∈ s :=
      fun b hb => (List.dropWhile_suffix _).subset hb
    constructor
    · intro tok ht
      simp only [Option.some.injEq] at ht
      subst ht
      constructor
      · intro hnil
        cases hl : s.dropWhile (fun b => b == 32) with
        | nil => exact h hl
        | cons a l =>
          have ha := List.head_dropWhile_not (fun b => b == 32) s h
          rw [hl, List.takeWhile_cons] at hnil
          simp only [hl, List.head_cons] at ha
          have ha2 : (a != 32) = true := by simpa using ha
          rw [ha2] at hnil
          simp at hnil
      · intro b hb
        refine ⟨hsub b ((List.takeWhile_sublist _).subset hb), ?_⟩
        have := List.mem_takeWhile_imp hb
        simpa using this
    · intro b hb
      exact hsub b ((List.dropWhile_suffix _).subset ((List.drop_suffix _ _).subset hb))

theorem atoi_range (s : List Nat) : -2147483648 ≤ atoi s ∧ atoi s < 2147483648 := by
  unfold atoi
  simp only [U32_eq]
  split_ifs <;> constructor <;> omega

theorem strcpy_spec (dst tok : List Nat) (n : Nat) (hdst : dst.length = n + 1)
    (hlen : tok.length ≤ n) (htok : ∀ b ∈ tok, b ≠ 0 ∧ b < 256)
    (hbytes : ∀ b ∈ dst, b < 256) :
    (strcpy dst tok).length = n + 1 ∧ c_string (strcpy dst tok) = tok ∧
    (∀ b ∈ strcpy dst tok, b < 256) ∧
    strcpy dst tok = tok ++ 0 :: dst.drop (tok.length + 1) := by
  have hc : c_string tok = tok := c_string_of_no_nul tok (fun b hb => (htok b hb).1)
  have he : strcpy dst tok = tok ++ 0 :: dst.drop (tok.length + 1) := by
    unfold strcpy; rw [hc]
  rw [he]
  refine ⟨?_, c_string_append_nul tok _ (fun b hb => (htok b hb).1), ?_, rfl⟩
  · simp only [List.length_append, List.length_cons, List.length_drop]
    omega
  · intro b hb
    rcases List.mem_append.mp hb with h | h
    · exact (htok b h).2
    · rcases List.mem_cons.mp h with h | h
      · rw [h]; omega
      · exact hbytes b ((List.drop_suffix _ _).subset h)


theorem insert_arguments_tokens (input_buffer : List Nat)
    (hbytes : ∀ b ∈ input_buffer, b < 256) :
    (∀ tok, (insert_arguments input_buffer).1 = some tok → ∀ b ∈ tok, b ≠ 0 ∧ b < 256) ∧
    (∀ tok, (insert_arguments input_buffer).2.1 = some tok →
      tok ≠ [] ∧ ∀ b ∈ tok, b ≠ 0 ∧ b < 256 ∧ b ≠ 32) ∧
    (∀ tok, (insert_arguments input_buffer).2.2 = some tok →
      tok ≠ [] ∧ ∀ b ∈ tok, b ≠ 0 ∧ b < 256 ∧ b ≠ 32) := by
  have h0 : ∀ b ∈ c_string input_buffer, b ≠ 0 ∧ b < 256 :=
    fun b hb => ⟨(c_string_mem _ b hb).2, hbytes b (c_string_mem _ b hb).1⟩
  have h1 : ∀ b ∈ (strtok (c_string input_buffer)).2, b ≠ 0 ∧ b < 256 :=
    fun b hb => h0 b ((strtok_spec _).2 b hb)
  have h2 : ∀ b ∈ (strtok (strtok (c_string input_buffer)).2).2, b ≠ 0 ∧ b < 256 :=
    fun b hb => h1 b ((strtok_spec _).2 b hb)
  have h3 : ∀ b ∈ (strtok (strtok (strtok (c_string input_buffer)).2).2).2, b ≠ 0 ∧ b < 256 :=
    fun b hb => h2 b ((strtok_spec _).2 b hb)
  refine ⟨?_, ?_, ?_⟩
  · intro tok ht b hb
    exact h1 b (((strtok_spec _).1 tok ht).2 b hb).1
  · intro tok ht
    obtain ⟨hne, hall⟩ := (strtok_spec _).1 tok ht
    exact ⟨hne, fun b hb => ⟨(h2 b (hall b hb).1).1, (h2 b (hall b hb).1).2, (hall b hb).2⟩⟩
  · intro tok ht
    obtain ⟨hne, hall⟩ := (strtok_spec _).1 tok ht
    exact ⟨hne, fun b hb => ⟨(h3 b (hall b hb).1).1, (h3 b (hall b hb).1).2, (hall b hb).2⟩⟩

/-- The result of `prepare_insert` in terms of the three arguments. -/
theorem prepare_insert_eq (input_buffer : List Nat) (statement : Statement) :
    prepare_insert input_buffer statement =
      match (insert_arguments input_buffer).1, (insert_arguments input_buffer).2.1,
        (insert_arguments input_buffer).2.2 with
      | some id_string, some username, some email =>
        if atoi id_string < 0 then
          (PrepareResult.PREPARE_NEGATIVE_ID,
            { statement with type := StatementType.STATEMENT_INSERT })
        else if strlen username > COLUMN_USERNAME_SIZE then
          (PrepareResult.PREPARE_STRING_TOO_LONG,
            { statement with type := StatementType.STATEMENT_INSERT })
        else if strlen email > COLUMN_EMAIL_SIZE then
          (PrepareResult.PREPARE_STRING_TOO_LONG,
            { statement with type := StatementType.STATEMENT_INSERT })
        else
          (PrepareResult.PREPARE_SUCCESS,
            { type := StatementType.STATEMENT_INSERT
              row_to_insert :=
                { id := (atoi id_string).toNat % U32
                  username := strcpy statement.row_to_insert.username username
                  email := strcpy statement.row_to_insert.email email } })
      | _, _, _ =>
        (PrepareResult.PREPARE_SYNTAX_ERROR,
          { statement with type := StatementType.STATEMENT_INSERT }) := rfl


/-! ## The claims -/

set_option maxRecDepth 1000000

/-- C1: for every row of the C type `Row` and every destination inside a
buffer, `deserialize_row` applied to the bytes written by `serialize_row`
yields the row again: id, username and email with all their bytes. -/
theorem serialize_row_roundtrip (r : Row) (hr : r.valid) (buffer : Page) (destination : Nat) :
    deserialize_row (serialize_row r buffer destination) destination = r :=
  deserialize_serialize r hr buffer destination

theorem serialize_row_roundtrip_witness :
    (sample_row 7).valid ∧
    deserialize_row (serialize_row (sample_row 7) empty_leaf 14) 14 = sample_row 7 :=
  ⟨by decide, serialize_row_roundtrip (sample_row 7) (by decide) empty_leaf 14⟩

/-- C2: on a table whose root is a sorted leaf, inserting a row whose id
is a stored key returns `EXECUTE_DUPLICATE_KEY`; the root page afterwards is
the page it was (same count, keys and rows); `execute_select` emits the
stored rows, the same before and after, and when the stored rows carry their
keys as ids exactly one emitted row has the id of the rejected row. -/
theorem execute_insert_duplicate_key (t : Table) (pg : Pager) (node : Page) (row : Row)
    (hroot : get_page t.pager t.root_page_num = some (pg, node))
    (hleaf : sorted_leaf node)
    (hdup : ∃ i, i < leaf_node_num_cells node ∧ leaf_node_key node i = row.id) :
    execute_insert row t
      = some (ExecuteResult.EXECUTE_DUPLICATE_KEY,
          { pager := pg, root_page_num := t.root_page_num }) ∧
    get_page pg t.root_page_num = some (pg, node) ∧
    execute_select t
      = some ({ pager := pg, root_page_num := t.root_page_num }, leaf_rows node) ∧
    execute_select { pager := pg, root_page_num := t.root_page_num }
      = some ({ pager := pg, root_page_num := t.root_page_num }, leaf_rows node) ∧
    (rows_match_keys node → ((leaf_rows node).map Row.id).count row.id = 1) := by
  obtain ⟨hr, hres, -⟩ := get_page_spec _ _ _ _ hroot
  have hn : leaf_node_num_cells node ≤ 13 := by
    have := hleaf.2.1
    rwa [LEAF_NODE_MAX_CELLS_eq] at this
  have hsel := execute_select_resident pg t.root_page_num node hres hr hn
  refine ⟨?_, get_page_again _ _ _ _ hroot, ?_, hsel, fun hm => ?_⟩
  · rw [execute_insert_of_root t pg node row hroot]
    obtain ⟨p, -, hp, hlo, hhi, hge, hexec⟩ :=
      execute_insert_resident pg t.root_page_num node row hres hr hleaf
    rw [hexec, if_pos]
    obtain ⟨i, hi, hki⟩ := hdup
    have hip : i = p := by
      rcases Nat.lt_trichotomy i p with h | h | h
      · have := hlo i h
        omega
      · exact h
      · have := hhi i h hi
        omega
    subst hip
    exact ⟨hi, hki⟩
  · rw [execute_select_of_root t pg node hroot, hsel]
  · exact leaf_rows_count_id node row.id hleaf hm hdup

theorem execute_insert_duplicate_key_witness :
    get_page (table_of_root leaf_seven 1).pager (table_of_root leaf_seven 1).root_page_num
      = some ((table_of_root leaf_seven 1).pager, leaf_seven) ∧
    sorted_leaf leaf_seven ∧
    (∃ i, i < leaf_node_num_cells leaf_seven ∧ leaf_node_key leaf_seven i = (sample_row 7).id) ∧
    rows_match_keys leaf_seven ∧
    execute_insert (sample_row 7) (table_of_root leaf_seven 1)
      = some (ExecuteResult.EXECUTE_DUPLICATE_KEY,
          { pager := (table_of_root leaf_seven 1).pager, root_page_num := 0 }) ∧
    ((leaf_rows leaf_seven).map Row.id).count 7 = 1 :=
  have h := execute_insert_duplicate_key (table_of_root leaf_seven 1)
    (table_of_root leaf_seven 1).pager leaf_seven (sample_row 7) rfl (by decide) (by decide)
  ⟨rfl, by decide, by decide, by decide, h.1, h.2.2.2.2 (by decide)⟩

/-- C3: on a table whose root is a sorted leaf with fewer than
`LEAF_NODE_MAX_CELLS` cells, inserting a row of the C type `Row` whose id is
not a stored key returns `EXECUTE_SUCCESS`; afterwards the root leaf has one
cell more, the cell at the position `p` returned by `table_find` holds the key
`row.id` and a value slot that deserializes to the row, the cells below `p`
are unchanged and the old cells from `p` on sit one position higher, byte for
byte. -/
theorem execute_insert_new_key (t : Table) (pg : Pager) (node : Page) (row : Row)
    (hroot : get_page t.pager t.root_page_num = some (pg, node))
    (hleaf : sorted_leaf node)
    (hn : leaf_node_num_cells node < LEAF_NODE_MAX_CELLS)
    (hr : row.valid)
    (hnew : ∀ i, i < leaf_node_num_cells node → leaf_node_key node i ≠ row.id) :
    ∃ (p : Nat) (tf t1 : Table) (node1 : Page),
      table_find t row.id
        = some (tf, { page_num := t.root_page_num, cell_num := p, end_of_table := false }) ∧
      execute_insert row t = some (ExecuteResult.EXECUTE_SUCCESS, t1) ∧
      t1.root_page_num = t.root_page_num ∧
      get_page t1.pager t1.root_page_num = some (t1.pager, node1) ∧
      get_node_type node1 = NODE_LEAF ∧
      leaf_node_num_cells node1 = leaf_node_num_cells node + 1 ∧
      p ≤ leaf_node_num_cells node ∧
      leaf_node_key node1 p = row.id ∧
      deserialize_row node1 (leaf_node_value p) = row ∧
      (∀ i, i < p → ∀ b, b < LEAF_NODE_CELL_SIZE →
        node1 (leaf_node_cell i + b) = node (leaf_node_cell i + b)) ∧
      (∀ i, p ≤ i → i < leaf_node_num_cells node → ∀ b, b < LEAF_NODE_CELL_SIZE →
        node1 (leaf_node_cell (i + 1) + b) = node (leaf_node_cell i + b)) := by
  obtain ⟨hrt, hres, -⟩ := get_page_spec _ _ _ _ hroot
  rw [LEAF_NODE_MAX_CELLS_eq] at hn
  obtain ⟨p, hfind, hp, hlo, hhi, hge, hexec⟩ :=
    execute_insert_resident pg t.root_page_num node row hres hrt hleaf
  have hnodup : ¬ (p < leaf_node_num_cells node ∧ leaf_node_key node p = row.id) :=
    fun h => hnew p h.1 h.2
  rw [if_neg hnodup, leaf_node_insert_nosplit pg _ p row.id node row false hres hrt
    (by rw [LEAF_NODE_MAX_CELLS_eq]; exact hn)] at hexec
  obtain ⟨hhead, hcount, hkey, hrow, hcells_lo, hcells_hi⟩ :=
    leaf_insert_page_spec node p row hn hp hr
  rw [← execute_insert_of_root t pg node row hroot] at hexec
  rw [← table_find_of_root t pg node row.id hroot] at hfind
  refine ⟨p, _, _, leaf_insert_page node p row.id row, hfind, hexec, rfl, ?_, ?_, hcount, hp,
    hkey, hrow, ?_, ?_⟩
  · exact get_page_resident _ _ _ (Pager.store_pages_same _ _ _) hrt
  · have htype := hleaf.1
    unfold get_node_type read_u8 at htype ⊢
    rw [NODE_TYPE_OFFSET_eq] at htype ⊢
    rw [hhead 0 (by omega), htype]
  · intro i hi b hb
    exact hcells_lo i hi b (by rw [LEAF_NODE_CELL_SIZE_eq] at hb; exact hb)
  · intro i h1 h2 b hb
    exact hcells_hi i h1 h2 b (by rw [LEAF_NODE_CELL_SIZE_eq] at hb; exact hb)

theorem execute_insert_new_key_witness :
    get_page (table_of_root leaf_seven 1).pager (table_of_root leaf_seven 1).root_page_num
      = some ((table_of_root leaf_seven 1).pager, leaf_seven) ∧
    sorted_leaf leaf_seven ∧
    leaf_node_num_cells leaf_seven < LEAF_NODE_MAX_CELLS ∧
    (sample_row 3).valid ∧
    (∀ i, i < leaf_node_num_cells leaf_seven → leaf_node_key leaf_seven i ≠ (sample_row 3).id) ∧
    ∃ (t1 : Table), execute_insert (sample_row 3) (table_of_root leaf_seven 1)
      = some (ExecuteResult.EXECUTE_SUCCESS, t1) :=
  have h := execute_insert_new_key (table_of_root leaf_seven 1)
    (table_of_root leaf_seven 1).pager leaf_seven (sample_row 3) rfl (by decide) (by decide)
    (by decide) (by decide)
  ⟨rfl, by decide, by decide, by decide, by decide,
    h.elim (fun _ h => h.elim (fun _ h => h.elim (fun t1 h => ⟨t1, h.elim (fun _ h => h.2.1)⟩)))⟩


/-- C4: in every table state reached from `db_open` on an empty file by a
sequence of `execute_insert` calls with rows of the C type `Row`, whatever the
calls return, every resident page that is a leaf node has at most
`LEAF_NODE_MAX_CELLS` cells and strictly ascending keys. -/
theorem reachable_leaves_sorted (heap : Nat → Page) (rows : List Row)
    (hvalid : ∀ r ∈ rows, r.valid) (t0 : Table) (rs : List ExecuteResult) (t : Table)
    (hopen : db_open [] heap = some t0) (hrun : insert_all rows t0 = some (rs, t))
    (pn : Nat) (page : Page) (hpage : t.pager.pages pn = some page)
    (htype : get_node_type page = NODE_LEAF) :
    leaf_node_num_cells page ≤ LEAF_NODE_MAX_CELLS ∧
    ∀ j, j < leaf_node_num_cells page → ∀ i, i < j →
      leaf_node_key page i < leaf_node_key page j := by
  obtain ⟨t0b, node0, hopen2, hst0, -⟩ := db_open_empty heap
  rw [hopen] at hopen2
  simp only [Option.some.injEq] at hopen2
  subst hopen2
  have hst := insert_all_state rows hvalid t0 (Or.inl ⟨node0, hst0⟩) rs t hrun
  exact (state_leaves_sorted t hst pn page hpage htype).2

theorem reachable_leaves_sorted_witness :
    (∀ r ∈ [sample_row 3, sample_row 1, sample_row 2], r.valid) ∧
    ∃ t0 rs t page, db_open [] zero_heap = some t0 ∧
      insert_all [sample_row 3, sample_row 1, sample_row 2] t0 = some (rs, t) ∧
      t.pager.pages 0 = some page ∧ get_node_type page = NODE_LEAF ∧
      leaf_node_num_cells page ≤ LEAF_NODE_MAX_CELLS ∧
      ∀ j, j < leaf_node_num_cells page → ∀ i, i < j →
        leaf_node_key page i < leaf_node_key page j :=
  have hv : ∀ r ∈ [sample_row 3, sample_row 1, sample_row 2], r.valid := by decide
  ⟨hv, (fresh_session zero_heap _ hv (by decide) (by decide)).elim fun t0 h =>
    h.elim fun t h => h.elim fun node h =>
      ⟨t0, _, t, node, h.1, h.2.1, h.2.2.1.2.1, h.2.2.1.2.2.2.2.1.1,
        reachable_leaves_sorted zero_heap _ hv t0 _ t h.1 h.2.1 0 node h.2.2.1.2.1
          h.2.2.1.2.2.2.2.1.1⟩⟩

/-- C5: for every sequence of at most 13 rows of the C type `Row` with
pairwise distinct ids, inserted in the given order into a table opened on an
empty file, every insert returns `EXECUTE_SUCCESS` and `execute_select` then
emits exactly the inserted rows, each once and as inserted, in strictly
ascending order of id. -/
theorem select_emits_inserted_rows_sorted (heap : Nat → Page) (rows : List Row)
    (hvalid : ∀ r ∈ rows, r.valid) (hdistinct : (rows.map Row.id).Nodup)
    (hlen : rows.length ≤ LEAF_NODE_MAX_CELLS) :
    ∃ t0 t t1 out, db_open [] heap = some t0 ∧
      insert_all rows t0 = some (List.replicate rows.length ExecuteResult.EXECUTE_SUCCESS, t) ∧
      execute_select t = some (t1, out) ∧
      out.Perm rows ∧ out.Pairwise (fun a b => a.id < b.id) := by
  obtain ⟨t0, t, node, hopen, hrun, hst, hperm⟩ := fresh_session heap rows hvalid hdistinct
    (by rw [LEAF_NODE_MAX_CELLS_eq] at hlen; exact hlen)
  obtain ⟨hsel, hasc⟩ := execute_select_leaf_state t node hst
  exact ⟨t0, t, t, leaf_rows node, hopen, hrun, hsel, hperm, hasc⟩

theorem select_emits_inserted_rows_sorted_witness :
    (∀ r ∈ [sample_row 3, sample_row 1, sample_row 2], r.valid) ∧
    ([sample_row 3, sample_row 1, sample_row 2].map Row.id).Nodup ∧
    [sample_row 3, sample_row 1, sample_row 2].length ≤ LEAF_NODE_MAX_CELLS ∧
    (∃ t0 t t1 out, db_open [] zero_heap = some t0 ∧
      insert_all [sample_row 3, sample_row 1, sample_row 2] t0
        = some (List.replicate 3 ExecuteResult.EXECUTE_SUCCESS, t) ∧
      execute_select t = some (t1, out) ∧
      out.Perm [sample_row 3, sample_row 1, sample_row 2] ∧
      out.Pairwise (fun a b => a.id < b.id)) ∧
    run_session zero_heap [sample_row 3, sample_row 1, sample_row 2]
      = some (List.replicate 3 ExecuteResult.EXECUTE_SUCCESS,
          [sample_row 1, sample_row 2, sample_row 3]) :=
  ⟨by decide, by decide, by decide,
    select_emits_inserted_rows_sorted zero_heap [sample_row 3, sample_row 1, sample_row 2]
      (by decide) (by decide) (by decide),
    by decide!⟩

/-- C6, as stated, fails: after the rows with ids 1 to 14 have been inserted
into a fresh database, all with `EXECUTE_SUCCESS`, `execute_select` emits one
row only, and that row is none of the rows inserted: its id is the page number
of the left child, and its username holds the separator key 7 where
`internal_node_key` stored it, 16 bytes after the child pointer. -/
theorem select_after_split_counterexample :
    (∀ r ∈ List.map sample_row [1, 2, 3, 4, 5, 6, 7, 8, 9, 10, 11, 12, 13, 14], r.valid) ∧
    ((List.map sample_row [1, 2, 3, 4, 5, 6, 7, 8, 9, 10, 11, 12, 13, 14]).map Row.id).Nodup ∧
    run_session zero_heap (List.map sample_row [1, 2, 3, 4, 5, 6, 7, 8, 9, 10, 11, 12, 13, 14])
      = some (List.replicate 14 ExecuteResult.EXECUTE_SUCCESS,
          [{ id := 2,
             username := 117 :: List.replicate 11 0 ++ [7, 0, 0, 0] ++ List.replicate 17 0,
             email := 101 :: List.replicate 255 0 }]) :=
  ⟨by decide, by decide, by decide!⟩

/-- C6, amended: a sequence of rows of the C type `Row` with pairwise
distinct ids whose inserts into a table opened on an empty file all return
`EXECUTE_SUCCESS` has at most 14 rows; when it has at most 13, so that the root
is still a leaf, `execute_select` emits every inserted row exactly once, in
strictly ascending order of id; when it has 14, so that the root has split,
`execute_select` emits a single row. -/
theorem select_emits_rows_while_root_is_leaf (heap : Nat → Page) (rows : List Row)
    (hvalid : ∀ r ∈ rows, r.valid) (hdistinct : (rows.map Row.id).Nodup)
    (t0 : Table) (rs : List ExecuteResult) (t : Table)
    (hopen : db_open [] heap = some t0) (hrun : insert_all rows t0 = some (rs, t))
    (_hsuccess : ∀ r ∈ rs, r = ExecuteResult.EXECUTE_SUCCESS) :
    rows.length ≤ 14 ∧
    (rows.length ≤ 13 → ∃ t1 out, execute_select t = some (t1, out) ∧
      out.Perm rows ∧ out.Pairwise (fun a b => a.id < b.id)) ∧
    (rows.length = 14 → ∃ t1 out, execute_select t = some (t1, out) ∧ out.length = 1) := by
  obtain ⟨t0b, node0, hopen2, hst0, hcount0⟩ := db_open_empty heap
  rw [hopen] at hopen2
  simp only [Option.some.injEq] at hopen2
  subst hopen2
  have hempty : leaf_rows node0 = [] := by
    apply List.eq_nil_of_length_eq_zero
    rw [leaf_rows_length, hcount0]
  obtain ⟨h1, h2, h3⟩ := insert_all_distinct rows t0 node0 [] hst0 (by rw [hempty]) hvalid
    (by simpa using hdistinct)
  simp only [List.nil_append] at h1 h2 h3
  refine ⟨?_, fun hle => ?_, fun heq => ?_⟩
  · by_contra hgt
    rw [h3 (by omega)] at hrun
    exact absurd hrun (by simp)
  · obtain ⟨t1, node1, hr1, hs1, hp1⟩ := h1 hle
    rw [hrun] at hr1
    simp only [Option.some.injEq, Prod.mk.injEq] at hr1
    obtain ⟨-, ht⟩ := hr1
    subst ht
    obtain ⟨hsel, hasc⟩ := execute_select_leaf_state t node1 hs1
    exact ⟨t, leaf_rows node1, hsel, hp1, hasc⟩
  · obtain ⟨t1, hr1, hs1⟩ := h2 heq
    rw [hrun] at hr1
    simp only [Option.some.injEq, Prod.mk.injEq] at hr1
    obtain ⟨-, ht⟩ := hr1
    subst ht
    exact execute_select_split_state t hs1

theorem select_emits_rows_while_root_is_leaf_witness :
    (∀ r ∈ [sample_row 3, sample_row 1, sample_row 2], r.valid) ∧
    ([sample_row 3, sample_row 1, sample_row 2].map Row.id).Nodup ∧
    ∃ t0 rs t, db_open [] zero_heap = some t0 ∧
      insert_all [sample_row 3, sample_row 1, sample_row 2] t0 = some (rs, t) ∧
      (∀ r ∈ rs, r = ExecuteResult.EXECUTE_SUCCESS) ∧
      ∃ t1 out, execute_select t = some (t1, out) ∧
        out.Perm [sample_row 3, sample_row 1, sample_row 2] ∧
        out.Pairwise (fun a b => a.id < b.id) :=
  have hv : ∀ r ∈ [sample_row 3, sample_row 1, sample_row 2], r.valid := by decide
  have hd : ([sample_row 3, sample_row 1, sample_row 2].map Row.id).Nodup := by decide
  ⟨hv, hd, (fresh_session zero_heap _ hv hd (by decide)).elim fun t0 h =>
    h.elim fun t h => h.elim fun _ h =>
      have hs : ∀ r ∈ List.replicate
          [sample_row 3, sample_row 1, sample_row 2].length ExecuteResult.EXECUTE_SUCCESS,
          r = ExecuteResult.EXECUTE_SUCCESS := by decide
      ⟨t0, _, t, h.1, h.2.1, hs,
        (select_emits_rows_while_root_is_leaf zero_heap _ hv hd t0 _ t h.1 h.2.1 hs).2.1
          (by decide)⟩⟩

/-- C7 at a failing input: the rows with ids 1 to 14 inserted into a fresh
database in ascending order and with id 1 last.  All inserts succeed in both
orders, yet the scans differ, and the last cell of the right leaf, keyed 14,
holds the row with id 14 in one table and other bytes in the other. -/
theorem insert_order_changes_split_contents :
    (List.map sample_row [1, 2, 3, 4, 5, 6, 7, 8, 9, 10, 11, 12, 13, 14]).Perm
      (List.map sample_row [2, 3, 4, 5, 6, 7, 8, 9, 10, 11, 12, 13, 14, 1]) ∧
    run_session zero_heap (List.map sample_row [1, 2, 3, 4, 5, 6, 7, 8, 9, 10, 11, 12, 13, 14])
      = some (List.replicate 14 ExecuteResult.EXECUTE_SUCCESS,
          [{ id := 2,
             username := 117 :: List.replicate 11 0 ++ [7, 0, 0, 0] ++ List.replicate 17 0,
             email := 101 :: List.replicate 255 0 }]) ∧
    run_session zero_heap (List.map sample_row [2, 3, 4, 5, 6, 7, 8, 9, 10, 11, 12, 13, 14, 1])
      = some (List.replicate 14 ExecuteResult.EXECUTE_SUCCESS,
          [{ id := 2,
             username := List.replicate 12 0 ++ [7, 0, 0, 0] ++ List.replicate 13 0
               ++ [101, 0, 0, 0],
             email := List.replicate 256 0 }]) ∧
    (session_leaf_rows zero_heap
        (List.map sample_row [1, 2, 3, 4, 5, 6, 7, 8, 9, 10, 11, 12, 13, 14]) 2 1).map
      (fun x => x.2.getLast?)
      = some (some { id := 117, username := List.replicate 29 0 ++ [101, 0, 0, 0],
                     email := List.replicate 256 0 }) ∧
    (session_leaf_rows zero_heap
        (List.map sample_row [2, 3, 4, 5, 6, 7, 8, 9, 10, 11, 12, 13, 14, 1]) 2 1).map
      (fun x => x.2.getLast?)
      = some (some (sample_row 14)) :=
  ⟨(List.perm_append_singleton (sample_row 1)
      (List.map sample_row [2, 3, 4, 5, 6, 7, 8, 9, 10, 11, 12, 13, 14])).symm,
    by decide!, by decide!, by decide!, by decide!⟩


/-- C8, amended: on a table whose root is a full sorted leaf marked as
root, in a pager that has no resident page at or above `num_pages` and whose
next two page numbers are below `TABLE_MAX_PAGES`, inserting a row of the C
type `Row` whose id is not stored returns `EXECUTE_SUCCESS`; afterwards the
root page is an internal node with `is_root` set and `num_keys = 1` whose child
0 and right child are two distinct pages, both different from the root, holding
leaves of `LEAF_NODE_LEFT_SPLIT_COUNT` and `LEAF_NODE_RIGHT_SPLIT_COUNT` cells;
the keys of the left leaf followed by those of the right leaf are the old keys
with the new key at the position `p` that `table_find` returns, which has the
smaller keys below it and the larger ones from it on. -/
theorem execute_insert_splits_root (t : Table) (pg : Pager) (node : Page) (row : Row)
    (hroot : get_page t.pager t.root_page_num = some (pg, node))
    (hfresh : pg.fresh_above)
    (hcap : pg.num_pages + 1 < TABLE_MAX_PAGES)
    (hleaf : sorted_leaf node)
    (hfull : leaf_node_num_cells node = LEAF_NODE_MAX_CELLS)
    (hisroot : is_node_root node = true)
    (hr : row.valid)
    (hnew : ∀ i, i < leaf_node_num_cells node → leaf_node_key node i ≠ row.id) :
    ∃ (p : Nat) (tf t1 : Table) (root1 left right : Page) (l n : Nat),
      table_find t row.id
        = some (tf, { page_num := t.root_page_num, cell_num := p, end_of_table := false }) ∧
      p ≤ leaf_node_num_cells node ∧
      (∀ i, i < p → leaf_node_key node i < row.id) ∧
      (∀ i, p ≤ i → i < leaf_node_num_cells node → row.id < leaf_node_key node i) ∧
      execute_insert row t = some (ExecuteResult.EXECUTE_SUCCESS, t1) ∧
      t1.root_page_num = t.root_page_num ∧
      t1.pager.pages t.root_page_num = some root1 ∧
      get_node_type root1 = NODE_INTERNAL ∧ is_node_root root1 = true ∧
      internal_node_num_keys root1 = 1 ∧
      internal_node_child root1 0 = some (internal_node_cell 0) ∧
      read_u32 root1 (internal_node_cell 0) = l ∧
      internal_node_right_child root1 = n ∧
      l ≠ n ∧ l ≠ t.root_page_num ∧ n ≠ t.root_page_num ∧
      t1.pager.pages l = some left ∧ t1.pager.pages n = some right ∧
      get_node_type left = NODE_LEAF ∧ get_node_type right = NODE_LEAF ∧
      leaf_node_num_cells left = LEAF_NODE_LEFT_SPLIT_COUNT ∧
      leaf_node_num_cells right = LEAF_NODE_RIGHT_SPLIT_COUNT ∧
      leaf_keys left ++ leaf_keys right
        = (leaf_keys node).take p ++ row.id :: (leaf_keys node).drop p := by
  obtain ⟨hrt, hres, -⟩ := get_page_spec _ _ _ _ hroot
  rw [LEAF_NODE_MAX_CELLS_eq] at hfull
  obtain ⟨p, hp, hfind, hlo, hhi, hok, -⟩ := execute_insert_split pg t.root_page_num node row
    hres hrt hfresh hleaf hfull hisroot hnew
  obtain ⟨t1, hexec, h1, h2, h3, root1, left, right, q1, q2, q3, q4, q5, q6, q7, q8, q9, q10,
    q11, q12, q13, q14, q15, q16⟩ := hok (by omega)
  have hrlt := resident_below_num_pages pg _ node hres hfresh
  rw [← execute_insert_of_root t pg node row hroot] at hexec
  rw [← table_find_of_root t pg node row.id hroot] at hfind
  obtain ⟨hkeys, -⟩ := split_keys p row node left right hr hp hfull
    (fun j hj i hij => hleaf.2.2 j (by omega) i hij) hlo hhi q12 q14 q15 q16
  refine ⟨p, _, t1, root1, left, right, pg.num_pages + 1, pg.num_pages, hfind,
    by rw [hfull]; exact hp, hlo, ?_, hexec,
    h1, q1, q4, q5, q6, internal_node_child_zero _ q6, q7, q8, by omega, by omega, by omega,
    q3, q2, q10, q13, q12, q14, hkeys⟩
  rw [hfull]
  exact hhi

theorem execute_insert_splits_root_witness :
    get_page (table_of_root full_leaf 1).pager (table_of_root full_leaf 1).root_page_num
      = some ((table_of_root full_leaf 1).pager, full_leaf) ∧
    (table_of_root full_leaf 1).pager.fresh_above ∧
    (table_of_root full_leaf 1).pager.num_pages + 1 < TABLE_MAX_PAGES ∧
    sorted_leaf full_leaf ∧
    leaf_node_num_cells full_leaf = LEAF_NODE_MAX_CELLS ∧
    is_node_root full_leaf = true ∧
    (sample_row 14).valid ∧
    (∀ i, i < leaf_node_num_cells full_leaf → leaf_node_key full_leaf i ≠ (sample_row 14).id) ∧
    ∃ (t1 : Table) (left right : Page) (l n : Nat),
      execute_insert (sample_row 14) (table_of_root full_leaf 1)
        = some (ExecuteResult.EXECUTE_SUCCESS, t1) ∧
      t1.pager.pages l = some left ∧ t1.pager.pages n = some right ∧ l ≠ n ∧
      leaf_keys left = [1, 2, 3, 4, 5, 6, 7] ∧
      leaf_keys right = [8, 9, 10, 11, 12, 13, 14] := by
  have hf : (table_of_root full_leaf 1).pager.fresh_above :=
    fun i hi => if_neg (Nat.ne_of_gt (Nat.lt_of_lt_of_le Nat.zero_lt_one hi))
  have hkeys : leaf_keys full_leaf = [1, 2, 3, 4, 5, 6, 7, 8, 9, 10, 11, 12, 13] := by decide
  have hn : leaf_node_num_cells full_leaf = 13 := by decide
  have hlast : ¬ (sample_row 14).id < leaf_node_key full_leaf 12 := by decide
  obtain ⟨p, -, t1, -, left, right, l, n, -, hp, -, hhi, hexec, -, -, -, -, -, -, -, -, hln, -,
    -, hl, hr, -, -, hcl, -, hk⟩ :=
    execute_insert_splits_root (table_of_root full_leaf 1)
      (table_of_root full_leaf 1).pager full_leaf (sample_row 14) rfl hf (by decide)
      (by decide) (by decide) (by decide) (by decide) (by decide)
  have hp13 : p = 13 := by
    rw [hn] at hp hhi
    by_contra hne
    exact hlast (hhi 12 (by omega) (by omega))
  rw [hp13, hkeys] at hk
  have hlen : (leaf_keys left).length = [1, 2, 3, 4, 5, 6, 7].length := by
    unfold leaf_keys
    rw [hcl]
    rfl
  have hboth := List.append_inj
    (hk.trans (by rfl : _ = [1, 2, 3, 4, 5, 6, 7] ++ [8, 9, 10, 11, 12, 13, 14])) hlen
  exact ⟨rfl, hf, by decide, by decide, by decide, by decide, by decide, by decide,
    t1, left, right, l, n, hexec, hl, hr, hln, hboth.1, hboth.2⟩

/-- C8, as stated, fails: the table of a database of 101 pages whose root
is the full leaf with keys 1 to 13 meets every condition of the claim, and the
insert of a row with id 14 ends the process in `get_page`, page number 101
being above `TABLE_MAX_PAGES`. -/
theorem execute_insert_splits_root_counterexample :
    get_page table_at_cap.pager table_at_cap.root_page_num
      = some (table_at_cap.pager, full_leaf) ∧
    table_at_cap.pager.fresh_above ∧
    sorted_leaf full_leaf ∧
    leaf_node_num_cells full_leaf = LEAF_NODE_MAX_CELLS ∧
    is_node_root full_leaf = true ∧
    (sample_row 14).valid ∧
    (∀ i, i < leaf_node_num_cells full_leaf → leaf_node_key full_leaf i ≠ (sample_row 14).id) ∧
    get_unused_page_num table_at_cap.pager = 101 ∧
    execute_insert (sample_row 14) table_at_cap = none :=
  ⟨rfl, fun i hi => if_neg (Nat.ne_of_gt (Nat.lt_of_lt_of_le (by decide) hi)),
    by decide, by decide, by decide, by decide, by decide, rfl, rfl⟩

/-- C9 at a failing input: the full root leaf with keys 1 to 13 splits on
the row `(14, "u", "e")`.  The cell that receives the new entry, cell 6 of the
right leaf, has 14 in its key field, but its value slot does not deserialize to
the row: `serialize_row` was aimed at the start of the cell, so the slot begins
with the username. -/
theorem split_value_slot_is_shifted :
    (match execute_insert (sample_row 14) (table_of_root full_leaf 1) with
      | some (_, t1) =>
        some (leaf_node_key (t1.pager.node 1) 6,
          deserialize_row (t1.pager.node 1) (leaf_node_value 6),
          deserialize_row (t1.pager.node 1) (leaf_node_cell 6))
      | none => none)
      = some (14,
          { id := 117, username := List.replicate 29 0 ++ [101, 0, 0, 0],
            email := List.replicate 256 0 },
          sample_row 14) := by
  decide

/-- C10: after a root leaf with 13 strictly ascending keys has split on the
insertion of a key not yet stored, the new root has one key and satisfies the
separator invariant: `key[0]`, read where `internal_node_key` points, is the
maximum key of child 0, every key of child 0 is at most `key[0]`, and `key[0]`
is below every key of the right child. -/
theorem split_root_separator (t : Table) (pg : Pager) (node : Page) (row : Row)
    (res : ExecuteResult) (t1 : Table)
    (hroot : get_page t.pager t.root_page_num = some (pg, node))
    (hfresh : pg.fresh_above)
    (hleaf : sorted_leaf node)
    (hfull : leaf_node_num_cells node = LEAF_NODE_MAX_CELLS)
    (hr : row.valid)
    (hnew : ∀ i, i < leaf_node_num_cells node → leaf_node_key node i ≠ row.id)
    (hexec : execute_insert row t = some (res, t1)) :
    ∃ (root1 left right : Page),
      t1.pager.pages t1.root_page_num = some root1 ∧
      get_node_type root1 = NODE_INTERNAL ∧
      internal_node_num_keys root1 = 1 ∧
      t1.pager.pages (read_u32 root1 (internal_node_cell 0)) = some left ∧
      t1.pager.pages (internal_node_right_child root1) = some right ∧
      read_u32 root1 (internal_node_key 0) = get_node_max_key left ∧
      (∀ i, i < leaf_node_num_cells left →
        leaf_node_key left i ≤ read_u32 root1 (internal_node_key 0)) ∧
      (∀ i, i < leaf_node_num_cells right →
        read_u32 root1 (internal_node_key 0) < leaf_node_key right i) := by
  obtain ⟨hrt, hres, -⟩ := get_page_spec _ _ _ _ hroot
  rw [LEAF_NODE_MAX_CELLS_eq] at hfull
  rw [execute_insert_of_root t pg node row hroot] at hexec
  have hisroot : is_node_root node = true := by
    by_contra hnr
    rw [execute_insert_nonroot_fatal pg _ node row hres hrt hfresh hleaf hfull
      (by simpa using hnr) hnew] at hexec
    exact absurd hexec (by simp)
  obtain ⟨p, hp, -, hlo, hhi, hok, hfatal⟩ := execute_insert_split pg t.root_page_num node row
    hres hrt hfresh hleaf hfull hisroot hnew
  by_cases hcap : pg.num_pages + 1 ≤ TABLE_MAX_PAGES
  · obtain ⟨t2, hexec2, h1, h2, h3, root1, left, right, q1, q2, q3, q4, q5, q6, q7, q8, q9, q10,
      q11, q12, q13, q14, q15, q16⟩ := hok hcap
    rw [hexec2] at hexec
    simp only [Option.some.injEq, Prod.mk.injEq] at hexec
    obtain ⟨-, ht⟩ := hexec
    subst ht
    obtain ⟨-, -, -, hle, hlt⟩ := split_keys p row node left right hr hp hfull
      (fun j hj i hij => hleaf.2.2 j (by omega) i hij) hlo hhi q12 q14 q15 q16
    have hmax := get_node_max_key_leaf left q10 q12
    refine ⟨root1, left, right, by rw [h1]; exact q1, q4, q6, by rw [q7]; exact q3,
      by rw [q8]; exact q2, q9, ?_, ?_⟩
    · intro i hi
      rw [q9, hmax]
      exact hle i (by rw [q12] at hi; exact hi)
    · intro i hi
      rw [q9, hmax]
      exact hlt i (by rw [q14] at hi; exact hi)
  · rw [hfatal (by omega)] at hexec
    exact absurd hexec (by simp)

theorem split_root_separator_witness :
    get_page (table_of_root full_leaf 1).pager (table_of_root full_leaf 1).root_page_num
      = some ((table_of_root full_leaf 1).pager, full_leaf) ∧
    (table_of_root full_leaf 1).pager.fresh_above ∧
    sorted_leaf full_leaf ∧
    leaf_node_num_cells full_leaf = LEAF_NODE_MAX_CELLS ∧
    (sample_row 14).valid ∧
    (∀ i, i < leaf_node_num_cells full_leaf → leaf_node_key full_leaf i ≠ (sample_row 14).id) ∧
    ∃ (res : ExecuteResult) (t1 : Table) (root1 left right : Page),
      execute_insert (sample_row 14) (table_of_root full_leaf 1) = some (res, t1) ∧
      t1.pager.pages t1.root_page_num = some root1 ∧
      t1.pager.pages (read_u32 root1 (internal_node_cell 0)) = some left ∧
      t1.pager.pages (internal_node_right_child root1) = some right ∧
      read_u32 root1 (internal_node_key 0) = get_node_max_key left ∧
      (∀ i, i < leaf_node_num_cells left →
        leaf_node_key left i ≤ read_u32 root1 (internal_node_key 0)) ∧
      (∀ i, i < leaf_node_num_cells right →
        read_u32 root1 (internal_node_key 0) < leaf_node_key right i) :=
  have hf : (table_of_root full_leaf 1).pager.fresh_above :=
    fun i hi => if_neg (Nat.ne_of_gt (Nat.lt_of_lt_of_le Nat.zero_lt_one hi))
  have hs : (execute_insert (sample_row 14) (table_of_root full_leaf 1)).isSome = true := by
    decide
  ⟨rfl, hf, by decide, by decide, by decide, by decide,
    (Option.isSome_iff_exists.mp hs).elim fun x hx =>
      (split_root_separator (table_of_root full_leaf 1) (table_of_root full_leaf 1).pager
        full_leaf (sample_row 14) x.1 x.2 rfl hf (by decide) (by decide) (by decide) (by decide)
        hx).elim fun root1 h => h.elim fun left h => h.elim fun right h =>
          ⟨x.1, x.2, root1, left, right, hx, h.1, h.2.2.2.1, h.2.2.2.2.1, h.2.2.2.2.2.1,
            h.2.2.2.2.2.2.1, h.2.2.2.2.2.2.2⟩⟩


/-- C11: in every table state reached from `db_open` on an empty file by a
sequence of `execute_insert` calls with rows of the C type `Row`,
`root_page_num` is 0 and page 0 is resident with `is_root` set; it is a leaf
before the split and the internal node written by `create_new_root` after. -/
theorem root_stays_page_zero (heap : Nat → Page) (rows : List Row)
    (hvalid : ∀ r ∈ rows, r.valid) (t0 : Table) (rs : List ExecuteResult) (t : Table)
    (hopen : db_open [] heap = some t0) (hrun : insert_all rows t0 = some (rs, t)) :
    t.root_page_num = 0 ∧
    ∃ root, t.pager.pages 0 = some root ∧
      get_page t.pager t.root_page_num = some (t.pager, root) ∧
      is_node_root root = true ∧
      (get_node_type root = NODE_LEAF ∨ get_node_type root = NODE_INTERNAL) := by
  obtain ⟨t0b, node0, hopen2, hst0, -⟩ := db_open_empty heap
  rw [hopen] at hopen2
  simp only [Option.some.injEq] at hopen2
  subst hopen2
  have hst := insert_all_state rows hvalid t0 (Or.inl ⟨node0, hst0⟩) rs t hrun
  rcases hst with ⟨node, h1, h2, _, _, h5, _, h7⟩ | ⟨h1, root1, left, right, h2, _, _, _, h6, h7, _⟩
  · refine ⟨h1, node, h2, ?_, h7, Or.inl h5.1⟩
    rw [h1]
    exact get_page_resident t.pager 0 node h2 (by rw [TABLE_MAX_PAGES_eq]; omega)
  · refine ⟨h1, root1, h2, ?_, h7, Or.inr h6⟩
    rw [h1]
    exact get_page_resident t.pager 0 root1 h2 (by rw [TABLE_MAX_PAGES_eq]; omega)

theorem root_stays_page_zero_witness :
    (∀ r ∈ (List.range 14).map (fun i => sample_row (i + 1)), r.valid) ∧
    ∃ t0 rs t root, db_open [] zero_heap = some t0 ∧
      insert_all ((List.range 14).map (fun i => sample_row (i + 1))) t0 = some (rs, t) ∧
      t.root_page_num = 0 ∧ t.pager.pages 0 = some root ∧
      get_node_type root = NODE_INTERNAL ∧ is_node_root root = true :=
  have hv : ∀ r ∈ (List.range 14).map (fun i => sample_row (i + 1)), r.valid := by decide
  ⟨hv, session_one_to_fourteen.elim fun t0 h => h.elim fun rs h => h.elim fun t h =>
    h.elim fun root h =>
      (root_stays_page_zero zero_heap _ hv t0 rs t h.1 h.2.1).2.elim fun root2 h2 =>
        ⟨t0, rs, t, root, h.1, h.2.1, h.2.2.1, h.2.2.2.1, h.2.2.2.2.1,
          (Option.some.inj (h.2.2.2.1.symm.trans h2.1)) ▸ h2.2.2.1⟩⟩

/-- C12: for every table state reached from `db_open` on a file (shorter than
2^32 bytes, the range of the `file_length` field) by `execute_insert` calls
whose `num_pages` is within the `TABLE_MAX_PAGES` entries of the array `pages`
(the loop of `db_close` indexes the array up to `num_pages`),
`db_close` returns and `db_open` on the file as it is then returns a table with
the same `root_page_num` and `num_pages`.  Every page resident at the close
lies below `num_pages` and within the bound of `get_page`, and every page
beyond the pages of the file opened is resident.  For every page below
`num_pages` within that bound, `get_page` returns before the close (the
resident buffer, if there is one) and on the reopened pager, with the same
`PAGE_SIZE` bytes.  When the root page holds at most `LEAF_NODE_MAX_CELLS`
cells (always, in a session on a fresh file with rows of the C type `Row`),
`execute_select` emits the same rows before the close and after reopening. -/
theorem close_then_open_preserves_pages (file : List Nat) (heap heap2 : Nat → Page)
    (rows : List Row) (t0 : Table) (rs : List ExecuteResult) (t : Table)
    (hlen : file.length < U32)
    (hopen : db_open file heap = some t0) (hrun : insert_all rows t0 = some (rs, t))
    (hcap : t.pager.num_pages ≤ TABLE_MAX_PAGES) :
    ∃ file1 t1, db_close t = some file1 ∧ db_open file1 heap2 = some t1 ∧
      t1.root_page_num = t.root_page_num ∧ t1.pager.num_pages = t.pager.num_pages ∧
      (∀ p page, t.pager.pages p = some page →
        p < t.pager.num_pages ∧ p ≤ TABLE_MAX_PAGES) ∧
      (∀ p, file.length / PAGE_SIZE ≤ p → p < t.pager.num_pages →
        ∃ page, t.pager.pages p = some page) ∧
      (∀ p, p < t.pager.num_pages → p ≤ TABLE_MAX_PAGES →
        ∃ pgx page pgy page1, get_page t.pager p = some (pgx, page) ∧
          (∀ x, t.pager.pages p = some x → page = x) ∧
          get_page t1.pager p = some (pgy, page1) ∧
          ∀ j, j < PAGE_SIZE → page1 j % 256 = page j % 256) ∧
      (∀ pgx root, get_page t.pager t.root_page_num = some (pgx, root) →
        leaf_node_num_cells root ≤ LEAF_NODE_MAX_CELLS →
        ∃ ta tb out, execute_select t = some (ta, out) ∧ execute_select t1 = some (tb, out)) ∧
      (file = [] → (∀ r ∈ rows, r.valid) →
        ∃ ta tb out, execute_select t = some (ta, out) ∧ execute_select t1 = some (tb, out)) := by
  obtain ⟨hroot, hc, hfile⟩ := session_consistent file heap rows t0 rs t hlen hopen hrun
  obtain ⟨file1, hclose, _, _, _⟩ := db_close_spec t hc hcap
  obtain ⟨pg1, _, hopen1, hnum, hc1, _, _, hpages⟩ :=
    reopen_get_page t heap2 file1 hc hcap hclose
  have hres : ∀ p page, t.pager.pages p = some page →
      p < t.pager.num_pages ∧ p ≤ TABLE_MAX_PAGES := by
    intro p page hp
    have hp2 : t.pager.pages p ≠ none := by rw [hp]; exact Option.some_ne_none _
    refine ⟨?_, hc.2.2.2.2.2.2.2 p hp2⟩
    by_contra hge
    exact hp2 (hc.2.2.2.2.2.1 p (by omega))
  have hbeyond : ∀ p, file.length / PAGE_SIZE ≤ p → p < t.pager.num_pages →
      ∃ page, t.pager.pages p = some page := by
    intro p hp hp2
    rw [← hfile] at hp
    exact Option.ne_none_iff_exists'.mp (hc.2.2.2.2.2.2.1 p hp hp2)
  have hserved : ∀ p, p < t.pager.num_pages → p ≤ TABLE_MAX_PAGES →
      ∃ pgx page pgy page1, get_page t.pager p = some (pgx, page) ∧
        (∀ x, t.pager.pages p = some x → page = x) ∧
        get_page pg1 p = some (pgy, page1) ∧
        ∀ j, j < PAGE_SIZE → page1 j % 256 = page j % 256 := by
    intro p hp hp2
    obtain ⟨pgx, page, hget⟩ := get_page_total t.pager p hp2
    obtain ⟨pgy, page1, hget1, hbytes⟩ := hpages p pgx page hp hget
    exact ⟨pgx, page, pgy, page1, hget,
      fun x hx => ((get_page_spec t.pager pgx p page hget).2.2.2.2.2.2 x hx).2, hget1, hbytes⟩
  have hsel : ∀ pgx root, get_page t.pager t.root_page_num = some (pgx, root) →
      leaf_node_num_cells root ≤ LEAF_NODE_MAX_CELLS →
      ∃ ta tb out, execute_select t = some (ta, out) ∧
        execute_select { pager := pg1, root_page_num := 0 } = some (tb, out) := by
    intro pgx root hget hn
    rw [hroot] at hget
    obtain ⟨pgy, page1, hget1, hbytes⟩ := hpages 0 pgx root (by have := hc.2.2.2.2.1; omega) hget
    obtain ⟨_, _, hn1, hrows⟩ := page_bytes_fields page1 root hbytes
    have hs := get_page_spec t.pager pgx 0 root hget
    have hs1 := get_page_spec pg1 pgy 0 page1 hget1
    have e1 : execute_select t = some ({ pager := pgx, root_page_num := 0 }, leaf_rows root) := by
      have h1 := execute_select_of_root t pgx root (by rw [hroot]; exact hget)
      rw [h1, hroot]
      exact execute_select_resident pgx 0 root hs.2.1 hs.1
        (by rw [LEAF_NODE_MAX_CELLS_eq] at hn; exact hn)
    have e2 : execute_select { pager := pg1, root_page_num := 0 }
        = some ({ pager := pgy, root_page_num := 0 }, leaf_rows page1) := by
      have h1 := execute_select_of_root { pager := pg1, root_page_num := 0 } pgy page1 hget1
      rw [h1]
      exact execute_select_resident pgy 0 page1 hs1.2.1 hs1.1
        (by rw [hn1]; rw [LEAF_NODE_MAX_CELLS_eq] at hn; exact hn)
    rw [(hrows hn).2] at e2
    exact ⟨_, _, _, e1, e2⟩
  refine ⟨file1, { pager := pg1, root_page_num := 0 }, hclose, hopen1, hroot.symm, hnum, hres,
    hbeyond, hserved, hsel, ?_⟩
  intro hfile0 hvalid
  subst hfile0
  obtain ⟨t0b, node0, hopen2, hst0, -⟩ := db_open_empty heap
  rw [hopen] at hopen2
  simp only [Option.some.injEq] at hopen2
  subst hopen2
  have hst := insert_all_state rows hvalid t0 (Or.inl ⟨node0, hst0⟩) rs t hrun
  rcases hst with ⟨node, h1, h2, _, _, h5, _, _⟩ | ⟨h1, root1, left, right, h2, _, _, _, _, _, h8, _⟩
  · refine hsel t.pager node ?_ h5.2.1
    rw [h1]
    exact get_page_resident t.pager 0 node h2 (by rw [TABLE_MAX_PAGES_eq]; omega)
  · refine hsel t.pager root1 ?_ ?_
    · rw [h1]
      exact get_page_resident t.pager 0 root1 h2 (by rw [TABLE_MAX_PAGES_eq]; omega)
    · have e : leaf_node_num_cells root1 = internal_node_num_keys root1 := rfl
      rw [e, h8, LEAF_NODE_MAX_CELLS_eq]
      omega

theorem close_then_open_preserves_pages_witness :
    ([] : List Nat).length < U32 ∧
    ∃ t0 rs t file1 t1 tb, db_open [] zero_heap = some t0 ∧
      insert_all [sample_row 1, sample_row 2, sample_row 3] t0 = some (rs, t) ∧
      t.pager.num_pages ≤ TABLE_MAX_PAGES ∧
      db_close t = some file1 ∧ db_open file1 zero_heap = some t1 ∧
      t1.pager.num_pages = t.pager.num_pages ∧
      execute_select t1 = some (tb, [sample_row 1, sample_row 2, sample_row 3]) :=
  have hv : ∀ r ∈ [sample_row 1, sample_row 2, sample_row 3], r.valid := by decide
  have hs : run_session zero_heap [sample_row 1, sample_row 2, sample_row 3] =
      some ([ExecuteResult.EXECUTE_SUCCESS, ExecuteResult.EXECUTE_SUCCESS,
        ExecuteResult.EXECUTE_SUCCESS], [sample_row 1, sample_row 2, sample_row 3]) := by
    decide!
  ⟨by decide, (run_session_some _ _ _ _ hs).elim fun t0 h => h.elim fun t h => h.elim fun ta h =>
    have hcap : t.pager.num_pages ≤ TABLE_MAX_PAGES :=
      le_trans (fresh_session_num_pages zero_heap _ hv t0 _ t h.1 h.2.1) (by decide)
    (close_then_open_preserves_pages [] zero_heap zero_heap _ t0 _ t (by decide) h.1
      h.2.1 hcap).elim fun file1 h2 => h2.elim fun t1 h2 =>
        (h2.2.2.2.2.2.2.2.2 rfl hv).elim fun ta2 h3 => h3.elim fun tb h3 => h3.elim fun out h3 =>
          have e : out = [sample_row 1, sample_row 2, sample_row 3] :=
            (congrArg Prod.snd (Option.some.inj (h.2.2.symm.trans h3.1))).symm
          ⟨t0, _, t, file1, t1, tb, h.1, h.2.1, hcap, h2.1, h2.2.1, h2.2.2.2.1, e ▸ h3.2⟩⟩


/-- C13: `db_open` on a zero-length file returns a table with
`root_page_num = 0` and `num_pages = 1` whose page 0 is a leaf with
`num_cells = 0` and `is_root` set, and `execute_select` on it emits no rows;
`db_close` then leaves a file of `PAGE_SIZE` bytes, and a second `db_open` on
that file returns a table with the same properties, page 0 being read back
through `get_page`. -/
theorem db_open_empty_file (heap heap2 : Nat → Page) :
    ∃ t0 node file1 t1 pg node1,
      db_open [] heap = some t0 ∧ t0.root_page_num = 0 ∧ t0.pager.num_pages = 1 ∧
      t0.pager.pages 0 = some node ∧ get_node_type node = NODE_LEAF ∧
      leaf_node_num_cells node = 0 ∧ is_node_root node = true ∧
      execute_select t0 = some (t0, []) ∧
      db_close t0 = some file1 ∧ file1.length = PAGE_SIZE ∧
      db_open file1 heap2 = some t1 ∧ t1.root_page_num = 0 ∧ t1.pager.num_pages = 1 ∧
      get_page t1.pager 0 = some (pg, node1) ∧ get_node_type node1 = NODE_LEAF ∧
      leaf_node_num_cells node1 = 0 ∧ is_node_root node1 = true ∧
      execute_select t1 = some ({ pager := pg, root_page_num := 0 }, []) := by
  obtain ⟨t0, node, hopen, hst, hn⟩ := db_open_empty heap
  obtain ⟨h1, h2, h3, _, h5, _, h7⟩ := hst
  obtain ⟨hsel, _⟩ := execute_select_leaf_state t0 node ⟨h1, h2, h3, ‹_›, h5, ‹_›, h7⟩
  have hnil : leaf_rows node = [] := by
    apply List.eq_nil_of_length_eq_zero
    rw [leaf_rows_length, hn]
  obtain ⟨_, hc, _⟩ := db_open_consistent [] heap t0 (by decide) hopen
  have hcap : t0.pager.num_pages ≤ TABLE_MAX_PAGES := by
    rw [h3, TABLE_MAX_PAGES_eq]; omega
  obtain ⟨file1, hclose, hlen, _, _⟩ := db_close_spec t0 hc hcap
  obtain ⟨pg1, _, hopen1, hnum, _, _, _, hpages⟩ :=
    reopen_get_page t0 heap2 file1 hc hcap hclose
  have hget : get_page t0.pager 0 = some (t0.pager, node) :=
    get_page_resident t0.pager 0 node h2 (by rw [TABLE_MAX_PAGES_eq]; omega)
  obtain ⟨pgy, page1, hget1, hbytes⟩ := hpages 0 t0.pager node (by omega) hget
  obtain ⟨e1, e2, e3, e4⟩ := page_bytes_fields page1 node hbytes
  have hs1 := get_page_spec pg1 pgy 0 page1 hget1
  have hsel1 : execute_select { pager := pg1, root_page_num := 0 }
      = some ({ pager := pgy, root_page_num := 0 }, []) := by
    have h := execute_select_of_root { pager := pg1, root_page_num := 0 } pgy page1 hget1
    rw [h]
    have h4 := execute_select_resident pgy 0 page1 hs1.2.1 hs1.1 (by rw [e3, hn]; omega)
    have e5 : leaf_rows page1 = [] := by
      apply List.eq_nil_of_length_eq_zero
      rw [leaf_rows_length, e3, hn]
    rw [e5] at h4
    exact h4
  refine ⟨t0, node, file1, { pager := pg1, root_page_num := 0 }, pgy, page1, hopen, h1, h3, h2,
    h5.1, hn, h7, ?_, hclose, ?_, hopen1, rfl, ?_, hget1, ?_, ?_, ?_, hsel1⟩
  · rw [hsel, hnil]
  · rw [hlen, h3, Nat.one_mul]
  · show pg1.num_pages = 1
    rw [hnum, h3]
  · rw [e1]; exact h5.1
  · rw [e3]; exact hn
  · rw [e2]; exact h7

/-- C14: for every table state reached from `db_open` on a file (shorter than
2^32 bytes) by `execute_insert` calls whose `num_pages` is within the
`TABLE_MAX_PAGES` entries of the array `pages` (the loop of `db_close` indexes
the array up to `num_pages`), `db_close` returns and the file is then
exactly `num_pages * PAGE_SIZE` bytes long; each page of the file that was
resident holds the `PAGE_SIZE` bytes of its buffer at offset
`page_num * PAGE_SIZE`, each other page is as it was in the file opened. -/
theorem db_close_writes_whole_pages (file : List Nat) (heap : Nat → Page)
    (rows : List Row) (t0 : Table) (rs : List ExecuteResult) (t : Table)
    (hlen : file.length < U32)
    (hopen : db_open file heap = some t0) (hrun : insert_all rows t0 = some (rs, t))
    (hcap : t.pager.num_pages ≤ TABLE_MAX_PAGES) :
    ∃ file1, db_close t = some file1 ∧ file1.length = t.pager.num_pages * PAGE_SIZE ∧
      (∀ p page j, t.pager.pages p = some page → j < PAGE_SIZE →
        file1.getD (p * PAGE_SIZE + j) 0 = page j % 256) ∧
      (∀ p j, t.pager.pages p = none → j < PAGE_SIZE →
        file1.getD (p * PAGE_SIZE + j) 0 = file.getD (p * PAGE_SIZE + j) 0) := by
  obtain ⟨_, hc, hf⟩ := session_consistent file heap rows t0 rs t hlen hopen hrun
  obtain ⟨file1, hclose, hl, hA, hB⟩ := db_close_spec t hc hcap
  rw [hf] at hB
  exact ⟨file1, hclose, hl, hA, hB⟩

theorem db_close_writes_whole_pages_witness :
    ([] : List Nat).length < U32 ∧
    (∃ t0 file1, db_open [] zero_heap = some t0 ∧ insert_all [] t0 = some ([], t0) ∧
      t0.pager.num_pages ≤ TABLE_MAX_PAGES ∧
      db_close t0 = some file1 ∧ file1.length = 4096) ∧
    (∃ t0 rs t file1, db_open [] zero_heap = some t0 ∧
      insert_all ((List.range 14).map (fun i => sample_row (i + 1))) t0 = some (rs, t) ∧
      t.pager.num_pages ≤ TABLE_MAX_PAGES ∧
      db_close t = some file1 ∧ file1.length = 3 * 4096) :=
  ⟨by decide,
    (db_open_empty zero_heap).elim fun t0 h => h.elim fun node h =>
      have hcap : t0.pager.num_pages ≤ TABLE_MAX_PAGES :=
        le_of_eq_of_le h.2.1.2.2.1 (by decide)
      (db_close_writes_whole_pages [] zero_heap [] t0 [] t0 (by decide) h.1 rfl hcap).elim
        fun file1 h2 => ⟨t0, file1, h.1, rfl, hcap, h2.1,
          h2.2.1.trans (congrArg (fun n => n * PAGE_SIZE) h.2.1.2.2.1)⟩,
    session_one_to_fourteen.elim fun t0 h => h.elim fun rs h => h.elim fun t h =>
      h.elim fun root h =>
        have hcap : t.pager.num_pages ≤ TABLE_MAX_PAGES :=
          le_of_eq_of_le h.2.2.2.2.2 (by decide)
        (db_close_writes_whole_pages [] zero_heap _ t0 rs t (by decide) h.1 h.2.1 hcap).elim
          fun file1 h2 => ⟨t0, rs, t, file1, h.1, h.2.1, hcap, h2.1,
            h2.2.1.trans (congrArg (fun n => n * PAGE_SIZE) h.2.2.2.2.2)⟩⟩

/-- C15: on a file that opens, `pager_open` ends the process exactly when the
length of the file is not a multiple of `PAGE_SIZE`; when it returns, no page
slot holds a buffer, `file_length` and `num_pages` are the length of the file
and its quotient by `PAGE_SIZE` as 32-bit values, and for a file shorter than
2^32 bytes `file_length` is the length of the file and
`num_pages = file_length / PAGE_SIZE`. -/
theorem pager_open_spec (file : List Nat) (heap : Nat → Page) :
    (pager_open file heap = none ↔ file.length % PAGE_SIZE ≠ 0) ∧
    ∀ pager, pager_open file heap = some pager →
      (∀ i, pager.pages i = none) ∧ pager.file = file ∧
      pager.file_length = file.length % U32 ∧
      pager.num_pages = (file.length / PAGE_SIZE) % U32 ∧
      (file.length < U32 →
        pager.file_length = file.length ∧ pager.num_pages = pager.file_length / PAGE_SIZE ∧
        pager.num_pages = file.length / 4096) := by
  by_cases hmod : file.length % PAGE_SIZE = 0
  · have h : pager_open file heap = some
        { file := file, file_length := file.length % U32
          num_pages := (file.length / PAGE_SIZE) % U32
          pages := fun _ => none, heap := heap } := by
      unfold pager_open
      simp only [hmod, ne_eq, not_true_eq_false, if_false]
    refine ⟨?_, ?_⟩
    · rw [h]
      constructor
      · intro h2; cases h2
      · intro h2; exact absurd hmod h2
    · intro pager hp
      rw [h] at hp
      cases hp
      refine ⟨fun _ => rfl, rfl, rfl, rfl, ?_⟩
      intro hlen
      have e1 : file.length % U32 = file.length := Nat.mod_eq_of_lt hlen
      have e2 : (file.length / PAGE_SIZE) % U32 = file.length / PAGE_SIZE :=
        Nat.mod_eq_of_lt (lt_of_le_of_lt (Nat.div_le_self _ _) hlen)
      refine ⟨e1, ?_, e2⟩
      show (file.length / PAGE_SIZE) % U32 = (file.length % U32) / PAGE_SIZE
      rw [e1, e2]
  · have h : pager_open file heap = none := by
      unfold pager_open
      simp only [ne_eq, hmod, not_false_eq_true, if_true]
    refine ⟨?_, ?_⟩
    · rw [h]
      exact ⟨fun _ => hmod, fun _ => rfl⟩
    · intro pager hp
      rw [h] at hp
      cases hp

theorem pager_open_spec_witness :
    (List.replicate 8192 0).length < U32 ∧
    pager_open (List.replicate 8192 0) zero_heap ≠ none ∧
    (pager_open [0] zero_heap = none) ∧
    ∀ pager, pager_open (List.replicate 8192 0) zero_heap = some pager →
      pager.file_length = 8192 ∧ pager.num_pages = 2 ∧ ∀ i, pager.pages i = none :=
  have hl : (List.replicate 8192 0).length = 8192 := List.length_replicate _ _
  have hl2 : (List.replicate 8192 0).length < U32 := by rw [hl]; decide
  ⟨hl2,
    fun h => (pager_open_spec (List.replicate 8192 0) zero_heap).1.mp h (by rw [hl]; decide),
    (pager_open_spec [0] zero_heap).1.mpr (by decide),
    fun pager hp =>
      have h := (pager_open_spec (List.replicate 8192 0) zero_heap).2 pager hp
      ⟨(h.2.2.2.2 hl2).1.trans hl,
        (h.2.2.2.2 hl2).2.2.trans (by rw [hl]), h.1⟩⟩


/-- C16: `get_page` ends the process for every page number above
`TABLE_MAX_PAGES`, but for the page number `TABLE_MAX_PAGES` itself it returns
a buffer and records it in slot 100 of the pager, one past the last entry of
the 100-entry array: a returning call does not have `page_num < 100`. -/
theorem get_page_serves_page_100 :
    (∀ (pager : Pager) (n : Nat), TABLE_MAX_PAGES < n → get_page pager n = none) ∧
    (∀ pager : Pager, ∃ pg page,
      get_page pager TABLE_MAX_PAGES = some (pg, page) ∧
      pg.pages TABLE_MAX_PAGES = some page) ∧
    ¬ (∀ (pager pg : Pager) (n : Nat) (page : Page),
      get_page pager n = some (pg, page) → n < TABLE_MAX_PAGES) := by
  have h2 : ∀ pager : Pager, ∃ pg page,
      get_page pager TABLE_MAX_PAGES = some (pg, page) ∧
      pg.pages TABLE_MAX_PAGES = some page := by
    intro pager
    obtain ⟨pg, page, h⟩ := get_page_total pager TABLE_MAX_PAGES (le_refl _)
    exact ⟨pg, page, h, (get_page_spec pager pg _ page h).2.1⟩
  refine ⟨fun pager n hn => get_page_fatal pager n hn, h2, ?_⟩
  intro hall
  obtain ⟨pg, page, h, _⟩ := h2 (Pager.mk [] 0 0 (fun _ => none) zero_heap)
  exact absurd (hall _ pg TABLE_MAX_PAGES page h) (lt_irrefl _)

/-- C17: on a leaf page with strictly ascending keys and at most
`LEAF_NODE_MAX_CELLS` cells, `leaf_node_find` returns a cursor on that page
whose `cell_num` is at most `num_cells` and equals the number of stored keys
below `k`; it is the index of `k` when `k` is stored, and otherwise every key
before it is below `k` and every key from it on is above `k`. -/
theorem leaf_node_find_position (t : Table) (pg : Pager) (page_num : Nat) (node : Page)
    (k : Nat) (hpage : get_page t.pager page_num = some (pg, node))
    (hleaf : sorted_leaf node) :
    ∃ p, leaf_node_find t page_num k =
        some ({ t with pager := pg },
              { page_num := page_num, cell_num := p, end_of_table := false }) ∧
      p ≤ leaf_node_num_cells node ∧
      (leaf_keys node).countP (fun x => decide (x < k)) = p ∧
      (∀ i, i < leaf_node_num_cells node → leaf_node_key node i = k → p = i) ∧
      ((∀ i, i < leaf_node_num_cells node → leaf_node_key node i ≠ k) →
        (∀ i, i < p → leaf_node_key node i < k) ∧
        (∀ i, p ≤ i → i < leaf_node_num_cells node → k < leaf_node_key node i)) := by
  obtain ⟨_, hn, hsorted⟩ := hleaf
  rw [LEAF_NODE_MAX_CELLS_eq] at hn
  obtain ⟨p, hp, hle, hA, hB, hC⟩ := leaf_node_find_loop_spec node k (leaf_node_num_cells node)
    hn hsorted (leaf_node_num_cells node) 0 (leaf_node_num_cells node) (Nat.zero_le _)
    (le_refl _) (by omega) (fun i hi => by omega) (fun i hi hi2 => by omega)
  have hge : ∀ i, p ≤ i → i < leaf_node_num_cells node → k ≤ leaf_node_key node i := by
    intro i hi hi2
    by_cases e : i = p
    · rw [e]; exact hC (by omega)
    · exact le_of_lt (hB i (by omega) hi2)
  refine ⟨p, ?_, hle, ?_, ?_, ?_⟩
  · unfold leaf_node_find
    rw [hpage]
    simp only [hp]
  · unfold leaf_keys
    rw [List.countP_map]
    apply countP_range_threshold _ _ p hle
    · intro i hi
      simp only [Function.comp_apply, decide_eq_true_eq]
      exact hA i hi
    · intro i hi hi2
      simp only [Function.comp_apply, decide_eq_false_iff_not, not_lt]
      exact hge i hi hi2
  · intro i hi hk
    by_contra hne
    by_cases hlt : i < p
    · have := hA i hlt
      omega
    · have := hB i (by omega) hi
      omega
  · intro hnot
    refine ⟨hA, ?_⟩
    intro i hi hi2
    have h1 := hge i hi hi2
    have h2 := hnot i hi2
    omega

theorem leaf_node_find_position_witness :
    get_page (table_of_root full_leaf 1).pager 0 =
      some ((table_of_root full_leaf 1).pager, full_leaf) ∧
    sorted_leaf full_leaf ∧
    ∃ p, leaf_node_find (table_of_root full_leaf 1) 0 5 =
        some ({ table_of_root full_leaf 1 with pager := (table_of_root full_leaf 1).pager },
              { page_num := 0, cell_num := p, end_of_table := false }) ∧
      p ≤ leaf_node_num_cells full_leaf ∧
      (leaf_keys full_leaf).countP (fun x => decide (x < 5)) = p ∧
      (∀ i, i < leaf_node_num_cells full_leaf → leaf_node_key full_leaf i = 5 → p = i) ∧
      ((∀ i, i < leaf_node_num_cells full_leaf → leaf_node_key full_leaf i ≠ 5) →
        (∀ i, i < p → leaf_node_key full_leaf i < 5) ∧
        (∀ i, p ≤ i → i < leaf_node_num_cells full_leaf → 5 < leaf_node_key full_leaf i)) :=
  ⟨rfl, by decide,
    leaf_node_find_position (table_of_root full_leaf 1) (table_of_root full_leaf 1).pager 0
      full_leaf 5 rfl (by decide)⟩

/-- C18: when the root page is a leaf, `table_find` is `leaf_node_find` on the
root page; when the root page is an internal node, `table_find` ends the
process for every key, and so does every `execute_insert`, whatever the row. -/
theorem table_find_needs_leaf_root (t : Table) (pg : Pager) (root : Page)
    (hroot : get_page t.pager t.root_page_num = some (pg, root)) :
    (get_node_type root = NODE_LEAF →
      ∀ k, table_find t k = leaf_node_find t t.root_page_num k) ∧
    (get_node_type root = NODE_INTERNAL →
      (∀ k, table_find t k = none) ∧ ∀ row, execute_insert row t = none) := by
  have hagain := get_page_again t.pager pg t.root_page_num root hroot
  constructor
  · intro hleaf k
    unfold table_find
    simp only [hroot, hleaf, if_true]
    unfold leaf_node_find
    simp only [hroot, hagain]
  · intro hint
    have hne : ¬ get_node_type root = NODE_LEAF := by
      rw [hint, NODE_INTERNAL_eq, NODE_LEAF_eq]; omega
    constructor
    · intro k
      unfold table_find
      simp only [hroot, hne, if_false]
    · intro row
      unfold execute_insert
      simp only [hroot]
      have hf : table_find { t with pager := pg } row.id = none := by
        unfold table_find
        simp only [hagain, hne, if_false]
      rw [hf]

theorem table_find_needs_leaf_root_witness :
    ∃ t0 rs t root, db_open [] zero_heap = some t0 ∧
      insert_all ((List.range 14).map (fun i => sample_row (i + 1))) t0 = some (rs, t) ∧
      get_page t.pager t.root_page_num = some (t.pager, root) ∧
      get_node_type root = NODE_INTERNAL ∧
      (∀ k, table_find t k = none) ∧ ∀ row, execute_insert row t = none :=
  session_one_to_fourteen.elim fun t0 h => h.elim fun rs h => h.elim fun t h =>
    h.elim fun root h =>
      have hroot : get_page t.pager t.root_page_num = some (t.pager, root) :=
        h.2.2.1.symm ▸ get_page_resident t.pager 0 root h.2.2.2.1 (by decide)
      ⟨t0, rs, t, root, h.1, h.2.1, hroot, h.2.2.2.2.1,
        (table_find_needs_leaf_root t t.pager root hroot).2 h.2.2.2.2.1⟩

/-- C19: the layout constants have the values `ROW_SIZE = 293`,
`COMMON_NODE_HEADER_SIZE = 6`, `LEAF_NODE_HEADER_SIZE = 10`,
`LEAF_NODE_CELL_SIZE = 297`, `LEAF_NODE_SPACE_FOR_CELLS = 4086`,
`LEAF_NODE_MAX_CELLS = 13`, both split counts are 7 and their sum is
`LEAF_NODE_MAX_CELLS + 1`. -/
theorem layout_constants :
    ROW_SIZE = 293 ∧ COMMON_NODE_HEADER_SIZE = 6 ∧ LEAF_NODE_HEADER_SIZE = 10 ∧
    LEAF_NODE_CELL_SIZE = 297 ∧ LEAF_NODE_SPACE_FOR_CELLS = 4086 ∧
    LEAF_NODE_MAX_CELLS = 13 ∧ LEAF_NODE_RIGHT_SPLIT_COUNT = 7 ∧
    LEAF_NODE_LEFT_SPLIT_COUNT = 7 ∧
    LEAF_NODE_LEFT_SPLIT_COUNT + LEAF_NODE_RIGHT_SPLIT_COUNT = LEAF_NODE_MAX_CELLS + 1 :=
  ⟨rfl, rfl, rfl, rfl, rfl, rfl, rfl, rfl, rfl⟩

/-- C20: the lines `print_tree(pager, 0, 0)` prints for the tree obtained by
inserting the ids 1 to 14 into a fresh database: the internal root is
announced as `- intenal (size 1)`, not `- internal (size 1)`; below it come
the left leaf with its keys 1 to 7 two levels in, the separator as the line
`- key 7`, and the right leaf with its keys 8 to 14. -/
theorem print_tree_spells_intenal :
    session_tree zero_heap ((List.range 14).map (fun i => sample_row (i + 1))) =
      some ["- intenal (size 1)",
            "  - leaf (size 7)",
            "    - 1", "    - 2", "    - 3", "    - 4", "    - 5", "    - 6", "    - 7",
            "  - key 7",
            "  - leaf (size 7)",
            "    - 8", "    - 9", "    - 10", "    - 11", "    - 12", "    - 13", "    - 14"] := by
  decide!


/-- C21: whenever `execute_insert` returns, for whatever table and row, its
result is `EXECUTE_SUCCESS` or `EXECUTE_DUPLICATE_KEY`, never
`EXECUTE_TABLE_FULL`. -/
theorem execute_insert_never_table_full (row : Row) (t : Table) (res : ExecuteResult)
    (t1 : Table) (h : execute_insert row t = some (res, t1)) :
    (res = ExecuteResult.EXECUTE_SUCCESS ∨ res = ExecuteResult.EXECUTE_DUPLICATE_KEY) ∧
    res ≠ ExecuteResult.EXECUTE_TABLE_FULL := by
  have key : res = ExecuteResult.EXECUTE_SUCCESS ∨ res = ExecuteResult.EXECUTE_DUPLICATE_KEY := by
    unfold execute_insert at h
    cases h1 : get_page t.pager t.root_page_num with
    | none => rw [h1] at h; cases h
    | some x =>
      obtain ⟨pg, node⟩ := x
      rw [h1] at h
      simp only [] at h
      cases h2 : table_find { t with pager := pg } row.id with
      | none => rw [h2] at h; cases h
      | some y =>
        obtain ⟨tf, cursor⟩ := y
        rw [h2] at h
        simp only [] at h
        split at h
        · cases h; exact Or.inr rfl
        · cases h3 : leaf_node_insert tf cursor row.id row with
          | none => rw [h3] at h; cases h
          | some t2 =>
            rw [h3] at h
            cases h
            exact Or.inl rfl
  refine ⟨key, ?_⟩
  rcases key with e | e <;> rw [e] <;> intro hc <;> cases hc

theorem execute_insert_never_table_full_witness :
    ∃ res t1, execute_insert (sample_row 14) (table_of_root full_leaf 1) = some (res, t1) ∧
      (res = ExecuteResult.EXECUTE_SUCCESS ∨ res = ExecuteResult.EXECUTE_DUPLICATE_KEY) ∧
      res ≠ ExecuteResult.EXECUTE_TABLE_FULL :=
  have hs : (execute_insert (sample_row 14) (table_of_root full_leaf 1)).isSome = true := by
    decide
  (Option.isSome_iff_exists.mp hs).elim fun x hx =>
    ⟨x.1, x.2, hx,
      execute_insert_never_table_full (sample_row 14) (table_of_root full_leaf 1) x.1 x.2 hx⟩

/-- C22: in every pager state reached from `pager_open` by `get_page` calls
that return, `num_pages` is at least what it was after `pager_open`, every
page asked for is resident and every resident page number is below `num_pages`
and passed the bound of `get_page`; a further `get_page(p)` that returns does
not decrease `num_pages` and leaves page `p` resident, with every resident
page number below `num_pages` again; and when `num_pages` is within the
`TABLE_MAX_PAGES` entries of the array `pages`, which the loop of `db_close`
indexes up to `num_pages`, `db_close` on such a pager returns with every
resident page written to the file at its offset. -/
theorem get_page_keeps_resident_below_num_pages (file : List Nat) (heap : Nat → Page)
    (pg0 : Pager) (ps : List Nat) (pg : Pager)
    (hopen : pager_open file heap = some pg0) (hrun : get_page_all ps pg0 = some pg) :
    pg0.num_pages ≤ pg.num_pages ∧
    (∀ p ∈ ps, pg.pages p ≠ none) ∧
    (∀ i, pg.pages i ≠ none → i < pg.num_pages ∧ i ≤ TABLE_MAX_PAGES) ∧
    (∀ p pg1 page, get_page pg p = some (pg1, page) →
      pg.num_pages ≤ pg1.num_pages ∧ pg1.pages p = some page ∧
      ∀ i, pg1.pages i ≠ none → i < pg1.num_pages) ∧
    (pg.num_pages ≤ TABLE_MAX_PAGES →
      ∀ r, ∃ file1, db_close { pager := pg, root_page_num := r } = some file1 ∧
        ∀ p page j, pg.pages p = some page → j < PAGE_SIZE →
          file1.getD (p * PAGE_SIZE + j) 0 = page j % 256) := by
  have h0 := pager_open_fresh file heap pg0 hopen
  have hf0 : pg0.fresh_above := fun i _ => h0 i
  have hb0 : ∀ i, pg0.pages i ≠ none → i ≤ TABLE_MAX_PAGES := fun i hi => absurd (h0 i) hi
  obtain ⟨hf, hb, hmono, _, hasked⟩ := get_page_all_spec ps pg0 pg hf0 hb0 hrun
  have hbelow : ∀ (P : Pager), P.fresh_above → ∀ i, P.pages i ≠ none → i < P.num_pages := by
    intro P hP i hi
    by_contra hge
    exact hi (hP i (by omega))
  refine ⟨hmono, hasked, fun i hi => ⟨hbelow pg hf i hi, hb i hi⟩, ?_, ?_⟩
  · intro p pg1 page hget
    obtain ⟨_, s2, _, _, s5, _, _⟩ := get_page_spec pg pg1 p page hget
    exact ⟨s5, s2, hbelow pg1 (get_page_fresh_above pg pg1 p page hf hget)⟩
  · intro hcap r
    obtain ⟨pgc, hl, hA, _, _, _, _⟩ := db_close_loop_spec pg.num_pages 0 pg hb
      (by rw [Nat.zero_add]; exact hcap)
    refine ⟨pgc.file, ?_, ?_⟩
    · unfold db_close
      simp only [hl]
    · intro p page j hp hj
      have hp2 : pg.pages p ≠ none := by rw [hp]; exact Option.some_ne_none _
      exact hA p page j (Nat.zero_le _) (by have := hbelow pg hf p hp2; omega) hp hj

theorem get_page_keeps_resident_below_num_pages_witness :
    pager_open [] zero_heap = some (Pager.mk [] 0 0 (fun _ => none) zero_heap) ∧
    ∃ pg, get_page_all [0, 5, 2] (Pager.mk [] 0 0 (fun _ => none) zero_heap) = some pg ∧
      pg.num_pages = 6 ∧ (∀ p ∈ [0, 5, 2], pg.pages p ≠ none) ∧
      (∀ i, pg.pages i ≠ none → i < pg.num_pages ∧ i ≤ TABLE_MAX_PAGES) ∧
      ∃ file1, db_close { pager := pg, root_page_num := 0 } = some file1 ∧
        ∀ p page j, pg.pages p = some page → j < PAGE_SIZE →
          file1.getD (p * PAGE_SIZE + j) 0 = page j % 256 :=
  have hs : ((get_page_all [0, 5, 2] (Pager.mk [] 0 0 (fun _ => none) zero_heap)).bind
      (fun pg => if pg.num_pages = 6 then some pg else none)).isSome = true := by decide
  (Option.isSome_iff_exists.mp hs).elim fun x hx =>
    (Option.bind_eq_some.mp hx).elim fun pg h =>
      have hn : pg.num_pages = 6 := by
        by_contra hne
        have h2 := h.2
        rw [if_neg hne] at h2
        cases h2
      have hc := get_page_keeps_resident_below_num_pages [] zero_heap _ [0, 5, 2] pg rfl h.1
      ⟨rfl, pg, h.1, hn, hc.2.1, hc.2.2.1,
        hc.2.2.2.2 (le_of_eq_of_le hn (by decide)) 0⟩

/-- C23: in every pager state reached from `pager_open` by `get_page` calls
that return, `get_unused_page_num` is `num_pages`, a page number that is not
resident and lies above every resident page number; `get_page` on it returns
when it is at most `TABLE_MAX_PAGES`, and whenever it returns the page is
resident and `get_unused_page_num` is exactly one more.  So when a full root
leaf resident at `r` splits, at whatever cursor position, the root `r`, the
new right leaf at `get_unused_page_num` and the new left leaf one above are
three pairwise distinct resident pages, and the root points to the two. -/
theorem get_unused_page_num_is_fresh (file : List Nat) (heap : Nat → Page)
    (pg0 : Pager) (ps : List Nat) (pg : Pager)
    (hopen : pager_open file heap = some pg0) (hrun : get_page_all ps pg0 = some pg) :
    get_unused_page_num pg = pg.num_pages ∧
    pg.pages (get_unused_page_num pg) = none ∧
    (∀ i, pg.pages i ≠ none → i < get_unused_page_num pg) ∧
    (get_unused_page_num pg ≤ TABLE_MAX_PAGES →
      ∃ pg1 page, get_page pg (get_unused_page_num pg) = some (pg1, page)) ∧
    (∀ pg1 page, get_page pg (get_unused_page_num pg) = some (pg1, page) →
      pg1.pages (get_unused_page_num pg) = some page ∧
      get_unused_page_num pg1 = get_unused_page_num pg + 1) ∧
    (∀ r node c key row eot, pg.pages r = some node → get_node_type node = NODE_LEAF →
      leaf_node_num_cells node = LEAF_NODE_MAX_CELLS → c ≤ leaf_node_num_cells node →
      is_node_root node = true → get_unused_page_num pg + 1 ≤ TABLE_MAX_PAGES →
      ∃ t1 root1 right left,
        leaf_node_insert { pager := pg, root_page_num := r }
          { page_num := r, cell_num := c, end_of_table := eot } key row = some t1 ∧
        t1.pager.pages r = some root1 ∧
        t1.pager.pages (get_unused_page_num pg) = some right ∧
        t1.pager.pages (get_unused_page_num pg + 1) = some left ∧
        internal_node_right_child root1 = get_unused_page_num pg ∧
        read_u32 root1 (internal_node_cell 0) = get_unused_page_num pg + 1 ∧
        r ≠ get_unused_page_num pg ∧ r ≠ get_unused_page_num pg + 1 ∧
        get_unused_page_num pg ≠ get_unused_page_num pg + 1) := by
  have h0 := pager_open_fresh file heap pg0 hopen
  have hf0 : pg0.fresh_above := fun i _ => h0 i
  have hb0 : ∀ i, pg0.pages i ≠ none → i ≤ TABLE_MAX_PAGES := fun i hi => absurd (h0 i) hi
  obtain ⟨hf, hb, _, _, _⟩ := get_page_all_spec ps pg0 pg hf0 hb0 hrun
  have hbelow : ∀ i, pg.pages i ≠ none → i < pg.num_pages := by
    intro i hi
    by_contra hge
    exact hi (hf i (by omega))
  refine ⟨rfl, hf _ (le_refl _), hbelow, fun hle => get_page_total pg _ hle, ?_, ?_⟩
  · intro pg1 page hget
    obtain ⟨_, s2, _, s4, _, s6, _⟩ := get_page_spec pg pg1 pg.num_pages page hget
    refine ⟨s2, ?_⟩
    have := s4 (hf _ (le_refl _))
    show pg1.num_pages = pg.num_pages + 1
    rcases s6 with s6 | s6
    · omega
    · exact s6
  · intro r node c key row eot hres htype hn hc hroot hcap
    rw [LEAF_NODE_MAX_CELLS_eq] at hn
    have hr : r ≤ TABLE_MAX_PAGES := hb r (by rw [hres]; exact Option.some_ne_none _)
    have hrlt : r < pg.num_pages := hbelow r (by rw [hres]; exact Option.some_ne_none _)
    obtain ⟨t1, hins, _, _, _, root1, left, right, p1, p2, p3, _, _, _, p7, p8, _⟩ :=
      leaf_node_insert_split pg r c key node row eot hres hr hf htype hn (by omega) hroot hcap
    refine ⟨t1, root1, right, left, hins, p1, p2, p3, p8, p7, ?_, ?_, ?_⟩
    · show r ≠ pg.num_pages
      omega
    · show r ≠ pg.num_pages + 1
      omega
    · show pg.num_pages ≠ pg.num_pages + 1
      omega

theorem get_unused_page_num_is_fresh_witness :
    pager_open [] zero_heap = some (Pager.mk [] 0 0 (fun _ => none) zero_heap) ∧
    ∃ pg, get_page_all [0, 1] (Pager.mk [] 0 0 (fun _ => none) zero_heap) = some pg ∧
      get_unused_page_num pg = pg.num_pages ∧
      pg.pages (get_unused_page_num pg) = none ∧
      (∀ i, pg.pages i ≠ none → i < get_unused_page_num pg) :=
  have hs : (get_page_all [0, 1] (Pager.mk [] 0 0 (fun _ => none) zero_heap)).isSome = true := by
    decide
  (Option.isSome_iff_exists.mp hs).elim fun pg h =>
    have hc := get_unused_page_num_is_fresh [] zero_heap _ [0, 1] pg rfl h
    ⟨rfl, pg, h, hc.1, hc.2.1, hc.2.2.1⟩


/-- C24: for every table whose root page `get_page` serves and is a
non-empty leaf, every page number `r` other than the root that `get_page`
serves next, in a pager with no resident page at or above `num_pages`:
`create_new_root(table, r)` ends the process when the page number
`L = num_pages` it allocates is above the bound of `get_page`, and otherwise
returns with page `L` holding the `PAGE_SIZE` bytes of the old root except for
the `is_root` byte, which is 0; the root page is an internal node with
`is_root` set, `num_keys = 1`, child 0 equal to `L`, key 0, read where
`internal_node_key` points, equal to `get_node_max_key` of page `L` (the last
key of the old root when it has at most `LEAF_NODE_MAX_CELLS` cells) and right
child `r`; page `r` is unchanged. -/
theorem create_new_root_effect (t : Table) (r : Nat) (pg1 pg2 : Pager) (root right : Page)
    (hroot : get_page t.pager t.root_page_num = some (pg1, root))
    (hright : get_page pg1 r = some (pg2, right))
    (hne : r ≠ t.root_page_num) (hfresh : t.pager.fresh_above)
    (hleaf : get_node_type root = NODE_LEAF) (hn : 0 < leaf_node_num_cells root) :
    (TABLE_MAX_PAGES < pg2.num_pages → create_new_root t r = none) ∧
    (pg2.num_pages ≤ TABLE_MAX_PAGES →
      ∃ t1 left root1, create_new_root t r = some t1 ∧
        t1.root_page_num = t.root_page_num ∧
        t1.pager.pages pg2.num_pages = some left ∧
        (∀ j, j < PAGE_SIZE → j ≠ IS_ROOT_OFFSET → left j = root j) ∧
        left IS_ROOT_OFFSET = 0 ∧ is_node_root left = false ∧
        t1.pager.pages t.root_page_num = some root1 ∧
        get_node_type root1 = NODE_INTERNAL ∧ is_node_root root1 = true ∧
        internal_node_num_keys root1 = 1 ∧
        read_u32 root1 (internal_node_cell 0) = pg2.num_pages ∧
        read_u32 root1 (internal_node_key 0) = get_node_max_key left ∧
        (leaf_node_num_cells root ≤ LEAF_NODE_MAX_CELLS →
          get_node_max_key left = leaf_node_key root (leaf_node_num_cells root - 1)) ∧
        internal_node_right_child root1 = r ∧
        t1.pager.pages r = some right) := by
  obtain ⟨P0, r0⟩ := t
  simp only at hroot hright hne hfresh ⊢
  have hs1 := get_page_spec P0 pg1 r0 root hroot
  have hs2 := get_page_spec pg1 pg2 r right hright
  have hr0 : r0 ≤ TABLE_MAX_PAGES := hs1.1
  have hr : r ≤ TABLE_MAX_PAGES := hs2.1
  have hPr : pg2.pages r = some right := hs2.2.1
  have hP0 : pg2.pages r0 = some root := by
    rw [hs2.2.2.1 r0 (Ne.symm hne)]; exact hs1.2.1
  have hfresh2 : pg2.fresh_above :=
    get_page_fresh_above pg1 pg2 r right (get_page_fresh_above P0 pg1 r0 root hfresh hroot) hright
  have hred : create_new_root { pager := P0, root_page_num := r0 } r
      = create_new_root { pager := pg2, root_page_num := r0 } r := by
    unfold create_new_root
    simp only [hroot, hright, get_page_resident pg2 r0 root hP0 hr0,
      get_page_resident pg2 r right hPr hr]
  rw [hred]
  generalize pg2 = P at hPr hP0 hfresh2 ⊢
  constructor
  · intro hcap
    exact create_new_root_fatal P r0 r root right hr0 hr hP0 hPr hcap
  · intro hcap
    obtain ⟨P1, pageL, hcall, _, q3, q4, q5, _⟩ :=
      create_new_root_spec P r0 r root right hr0 hr (Ne.symm hne) hP0 hPr hfresh2 hcap
    obtain ⟨l1, l2⟩ := left_child_page_spec pageL root
    have hK := get_node_max_key_lt (set_node_root (memcpy pageL 0 root 0 PAGE_SIZE) false)
    have hL : P.num_pages < U32 := by
      rw [TABLE_MAX_PAGES_eq] at hcap; rw [U32_eq]; omega
    have hN : r < U32 := by
      rw [TABLE_MAX_PAGES_eq] at hr; rw [U32_eq]; omega
    obtain ⟨n1, n2, n3, n4, n5, n6⟩ := new_root_page_spec root P.num_pages
      (get_node_max_key (set_node_root (memcpy pageL 0 root 0 PAGE_SIZE) false)) r hL hK hN
    refine ⟨_, _, _, hcall, rfl, q5, ?_, ?_, l2, q3, n1, n2, n3, n4, n6, ?_, n5, q4⟩
    · intro j hj hj1
      rw [IS_ROOT_OFFSET_eq] at hj1
      exact l1 j hj hj1
    · rw [IS_ROOT_OFFSET_eq]
      unfold set_node_root write_u8
      rw [IS_ROOT_OFFSET_eq]
      simp
    · intro hmax
      rw [LEAF_NODE_MAX_CELLS_eq] at hmax
      have l1 : ∀ j, j < 4096 → j ≠ 1 →
          set_node_root (memcpy pageL 0 root 0 PAGE_SIZE) false j = root j :=
        fun j hj hj1 => l1 j (by rw [PAGE_SIZE_eq]; exact hj) hj1
      have htl : get_node_type (set_node_root (memcpy pageL 0 root 0 PAGE_SIZE) false)
          = NODE_LEAF := by
        rw [← hleaf]
        unfold get_node_type read_u8
        rw [NODE_TYPE_OFFSET_eq, l1 0 (by omega) (by omega)]
      have hnl : leaf_node_num_cells (set_node_root (memcpy pageL 0 root 0 PAGE_SIZE) false)
          = leaf_node_num_cells root := by
        unfold leaf_node_num_cells
        rw [LEAF_NODE_NUM_CELLS_OFFSET_eq]
        exact read_u32_congr _ _ 6 6 (fun k hk => l1 (6 + k) (by omega) (by omega))
      unfold get_node_max_key
      rw [if_neg (by rw [htl, NODE_LEAF_eq, NODE_INTERNAL_eq]; omega), if_pos htl, hnl]
      have e : (leaf_node_num_cells root + U32 - 1) % U32 = leaf_node_num_cells root - 1 := by
        rw [U32_eq]; omega
      rw [e]
      unfold leaf_node_key
      rw [leaf_node_cell_eq _ (by omega)]
      exact read_u32_congr _ _ _ _ (fun k hk => l1 _ (by omega) (by omega))


theorem create_new_root_effect_witness :
    get_page (table_of_two full_leaf empty_leaf).pager 0 =
      some ((table_of_two full_leaf empty_leaf).pager, full_leaf) ∧
    get_page (table_of_two full_leaf empty_leaf).pager 1 =
      some ((table_of_two full_leaf empty_leaf).pager, empty_leaf) ∧
    (table_of_two full_leaf empty_leaf).pager.fresh_above ∧
    get_node_type full_leaf = NODE_LEAF ∧ 0 < leaf_node_num_cells full_leaf ∧
    ∃ t1 left root1, create_new_root (table_of_two full_leaf empty_leaf) 1 = some t1 ∧
      t1.pager.pages 2 = some left ∧
      (∀ j, j < PAGE_SIZE → j ≠ IS_ROOT_OFFSET → left j = full_leaf j) ∧
      is_node_root left = false ∧
      t1.pager.pages 0 = some root1 ∧
      get_node_type root1 = NODE_INTERNAL ∧ is_node_root root1 = true ∧
      internal_node_num_keys root1 = 1 ∧ read_u32 root1 (internal_node_cell 0) = 2 ∧
      read_u32 root1 (internal_node_key 0) = get_node_max_key left ∧
      internal_node_right_child root1 = 1 ∧ t1.pager.pages 1 = some empty_leaf :=
  have hf : (table_of_two full_leaf empty_leaf).pager.fresh_above := by
    intro i hi
    have hi2 : 2 ≤ i := hi
    show (if i = 0 then some full_leaf else if i = 1 then some empty_leaf else none) = none
    rw [if_neg (by omega), if_neg (by omega)]
  ⟨rfl, rfl, hf, by decide, by decide,
    ((create_new_root_effect (table_of_two full_leaf empty_leaf) 1
      (table_of_two full_leaf empty_leaf).pager (table_of_two full_leaf empty_leaf).pager
      full_leaf empty_leaf rfl rfl (by decide) hf (by decide) (by decide)).2 (by decide)).elim
      fun t1 h =>
        h.elim fun left h => h.elim fun root1 h =>
          ⟨t1, left, root1, h.1, h.2.2.1, h.2.2.2.1, h.2.2.2.2.2.1, h.2.2.2.2.2.2.1,
            h.2.2.2.2.2.2.2.1, h.2.2.2.2.2.2.2.2.1, h.2.2.2.2.2.2.2.2.2.1,
            h.2.2.2.2.2.2.2.2.2.2.1, h.2.2.2.2.2.2.2.2.2.2.2.1,
            h.2.2.2.2.2.2.2.2.2.2.2.2.2.1, h.2.2.2.2.2.2.2.2.2.2.2.2.2.2⟩⟩

/-- C25: `initialize_leaf_node` sets byte 0 to 1 (`node_type` leaf) and
`num_cells` to 0 and changes no byte other than byte 0 and the four bytes of
`num_cells`, so `is_root` (byte 1) stays as it is; `initialize_internal_node`
sets byte 0 to 0 (`node_type` internal), `is_root` to false and `num_keys` to
0 and changes no byte other than bytes 0 and 1 and the four bytes of
`num_keys`. -/
theorem initialize_node_effect (node : Page) :
    (initialize_leaf_node node 0 = 1 ∧
      get_node_type (initialize_leaf_node node) = NODE_LEAF ∧
      leaf_node_num_cells (initialize_leaf_node node) = 0 ∧
      (∀ j, j ≠ NODE_TYPE_OFFSET →
        ¬ (LEAF_NODE_NUM_CELLS_OFFSET ≤ j ∧ j < LEAF_NODE_NUM_CELLS_OFFSET + 4) →
        initialize_leaf_node node j = node j) ∧
      initialize_leaf_node node 1 = node 1 ∧
      is_node_root (initialize_leaf_node node) = is_node_root node) ∧
    (initialize_internal_node node 0 = 0 ∧
      get_node_type (initialize_internal_node node) = NODE_INTERNAL ∧
      initialize_internal_node node 1 = 0 ∧
      is_node_root (initialize_internal_node node) = false ∧
      internal_node_num_keys (initialize_internal_node node) = 0 ∧
      (∀ j, j ≠ NODE_TYPE_OFFSET → j ≠ IS_ROOT_OFFSET →
        ¬ (INTERNAL_NODE_NUM_KEYS_OFFSET ≤ j ∧ j < INTERNAL_NODE_NUM_KEYS_OFFSET + 4) →
        initialize_internal_node node j = node j)) := by
  have hl : ∀ j, initialize_leaf_node node j =
      if 6 ≤ j ∧ j < 10 then 0 else if j = 0 then 1 else node j := by
    intro j
    unfold initialize_leaf_node set_leaf_node_num_cells set_node_type write_u32 write_u8
    rw [LEAF_NODE_NUM_CELLS_OFFSET_eq, NODE_TYPE_OFFSET_eq, NODE_LEAF_eq]
    by_cases h1 : 6 ≤ j ∧ j < 10
    · rw [if_pos (by omega), if_pos h1]; simp
    · rw [if_neg (by omega), if_neg h1]
  have hi : ∀ j, initialize_internal_node node j =
      if 6 ≤ j ∧ j < 10 then 0 else if j = 1 then 0 else if j = 0 then 0 else node j := by
    intro j
    unfold initialize_internal_node set_internal_node_num_keys set_node_root set_node_type
      write_u32 write_u8
    rw [INTERNAL_NODE_NUM_KEYS_OFFSET_eq, NODE_TYPE_OFFSET_eq, IS_ROOT_OFFSET_eq,
      NODE_INTERNAL_eq]
    by_cases h1 : 6 ≤ j ∧ j < 10
    · rw [if_pos (by omega), if_pos h1]; simp
    · rw [if_neg (by omega), if_neg h1]
      simp
  refine ⟨⟨?_, ?_, ?_, ?_, ?_, ?_⟩, ⟨?_, ?_, ?_, ?_, ?_, ?_⟩⟩
  · rw [hl]; simp
  · unfold get_node_type read_u8
    rw [NODE_TYPE_OFFSET_eq, hl, NODE_LEAF_eq]; simp
  · unfold leaf_node_num_cells read_u32
    rw [LEAF_NODE_NUM_CELLS_OFFSET_eq, hl, hl, hl, hl]; simp
  · intro j h1 h2
    rw [NODE_TYPE_OFFSET_eq] at h1
    rw [LEAF_NODE_NUM_CELLS_OFFSET_eq] at h2
    rw [hl, if_neg h2, if_neg h1]
  · rw [hl]; simp
  · unfold is_node_root read_u8
    rw [IS_ROOT_OFFSET_eq, hl]; simp
  · rw [hi]; simp
  · unfold get_node_type read_u8
    rw [NODE_TYPE_OFFSET_eq, hi, NODE_INTERNAL_eq]; simp
  · rw [hi]; simp
  · unfold is_node_root read_u8
    rw [IS_ROOT_OFFSET_eq, hi]; simp
  · unfold internal_node_num_keys read_u32
    rw [INTERNAL_NODE_NUM_KEYS_OFFSET_eq, hi, hi, hi, hi]; simp
  · intro j h1 h2 h3
    rw [NODE_TYPE_OFFSET_eq] at h1
    rw [IS_ROOT_OFFSET_eq] at h2
    rw [INTERNAL_NODE_NUM_KEYS_OFFSET_eq] at h3
    rw [hi, if_neg h3, if_neg h2, if_neg h1]


/-- C26: for every table whose root page `get_page` serves, with
`n = num_cells` cells: `table_start` returns a cursor on the root with
`cell_num = 0` and `end_of_table = (n == 0)`; `cursor_advance` on a cursor on
the root increases `cell_num` by 1 (as a 32-bit value), sets `end_of_table`
when the new `cell_num` is at least `n` and otherwise leaves it as it is; the
cursor of `table_start` advanced `k ≤ n` times has `cell_num = k ≤ n` and
`end_of_table` exactly when `cell_num ≥ n`; the loop of `execute_select`
returns exactly when it is allowed `n` iterations, and `execute_select`
emits the rows of the cells `0` to `n - 1` in this order. -/
theorem table_scan_visits_each_cell (t : Table) (pg : Pager) (node : Page)
    (hroot : get_page t.pager t.root_page_num = some (pg, node)) :
    table_start t = some ({ t with pager := pg },
      { page_num := t.root_page_num, cell_num := 0,
        end_of_table := leaf_node_num_cells node == 0 }) ∧
    (∀ cursor : Cursor, cursor.page_num = t.root_page_num →
      ∃ c1, cursor_advance { t with pager := pg } cursor = some ({ t with pager := pg }, c1) ∧
        c1.page_num = cursor.page_num ∧ c1.cell_num = (cursor.cell_num + 1) % U32 ∧
        (cursor.cell_num + 1 < U32 → c1.cell_num = cursor.cell_num + 1) ∧
        (c1.end_of_table = true ↔
          (leaf_node_num_cells node ≤ c1.cell_num ∨ cursor.end_of_table = true))) ∧
    (∀ k, k ≤ leaf_node_num_cells node →
      ∃ c, cursor_advance_n k { t with pager := pg }
          { page_num := t.root_page_num, cell_num := 0,
            end_of_table := leaf_node_num_cells node == 0 }
          = some ({ t with pager := pg }, c) ∧
        c.page_num = t.root_page_num ∧ c.cell_num = k ∧
        c.cell_num ≤ leaf_node_num_cells node ∧
        (c.end_of_table = true ↔ leaf_node_num_cells node ≤ c.cell_num)) ∧
    (∀ fuel, execute_select_loop fuel { t with pager := pg }
        { page_num := t.root_page_num, cell_num := 0,
          end_of_table := leaf_node_num_cells node == 0 } []
      = if leaf_node_num_cells node ≤ fuel then
          some ({ t with pager := pg },
            (List.range (leaf_node_num_cells node)).map
              (fun i => deserialize_row node (leaf_node_value i)))
        else none) ∧
    execute_select t = some ({ t with pager := pg },
      (List.range (leaf_node_num_cells node)).map
        (fun i => deserialize_row node (leaf_node_value i))) := by
  obtain ⟨P, r⟩ := t
  simp only at hroot ⊢
  have hs := get_page_spec P pg r node hroot
  have hr : r ≤ TABLE_MAX_PAGES := hs.1
  have hres : pg.pages r = some node := hs.2.1
  have hagain := get_page_again P pg r node hroot
  have hstart : table_start { pager := P, root_page_num := r } =
      some ({ pager := pg, root_page_num := r },
        { page_num := r, cell_num := 0, end_of_table := leaf_node_num_cells node == 0 }) := by
    unfold table_start
    simp only [hroot]
  have hloop : ∀ fuel, execute_select_loop fuel { pager := pg, root_page_num := r }
        { page_num := r, cell_num := 0, end_of_table := leaf_node_num_cells node == 0 } []
      = if leaf_node_num_cells node ≤ fuel then
          some ({ pager := pg, root_page_num := r },
            (List.range (leaf_node_num_cells node)).map
              (fun i => deserialize_row node (leaf_node_value i)))
        else none := by
    intro fuel
    by_cases h0 : leaf_node_num_cells node = 0
    · rw [h0]
      unfold execute_select_loop
      simp
    · have hb : (leaf_node_num_cells node == 0) = false := by simpa using h0
      rw [hb, execute_select_loop_exact pg r node hres hr fuel 0 [] (by omega)]
      simp only [Nat.sub_zero, List.nil_append, List.range_eq_range']
  refine ⟨hstart, ?_, ?_, hloop, ?_⟩
  · intro cursor hcur
    refine ⟨{ cursor with
        cell_num := (cursor.cell_num + 1) % U32
        end_of_table :=
          if (cursor.cell_num + 1) % U32 ≥ leaf_node_num_cells node then true
          else cursor.end_of_table }, ?_, rfl, rfl, ?_, ?_⟩
    · unfold cursor_advance
      simp only [hcur, hagain]
    · intro hlt
      exact Nat.mod_eq_of_lt hlt
    · show (if (cursor.cell_num + 1) % U32 ≥ leaf_node_num_cells node then true
        else cursor.end_of_table) = true ↔ _
      by_cases hge : (cursor.cell_num + 1) % U32 ≥ leaf_node_num_cells node
      · rw [if_pos hge]; exact ⟨fun _ => Or.inl hge, fun _ => rfl⟩
      · rw [if_neg hge]
        exact ⟨fun h => Or.inr h, fun h => h.elim (fun h2 => absurd h2 hge) id⟩
  · intro k hk
    obtain ⟨c, c1, c2, c3, c4⟩ := cursor_advance_n_spec pg r node hres hr k
      { page_num := r, cell_num := 0, end_of_table := leaf_node_num_cells node == 0 }
      rfl (by show 0 + k ≤ _; omega)
      (by
        show (leaf_node_num_cells node == 0) = true ↔ leaf_node_num_cells node ≤ 0
        rw [beq_iff_eq]; omega)
    have c3b : c.cell_num = k := by rw [c3]; show 0 + k = k; omega
    exact ⟨c, c1, c2, c3b, by rw [c3b]; exact hk, c4⟩
  · unfold execute_select
    rw [hstart]
    simp only [Pager.node_of_pages pg r node hres]
    rw [hloop, if_pos (le_refl _)]

theorem table_scan_visits_each_cell_witness :
    get_page (table_of_root full_leaf 1).pager (table_of_root full_leaf 1).root_page_num =
      some ((table_of_root full_leaf 1).pager, full_leaf) ∧
    leaf_node_num_cells full_leaf = 13 ∧
    execute_select_loop 12 (table_of_root full_leaf 1)
      { page_num := 0, cell_num := 0, end_of_table := false } [] = none ∧
    execute_select (table_of_root full_leaf 1) = some (table_of_root full_leaf 1,
      (List.range 13).map (fun i => deserialize_row full_leaf (leaf_node_value i))) :=
  have h := table_scan_visits_each_cell (table_of_root full_leaf 1)
    (table_of_root full_leaf 1).pager full_leaf rfl
  have hn : leaf_node_num_cells full_leaf = 13 := by decide
  ⟨rfl, hn, (h.2.2.2.1 12).trans (if_neg (by rw [hn]; decide)), hn ▸ h.2.2.2.2⟩

/-- C28: on a leaf page with at most `LEAF_NODE_MAX_CELLS` cells, whatever its
keys, the binary search of `leaf_node_find` returns within `num_cells`
iterations with a position of at most `num_cells`; every iteration has
`start ≤ index < end ≤ num_cells` for the index `(start + end) / 2` it reads,
computed without overflow of 32 bits, and from each iteration to the next
`end - start` strictly decreases; so `leaf_node_find` returns. -/
theorem leaf_node_find_loop_terminates (node : Page) (key : Nat)
    (hn : leaf_node_num_cells node ≤ LEAF_NODE_MAX_CELLS) :
    (∃ p, leaf_node_find_loop node key (leaf_node_num_cells node) 0 (leaf_node_num_cells node)
        = some p ∧ p ≤ leaf_node_num_cells node) ∧
    (∀ x ∈ leaf_node_find_trace node key (leaf_node_num_cells node) 0
        (leaf_node_num_cells node),
      x.1 ≤ x.2.2 ∧ x.2.2 < x.2.1 ∧ x.2.1 ≤ leaf_node_num_cells node ∧
      x.1 + x.2.1 < U32 ∧ x.2.2 = (x.1 + x.2.1) / 2) ∧
    (leaf_node_find_trace node key (leaf_node_num_cells node) 0
      (leaf_node_num_cells node)).Chain' (fun a b => b.2.1 - b.1 < a.2.1 - a.1) ∧
    (leaf_node_find_trace node key (leaf_node_num_cells node) 0
      (leaf_node_num_cells node)).length ≤ leaf_node_num_cells node ∧
    (∀ (t : Table) (page_num : Nat) (pg : Pager),
      get_page t.pager page_num = some (pg, node) →
      ∃ p, leaf_node_find t page_num key =
          some ({ t with pager := pg },
            { page_num := page_num, cell_num := p, end_of_table := false }) ∧
        p ≤ leaf_node_num_cells node) := by
  rw [LEAF_NODE_MAX_CELLS_eq] at hn
  obtain ⟨⟨p, hp, _, hp2⟩, hall, hch, _, hlen⟩ :=
    leaf_node_find_trace_spec node key (leaf_node_num_cells node) (by rw [U32_eq]; omega)
      (leaf_node_num_cells node) 0 (leaf_node_num_cells node) (Nat.zero_le _) (le_refl _)
      (by omega)
  refine ⟨⟨p, hp, hp2⟩, ?_, hch, by omega, ?_⟩
  · intro x hx
    obtain ⟨_, a2, a3, a4, a5, a6⟩ := hall x hx
    exact ⟨a2, a3, a4, a5, a6⟩
  · intro t page_num pg hget
    refine ⟨p, ?_, hp2⟩
    unfold leaf_node_find
    rw [hget]
    simp only [hp]

theorem leaf_node_find_loop_terminates_witness :
    leaf_node_num_cells (leaf_insert_page leaf_seven 1 3 (sample_row 3)) ≤ LEAF_NODE_MAX_CELLS ∧
    leaf_keys (leaf_insert_page leaf_seven 1 3 (sample_row 3)) = [7, 3] ∧
    leaf_node_find_trace (leaf_insert_page leaf_seven 1 3 (sample_row 3)) 1 2 0 2
      = [(0, 2, 1), (0, 1, 0)] ∧
    ∃ p, leaf_node_find_loop (leaf_insert_page leaf_seven 1 3 (sample_row 3)) 1
        (leaf_node_num_cells (leaf_insert_page leaf_seven 1 3 (sample_row 3))) 0
        (leaf_node_num_cells (leaf_insert_page leaf_seven 1 3 (sample_row 3))) = some p ∧
      p ≤ leaf_node_num_cells (leaf_insert_page leaf_seven 1 3 (sample_row 3)) :=
  ⟨by decide, by decide, by decide,
    (leaf_node_find_loop_terminates (leaf_insert_page leaf_seven 1 3 (sample_row 3)) 1
      (by decide)).1⟩

/-- C30: after the ids 1 to 14 have been inserted into a table opened on an
empty file whose buffers come from `malloc` filled with the byte 1, the root
page and the left leaf have `is_root` true and false, but the right leaf,
whose buffer was obtained in `leaf_node_split_and_insert`, has `is_root` true:
no store writes that byte.  With zeroed buffers it is false. -/
theorem right_leaf_keeps_is_root_byte :
    session_root_flags ones_heap ((List.range 14).map (fun i => sample_row (i + 1)))
      = some (true, false, true) ∧
    session_root_flags zero_heap ((List.range 14).map (fun i => sample_row (i + 1)))
      = some (true, false, false) := by
  constructor <;> decide!


/-- C29: every cell `i < LEAF_NODE_MAX_CELLS` lies inside the page,
`LEAF_NODE_HEADER_SIZE + i * LEAF_NODE_CELL_SIZE + LEAF_NODE_CELL_SIZE ≤
PAGE_SIZE`, and cells of distinct indices do not overlap.  The no-split path
of `leaf_node_insert` (fewer than 13 cells, cursor at most at `num_cells`)
changes no byte of the common header and no byte from the end of cell 12 on,
and the bytes it leaves below the end of cell 12 do not depend on the bytes
from there on.  The loop of `leaf_node_split_and_insert` (cursor at most at
13) changes no byte outside the cells 0 to 6 of the old and of the new page,
and each of these cells receives the serialized row or the bytes of a cell of
index at most 12 of the old page. -/
theorem cell_accesses_stay_in_page :
    (∀ i, i < LEAF_NODE_MAX_CELLS →
      leaf_node_cell i = LEAF_NODE_HEADER_SIZE + i * LEAF_NODE_CELL_SIZE ∧
      leaf_node_cell i + LEAF_NODE_CELL_SIZE ≤ PAGE_SIZE) ∧
    (∀ i j, i < j → j < LEAF_NODE_MAX_CELLS →
      leaf_node_cell i + LEAF_NODE_CELL_SIZE ≤ leaf_node_cell j) ∧
    (∀ (pg : Pager) (r : Nat) (node : Page) (c key : Nat) (row : Row) (eot : Bool),
      pg.pages r = some node → r ≤ TABLE_MAX_PAGES →
      leaf_node_num_cells node < LEAF_NODE_MAX_CELLS → c ≤ leaf_node_num_cells node →
      ∃ node1, leaf_node_insert { pager := pg, root_page_num := r }
          { page_num := r, cell_num := c, end_of_table := eot } key row
          = some { pager := pg.store r node1, root_page_num := r } ∧
        (∀ j, j < COMMON_NODE_HEADER_SIZE ∨ leaf_node_cell 12 + LEAF_NODE_CELL_SIZE ≤ j →
          node1 j = node j) ∧
        (∀ node2 : Page,
          (∀ j, j < leaf_node_cell 12 + LEAF_NODE_CELL_SIZE → node2 j = node j) →
          ∃ node3, leaf_node_insert { pager := pg.store r node2, root_page_num := r }
              { page_num := r, cell_num := c, end_of_table := eot } key row
              = some { pager := (pg.store r node2).store r node3, root_page_num := r } ∧
            ∀ j, j < leaf_node_cell 12 + LEAF_NODE_CELL_SIZE → node3 j = node1 j)) ∧
    (∀ (pager : Pager) (r n : Nat) (node new_node : Page) (c : Nat) (row : Row),
      r ≠ n → c ≤ LEAF_NODE_MAX_CELLS →
      pager.pages r = some node → pager.pages n = some new_node →
      ∃ old2 new2,
        leaf_node_split_loop c row r n (LEAF_NODE_MAX_CELLS + 1) pager
          = (pager.store r old2).store n new2 ∧
        (∀ j, j < leaf_node_cell 0 ∨ leaf_node_cell 6 + LEAF_NODE_CELL_SIZE ≤ j →
          old2 j = node j ∧ new2 j = new_node j) ∧
        (∀ d, d < LEAF_NODE_LEFT_SPLIT_COUNT →
          ((d = c → ∀ b, b < ROW_SIZE →
              old2 (leaf_node_cell d + b) = serialize_row row (fun _ => 0) 0 b) ∧
            (d ≠ c → ∃ s, s ≤ 12 ∧ (s = d ∨ s + 1 = d) ∧ ∀ b, b < LEAF_NODE_CELL_SIZE →
              old2 (leaf_node_cell d + b) = node (leaf_node_cell s + b))) ∧
          ((d + 7 = c → ∀ b, b < ROW_SIZE →
              new2 (leaf_node_cell d + b) = serialize_row row (fun _ => 0) 0 b) ∧
            (d + 7 ≠ c → ∃ s, s ≤ 12 ∧ (s = d + 7 ∨ s + 1 = d + 7) ∧
              ∀ b, b < LEAF_NODE_CELL_SIZE →
                new2 (leaf_node_cell d + b) = node (leaf_node_cell s + b))))) := by
  have hC : COMMON_NODE_HEADER_SIZE = 6 := rfl
  refine ⟨?_, ?_, ?_, ?_⟩
  · intro i hi
    rw [LEAF_NODE_MAX_CELLS_eq] at hi
    rw [leaf_node_cell_eq i (by omega), LEAF_NODE_HEADER_SIZE_eq, LEAF_NODE_CELL_SIZE_eq,
      PAGE_SIZE_eq]
    omega
  · intro i j hij hj
    rw [LEAF_NODE_MAX_CELLS_eq] at hj
    rw [leaf_node_cell_eq i (by omega), leaf_node_cell_eq j (by omega), LEAF_NODE_CELL_SIZE_eq]
    omega
  · intro pg r node c key row eot hres hr hn hc
    have hn13 : leaf_node_num_cells node < 13 := by
      rw [LEAF_NODE_MAX_CELLS_eq] at hn; exact hn
    rw [leaf_node_cell_eq 12 (by omega), LEAF_NODE_CELL_SIZE_eq, hC]
    refine ⟨leaf_insert_page node c key row,
      leaf_node_insert_nosplit pg r c key node row eot hres hr hn, ?_, ?_⟩
    · intro j hj
      exact leaf_insert_page_frame node c key row hn13 hc j (by omega)
    · intro node2 hagree
      have hnum : leaf_node_num_cells node2 = leaf_node_num_cells node := by
        unfold leaf_node_num_cells
        rw [LEAF_NODE_NUM_CELLS_OFFSET_eq]
        exact read_u32_congr _ _ 6 6 (fun k hk => hagree (6 + k) (by omega))
      refine ⟨leaf_insert_page node2 c key row,
        leaf_node_insert_nosplit (pg.store r node2) r c key node2 row eot
          (Pager.store_pages_same pg r node2) hr (by rw [hnum]; exact hn), ?_⟩
      intro j hj
      exact leaf_insert_page_reads node node2 c key row hn13
        (fun j hj => hagree j (by omega)) j (by omega)
  · intro pager r n node new_node c row hrn hc hres hresn
    rw [LEAF_NODE_MAX_CELLS_eq] at hc
    obtain ⟨old2, new2, hloop, f1, s1, f2, s2⟩ :=
      leaf_node_split_loop_spec c row r n node new_node hrn hc 14 (le_refl _) pager node
        new_node hres hresn (fun _ _ => rfl) (fun i h1 h2 => by omega) (fun _ _ => rfl)
        (fun i h1 _ h3 => by omega)
    refine ⟨old2, new2, ?_, ?_, ?_⟩
    · have e : LEAF_NODE_MAX_CELLS + 1 = 14 := rfl
      rw [e]; exact hloop
    · intro j hj
      rw [leaf_node_cell_eq 0 (by omega), leaf_node_cell_eq 6 (by omega),
        LEAF_NODE_CELL_SIZE_eq] at hj
      exact ⟨f1 j (by omega), f2 j (by omega)⟩
    · intro d hd
      rw [LEAF_NODE_LEFT_SPLIT_COUNT_eq] at hd
      obtain ⟨a1, a2, a3⟩ := s1 d hd
      obtain ⟨b1, b2, b3⟩ := s2 (d + 7) (by omega) (by omega)
      have e7 : d + 7 - 7 = d := by omega
      rw [e7] at b1 b2 b3
      refine ⟨⟨fun h => a1 h, ?_⟩, ⟨fun h => b1 h, ?_⟩⟩
      · intro hne
        by_cases hlt : c < d
        · exact ⟨d - 1, by omega, Or.inr (by omega), a2 hlt⟩
        · exact ⟨d, by omega, Or.inl rfl, a3 (by omega)⟩
      · intro hne
        by_cases hlt : c < d + 7
        · exact ⟨d + 7 - 1, by omega, Or.inr (by omega), b2 hlt⟩
        · exact ⟨d + 7, by omega, Or.inl rfl, b3 (by omega)⟩


/-- C27: for every input line and whatever the variable `statement` held,
`prepare_insert` returns `PREPARE_SYNTAX_ERROR` exactly when one of the three
arguments after the keyword is missing; with three arguments it returns
`PREPARE_NEGATIVE_ID` when `atoi` of the id token is below 0, otherwise
`PREPARE_STRING_TOO_LONG` when the username has more than 32 or the email more
than 255 bytes, and otherwise `PREPARE_SUCCESS` with a row of the C type `Row`
whose id is the value of `atoi` and whose fields of 33 and 256 bytes hold the
username and the email followed by a NUL.  In the loop of `main` a line
starting with `insert` whose preparation does not succeed leaves the table as
it is, and after a success the row prepared is the one `execute_insert`
receives. -/
theorem prepare_insert_validates (input_buffer : List Nat) (statement : Statement)
    (table : Table) (hbytes : ∀ b ∈ input_buffer, b < 256)
    (hstmt : statement.row_to_insert.valid) :
    ((prepare_insert input_buffer statement).1 = PrepareResult.PREPARE_SYNTAX_ERROR ↔
      ((insert_arguments input_buffer).1 = none ∨ (insert_arguments input_buffer).2.1 = none ∨
        (insert_arguments input_buffer).2.2 = none)) ∧
    (∀ id_string username email,
      insert_arguments input_buffer = (some id_string, some username, some email) →
      (atoi id_string < 0 →
        (prepare_insert input_buffer statement).1 = PrepareResult.PREPARE_NEGATIVE_ID) ∧
      (0 ≤ atoi id_string →
        (COLUMN_USERNAME_SIZE < username.length ∨ COLUMN_EMAIL_SIZE < email.length) →
        (prepare_insert input_buffer statement).1 = PrepareResult.PREPARE_STRING_TOO_LONG) ∧
      (0 ≤ atoi id_string → username.length ≤ COLUMN_USERNAME_SIZE →
        email.length ≤ COLUMN_EMAIL_SIZE →
        (prepare_insert input_buffer statement).1 = PrepareResult.PREPARE_SUCCESS)) ∧
    ((prepare_insert input_buffer statement).1 = PrepareResult.PREPARE_SUCCESS →
      ∃ id_string username email,
        insert_arguments input_buffer = (some id_string, some username, some email) ∧
        0 ≤ atoi id_string ∧
        ((prepare_insert input_buffer statement).2.row_to_insert.id : Int) = atoi id_string ∧
        username.length ≤ COLUMN_USERNAME_SIZE ∧ email.length ≤ COLUMN_EMAIL_SIZE ∧
        c_string (prepare_insert input_buffer statement).2.row_to_insert.username = username ∧
        c_string (prepare_insert input_buffer statement).2.row_to_insert.email = email ∧
        (prepare_insert input_buffer statement).2.row_to_insert.username.length
          = COLUMN_USERNAME_SIZE + 1 ∧
        (prepare_insert input_buffer statement).2.row_to_insert.email.length
          = COLUMN_EMAIL_SIZE + 1 ∧
        (prepare_insert input_buffer statement).2.row_to_insert.valid) ∧
    ((c_string input_buffer).take 6 = [105, 110, 115, 101, 114, 116] →
      ((prepare_insert input_buffer statement).1 ≠ PrepareResult.PREPARE_SUCCESS →
        ∃ line, main_statement input_buffer statement table = some (table, [], line)) ∧
      ((prepare_insert input_buffer statement).1 = PrepareResult.PREPARE_SUCCESS →
        (main_statement input_buffer statement table).map (fun x => x.1)
          = (execute_insert (prepare_insert input_buffer statement).2.row_to_insert
              table).map (fun x => x.2))) := by
  obtain ⟨_, htu, hte⟩ := insert_arguments_tokens input_buffer hbytes
  obtain ⟨_, hv2, hv3, hv4, hv5⟩ := hstmt
  have hU : USERNAME_SIZE = 33 := rfl
  have hE : EMAIL_SIZE = 256 := rfl
  have hCU : COLUMN_USERNAME_SIZE = 32 := rfl
  have hCE : COLUMN_EMAIL_SIZE = 255 := rfl
  have heq := prepare_insert_eq input_buffer statement
  refine ⟨?_, ?_, ?_, ?_⟩
  · rw [heq]
    cases h1 : (insert_arguments input_buffer).1 with
    | none => simp
    | some a =>
      cases h2 : (insert_arguments input_buffer).2.1 with
      | none => simp
      | some b =>
        cases h3 : (insert_arguments input_buffer).2.2 with
        | none => simp
        | some c =>
          simp only [false_or, or_self, iff_false, reduceCtorEq]
          split_ifs <;> simp
  · intro id_string username email hargs
    have h1 : (insert_arguments input_buffer).1 = some id_string := by rw [hargs]
    have h2 : (insert_arguments input_buffer).2.1 = some username := by rw [hargs]
    have h3 : (insert_arguments input_buffer).2.2 = some email := by rw [hargs]
    have hlu : strlen username = username.length := by
      unfold strlen
      rw [c_string_of_no_nul username (fun b hb => ((htu username h2).2 b hb).1)]
    have hle : strlen email = email.length := by
      unfold strlen
      rw [c_string_of_no_nul email (fun b hb => ((hte email h3).2 b hb).1)]
    rw [heq, h1, h2, h3]
    simp only [hlu, hle]
    refine ⟨?_, ?_, ?_⟩
    · intro hneg
      rw [if_pos hneg]
    · intro hpos hlong
      rw [if_neg (by omega)]
      rcases hlong with hl | hl
      · rw [if_pos hl]
      · split_ifs <;> rfl
    · intro hpos hu he
      rw [if_neg (by omega), if_neg (by omega), if_neg (by omega)]
  · intro hsucc
    rw [heq] at hsucc
    cases h1 : (insert_arguments input_buffer).1 with
    | none => rw [h1] at hsucc; simp at hsucc
    | some a =>
      cases h2 : (insert_arguments input_buffer).2.1 with
      | none => rw [h1, h2] at hsucc; simp at hsucc
      | some b =>
        cases h3 : (insert_arguments input_buffer).2.2 with
        | none => rw [h1, h2, h3] at hsucc; simp at hsucc
        | some c =>
          have hlu : strlen b = b.length := by
            unfold strlen
            rw [c_string_of_no_nul b (fun x hx => ((htu b h2).2 x hx).1)]
          have hle : strlen c = c.length := by
            unfold strlen
            rw [c_string_of_no_nul c (fun x hx => ((hte c h3).2 x hx).1)]
          rw [h1, h2, h3] at hsucc
          simp only [hlu, hle] at hsucc
          have hargs : insert_arguments input_buffer = (some a, some b, some c) := by
            rw [← h1, ← h2, ← h3]
          by_cases hneg : atoi a < 0
          · rw [if_pos hneg] at hsucc; cases hsucc
          · by_cases hu : b.length > COLUMN_USERNAME_SIZE
            · rw [if_neg hneg, if_pos hu] at hsucc; cases hsucc
            · by_cases he : c.length > COLUMN_EMAIL_SIZE
              · rw [if_neg hneg, if_neg hu, if_pos he] at hsucc; cases hsucc
              · have hres : prepare_insert input_buffer statement =
                    (PrepareResult.PREPARE_SUCCESS,
                      { type := StatementType.STATEMENT_INSERT
                        row_to_insert :=
                          { id := (atoi a).toNat % U32
                            username := strcpy statement.row_to_insert.username b
                            email := strcpy statement.row_to_insert.email c } }) := by
                  rw [heq, h1, h2, h3]
                  simp only [hlu, hle]
                  rw [if_neg hneg, if_neg hu, if_neg he]
                obtain ⟨r1, r2⟩ := atoi_range a
                obtain ⟨u1, u2, u3, _⟩ := strcpy_spec statement.row_to_insert.username b 32
                  (by rw [hv2, hU]) (by omega)
                  (fun x hx => ⟨((htu b h2).2 x hx).1, ((htu b h2).2 x hx).2.1⟩) hv4
                obtain ⟨e1, e2, e3, _⟩ := strcpy_spec statement.row_to_insert.email c 255
                  (by rw [hv3, hE]) (by omega)
                  (fun x hx => ⟨((hte c h3).2 x hx).1, ((hte c h3).2 x hx).2.1⟩) hv5
                have hid : (atoi a).toNat % U32 = (atoi a).toNat :=
                  Nat.mod_eq_of_lt (by rw [U32_eq]; omega)
                rw [hres]
                refine ⟨a, b, c, hargs, by omega, ?_, by omega, by omega, u2, e2, u1, e1, ?_⟩
                · show (((atoi a).toNat % U32 : Nat) : Int) = atoi a
                  rw [hid]; omega
                · exact ⟨Nat.mod_lt _ (by rw [U32_eq]; omega), u1, e1, u3, e3⟩
  · intro hins
    have hprep : prepare_statement input_buffer statement
        = prepare_insert input_buffer statement := by
      unfold prepare_statement
      rw [if_pos hins]
    constructor
    · intro hne
      unfold main_statement
      simp only [hprep]
      cases hr : (prepare_insert input_buffer statement).1 with
      | PREPARE_SUCCESS => exact absurd hr hne
      | PREPARE_NEGATIVE_ID => exact ⟨_, rfl⟩
      | PREPARE_STRING_TOO_LONG => exact ⟨_, rfl⟩
      | PREPARE_SYNTAX_ERROR => exact ⟨_, rfl⟩
      | PREPARE_UNRECOGNIZED_STATEMENT => exact ⟨_, rfl⟩
    · intro hsucc
      have htype : (prepare_insert input_buffer statement).2.type
          = StatementType.STATEMENT_INSERT := by
        rw [heq]
        split <;> (try split_ifs) <;> rfl
      unfold main_statement
      simp only [hprep, hsucc]
      unfold execute_statement
      simp only [htype]
      cases hx : execute_insert (prepare_insert input_buffer statement).2.row_to_insert table with
      | none => rfl
      | some res =>
        obtain ⟨r, t1⟩ := res
        cases r <;> rfl


theorem prepare_insert_validates_witness :
    (∀ b ∈ bytes_of "insert 1 u e", b < 256) ∧ blank_statement.row_to_insert.valid ∧
    (prepare_insert (bytes_of "insert 1 u e") blank_statement).1
      = PrepareResult.PREPARE_SUCCESS ∧
    (prepare_insert (bytes_of "insert 1 u e") blank_statement).2.row_to_insert
      = sample_row 1 ∧
    (prepare_insert (bytes_of "insert -1 u e") blank_statement).1
      = PrepareResult.PREPARE_NEGATIVE_ID ∧
    ∃ id_string username email,
      insert_arguments (bytes_of "insert 1 u e") = (some id_string, some username, some email) ∧
      0 ≤ atoi id_string ∧
      ((prepare_insert (bytes_of "insert 1 u e") blank_statement).2.row_to_insert.id : Int)
        = atoi id_string ∧
      username.length ≤ COLUMN_USERNAME_SIZE ∧ email.length ≤ COLUMN_EMAIL_SIZE ∧
      c_string (prepare_insert (bytes_of "insert 1 u e") blank_statement).2.row_to_insert.username
        = username ∧
      c_string (prepare_insert (bytes_of "insert 1 u e") blank_statement).2.row_to_insert.email
        = email ∧
      (prepare_insert (bytes_of "insert 1 u e") blank_statement).2.row_to_insert.valid :=
  ⟨by decide, by decide, by decide, by decide, by decide,
    ((prepare_insert_validates (bytes_of "insert 1 u e") blank_statement
      (table_of_root empty_leaf 1) (by decide) (by decide)).2.2.1 (by decide)).elim
      fun a h => h.elim fun b h => h.elim fun c h =>
        ⟨a, b, c, h.1, h.2.1, h.2.2.1, h.2.2.2.1, h.2.2.2.2.1, h.2.2.2.2.2.1,
          h.2.2.2.2.2.2.1, h.2.2.2.2.2.2.2.2.2⟩⟩

end BTree

namespace FlatArray

set_option maxRecDepth 1000000

/-! ## The flat-array snapshot: layout and row codec -/

theorem flat_ROW_SIZE_eq : ROW_SIZE = 291 := rfl
theorem flat_USERNAME_SIZE_eq : USERNAME_SIZE = 32 := rfl
theorem flat_EMAIL_SIZE_eq : EMAIL_SIZE = 255 := rfl
theorem flat_ID_OFFSET_eq : ID_OFFSET = 0 := rfl
theorem flat_USERNAME_OFFSET_eq : USERNAME_OFFSET = 4 := rfl
theorem flat_EMAIL_OFFSET_eq : EMAIL_OFFSET = 36 := rfl
theorem flat_PAGE_SIZE_eq : PAGE_SIZE = 4096 := rfl
theorem flat_TABLE_MAX_PAGES_eq : TABLE_MAX_PAGES = 100 := rfl
theorem flat_ROWS_PER_PAGE_eq : ROWS_PER_PAGE = 14 := by decide
theorem flat_TABLE_MAX_ROWS_eq : TABLE_MAX_ROWS = 1400 := by decide

theorem flat_deserialize_row_congr (p q : BTree.Page) (a b : Nat)
    (h : ∀ k, k < ROW_SIZE → p (a + k) = q (b + k)) :
    deserialize_row p a = deserialize_row q b := by
  rw [flat_ROW_SIZE_eq] at h
  unfold deserialize_row
  rw [flat_ID_OFFSET_eq, flat_USERNAME_OFFSET_eq, flat_EMAIL_OFFSET_eq, flat_USERNAME_SIZE_eq,
    flat_EMAIL_SIZE_eq]
  congr 1
  · apply BTree.read_u32_congr
    intro k hk
    have := h k (by omega)
    simpa using this
  · apply BTree.memcpy_to_congr
    intro k hk
    have := h (4 + k) (by omega)
    simpa [Nat.add_assoc] using this
  · apply BTree.memcpy_to_congr
    intro k hk
    have := h (36 + k) (by omega)
    simpa [Nat.add_assoc] using this

theorem flat_serialize_row_outside (r : Row) (p : BTree.Page) (d j : Nat)
    (h : j < d ∨ d + ROW_SIZE ≤ j) : serialize_row r p d j = p j := by
  rw [flat_ROW_SIZE_eq] at h
  unfold serialize_row
  simp only [flat_ID_OFFSET_eq, flat_USERNAME_OFFSET_eq, flat_EMAIL_OFFSET_eq,
    flat_USERNAME_SIZE_eq, flat_EMAIL_SIZE_eq]
  rw [BTree.memcpy_from_outside _ _ _ _ _ (by omega),
    BTree.memcpy_from_outside _ _ _ _ _ (by omega),
    BTree.write_u32_outside _ _ _ _ (by omega)]

theorem flat_deserialize_serialize (r : Row) (hr : r.valid) (p : BTree.Page) (d : Nat) :
    deserialize_row (serialize_row r p d) d = r := by
  obtain ⟨hid, hu, he, hub, heb⟩ := hr
  rw [flat_USERNAME_SIZE_eq] at hu
  rw [flat_EMAIL_SIZE_eq] at he
  unfold deserialize_row serialize_row
  simp only [flat_ID_OFFSET_eq, flat_USERNAME_OFFSET_eq, flat_EMAIL_OFFSET_eq,
    flat_USERNAME_SIZE_eq, flat_EMAIL_SIZE_eq, Nat.add_zero]
  have h1 : BTree.read_u32 (BTree.memcpy_from (BTree.memcpy_from (BTree.write_u32 p d r.id)
      (d + 4) r.username 32) (d + 36) r.email 255) d = r.id := by
    rw [BTree.read_u32_congr _ (BTree.write_u32 p d r.id) d d, BTree.write_u32_same,
      Nat.mod_eq_of_lt hid]
    intro k hk
    rw [BTree.memcpy_from_outside _ _ _ _ _ (by omega),
      BTree.memcpy_from_outside _ _ _ _ _ (by omega)]
  have h2 : BTree.memcpy_to (BTree.memcpy_from (BTree.memcpy_from (BTree.write_u32 p d r.id)
      (d + 4) r.username 32) (d + 36) r.email 255) (d + 4) 32 = r.username := by
    rw [← hu]
    apply BTree.memcpy_to_of_field _ _ _ hub
    intro k hk
    rw [BTree.memcpy_from_outside _ _ _ _ _ (by omega),
      BTree.memcpy_from_inside _ _ _ _ _ (by omega) (by omega)]
    have e : d + 4 + k - (d + 4) = k := by omega
    rw [e]
  have h3 : BTree.memcpy_to (BTree.memcpy_from (BTree.memcpy_from (BTree.write_u32 p d r.id)
      (d + 4) r.username 32) (d + 36) r.email 255) (d + 36) 255 = r.email := by
    rw [← he]
    apply BTree.memcpy_to_of_field _ _ _ heb
    intro k hk
    rw [BTree.memcpy_from_inside _ _ _ _ _ (by omega) (by omega)]
    have e : d + 36 + k - (d + 36) = k := by omega
    rw [e]
  rw [h1, h2, h3]

/-! ## The flat-array snapshot: `row_slot`, `execute_insert`, `execute_select` -/

theorem flat_row_slot_snd (t : Table) (n : Nat) :
    (row_slot t n).2 = (n / ROWS_PER_PAGE, (n % ROWS_PER_PAGE) * ROW_SIZE) := by
  unfold row_slot
  simp only [flat_ROWS_PER_PAGE_eq, flat_ROW_SIZE_eq, BTree.U32_eq]
  have h : n % 14 * 291 % 4294967296 = n % 14 * 291 := by omega
  rw [h]

theorem flat_row_slot_resident (t : Table) (n : Nat) (p : BTree.Page)
    (h : t.pages (n / ROWS_PER_PAGE) = some p) :
    row_slot t n = (t, n / ROWS_PER_PAGE, (n % ROWS_PER_PAGE) * ROW_SIZE) := by
  have e := flat_row_slot_snd t n
  have e1 : (row_slot t n).1 = t := by
    unfold row_slot
    simp only [h]
  exact Prod.ext e1 e

theorem flat_row_slot_pages (t : Table) (n : Nat) :
    (row_slot t n).1.nums_rows = t.nums_rows ∧ (row_slot t n).1.heap = t.heap ∧
    (row_slot t n).1.pages (n / ROWS_PER_PAGE)
      = some (match t.pages (n / ROWS_PER_PAGE) with
              | some p => p
              | none => t.heap (n / ROWS_PER_PAGE)) ∧
    ∀ i, i ≠ n / ROWS_PER_PAGE → (row_slot t n).1.pages i = t.pages i := by
  unfold row_slot
  cases h : t.pages (n / ROWS_PER_PAGE) with
  | none =>
    simp only [h, Table.store, if_true, true_and]
    intro i hi
    rw [if_neg hi]
  | some p =>
    simp only [h, true_and]
    exact fun _ _ => trivial

theorem flat_node_of_pages (t : Table) (i : Nat) (p : BTree.Page) (h : t.pages i = some p) :
    t.node i = p := by
  unfold Table.node
  rw [h]

/-- The table after a successful `execute_insert`. -/
theorem flat_execute_insert_success (row : Row) (t : Table) (h : t.nums_rows < TABLE_MAX_ROWS) :
    (execute_insert row t).1 = ExecuteResult.EXECUTE_SUCCESS ∧
    (execute_insert row t).2.nums_rows = t.nums_rows + 1 ∧
    (execute_insert row t).2.heap = t.heap ∧
    (execute_insert row t).2.pages (t.nums_rows / ROWS_PER_PAGE)
      = some (serialize_row row
          (match t.pages (t.nums_rows / ROWS_PER_PAGE) with
           | some p => p
           | none => t.heap (t.nums_rows / ROWS_PER_PAGE))
          ((t.nums_rows % ROWS_PER_PAGE) * ROW_SIZE)) ∧
    ∀ i, i ≠ t.nums_rows / ROWS_PER_PAGE → (execute_insert row t).2.pages i = t.pages i := by
  obtain ⟨s1, s2, s3, s4⟩ := flat_row_slot_pages t t.nums_rows
  have e := flat_row_slot_snd t t.nums_rows
  have e1 : (row_slot t t.nums_rows).2.1 = t.nums_rows / ROWS_PER_PAGE := congrArg Prod.fst e
  have e2 : (row_slot t t.nums_rows).2.2 = (t.nums_rows % ROWS_PER_PAGE) * ROW_SIZE :=
    congrArg Prod.snd e
  have hlt : (t.nums_rows + 1) % BTree.U32 = t.nums_rows + 1 := by
    rw [flat_TABLE_MAX_ROWS_eq] at h
    rw [BTree.U32_eq]
    omega
  unfold execute_insert
  rw [if_neg (by omega)]
  simp only [e1, e2, Table.store, s1, s2, hlt, flat_node_of_pages _ _ _ s3, if_true, true_and]
  intro i hi
  rw [if_neg hi]
  exact s4 i hi

theorem flat_execute_insert_full (row : Row) (t : Table) (h : t.nums_rows ≥ TABLE_MAX_ROWS) :
    execute_insert row t = (ExecuteResult.EXECUTE_TABLE_FULL, t) := by
  unfold execute_insert
  rw [if_pos h]

theorem flat_execute_select_loop_spec (t : Table) :
    ∀ k i out, (∀ j, i ≤ j → j < i + k → t.pages (j / ROWS_PER_PAGE) ≠ none) →
      execute_select_loop k i t out
        = (t, out ++ (List.range' i k).map
            (fun j => deserialize_row (t.node (j / ROWS_PER_PAGE))
              ((j % ROWS_PER_PAGE) * ROW_SIZE))) := by
  intro k
  induction k with
  | zero =>
    intro i out _
    simp [execute_select_loop]
  | succ k ih =>
    intro i out h
    have hi := h i (le_refl _) (by omega)
    obtain ⟨p, hp⟩ := Option.ne_none_iff_exists'.mp hi
    unfold execute_select_loop
    simp only [flat_row_slot_resident t i p hp]
    rw [ih (i + 1) _ (fun j h1 h2 => h j (by omega) (by omega))]
    simp [List.range'_succ]


/-! ## The flat-array snapshot: sessions -/

/-- The rows a table holds in its first slots, read the way `execute_select`
reads them, once every slot below `nums_rows` lies in an allocated page. -/
theorem flat_execute_select_of_rows (t : Table) (stored : List Row)
    (hnum : t.nums_rows = stored.length)
    (hrows : ∀ i r, stored[i]? = some r → ∃ p, t.pages (i / ROWS_PER_PAGE) = some p ∧
      deserialize_row p ((i % ROWS_PER_PAGE) * ROW_SIZE) = r) :
    execute_select t = (t, stored) := by
  unfold execute_select
  rw [flat_execute_select_loop_spec t t.nums_rows 0 []]
  · rw [List.nil_append]
    refine congrArg (Prod.mk t) ?_
    apply List.ext_getElem
    · simp [hnum]
    · intro i h1 h2
      obtain ⟨p, hp, hd⟩ := hrows i stored[i] (List.getElem?_eq_getElem h2)
      simp only [List.getElem_map, List.getElem_range', Nat.zero_add, Nat.one_mul,
        flat_node_of_pages t _ p hp]
      exact hd
  · intro j _ hj
    rw [hnum, Nat.zero_add] at hj
    obtain ⟨p, hp, _⟩ := hrows j stored[j] (List.getElem?_eq_getElem hj)
    rw [hp]
    exact Option.some_ne_none p

/-- Two distinct slots of one page do not share a byte. -/
theorem flat_slots_disjoint (a b : Nat) (hab : a ≠ b)
    (hpage : a / ROWS_PER_PAGE = b / ROWS_PER_PAGE) :
    (a % ROWS_PER_PAGE) * ROW_SIZE + ROW_SIZE ≤ (b % ROWS_PER_PAGE) * ROW_SIZE ∨
    (b % ROWS_PER_PAGE) * ROW_SIZE + ROW_SIZE ≤ (a % ROWS_PER_PAGE) * ROW_SIZE := by
  rw [flat_ROWS_PER_PAGE_eq] at hpage
  rw [flat_ROWS_PER_PAGE_eq, flat_ROW_SIZE_eq]
  omega

/-- A successful `execute_insert` keeps the bytes of every other slot whose
page is allocated. -/
theorem flat_execute_insert_frame (row : Row) (t : Table) (h : t.nums_rows < TABLE_MAX_ROWS)
    (i : Nat) (hi : i ≠ t.nums_rows) (p : BTree.Page)
    (hp : t.pages (i / ROWS_PER_PAGE) = some p) :
    ∃ q, (execute_insert row t).2.pages (i / ROWS_PER_PAGE) = some q ∧
      ∀ k, k < ROW_SIZE →
        q ((i % ROWS_PER_PAGE) * ROW_SIZE + k) = p ((i % ROWS_PER_PAGE) * ROW_SIZE + k) := by
  obtain ⟨_, _, _, s4, s5⟩ := flat_execute_insert_success row t h
  by_cases hpage : i / ROWS_PER_PAGE = t.nums_rows / ROWS_PER_PAGE
  · rw [hpage]
    refine ⟨_, s4, ?_⟩
    intro k hk
    rw [← hpage, hp]
    apply flat_serialize_row_outside
    rcases flat_slots_disjoint i t.nums_rows hi hpage with h1 | h1
    · left; omega
    · right; omega
  · refine ⟨p, ?_, fun _ _ => rfl⟩
    rw [s5 _ hpage, hp]

/-- A successful `execute_insert` on a table holding `stored` gives a table
holding `stored ++ [row]`. -/
theorem flat_execute_insert_holds (row : Row) (hr : row.valid) (t : Table) (stored : List Row)
    (hnum : t.nums_rows = stored.length) (hlt : stored.length < TABLE_MAX_ROWS)
    (hrows : ∀ i r, stored[i]? = some r → ∃ p, t.pages (i / ROWS_PER_PAGE) = some p ∧
      deserialize_row p ((i % ROWS_PER_PAGE) * ROW_SIZE) = r) :
    (execute_insert row t).2.nums_rows = (stored ++ [row]).length ∧
    ∀ i r, (stored ++ [row])[i]? = some r →
      ∃ p, (execute_insert row t).2.pages (i / ROWS_PER_PAGE) = some p ∧
        deserialize_row p ((i % ROWS_PER_PAGE) * ROW_SIZE) = r := by
  have h : t.nums_rows < TABLE_MAX_ROWS := by rw [hnum]; exact hlt
  obtain ⟨_, s2, _, s4, _⟩ := flat_execute_insert_success row t h
  refine ⟨by rw [s2, hnum]; simp, ?_⟩
  intro i r hir
  by_cases hi : i < stored.length
  · rw [List.getElem?_append_left hi] at hir
    obtain ⟨p, hp, hd⟩ := hrows i r hir
    obtain ⟨q, hq, hframe⟩ := flat_execute_insert_frame row t h i (by omega) p hp
    refine ⟨q, hq, ?_⟩
    rw [← hd]
    exact flat_deserialize_row_congr _ _ _ _ hframe
  · have hlen : i = stored.length := by
      have := (List.getElem?_eq_some_iff.mp hir).1
      simp at this
      omega
    subst hlen
    rw [List.getElem?_append_right (le_refl _)] at hir
    simp at hir
    subst hir
    rw [← hnum]
    exact ⟨_, s4, flat_deserialize_serialize _ hr _ _⟩

theorem flat_insert_all_spec : ∀ (rows stored : List Row) (t : Table),
    (∀ r ∈ rows, r.valid) → t.nums_rows = stored.length → stored.length ≤ TABLE_MAX_ROWS →
    (∀ i r, stored[i]? = some r → ∃ p, t.pages (i / ROWS_PER_PAGE) = some p ∧
      deserialize_row p ((i % ROWS_PER_PAGE) * ROW_SIZE) = r) →
    (insert_all rows t).1 = (List.range rows.length).map
      (fun i => if stored.length + i < TABLE_MAX_ROWS then ExecuteResult.EXECUTE_SUCCESS
        else ExecuteResult.EXECUTE_TABLE_FULL) ∧
    execute_select (insert_all rows t).2
      = ((insert_all rows t).2, stored ++ rows.take (TABLE_MAX_ROWS - stored.length)) := by
  intro rows
  induction rows with
  | nil =>
    intro stored t _ hnum _ hrows
    refine ⟨rfl, ?_⟩
    simp only [insert_all, List.take_nil, List.append_nil]
    exact flat_execute_select_of_rows t stored hnum hrows
  | cons row rows ih =>
    intro stored t hvalid hnum hle hrows
    have hr : row.valid := hvalid row (List.mem_cons_self _ _)
    have hvalid1 : ∀ r ∈ rows, r.valid := fun r h => hvalid r (List.mem_cons_of_mem _ h)
    simp only [insert_all, List.length_cons, List.range_succ_eq_map, List.map_cons,
      List.map_map, Nat.add_zero]
    by_cases hfull : stored.length < TABLE_MAX_ROWS
    · obtain ⟨h1, h2⟩ := flat_execute_insert_holds row hr t stored hnum hfull hrows
      have hsucc := (flat_execute_insert_success row t (by rw [hnum]; exact hfull)).1
      obtain ⟨i1, i2⟩ := ih (stored ++ [row]) (execute_insert row t).2 hvalid1 h1
        (by simp; omega) h2
      rw [i1, i2, hsucc, if_pos hfull]
      have e : TABLE_MAX_ROWS - stored.length = (TABLE_MAX_ROWS - (stored ++ [row]).length) + 1 := by
        simp; omega
      rw [e, List.take_succ_cons]
      refine ⟨?_, by simp⟩
      congr 1
      apply List.map_congr_left
      intro i _
      simp only [Function.comp, List.length_append, List.length_singleton]
      have e3 : stored.length + 1 + i = stored.length + (i + 1) := by omega
      rw [e3]
    · have hge : t.nums_rows ≥ TABLE_MAX_ROWS := by rw [hnum]; omega
      rw [flat_execute_insert_full row t hge]
      obtain ⟨i1, i2⟩ := ih stored t hvalid1 hnum hle hrows
      rw [i1, i2, if_neg hfull]
      have e : TABLE_MAX_ROWS - stored.length = 0 := by omega
      rw [e, List.take_zero, List.take_zero]
      refine ⟨?_, rfl⟩
      congr 1
      apply List.map_congr_left
      intro i _
      simp only [Function.comp]
      rw [if_neg (by omega), if_neg (by omega)]


/-! ## The claims on the flat-array snapshot -/

/-- C31: in the flat-array snapshot `execute_insert` returns
`EXECUTE_TABLE_FULL` and leaves the table as it is exactly when
`nums_rows >= TABLE_MAX_ROWS`, where `TABLE_MAX_ROWS` is
`ROWS_PER_PAGE * TABLE_MAX_PAGES`, 1400.  Below that bound it returns
`EXECUTE_SUCCESS`, the row count grows by one, the slot `row_slot` gives for
the old row count holds the row, and the bytes of every earlier slot are the
ones they were.  A session of inserts on the table of `new_table` succeeds on
its first 1400 rows and reports a full table on the others, and
`execute_select` then emits the rows that were inserted, in the order of
insertion. -/
theorem flat_execute_insert_stores_row (row : Row) (hr : row.valid) (table : Table)
    (heap : Nat → BTree.Page) (rows : List Row) (hrows : ∀ r ∈ rows, r.valid) :
    (execute_insert row table = (ExecuteResult.EXECUTE_TABLE_FULL, table)
      ↔ table.nums_rows ≥ TABLE_MAX_ROWS) ∧
    ((execute_insert row table).1 = ExecuteResult.EXECUTE_TABLE_FULL
      ↔ table.nums_rows ≥ TABLE_MAX_ROWS) ∧
    TABLE_MAX_ROWS = ROWS_PER_PAGE * TABLE_MAX_PAGES ∧ TABLE_MAX_ROWS = 1400 ∧
    (table.nums_rows < TABLE_MAX_ROWS →
      (execute_insert row table).1 = ExecuteResult.EXECUTE_SUCCESS ∧
      (execute_insert row table).2.nums_rows = table.nums_rows + 1 ∧
      (∃ page, (execute_insert row table).2.pages (row_slot table table.nums_rows).2.1
          = some page ∧
        deserialize_row page (row_slot table table.nums_rows).2.2 = row) ∧
      (∀ i bytes, i < table.nums_rows → slot_bytes table i = some bytes →
        slot_bytes (execute_insert row table).2 i = some bytes)) ∧
    (insert_all rows (new_table heap)).1 = (List.range rows.length).map
      (fun i => if i < TABLE_MAX_ROWS then ExecuteResult.EXECUTE_SUCCESS
        else ExecuteResult.EXECUTE_TABLE_FULL) ∧
    (execute_select (insert_all rows (new_table heap)).2).2 = rows.take TABLE_MAX_ROWS := by
  have hiff : (execute_insert row table).1 = ExecuteResult.EXECUTE_TABLE_FULL
      ↔ table.nums_rows ≥ TABLE_MAX_ROWS := by
    constructor
    · intro h
      by_contra hlt
      have := (flat_execute_insert_success row table (by omega)).1
      rw [this] at h
      cases h
    · intro h
      rw [flat_execute_insert_full row table h]
  refine ⟨?_, hiff, rfl, flat_TABLE_MAX_ROWS_eq, ?_, ?_⟩
  · constructor
    · intro h
      exact hiff.mp (congrArg Prod.fst h)
    · exact flat_execute_insert_full row table
  · intro hlt
    obtain ⟨s1, s2, _, s4, _⟩ := flat_execute_insert_success row table hlt
    have e := flat_row_slot_snd table table.nums_rows
    have e1 : (row_slot table table.nums_rows).2.1 = table.nums_rows / ROWS_PER_PAGE :=
      congrArg Prod.fst e
    have e2 : (row_slot table table.nums_rows).2.2
        = (table.nums_rows % ROWS_PER_PAGE) * ROW_SIZE := congrArg Prod.snd e
    refine ⟨s1, s2, ⟨_, by rw [e1]; exact s4, by rw [e2]; exact flat_deserialize_serialize _ hr _ _⟩,
      ?_⟩
    intro i bytes hi hb
    unfold slot_bytes at hb ⊢
    rw [flat_row_slot_snd] at hb ⊢
    simp only at hb ⊢
    cases hp : table.pages (i / ROWS_PER_PAGE) with
    | none => rw [hp] at hb; cases hb
    | some p =>
      rw [hp] at hb
      obtain ⟨q, hq, hframe⟩ := flat_execute_insert_frame row table hlt i (by omega) p hp
      rw [hq]
      rw [← Option.some.inj hb]
      exact congrArg some (BTree.memcpy_to_congr _ _ _ _ _ hframe)
  · have h := flat_insert_all_spec rows [] (new_table heap) hrows rfl (Nat.zero_le _)
      (fun i r hir => by simp at hir)
    simp only [List.length_nil, Nat.zero_add, Nat.sub_zero, List.nil_append] at h
    exact ⟨h.1, congrArg Prod.snd h.2⟩

theorem flat_execute_insert_stores_row_witness :
    (sample_row 7).valid ∧
    (∀ r ∈ [sample_row 3, sample_row 1, sample_row 3], r.valid) ∧
    (execute_insert (sample_row 7) { new_table (fun _ _ => 0) with nums_rows := 1400 }).1
      = ExecuteResult.EXECUTE_TABLE_FULL ∧
    (execute_select (insert_all [sample_row 3, sample_row 1, sample_row 3]
        (new_table (fun _ _ => 0))).2).2
      = [sample_row 3, sample_row 1, sample_row 3].take TABLE_MAX_ROWS :=
  ⟨by decide, by decide,
    (flat_execute_insert_stores_row (sample_row 7) (by decide)
      { new_table (fun _ _ => 0) with nums_rows := 1400 } (fun _ _ => 0)
      [sample_row 3, sample_row 1, sample_row 3] (by decide)).2.1.mpr (by decide),
    (flat_execute_insert_stores_row (sample_row 7) (by decide)
      { new_table (fun _ _ => 0) with nums_rows := 1400 } (fun _ _ => 0)
      [sample_row 3, sample_row 1, sample_row 3] (by decide)).2.2.2.2.2.2⟩

/-- C32: in the flat-array snapshot, for a row number below `TABLE_MAX_ROWS`
the pointer of `row_slot` is in page `row_num / ROWS_PER_PAGE`, an index below
`TABLE_MAX_PAGES`, 100, whose buffer is allocated afterwards, at the byte
offset `(row_num % ROWS_PER_PAGE) * ROW_SIZE`; the `ROW_SIZE` bytes from there
stay within `PAGE_SIZE`.  The slots of two distinct row numbers below
`TABLE_MAX_ROWS` are in different pages or in byte ranges of one page that do
not meet. -/
theorem flat_row_slot_in_page (table : Table) (row_num : Nat)
    (h : row_num < TABLE_MAX_ROWS) :
    (row_slot table row_num).2.1 = row_num / ROWS_PER_PAGE ∧
    (row_slot table row_num).2.1 < TABLE_MAX_PAGES ∧ TABLE_MAX_PAGES = 100 ∧
    (row_slot table row_num).1.pages (row_slot table row_num).2.1 ≠ none ∧
    (row_slot table row_num).2.2 = (row_num % ROWS_PER_PAGE) * ROW_SIZE ∧
    (row_slot table row_num).2.2 + ROW_SIZE ≤ PAGE_SIZE ∧
    ∀ (table2 : Table) (other : Nat), other < TABLE_MAX_ROWS → other ≠ row_num →
      (row_slot table2 other).2.1 ≠ (row_slot table row_num).2.1 ∨
      (row_slot table2 other).2.2 + ROW_SIZE ≤ (row_slot table row_num).2.2 ∨
      (row_slot table row_num).2.2 + ROW_SIZE ≤ (row_slot table2 other).2.2 := by
  have e := flat_row_slot_snd table row_num
  have e1 : (row_slot table row_num).2.1 = row_num / ROWS_PER_PAGE := congrArg Prod.fst e
  have e2 : (row_slot table row_num).2.2 = (row_num % ROWS_PER_PAGE) * ROW_SIZE :=
    congrArg Prod.snd e
  rw [e1, e2]
  refine ⟨rfl, ?_, rfl, ?_, rfl, ?_, ?_⟩
  · rw [flat_TABLE_MAX_ROWS_eq] at h
    rw [flat_ROWS_PER_PAGE_eq, flat_TABLE_MAX_PAGES_eq]
    omega
  · rw [(flat_row_slot_pages table row_num).2.2.1]
    exact Option.some_ne_none _
  · rw [flat_ROWS_PER_PAGE_eq, flat_ROW_SIZE_eq, flat_PAGE_SIZE_eq]
    omega
  · intro table2 other _ hne
    have f := flat_row_slot_snd table2 other
    have f1 : (row_slot table2 other).2.1 = other / ROWS_PER_PAGE := congrArg Prod.fst f
    have f2 : (row_slot table2 other).2.2 = (other % ROWS_PER_PAGE) * ROW_SIZE :=
      congrArg Prod.snd f
    rw [f1, f2]
    by_cases hpage : other / ROWS_PER_PAGE = row_num / ROWS_PER_PAGE
    · right
      exact flat_slots_disjoint other row_num hne hpage
    · left
      exact hpage

theorem flat_row_slot_in_page_witness :
    1399 < TABLE_MAX_ROWS ∧
    (row_slot (new_table (fun _ _ => 0)) 1399).2.1 = 1399 / ROWS_PER_PAGE ∧
    (row_slot (new_table (fun _ _ => 0)) 1399).2.1 < TABLE_MAX_PAGES :=
  ⟨by decide,
    (flat_row_slot_in_page (new_table (fun _ _ => 0)) 1399 (by decide)).1,
    (flat_row_slot_in_page (new_table (fun _ _ => 0)) 1399 (by decide)).2.1⟩

end FlatArray

namespace SingleLeaf

set_option maxRecDepth 1000000

/-! ## The single-leaf snapshot -/

theorem single_leaf_node_insert_resident (pg : BTree.Pager) (r c key : Nat) (node : BTree.Page)
    (row : BTree.Row) (eot : Bool) (hres : pg.pages r = some node)
    (hr : r ≤ BTree.TABLE_MAX_PAGES)
    (hn : BTree.leaf_node_num_cells node < BTree.LEAF_NODE_MAX_CELLS) :
    leaf_node_insert { pager := pg, root_page_num := r }
        { page_num := r, cell_num := c, end_of_table := eot } key row
      = some { pager := pg.store r (BTree.leaf_insert_page node c key row),
               root_page_num := r } := by
  unfold leaf_node_insert
  simp only [BTree.get_page_resident pg r node hres hr, if_neg (Nat.not_le.mpr hn)]
  by_cases hc : c < BTree.leaf_node_num_cells node
  · simp only [if_pos hc, BTree.Pager.modify_eq pg r _ node hres, BTree.Pager.modify_store,
      BTree.leaf_insert_page]
  · simp only [if_neg hc, BTree.Pager.modify_eq pg r _ node hres, BTree.Pager.modify_store,
      BTree.leaf_insert_page]

theorem single_execute_insert_of_root (t : BTree.Table) (pg : BTree.Pager) (node : BTree.Page)
    (row : BTree.Row)
    (hroot : BTree.get_page t.pager t.root_page_num = some (pg, node)) :
    execute_insert row t
      = execute_insert row { pager := pg, root_page_num := t.root_page_num } := by
  unfold execute_insert
  simp only [hroot, BTree.get_page_again _ _ _ _ hroot]

/-- The two ways `execute_insert` ends on a table whose root is resident. -/
theorem single_execute_insert_resident (pg : BTree.Pager) (r : Nat) (node : BTree.Page)
    (row : BTree.Row) (hres : pg.pages r = some node) (hr : r ≤ BTree.TABLE_MAX_PAGES) :
    execute_insert row { pager := pg, root_page_num := r } =
      if BTree.leaf_node_num_cells node ≥ BTree.LEAF_NODE_MAX_CELLS then
        some (ExecuteResult.EXECUTE_TABLE_FULL, { pager := pg, root_page_num := r })
      else
        some (ExecuteResult.EXECUTE_SUCCESS,
          { pager := pg.store r
              (BTree.leaf_insert_page node (BTree.leaf_node_num_cells node) row.id row),
            root_page_num := r }) := by
  unfold execute_insert
  simp only [BTree.get_page_resident pg r node hres hr]
  by_cases hn : BTree.leaf_node_num_cells node ≥ BTree.LEAF_NODE_MAX_CELLS
  · rw [if_pos hn, if_pos hn]
  · rw [if_neg hn, if_neg hn]
    unfold table_end
    simp only [BTree.get_page_resident pg r node hres hr]
    rw [single_leaf_node_insert_resident pg r _ row.id node row true hres hr (by omega)]

/-- The rows and keys of the leaf after an append at the end. -/
theorem single_leaf_insert_page_append (node : BTree.Page) (row : BTree.Row)
    (hn : BTree.leaf_node_num_cells node < 13) (hr : row.valid) :
    BTree.leaf_keys (BTree.leaf_insert_page node (BTree.leaf_node_num_cells node) row.id row)
      = BTree.leaf_keys node ++ [row.id] ∧
    BTree.leaf_rows (BTree.leaf_insert_page node (BTree.leaf_node_num_cells node) row.id row)
      = BTree.leaf_rows node ++ [row] := by
  obtain ⟨h1, h2⟩ := BTree.leaf_insert_page_lists node (BTree.leaf_node_num_cells node) row
    hn (le_refl _) hr
  have l1 : (BTree.leaf_keys node).length = BTree.leaf_node_num_cells node := by
    simp [BTree.leaf_keys]
  have l2 := BTree.leaf_rows_length node
  rw [h1, h2]
  constructor
  · rw [List.take_of_length_le (by omega), List.drop_of_length_le (by omega)]
  · rw [List.take_of_length_le (by omega), List.drop_of_length_le (by omega)]

theorem single_insert_all_spec (r : Nat) (hr : r ≤ BTree.TABLE_MAX_PAGES) :
    ∀ (rows stored : List BTree.Row) (pg : BTree.Pager) (node : BTree.Page),
    (∀ x ∈ rows, x.valid) → pg.pages r = some node → BTree.leaf_rows node = stored →
    stored.length ≤ 13 →
    ∃ pg1 node1,
      insert_all rows { pager := pg, root_page_num := r }
        = some ((List.range rows.length).map
            (fun i => if stored.length + i < 13 then ExecuteResult.EXECUTE_SUCCESS
              else ExecuteResult.EXECUTE_TABLE_FULL),
          { pager := pg1, root_page_num := r }) ∧
      pg1.pages r = some node1 ∧
      BTree.leaf_rows node1 = stored ++ rows.take (13 - stored.length) := by
  intro rows
  induction rows with
  | nil =>
    intro stored pg node _ hres hrows _
    exact ⟨pg, node, rfl, hres, by simp [hrows]⟩
  | cons row rows ih =>
    intro stored pg node hvalid hres hrows hle
    have hrv : row.valid := hvalid row (List.mem_cons_self _ _)
    have hvalid1 : ∀ x ∈ rows, x.valid := fun x h => hvalid x (List.mem_cons_of_mem _ h)
    have hlen : BTree.leaf_node_num_cells node = stored.length := by
      rw [← BTree.leaf_rows_length, hrows]
    have hstep := single_execute_insert_resident pg r node row hres hr
    rw [BTree.LEAF_NODE_MAX_CELLS_eq, hlen] at hstep
    by_cases hfull : stored.length < 13
    · rw [if_neg (by omega)] at hstep
      obtain ⟨a1, a2⟩ := single_leaf_insert_page_append node row (by omega) hrv
      obtain ⟨pg1, node1, i1, i2, i3⟩ := ih (stored ++ [row]) _ _ hvalid1
        (BTree.Pager.store_pages_same pg r _) (by rw [hlen, hrows] at a2; exact a2)
        (by simp; omega)
      refine ⟨pg1, node1, ?_, i2, ?_⟩
      · unfold insert_all
        simp only [hstep, i1, List.length_cons, List.range_succ_eq_map, List.map_cons,
          List.map_map, Nat.add_zero, if_pos hfull]
        congr 3
        apply List.map_congr_left
        intro i _
        simp only [Function.comp, List.length_append, List.length_singleton]
        have e3 : stored.length + 1 + i = stored.length + (i + 1) := by omega
        rw [e3]
      · rw [i3]
        have e : 13 - stored.length = (13 - (stored ++ [row]).length) + 1 := by
          simp; omega
        rw [e, List.take_succ_cons]
        simp
    · rw [if_pos (by omega)] at hstep
      obtain ⟨pg1, node1, i1, i2, i3⟩ := ih stored pg node hvalid1 hres hrows hle
      refine ⟨pg1, node1, ?_, i2, ?_⟩
      · unfold insert_all
        simp only [hstep, i1, List.length_cons, List.range_succ_eq_map, List.map_cons,
          List.map_map, Nat.add_zero, if_neg hfull]
        congr 3
        apply List.map_congr_left
        intro i _
        simp only [Function.comp]
        rw [if_neg (by omega), if_neg (by omega)]
      · rw [i3]
        have e : 13 - stored.length = 0 := by omega
        rw [e, List.take_zero, List.take_zero]

theorem single_db_open_empty (heap : Nat → BTree.Page) :
    ∃ pg node, db_open [] heap = some { pager := pg, root_page_num := 0 } ∧
      pg.pages 0 = some node ∧ BTree.leaf_node_num_cells node = 0 := by
  have hopen : BTree.pager_open [] heap = some (BTree.Pager.mk [] 0 0 (fun _ => none) heap) :=
    rfl
  obtain ⟨P, page, hget, hP0, _, _⟩ := BTree.get_page_alloc
    (BTree.Pager.mk [] 0 0 (fun _ => none) heap) 0 (by decide) rfl (le_refl _)
  refine ⟨P.store 0 (initialize_leaf_node page), _, ?_, BTree.Pager.store_pages_same _ _ _, ?_⟩
  · unfold db_open
    simp only [hopen, if_true, hget]
    rw [BTree.Pager.modify_eq P 0 _ page hP0]
  · unfold BTree.leaf_node_num_cells initialize_leaf_node BTree.set_leaf_node_num_cells
    rw [BTree.write_u32_same]
    rfl

/-- A session on a fresh database: the first 13 inserts succeed, the others
report a full table, and `execute_select` emits the rows stored, in the order
of insertion. -/
theorem single_run_session_spec (heap : Nat → BTree.Page) (rows : List BTree.Row)
    (hvalid : ∀ x ∈ rows, x.valid) :
    run_session heap rows
      = some ((List.range rows.length).map
          (fun i => if i < 13 then ExecuteResult.EXECUTE_SUCCESS
            else ExecuteResult.EXECUTE_TABLE_FULL),
        rows.take 13) := by
  obtain ⟨pg, node, hopen, hres, hnum⟩ := single_db_open_empty heap
  have hnil : BTree.leaf_rows node = [] := by
    apply List.eq_nil_of_length_eq_zero
    rw [BTree.leaf_rows_length, hnum]
  obtain ⟨pg1, node1, i1, i2, i3⟩ := single_insert_all_spec 0 (by decide) rows [] pg node
    hvalid hres hnil (by simp)
  simp only [List.length_nil, Nat.zero_add, Nat.sub_zero, List.nil_append] at i1 i3
  have hn1 : BTree.leaf_node_num_cells node1 ≤ 13 := by
    rw [← BTree.leaf_rows_length, i3, List.length_take]
    omega
  unfold run_session
  simp only [hopen, i1, BTree.execute_select_resident pg1 0 node1 i2 (by decide) hn1, i3]


/-! ## The claim on the single-leaf snapshot -/

/-- C33: in the single-leaf snapshot, on a table whose root page is read as
`node`, `execute_insert` returns `EXECUTE_TABLE_FULL` exactly when the root
leaf holds `LEAF_NODE_MAX_CELLS`, 13, cells or more, which for a leaf within
its capacity is to hold 13 cells, and then the table is left as it is: the pager is the one after the access to the root, the table
itself when the root was resident.  With fewer cells it returns
`EXECUTE_SUCCESS` and the root becomes a page `node1` with one cell more,
whose cell at the old cell count has the key `row.id` and the row as value,
and whose earlier cells have the bytes, and so the keys, they had: the row
and its key are appended to the rows and keys of the leaf, whether or not the
key was stored before.  A session on a fresh database stores its first 13 rows,
reports a full table on the others, and `execute_select` emits the stored rows
in the order of insertion. -/
theorem single_leaf_execute_insert_appends (t : BTree.Table) (pg : BTree.Pager)
    (node : BTree.Page) (row : BTree.Row) (hr : row.valid)
    (hroot : BTree.get_page t.pager t.root_page_num = some (pg, node))
    (heap : Nat → BTree.Page) (rows : List BTree.Row) (hrows : ∀ x ∈ rows, x.valid) :
    ((∃ t1, execute_insert row t = some (ExecuteResult.EXECUTE_TABLE_FULL, t1))
      ↔ BTree.leaf_node_num_cells node ≥ BTree.LEAF_NODE_MAX_CELLS) ∧
    BTree.LEAF_NODE_MAX_CELLS = 13 ∧
    (BTree.leaf_node_num_cells node ≤ BTree.LEAF_NODE_MAX_CELLS →
      ((∃ t1, execute_insert row t = some (ExecuteResult.EXECUTE_TABLE_FULL, t1))
        ↔ BTree.leaf_node_num_cells node = BTree.LEAF_NODE_MAX_CELLS)) ∧
    (BTree.leaf_node_num_cells node ≥ BTree.LEAF_NODE_MAX_CELLS →
      execute_insert row t
        = some (ExecuteResult.EXECUTE_TABLE_FULL, { t with pager := pg }) ∧
      (t.pager.pages t.root_page_num ≠ none →
        execute_insert row t = some (ExecuteResult.EXECUTE_TABLE_FULL, t))) ∧
    (BTree.leaf_node_num_cells node < BTree.LEAF_NODE_MAX_CELLS →
      ∃ node1,
        execute_insert row t = some (ExecuteResult.EXECUTE_SUCCESS,
          { pager := pg.store t.root_page_num node1, root_page_num := t.root_page_num }) ∧
        BTree.leaf_node_num_cells node1 = BTree.leaf_node_num_cells node + 1 ∧
        BTree.leaf_node_key node1 (BTree.leaf_node_num_cells node) = row.id ∧
        BTree.deserialize_row node1 (BTree.leaf_node_value (BTree.leaf_node_num_cells node))
          = row ∧
        (∀ i, i < BTree.leaf_node_num_cells node → ∀ k, k < BTree.LEAF_NODE_CELL_SIZE →
          node1 (BTree.leaf_node_cell i + k) = node (BTree.leaf_node_cell i + k)) ∧
        (∀ i, i < BTree.leaf_node_num_cells node →
          BTree.leaf_node_key node1 i = BTree.leaf_node_key node i) ∧
        BTree.leaf_keys node1 = BTree.leaf_keys node ++ [row.id] ∧
        BTree.leaf_rows node1 = BTree.leaf_rows node ++ [row]) ∧
    run_session heap rows
      = some ((List.range rows.length).map
          (fun i => if i < BTree.LEAF_NODE_MAX_CELLS then ExecuteResult.EXECUTE_SUCCESS
            else ExecuteResult.EXECUTE_TABLE_FULL),
        rows.take BTree.LEAF_NODE_MAX_CELLS) := by
  obtain ⟨hr100, hres, _, _, _, _, hsame⟩ := BTree.get_page_spec _ _ _ _ hroot
  have hstep := single_execute_insert_resident pg t.root_page_num node row hres hr100
  rw [← single_execute_insert_of_root t pg node row hroot] at hstep
  have hiff : (∃ t1, execute_insert row t = some (ExecuteResult.EXECUTE_TABLE_FULL, t1))
      ↔ BTree.leaf_node_num_cells node ≥ BTree.LEAF_NODE_MAX_CELLS := by
    constructor
    · rintro ⟨t1, h1⟩
      by_contra hlt
      rw [hstep, if_neg hlt] at h1
      cases h1
    · intro hge
      rw [hstep, if_pos hge]
      exact ⟨_, rfl⟩
  refine ⟨hiff, rfl, ?_, ?_, ?_, single_run_session_spec heap rows hrows⟩
  · intro hle
    rw [hiff]
    constructor
    · intro hge
      exact le_antisymm hle hge
    · intro heq
      exact le_of_eq heq.symm
  · intro hge
    rw [hstep, if_pos hge]
    refine ⟨rfl, ?_⟩
    intro hne
    obtain ⟨page, hp⟩ := Option.ne_none_iff_exists'.mp hne
    rw [(hsame page hp).1]
  · intro hlt
    rw [hstep, if_neg (by omega)]
    rw [BTree.LEAF_NODE_MAX_CELLS_eq] at hlt
    obtain ⟨_, s2, s3, s4, s5, _⟩ := BTree.leaf_insert_page_spec node
      (BTree.leaf_node_num_cells node) row hlt (le_refl _) hr
    obtain ⟨a1, a2⟩ := single_leaf_insert_page_append node row hlt hr
    refine ⟨_, rfl, s2, s3, s4, ?_, ?_, a1, a2⟩
    · intro i hi k hk
      exact s5 i hi k hk
    · intro i hi
      unfold BTree.leaf_node_key
      apply BTree.read_u32_congr
      intro k hk
      exact s5 i hi k (by omega)

theorem single_leaf_execute_insert_appends_witness :
    (BTree.sample_row 7).valid ∧
    BTree.get_page (BTree.table_of_root BTree.empty_leaf 1).pager
        (BTree.table_of_root BTree.empty_leaf 1).root_page_num
      = some ((BTree.table_of_root BTree.empty_leaf 1).pager, BTree.empty_leaf) ∧
    (∀ x ∈ [BTree.sample_row 3, BTree.sample_row 1, BTree.sample_row 3], x.valid) ∧
    run_session BTree.zero_heap [BTree.sample_row 3, BTree.sample_row 1, BTree.sample_row 3]
      = some ((List.range 3).map
          (fun i => if i < BTree.LEAF_NODE_MAX_CELLS then ExecuteResult.EXECUTE_SUCCESS
            else ExecuteResult.EXECUTE_TABLE_FULL),
        [BTree.sample_row 3, BTree.sample_row 1, BTree.sample_row 3].take
          BTree.LEAF_NODE_MAX_CELLS) :=
  ⟨by decide, rfl, by decide,
    (single_leaf_execute_insert_appends (BTree.table_of_root BTree.empty_leaf 1)
      (BTree.table_of_root BTree.empty_leaf 1).pager BTree.empty_leaf (BTree.sample_row 7)
      (by decide) rfl BTree.zero_heap
      [BTree.sample_row 3, BTree.sample_row 1, BTree.sample_row 3] (by decide)).2.2.2.2.2⟩

end SingleLeaf
